import Mathlib

/-!
# TTM base- and reference-object registry (`sys/dev/drm/ttm/ttm_object.c`)

A shallow embedding of the object registry: the device-wide object directory,
the per-session reference tables and lists, and the operations on them.

Memory is modelled explicitly.  Structures live at addresses (`Nat`); a hash
table is a finite map from keys to the address of the structure that embeds
the hash item, a list is the sequence of addresses of the structures that
embed the list head.  Reference counts (`struct kref`) and the accounting
ledger are unbounded integers.  Execution is sequential: one thread runs one
operation to completion.  The two hooks of a base object are external code;
an invocation is recorded, together with the memory it was invoked on, and
does not itself change the registry's memory.
-/

namespace TTM

/-! ## Data model -/

/-- Reference types, `enum ttm_ref_type` of `ttm_object.h`; the enumerators index
`ttm_object_file.ref_hash[TTM_REF_NUM]`. -/
inductive ttm_ref_type where
  | TTM_REF_USAGE
  | TTM_REF_SYNCCPU_READ
  | TTM_REF_SYNCCPU_WRITE
  deriving DecidableEq, Repr

open ttm_ref_type

/-- A `struct drm_open_hash`: key to address of the item's owner. -/
abbrev drm_open_hash := Nat → Option Nat

/-- The fields of `struct ttm_base_object` the registry reads or writes.  The two
hooks are function pointers; the model keeps whether each is non-NULL. -/
structure ttm_base_object where
  hash_key : Nat
  refcount : Int
  shareable : Bool
  tfile : Option Nat
  object_type : Nat
  refcount_release : Bool
  ref_obj_release : Bool
  deriving DecidableEq, Repr

/-- A `struct ttm_ref_object`. -/
structure ttm_ref_object where
  hash_key : Nat
  kref : Int
  ref_type : ttm_ref_type
  obj : Option Nat
  tfile : Nat
  deriving DecidableEq, Repr

/-- A `struct ttm_object_file`; `lock` is the hold count of the recursive lock. -/
structure ttm_object_file where
  lock : Nat
  ref_list : List Nat
  ref_hash : ttm_ref_type → drm_open_hash
  refcount : Int

/-- A `struct ttm_object_device`; `mem_glob` is kept in `Mem`. -/
structure ttm_object_device where
  object_lock : Nat
  object_hash : drm_open_hash
  object_count : Int

/-- The registry's memory: the device, the sessions, the base objects and the
reference records by address, and the net amount charged to the memory
accounting service (`tdev->mem_glob`). -/
structure Mem where
  tdev : ttm_object_device
  files : Nat → ttm_object_file
  bases : Nat → ttm_base_object
  refs : Nat → Option ttm_ref_object
  mem_glob : Int

/-- An invocation of one of a base object's hooks. -/
inductive Callback where
  | refcount_release (base : Nat)
  | ref_obj_release (base : Nat) (ref_type : ttm_ref_type)
  deriving DecidableEq, Repr

/-- Memory plus the hook invocations made so far, oldest first, each with the
memory at the moment of the call. -/
structure State extends Mem where
  calls : List (Callback × Mem)

def EINVAL : Int := 22
def ENOMEM : Int := 12

/-! ## Primitives used by the registry -/

/-- `kref_init`. -/
def kref_init : Int := 1

/-- `kref_get`. -/
def kref_get (c : Int) : Int := c + 1

/-- `kref_put`: the decremented count, and whether it reached zero (the release
function is then called and 1 is returned). -/
def kref_put (c : Int) : Int × Bool := (c - 1, decide (c - 1 = 0))

/-- `kref_get_unless_zero`. -/
def kref_get_unless_zero (c : Int) : Int × Bool :=
  if c = 0 then (c, false) else (c + 1, true)

/-- `drm_ht_find_item`: `none` stands for `-EINVAL`. -/
def drm_ht_find_item (ht : drm_open_hash) (key : Nat) : Option Nat := ht key

/-- `drm_ht_insert_item`: `none` stands for `-EINVAL`, returned when the key is
already present. -/
def drm_ht_insert_item (ht : drm_open_hash) (key item : Nat) : Option drm_open_hash :=
  match ht key with
  | some _ => none
  | none => some (fun k => if k = key then some item else ht k)

/-- `drm_ht_remove_item`: unlinks the item. -/
def drm_ht_remove_item (ht : drm_open_hash) (item : Nat) : drm_open_hash :=
  fun k => if ht k = some item then none else ht k

/-- `drm_ht_remove`: an emptied table. -/
def drm_ht_remove : drm_open_hash := fun _ => none

/-- Modelled from the spec: `drm_ht_just_insert_please` of `drm_hashtab.c`. It inserts
the item "under a freshly assigned, directory-unique key (probing against existing
keys until a free slot is found; assignment is not required to be sequential or
predictable)".  The probed key is an input: `none` when the key space is exhausted.
The result is the assigned key and the new table, `none` standing for the error. -/
def drm_ht_just_insert_please (ht : drm_open_hash) (item : Nat) (probe : Option Nat) :
    Option (Nat × drm_open_hash) :=
  match probe with
  | none => none
  | some key =>
    match drm_ht_insert_item ht key item with
    | none => none
    | some ht' => some (key, ht')

/-- `lockmgr(&tdev->object_lock, LK_EXCLUSIVE)`. -/
def lock_object (s : State) : State :=
  { s with tdev := { s.tdev with object_lock := s.tdev.object_lock + 1 } }

/-- `lockmgr(&tdev->object_lock, LK_RELEASE)`. -/
def unlock_object (s : State) : State :=
  { s with tdev := { s.tdev with object_lock := s.tdev.object_lock - 1 } }

/-- `lockinit(&tdev->object_lock, ...)`. -/
def lockinit_object (s : State) : State :=
  { s with tdev := { s.tdev with object_lock := 0 } }

/-- Replace the device's object directory. -/
def set_object_hash (s : State) (ht : drm_open_hash) : State :=
  { s with tdev := { s.tdev with object_hash := ht } }

/-- Replace the session structure at `tfile`. -/
def set_file (s : State) (tfile : Nat) (f : ttm_object_file) : State :=
  { s with files := fun p => if p = tfile then f else s.files p }

/-- Replace the base object at `base`. -/
def set_base (s : State) (base : Nat) (b : ttm_base_object) : State :=
  { s with bases := fun p => if p = base then b else s.bases p }

/-- Replace (or free, with `none`) the reference record at `ref`. -/
def set_ref (s : State) (ref : Nat) (r : Option ttm_ref_object) : State :=
  { s with refs := fun p => if p = ref then r else s.refs p }

/-- `lockmgr(&tfile->lock, LK_EXCLUSIVE)`. -/
def lock_file (s : State) (tfile : Nat) : State :=
  set_file s tfile { s.files tfile with lock := (s.files tfile).lock + 1 }

/-- `lockmgr(&tfile->lock, LK_RELEASE)`. -/
def unlock_file (s : State) (tfile : Nat) : State :=
  set_file s tfile { s.files tfile with lock := (s.files tfile).lock - 1 }

/-- Record a hook invocation on the current memory. -/
def call_hook (s : State) (c : Callback) : State :=
  { s with calls := s.calls ++ [(c, s.toMem)] }

/-- `ttm_mem_global_free(mem_glob, size)`. -/
def ttm_mem_global_free (s : State) (size : Nat) : State :=
  { s with mem_glob := s.mem_glob - size }

/-- `ttm_mem_global_alloc(mem_glob, size, false, false)`: the accounting service's
answer `ret` is an input; the charge is made when it is 0. -/
def ttm_mem_global_alloc (s : State) (size : Nat) (ret : Int) : State :=
  if ret = 0 then { s with mem_glob := s.mem_glob + size } else s

/-! ## Sessions' own reference count -/

/-- `ttm_object_file_ref`. -/
def ttm_object_file_ref (s : State) (tfile : Nat) : State :=
  set_file s tfile { s.files tfile with refcount := kref_get (s.files tfile).refcount }

/-- `ttm_object_file_unref` on an lvalue holding `tfile`: `kref_put` of the session's
count (`ttm_object_file_destroy` only frees the structure). The caller clears the
lvalue. -/
def ttm_object_file_unref (s : State) (tfile : Nat) : State :=
  set_file s tfile { s.files tfile with refcount := (kref_put (s.files tfile).refcount).1 }

/-! ## Base objects -/

/-- `ttm_release_base`, called by `kref_put` with `object_lock` held. -/
def ttm_release_base (s : State) (base : Nat) : State :=
  if (s.bases base).refcount ≠ 0 then
    unlock_object s
  else
    let s := set_object_hash s (drm_ht_remove_item s.tdev.object_hash base)
    let s := unlock_object s
    if (s.bases base).refcount_release = true then
      let s := match (s.bases base).tfile with
        | some tf => set_base (ttm_object_file_unref s tf) base
            { s.bases base with tfile := none }
        | none => s
      call_hook s (Callback.refcount_release base)
    else s

/-- `ttm_base_object_unref` on an lvalue holding `base`. -/
def ttm_base_object_unref (s : State) (base : Nat) : State :=
  let s := lock_object s
  let r := kref_put (s.bases base).refcount
  let s := set_base s base { s.bases base with refcount := r.1 }
  if r.2 = true then ttm_release_base s base
  else unlock_object s

/-- `ttm_base_object_lookup`: the returned pointer (`none` is NULL) and the state. -/
def ttm_base_object_lookup (s : State) (tfile : Nat) (key : Nat) : Option Nat × State :=
  let s := lock_object s
  match drm_ht_find_item s.tdev.object_hash key with
  | none => (none, unlock_object s)
  | some base =>
    let r := kref_get_unless_zero (s.bases base).refcount
    let s := set_base s base { s.bases base with refcount := r.1 }
    let s := unlock_object s
    if r.2 = false then (none, s)
    else if some tfile ≠ (s.bases base).tfile ∧ (s.bases base).shareable = false then
      (none, ttm_base_object_unref s base)
    else (some base, s)

/-! ## Reference records -/

/-- `ttm_ref_object_release`, called with `ref->tfile->lock` held, either by
`kref_put` or by the drain loop of `ttm_object_file_release`.  `size` is
`sizeof(struct ttm_ref_object)`. -/
def ttm_ref_object_release (size : Nat) (s : State) (ref : Nat) : State :=
  match s.refs ref with
  | none => s
  | some r =>
    let tfile := r.tfile
    let f := s.files tfile
    let s := set_file s tfile { f with
      ref_hash := fun t =>
        if t = r.ref_type then drm_ht_remove_item (f.ref_hash t) ref else f.ref_hash t
      ref_list := f.ref_list.erase ref }
    let s := unlock_file s tfile
    let s := match r.obj with
      | none => s
      | some base =>
        let s := if r.ref_type ≠ TTM_REF_USAGE ∧ (s.bases base).ref_obj_release = true then
            call_hook s (Callback.ref_obj_release base r.ref_type)
          else s
        let s := set_ref s ref (some { r with obj := none })
        ttm_base_object_unref s base
    let s := ttm_mem_global_free s size
    let s := set_ref s ref none
    lock_file s tfile

/-- `ttm_ref_object_add`.  `existed` is the cell behind the pointer (`none` for a NULL
pointer); `alloc_ret` is the answer of `ttm_mem_global_alloc` and `kmalloc_ret` the
address returned by `kmalloc` (`none` for NULL).  `fuel` bounds the iterations of the
`while (ret == -EINVAL)` loop; `none` is returned when it runs out.  The result is the
return value, the cell and the state. -/
def ttm_ref_object_add (size : Nat) (fuel : Nat) (s : State) (tfile base : Nat)
    (ref_type : ttm_ref_type) (existed : Option Bool) (alloc_ret : Int)
    (kmalloc_ret : Option Nat) : Option (Int × Option Bool × State) :=
  match fuel with
  | 0 => none
  | fuel + 1 =>
    let existed := existed.map fun _ => true
    let s := lock_file s tfile
    match drm_ht_find_item ((s.files tfile).ref_hash ref_type) (s.bases base).hash_key with
    | some ref =>
      let s := match s.refs ref with
        | some r => set_ref s ref (some { r with kref := kref_get r.kref })
        | none => s
      some (0, existed, unlock_file s tfile)
    | none =>
      let s := unlock_file s tfile
      let s := ttm_mem_global_alloc s size alloc_ret
      if alloc_ret ≠ 0 then some (alloc_ret, existed, s)
      else
        match kmalloc_ret with
        | none => some (-ENOMEM, existed, ttm_mem_global_free s size)
        | some ref =>
          let s := set_ref s ref (some
            { hash_key := (s.bases base).hash_key, obj := some base, tfile := tfile,
              ref_type := ref_type, kref := kref_init })
          let s := lock_file s tfile
          let f := s.files tfile
          match drm_ht_insert_item (f.ref_hash ref_type) (s.bases base).hash_key ref with
          | some ht =>
            let s := set_file s tfile { f with
              ref_hash := fun t => if t = ref_type then ht else f.ref_hash t
              ref_list := f.ref_list ++ [ref] }
            let s := set_base s base
              { s.bases base with refcount := kref_get (s.bases base).refcount }
            some (0, existed.map fun _ => false, unlock_file s tfile)
          | none =>
            let s := unlock_file s tfile
            let s := ttm_mem_global_free s size
            let s := set_ref s ref none
            ttm_ref_object_add size fuel s tfile base ref_type existed alloc_ret kmalloc_ret

/-- `ttm_ref_object_base_unref`: the return value and the state. -/
def ttm_ref_object_base_unref (size : Nat) (s : State) (tfile key : Nat)
    (ref_type : ttm_ref_type) : Int × State :=
  let s := lock_file s tfile
  match drm_ht_find_item ((s.files tfile).ref_hash ref_type) key with
  | none => (-EINVAL, unlock_file s tfile)
  | some ref =>
    match s.refs ref with
    | none => (0, unlock_file s tfile)
    | some r =>
      let p := kref_put r.kref
      let s := set_ref s ref (some { r with kref := p.1 })
      let s := if p.2 = true then ttm_ref_object_release size s ref else s
      (0, unlock_file s tfile)

/-! ## Registration -/

/-- `ttm_base_object_init`.  `probe`, `alloc_ret` and `kmalloc_ret` are the answers of
`drm_ht_just_insert_please`, `ttm_mem_global_alloc` and `kmalloc`; `fuel` is handed
to `ttm_ref_object_add`.  The result is the return value and the state. -/
def ttm_base_object_init (size : Nat) (fuel : Nat) (s : State) (tfile base : Nat)
    (shareable : Bool) (object_type : Nat) (refcount_release ref_obj_release : Bool)
    (probe : Option Nat) (alloc_ret : Int) (kmalloc_ret : Option Nat) :
    Option (Int × State) :=
  let s := set_base s base { s.bases base with shareable := shareable }
  let s := ttm_object_file_ref s tfile
  let s := set_base s base { s.bases base with
    tfile := some tfile
    refcount_release := refcount_release
    ref_obj_release := ref_obj_release
    object_type := object_type
    refcount := kref_init }
  let s := lockinit_object s
  let s := lock_object s
  match drm_ht_just_insert_please s.tdev.object_hash base probe with
  | none => some (-EINVAL, unlock_object s)
  | some (key, ht) =>
    let s := set_base s base { s.bases base with hash_key := key }
    let s := set_object_hash s ht
    let s := unlock_object s
    match ttm_ref_object_add size fuel s tfile base TTM_REF_USAGE none alloc_ret
        kmalloc_ret with
    | none => none
    | some (ret, _, s) =>
      if ret ≠ 0 then
        let s := lock_object s
        let s := set_object_hash s (drm_ht_remove_item s.tdev.object_hash base)
        some (ret, unlock_object s)
      else
        some (0, ttm_base_object_unref s base)

/-! ## Sessions -/

/-- The `while (!list_empty(&tfile->ref_list))` loop of `ttm_object_file_release`;
`none` when `fuel` iterations did not empty the list. -/
def ttm_object_file_release_loop (size : Nat) (fuel : Nat) (s : State) (tfile : Nat) :
    Option State :=
  match fuel with
  | 0 => none
  | fuel + 1 =>
    match (s.files tfile).ref_list with
    | [] => some s
    | ref :: _ =>
      ttm_object_file_release_loop size fuel (ttm_ref_object_release size s ref) tfile

/-- `ttm_object_file_release` on an lvalue holding `tfile`. -/
def ttm_object_file_release (size : Nat) (fuel : Nat) (s : State) (tfile : Nat) :
    Option State :=
  let s := lock_file s tfile
  match ttm_object_file_release_loop size fuel s tfile with
  | none => none
  | some s =>
    let s := set_file s tfile { s.files tfile with ref_hash := fun _ => drm_ht_remove }
    let s := unlock_file s tfile
    some (ttm_object_file_unref s tfile)

/-- `ttm_object_file_init`: `kmalloc_ret` is the address returned by `kmalloc` and
`ht_create_ret t` the answer of `drm_ht_create` for table `t`.  The result is the
returned pointer and the state. -/
def ttm_object_file_init (s : State) (kmalloc_ret : Option Nat)
    (ht_create_ret : ttm_ref_type → Int) : Option Nat × State :=
  match kmalloc_ret with
  | none => (none, s)
  | some tfile =>
    let f : ttm_object_file :=
      { lock := 0, refcount := kref_init, ref_list := [],
        ref_hash := (s.files tfile).ref_hash }
    if ht_create_ret TTM_REF_USAGE ≠ 0 then (none, set_file s tfile f)
    else
      let f := { f with ref_hash := fun t =>
        if t = TTM_REF_USAGE then drm_ht_remove else f.ref_hash t }
      if ht_create_ret TTM_REF_SYNCCPU_READ ≠ 0 then (none, set_file s tfile f)
      else
        let f := { f with ref_hash := fun t =>
          if t = TTM_REF_SYNCCPU_READ then drm_ht_remove else f.ref_hash t }
        if ht_create_ret TTM_REF_SYNCCPU_WRITE ≠ 0 then (none, set_file s tfile f)
        else
          let f := { f with ref_hash := fun t =>
            if t = TTM_REF_SYNCCPU_WRITE then drm_ht_remove else f.ref_hash t }
          (some tfile, set_file s tfile f)

/-- `ttm_object_device_init` after a successful `kmalloc` and `drm_ht_create`. -/
def ttm_object_device_init (s : State) : State :=
  { s with tdev := { object_lock := 0, object_hash := drm_ht_remove, object_count := 0 } }

/-! ## Concrete states used to exercise the operations -/

/-- A freshly initialised device: empty directory, no session, no record, nothing
charged, no hook invoked. -/
def boot : State :=
  ttm_object_device_init
    { tdev := { object_lock := 0, object_hash := drm_ht_remove, object_count := 0 }
      files := fun _ => { lock := 0, ref_list := [], ref_hash := fun _ => drm_ht_remove,
                          refcount := 0 }
      bases := fun _ => { hash_key := 0, refcount := 0, shareable := false, tfile := none,
                          object_type := 0, refcount_release := false,
                          ref_obj_release := false }
      refs := fun _ => none
      mem_glob := 0
      calls := [] }

/-- The state of an optional result, or `boot` when there is none. -/
def state_of (r : Option (Int × State)) : State :=
  match r with
  | some (_, s) => s
  | none => boot

/-- Sessions at addresses 10, 11 and 12 opened on `boot`. -/
def three_sessions : State :=
  let s := (ttm_object_file_init boot (some 10) (fun _ => 0)).2
  let s := (ttm_object_file_init s (some 11) (fun _ => 0)).2
  (ttm_object_file_init s (some 12) (fun _ => 0)).2

/-- Session 10 registers the shareable object at address 100 under key 5, with no
`refcount_release` hook; the usage record is allocated at address 200. -/
def registered_no_hook : State :=
  state_of (ttm_base_object_init 64 1 three_sessions 10 100 true 0 false false (some 5) 0
    (some 200))

/-- After `registered_no_hook`: session 10 looks the object up (and holds the returned
pointer), then releases its usage record.  The returned pointer is the only reference
left. -/
def last_handle_no_hook : State :=
  let s := (ttm_base_object_lookup registered_no_hook 10 5).2
  (ttm_ref_object_base_unref 64 s 10 5 TTM_REF_USAGE).2

/-! ## Observations used to state the claims -/

/-- Whether the reference record at address `p` is live and is a record for
`(key, ref_type)`. -/
def is_record (s : State) (key : Nat) (ref_type : ttm_ref_type) (p : Nat) : Bool :=
  match s.refs p with
  | some r => decide (r.hash_key = key ∧ r.ref_type = ref_type)
  | none => false

/-- The number of records for `(key, ref_type)` on the record list of session `tfile`. -/
def record_count (s : State) (tfile key : Nat) (ref_type : ttm_ref_type) : Nat :=
  ((s.files tfile).ref_list.filter (is_record s key ref_type)).length

/-- Whether the reference record at address `p` is live and targets the base object at
address `base`. -/
def targets (s : State) (base : Nat) (p : Nat) : Bool :=
  match s.refs p with
  | some r => decide (r.obj = some base)
  | none => false

/-- The number of records on the record list of session `tfile` that target `base`. -/
def records_targeting (s : State) (tfile base : Nat) : Nat :=
  ((s.files tfile).ref_list.filter (targets s base)).length

/-- Calls of `ttm_ref_object_add` by one session for the same base object and reference
type, one per element of the list (the cell behind `existed`, the answer of the
accounting service and the answer of `kmalloc` for that call), with nothing in
between; `none` as soon as a call does not return 0. -/
def ttm_ref_object_add_seq (size fuel : Nat) (s : State) (tfile base : Nat)
    (ref_type : ttm_ref_type) : List (Option Bool × Int × Option Nat) → Option State
  | [] => some s
  | e :: es =>
    match ttm_ref_object_add size fuel s tfile base ref_type e.1 e.2.1 e.2.2 with
    | some (ret, _, s') =>
      if ret = 0 then ttm_ref_object_add_seq size fuel s' tfile base ref_type es else none
    | none => none

/-- The record `ttm_ref_object_add` builds for `base` before linking it. -/
def new_record (s : State) (tfile base : Nat) (ref_type : ttm_ref_type) : ttm_ref_object :=
  { hash_key := (s.bases base).hash_key, obj := some base, tfile := tfile,
    ref_type := ref_type, kref := 1 }

/-- The state in which `ttm_ref_object_add` leaves `s` when it creates a record at
address `ref`: `size` charged, the record linked into the table of its type and at the
tail of the list, the base object's count raised. -/
def link_record (size : Nat) (s : State) (tfile base : Nat) (ref_type : ttm_ref_type)
    (ref : Nat) : State :=
  set_base
    (set_file
      (set_ref (ttm_mem_global_alloc s size 0) ref (some (new_record s tfile base ref_type)))
      tfile { s.files tfile with
        ref_hash := fun t => if t = ref_type then
            (fun k => if k = (s.bases base).hash_key then some ref
              else (s.files tfile).ref_hash ref_type k)
          else (s.files tfile).ref_hash t
        ref_list := (s.files tfile).ref_list ++ [ref] })
    base { s.bases base with refcount := (s.bases base).refcount + 1 }

/-- The state of `ttm_base_object_init` once the object has been filled in and
inserted into the directory under `key`, before the usage record is created. -/
def init_inserted (s : State) (tfile base : Nat) (shareable : Bool) (object_type : Nat)
    (refcount_release ref_obj_release : Bool) (key : Nat) : State :=
  let s := set_base s base { s.bases base with shareable := shareable }
  let s := ttm_object_file_ref s tfile
  let s := set_base s base { s.bases base with
    tfile := some tfile
    refcount_release := refcount_release
    ref_obj_release := ref_obj_release
    object_type := object_type
    refcount := kref_init }
  let s := lockinit_object s
  let s := lock_object s
  let ht : drm_open_hash := fun k => if k = key then some base else s.tdev.object_hash k
  let s := set_base s base { s.bases base with hash_key := key }
  let s := set_object_hash s ht
  unlock_object s

/-- Session 10 registers the shareable object at address 100 under key 5, with both
hooks; the usage record is allocated at address 200. -/
def registered : State :=
  state_of (ttm_base_object_init 64 1 three_sessions 10 100 true 0 true true (some 5) 0
    (some 200))

/-- The state after a call of `ttm_ref_object_add`, or `boot` when there is none. -/
def state_of_add (r : Option (Int × Option Bool × State)) : State :=
  match r with
  | some (_, _, s) => s
  | none => boot

/-- After `registered`: session 11 and then session 12 each acquire a
`TTM_REF_SYNCCPU_READ` reference on the object; the records are allocated at addresses
201 and 202. -/
def shared_by_three : State :=
  let s := state_of_add
    (ttm_ref_object_add 64 1 registered 11 100 TTM_REF_SYNCCPU_READ none 0 (some 201))
  state_of_add (ttm_ref_object_add 64 1 s 12 100 TTM_REF_SYNCCPU_READ none 0 (some 202))

/-- After `shared_by_three`: session 11 is closed. -/
def closed_first : State :=
  (ttm_object_file_release 64 2 shared_by_three 11).getD boot

/-- After `closed_first`: session 12 is closed. -/
def closed_second : State :=
  (ttm_object_file_release 64 2 closed_first 12).getD boot

/-- Session 10 registers the non-shareable object at address 101 under key 6, with both
hooks; the usage record is allocated at address 210. -/
def registered_private : State :=
  state_of (ttm_base_object_init 64 1 three_sessions 10 101 false 0 true true (some 6) 0
    (some 210))

/-- After `registered`: session 10 looks the object up (and holds the returned pointer),
then releases its usage record.  The returned pointer is the only reference left. -/
def last_handle : State :=
  let s := (ttm_base_object_lookup registered 10 5).2
  (ttm_ref_object_base_unref 64 s 10 5 TTM_REF_USAGE).2

/-- The state in which `ttm_ref_object_release` calls `ttm_base_object_unref`: the record
`r` at address `ref` is unlinked from its session's table and list, the session lock is
dropped, the `ref_obj_release` hook has been invoked if there is one to invoke, and
`ref->obj` is cleared. -/
def release_unlinked (s : State) (ref : Nat) (r : ttm_ref_object) (base : Nat) : State :=
  let tfile := r.tfile
  let f := s.files tfile
  let s := set_file s tfile { f with
    ref_hash := fun t =>
      if t = r.ref_type then drm_ht_remove_item (f.ref_hash t) ref else f.ref_hash t
    ref_list := f.ref_list.erase ref }
  let s := unlock_file s tfile
  let s := if r.ref_type ≠ TTM_REF_USAGE ∧ (s.bases base).ref_obj_release = true then
      call_hook s (Callback.ref_obj_release base r.ref_type)
    else s
  set_ref s ref (some { r with obj := none })

/-! ## Sequences of calls -/

/-- A call of one of the registry's entry points, with its arguments and the answers
of the services it consults. -/
inductive Op where
  | file_init (kmalloc_ret : Option Nat) (ht_create_ret : ttm_ref_type → Int)
  | base_init (tfile base : Nat) (shareable : Bool) (object_type : Nat)
      (refcount_release ref_obj_release : Bool) (probe : Option Nat) (alloc_ret : Int)
      (kmalloc_ret : Option Nat)
  | lookup (tfile key : Nat)
  | base_unref (base : Nat)
  | ref_add (tfile base : Nat) (ref_type : ttm_ref_type) (existed : Option Bool)
      (alloc_ret : Int) (kmalloc_ret : Option Nat)
  | ref_base_unref (tfile key : Nat) (ref_type : ttm_ref_type)
  | file_release (tfile : Nat)

/-- The state after a call; `none` when a loop of the call ran out of `fuel`. -/
def exec (size fuel : Nat) (s : State) : Op → Option State
  | Op.file_init kmalloc_ret ht_create_ret =>
    some (ttm_object_file_init s kmalloc_ret ht_create_ret).2
  | Op.base_init tfile base shareable object_type rr ror probe alloc_ret kmalloc_ret =>
    (ttm_base_object_init size fuel s tfile base shareable object_type rr ror probe alloc_ret
      kmalloc_ret).map fun r => r.2
  | Op.lookup tfile key => some (ttm_base_object_lookup s tfile key).2
  | Op.base_unref base => some (ttm_base_object_unref s base)
  | Op.ref_add tfile base ref_type existed alloc_ret kmalloc_ret =>
    (ttm_ref_object_add size fuel s tfile base ref_type existed alloc_ret kmalloc_ret).map
      fun r => r.2.2
  | Op.ref_base_unref tfile key ref_type =>
    some (ttm_ref_object_base_unref size s tfile key ref_type).2
  | Op.file_release tfile => ttm_object_file_release size fuel s tfile

/-- The state after a sequence of calls. -/
def run (size fuel : Nat) (s : State) : List Op → Option State
  | [] => some s
  | op :: ops =>
    match exec size fuel s op with
    | some s' => run size fuel s' ops
    | none => none

/-- Whether a call made in state `s` registers an object under `key`: a
`ttm_base_object_init` that is assigned `key` and returns 0. -/
def registers_under (size fuel key : Nat) (s : State) : Op → Prop
  | Op.base_init tfile base shareable object_type rr ror probe alloc_ret kmalloc_ret =>
    probe = some key ∧
    ∃ s', ttm_base_object_init size fuel s tfile base shareable object_type rr ror probe
      alloc_ret kmalloc_ret = some (0, s')
  | _ => False

/-- No call of the sequence, made from state `s` on, registers an object under `key`. -/
def no_registration_under (size fuel key : Nat) : State → List Op → Prop
  | _, [] => True
  | s, op :: ops =>
    ¬ registers_under size fuel key s op ∧
    ∀ s', exec size fuel s op = some s' → no_registration_under size fuel key s' ops

/-! ## Reachable states -/

/-- What the clients hold and the registry's memory does not show: the sessions that
are open, and for each base object the number of pointers returned by
`ttm_base_object_lookup` and not yet given back with `ttm_base_object_unref`. -/
structure Ghost where
  sessions : List Nat
  handles : Nat → Nat

/-- The number of records, over the record lists of all the given sessions, that target
`base`. -/
def total_records (s : State) (sessions : List Nat) (base : Nat) : Nat :=
  (sessions.map fun tfile => records_targeting s tfile base).sum

/-- The states reachable from a freshly initialised device, with no live record and
nothing charged, by calls of the entry points.  Calls are made on open sessions; `kmalloc` returns memory that holds no live
record (and, for a session, an address that is not an open session); an object that is
registered is not currently in the directory; `ttm_ref_object_add` is called on an
object that is in the directory; `ttm_base_object_unref` gives back a pointer obtained
from `ttm_base_object_lookup`.  Failed calls are included. -/
inductive Reachable (size : Nat) : State → Ghost → Prop where
  | device_init (s0 : State) (h : ∀ p, s0.refs p = none) (h0 : s0.mem_glob = 0) :
      Reachable size (ttm_object_device_init s0) { sessions := [], handles := fun _ => 0 }
  | file_init (s : State) (g : Ghost) (tfile : Nat) (ht_create_ret : ttm_ref_type → Int)
      (s' : State) :
      Reachable size s g → tfile ∉ g.sessions →
      ttm_object_file_init s (some tfile) ht_create_ret = (some tfile, s') →
      Reachable size s' { g with sessions := tfile :: g.sessions }
  | file_init_failed (s : State) (g : Ghost) (tfile : Nat)
      (ht_create_ret : ttm_ref_type → Int) (s' : State) :
      Reachable size s g → tfile ∉ g.sessions →
      ttm_object_file_init s (some tfile) ht_create_ret = (none, s') →
      Reachable size s' g
  | base_init (s : State) (g : Ghost) (fuel tfile base : Nat) (shareable : Bool)
      (object_type : Nat) (refcount_release ref_obj_release : Bool) (probe : Option Nat)
      (alloc_ret : Int) (kmalloc_ret : Option Nat) (ret : Int) (s' : State) :
      Reachable size s g → tfile ∈ g.sessions →
      (∀ k, s.tdev.object_hash k ≠ some base) →
      (∀ ref, kmalloc_ret = some ref → s.refs ref = none) →
      ttm_base_object_init size fuel s tfile base shareable object_type refcount_release
        ref_obj_release probe alloc_ret kmalloc_ret = some (ret, s') →
      Reachable size s' g
  | lookup (s : State) (g : Ghost) (tfile key base : Nat) (s' : State) :
      Reachable size s g → tfile ∈ g.sessions →
      ttm_base_object_lookup s tfile key = (some base, s') →
      Reachable size s'
        { g with handles := fun b => if b = base then g.handles b + 1 else g.handles b }
  | lookup_null (s : State) (g : Ghost) (tfile key : Nat) (s' : State) :
      Reachable size s g → tfile ∈ g.sessions →
      ttm_base_object_lookup s tfile key = (none, s') →
      Reachable size s' g
  | base_unref (s : State) (g : Ghost) (base : Nat) :
      Reachable size s g → 0 < g.handles base →
      Reachable size (ttm_base_object_unref s base)
        { g with handles := fun b => if b = base then g.handles b - 1 else g.handles b }
  | ref_add (s : State) (g : Ghost) (fuel tfile base : Nat) (ref_type : ttm_ref_type)
      (existed : Option Bool) (alloc_ret : Int) (kmalloc_ret : Option Nat) (ret : Int)
      (e : Option Bool) (s' : State) :
      Reachable size s g → tfile ∈ g.sessions →
      s.tdev.object_hash (s.bases base).hash_key = some base →
      (∀ ref, kmalloc_ret = some ref → s.refs ref = none) →
      ttm_ref_object_add size fuel s tfile base ref_type existed alloc_ret kmalloc_ret
        = some (ret, e, s') →
      Reachable size s' g
  | ref_base_unref (s : State) (g : Ghost) (tfile key : Nat) (ref_type : ttm_ref_type) :
      Reachable size s g → tfile ∈ g.sessions →
      Reachable size (ttm_ref_object_base_unref size s tfile key ref_type).2 g
  | file_release (s : State) (g : Ghost) (fuel tfile : Nat) (s' : State) :
      Reachable size s g → tfile ∈ g.sessions →
      ttm_object_file_release size fuel s tfile = some s' →
      Reachable size s' { g with sessions := g.sessions.erase tfile }

/-- The fields of a live record other than its internal count: key, type, target and
owning session. -/
def rec_view (o : Option ttm_ref_object) : Option (Nat × ttm_ref_type × Option Nat × Nat) :=
  o.map fun r => (r.hash_key, r.ref_type, r.obj, r.tfile)

/-- The structural invariant of reachable states. -/
structure Inv (s : State) (g : Ghost) : Prop where
  sessions_nodup : g.sessions.Nodup
  list_nodup : ∀ tf ∈ g.sessions, (s.files tf).ref_list.Nodup
  listed : ∀ tf ∈ g.sessions, ∀ p ∈ (s.files tf).ref_list,
    ∃ key t b, rec_view (s.refs p) = some (key, t, some b, tf) ∧
      s.tdev.object_hash key = some b ∧ (s.files tf).ref_hash t key = some p
  hashed : ∀ tf ∈ g.sessions, ∀ t key p, (s.files tf).ref_hash t key = some p →
    p ∈ (s.files tf).ref_list ∧
    ∃ o tf', rec_view (s.refs p) = some (key, t, o, tf')
  dir_key : ∀ k b, s.tdev.object_hash k = some b → (s.bases b).hash_key = k
  handle_live : ∀ b, 0 < g.handles b → s.tdev.object_hash (s.bases b).hash_key = some b
  counted : ∀ k b, s.tdev.object_hash k = some b →
    (s.bases b).refcount = (total_records s g.sessions b : Int) + (g.handles b : Int)

/-- Two states that differ at most in fields the invariant, for the sessions `l`, does
not read. -/
structure SameView (l : List Nat) (s s' : State) : Prop where
  dir : s'.tdev.object_hash = s.tdev.object_hash
  key : ∀ b, (s'.bases b).hash_key = (s.bases b).hash_key
  cnt : ∀ b, (s'.bases b).refcount = (s.bases b).refcount
  list : ∀ tf ∈ l, (s'.files tf).ref_list = (s.files tf).ref_list
  hash : ∀ tf ∈ l, (s'.files tf).ref_hash = (s.files tf).ref_hash
  recs : ∀ tf ∈ l, ∀ p ∈ (s.files tf).ref_list, rec_view (s'.refs p) = rec_view (s.refs p)

/-- The state in which `ttm_ref_object_release` has unlinked the record `r` at address
`ref` and dropped the session lock: the memory on which the `ref_obj_release` hook runs
when it is invoked. -/
def release_unlocked (s : State) (ref : Nat) (r : ttm_ref_object) : State :=
  let tfile := r.tfile
  let f := s.files tfile
  unlock_file (set_file s tfile { f with
    ref_hash := fun t =>
      if t = r.ref_type then drm_ht_remove_item (f.ref_hash t) ref else f.ref_hash t
    ref_list := f.ref_list.erase ref }) tfile

/-- Whether an entry of the call log is an invocation of `ref_obj_release`. -/
def is_ref_obj_release (e : Callback × Mem) : Bool :=
  match e.1 with
  | Callback.ref_obj_release _ _ => true
  | Callback.refcount_release _ => false

/-- The test `ref->ref_type != TTM_REF_USAGE && base->ref_obj_release` of
`ttm_ref_object_release`, for the record at address `p`. -/
def wants_ref_obj_release (s : State) (p : Nat) : Bool :=
  match s.refs p with
  | none => false
  | some r =>
    match r.obj with
    | none => false
    | some base => decide (r.ref_type ≠ TTM_REF_USAGE) && (s.bases base).ref_obj_release

/-- After `registered`: session 10 acquires `TTM_REF_USAGE` on the object twice. -/
def acquired_twice : State :=
  let s := state_of_add (ttm_ref_object_add 64 1 registered 10 100 TTM_REF_USAGE none 0 none)
  state_of_add (ttm_ref_object_add 64 1 s 10 100 TTM_REF_USAGE none 0 none)

/-- After `acquired_twice`: session 10 releases `TTM_REF_USAGE` on key 5 twice. -/
def released_twice : State :=
  let s := (ttm_ref_object_base_unref 64 acquired_twice 10 5 TTM_REF_USAGE).2
  (ttm_ref_object_base_unref 64 s 10 5 TTM_REF_USAGE).2

/-- Memory `m` has the device's `object_lock` and every session's lock held as many
times as memory `m0` has. -/
def same_locks (m m0 : Mem) : Prop :=
  m.tdev.object_lock = m0.tdev.object_lock ∧
  ∀ tfile, (m.files tfile).lock = (m0.files tfile).lock

/-- Every base object in the device's directory has a reference count of at least 1. -/
def Positive (s : State) : Prop :=
  ∀ key base, s.tdev.object_hash key = some base → 1 ≤ (s.bases base).refcount

/-- The number of records on the record lists of the given sessions. -/
def live_records (s : State) (sessions : List Nat) : Nat :=
  (sessions.map fun tfile => (s.files tfile).ref_list.length).sum

/-- The ledger matches the records: the net amount charged is `size` times the number
of records on the lists of the open sessions, and every live record is on the list of
an open session. -/
structure Charged (size : Nat) (s : State) (g : Ghost) : Prop where
  ledger : s.mem_glob = (size : Int) * (live_records s g.sessions : Int)
  live_listed : ∀ p r, s.refs p = some r → ∃ tf ∈ g.sessions, p ∈ (s.files tf).ref_list

end TTM

/-!
# Legacy DMA buffer ioctls (`sys/dev/drm/drm_bufs.c`)

The guard on buffer allocation: `drm_legacy_infobufs` and `drm_legacy_mapbufs` raise
`dev->buf_use`, and the `drm_legacy_addbufs_*` entry points refuse to allocate once it
is non-zero.  Spin locks are hold counts.  `dev->buf_use` is an `int`; its increment
is the two's-complement one.  The allocation routines `drm_do_addbufs_agp`,
`drm_do_addbufs_sg` and `drm_do_addbufs_pci` are arbitrary functions on the device:
the properties proved here are about the calls that do not reach them.  User memory
is not modelled: whether a `copy_to_user` faults, and what `vm_mmap` answers, are
inputs.

`drm_legacy_addmap` is embedded with the maps in a memory of their own, up to the
point where it would link a new entry into the map list.

`drm_do_addbufs_pci` is embedded with its loops over segments, pages and buffers.  Its
arrays are maps from indices to elements, kept beside the device; `int` arithmetic is
two's complement on 32 bits; the answers of the allocators are inputs.
-/

namespace DrmBufs

def EINVAL : Int := 22
def ENOMEM : Int := 12
def EACCES : Int := 13
def EFAULT : Int := 14
def EBUSY : Int := 16

def INT_MAX : Int := 2147483647
def INT_MIN : Int := -2147483648

/-- The value of `x + 1` in an `int`, wrapping at `INT_MAX`. -/
def int_inc (x : Int) : Int := if x = INT_MAX then INT_MIN else x + 1

/-- A `struct drm_buf_entry`, without its buffer and segment arrays. -/
structure drm_buf_entry where
  buf_count : Int
  buf_size : Int
  low_mark : Int
  high_mark : Int
  seg_count : Int

/-- A `struct drm_device_dma`, without `buflist` and `pagelist`; `bufs` is indexed by
order, and `use_agp` and `use_sg` are the bits `_DRM_DMA_USE_AGP` and `_DRM_DMA_USE_SG`
of `flags`. -/
structure drm_device_dma where
  bufs : Nat → drm_buf_entry
  buf_count : Int
  seg_count : Int
  page_count : Int
  byte_count : Int
  use_agp : Bool
  use_sg : Bool

/-- The fields of `struct drm_device` the buffer ioctls read or write.  `dma` is `none`
for a NULL pointer; `agp` and `agp_buffer_map` tell whether the pointers are non-NULL;
the `driver_*` fields are the answers of `drm_core_check_feature`. -/
structure drm_device where
  dma_lock : Nat
  buf_lock : Nat
  buf_use : Int
  buf_alloc : Int
  dma : Option drm_device_dma
  driver_modeset : Bool
  driver_have_dma : Bool
  driver_sg : Bool
  agp : Bool
  agp_buffer_map : Bool

/-- A `struct drm_buf_desc`. -/
structure drm_buf_desc where
  count : Int
  size : Int
  low_mark : Int
  high_mark : Int
  flags : Nat
  agp_start : Nat

/-- What the headers define: `order_base_2`, `DRM_MIN_ORDER` and `DRM_MAX_ORDER`. -/
structure Env where
  order_base_2 : Int → Int
  DRM_MIN_ORDER : Int
  DRM_MAX_ORDER : Int

/-- `spin_lock(&dev->dma_lock)`. -/
def spin_lock_dma (dev : drm_device) : drm_device :=
  { dev with dma_lock := dev.dma_lock + 1 }

/-- `spin_unlock(&dev->dma_lock)`. -/
def spin_unlock_dma (dev : drm_device) : drm_device :=
  { dev with dma_lock := dev.dma_lock - 1 }

/-- `spin_lock(&dev->buf_lock)`. -/
def spin_lock_buf (dev : drm_device) : drm_device :=
  { dev with buf_lock := dev.buf_lock + 1 }

/-- `spin_unlock(&dev->buf_lock)`. -/
def spin_unlock_buf (dev : drm_device) : drm_device :=
  { dev with buf_lock := dev.buf_lock - 1 }

/-- `drm_legacy_addbufs_agp`; `none` when `dev->dma` is NULL where it is dereferenced.
`drm_do_addbufs_agp` is the allocation routine. -/
def drm_legacy_addbufs_agp (env : Env)
    (drm_do_addbufs_agp : drm_device → drm_buf_desc → Int × drm_device)
    (dev : drm_device) (request : drm_buf_desc) : Option (Int × drm_device) :=
  if request.count < 0 ∨ request.count > 4096 then some (-EINVAL, dev)
  else
    let order := env.order_base_2 request.size
    if order < env.DRM_MIN_ORDER ∨ order > env.DRM_MAX_ORDER then some (-EINVAL, dev)
    else
      let dev := spin_lock_dma dev
      if dev.buf_use ≠ 0 then some (-EBUSY, spin_unlock_dma dev)
      else
        match dev.dma with
        | none => none
        | some dma =>
          if (dma.bufs order.toNat).buf_count ≠ 0 then some (-ENOMEM, spin_unlock_dma dev)
          else
            let r := drm_do_addbufs_agp dev request
            some (r.1, spin_unlock_dma r.2)

/-- `drm_legacy_addbufs_sg`; `capable` is the answer of `capable(CAP_SYS_ADMIN)`. -/
def drm_legacy_addbufs_sg (env : Env)
    (drm_do_addbufs_sg : drm_device → drm_buf_desc → Int × drm_device)
    (capable : Bool) (dev : drm_device) (request : drm_buf_desc) :
    Option (Int × drm_device) :=
  if capable = false then some (-EACCES, dev)
  else if request.count < 0 ∨ request.count > 4096 then some (-EINVAL, dev)
  else
    let order := env.order_base_2 request.size
    if order < env.DRM_MIN_ORDER ∨ order > env.DRM_MAX_ORDER then some (-EINVAL, dev)
    else
      let dev := spin_lock_dma dev
      if dev.buf_use ≠ 0 then some (-EBUSY, spin_unlock_dma dev)
      else
        match dev.dma with
        | none => none
        | some dma =>
          if (dma.bufs order.toNat).buf_count ≠ 0 then some (-ENOMEM, spin_unlock_dma dev)
          else
            let r := drm_do_addbufs_sg dev request
            some (r.1, spin_unlock_dma r.2)

/-- `drm_legacy_addbufs_pci`; `capable` is the answer of `capable(CAP_SYS_ADMIN)`. -/
def drm_legacy_addbufs_pci (env : Env)
    (drm_do_addbufs_pci : drm_device → drm_buf_desc → Int × drm_device)
    (capable : Bool) (dev : drm_device) (request : drm_buf_desc) :
    Option (Int × drm_device) :=
  if capable = false then some (-EACCES, dev)
  else if request.count < 0 ∨ request.count > 4096 then some (-EINVAL, dev)
  else
    let order := env.order_base_2 request.size
    if order < env.DRM_MIN_ORDER ∨ order > env.DRM_MAX_ORDER then some (-EINVAL, dev)
    else
      let dev := spin_lock_dma dev
      if dev.buf_use ≠ 0 then some (-EBUSY, spin_unlock_dma dev)
      else
        match dev.dma with
        | none => none
        | some dma =>
          if (dma.bufs order.toNat).buf_count ≠ 0 then some (-ENOMEM, spin_unlock_dma dev)
          else
            let r := drm_do_addbufs_pci dev request
            some (r.1, spin_unlock_dma r.2)

/-- `drm_legacy_infobufs`: the return value, the device and `request->count`.
`copy_fault i` tells whether one of the `copy_to_user` calls for the entry of order
`i` faults. -/
def drm_legacy_infobufs (env : Env) (dev : drm_device) (request_count : Int)
    (copy_fault : Nat → Bool) : Int × drm_device × Int :=
  if dev.driver_modeset = true then (-EINVAL, dev, request_count)
  else if dev.driver_have_dma = false then (-EINVAL, dev, request_count)
  else
    match dev.dma with
    | none => (-EINVAL, dev, request_count)
    | some dma =>
      let dev := spin_lock_buf dev
      if dev.buf_alloc ≠ 0 then (-EBUSY, spin_unlock_buf dev, request_count)
      else
        let dev := { dev with buf_use := int_inc dev.buf_use }
        let dev := spin_unlock_buf dev
        let used := (List.range (env.DRM_MAX_ORDER + 1).toNat).filter
          fun i => decide ((dma.bufs i).buf_count ≠ 0)
        let count : Int := used.length
        if request_count ≥ count ∧ used.any copy_fault = true then
          (-EFAULT, dev, request_count)
        else (0, dev, count)

/-- `drm_legacy_mapbufs`: the return value, the device and `request->count`; `none`
when `dev->dma` is NULL where it is dereferenced.  `vm_mmap_ret` is the answer of
`vm_mmap`, and `copy_fault i` tells whether one of the `copy_to_user` calls for
buffer `i` faults. -/
def drm_legacy_mapbufs (dev : drm_device) (request_count : Int) (vm_mmap_ret : Int)
    (copy_fault : Nat → Bool) : Option (Int × drm_device × Int) :=
  let dev := spin_lock_dma dev
  let dev := { dev with buf_use := int_inc dev.buf_use }
  let dev := spin_unlock_dma dev
  match dev.dma with
  | none => none
  | some dma =>
    if request_count < dma.buf_count then some (0, dev, dma.buf_count)
    else if ((dev.agp = true ∧ dma.use_agp = true) ∨
        (dev.driver_sg = true ∧ dma.use_sg = true)) ∧ dev.agp_buffer_map = false then
      some (-EINVAL, dev, dma.buf_count)
    else if -vm_mmap_ret ≠ 0 then some (-vm_mmap_ret, dev, dma.buf_count)
    else if (List.range dma.buf_count.toNat).any copy_fault = true then
      some (-EFAULT, dev, dma.buf_count)
    else some (0, dev, dma.buf_count)

/-- A call of one of the five entry points, with its arguments and the answers of the
services it consults. -/
inductive Call where
  | addbufs_agp (request : drm_buf_desc)
  | addbufs_sg (capable : Bool) (request : drm_buf_desc)
  | addbufs_pci (capable : Bool) (request : drm_buf_desc)
  | infobufs (request_count : Int) (copy_fault : Nat → Bool)
  | mapbufs (request_count : Int) (vm_mmap_ret : Int) (copy_fault : Nat → Bool)

/-- The allocation routines. -/
structure Alloc where
  drm_do_addbufs_agp : drm_device → drm_buf_desc → Int × drm_device
  drm_do_addbufs_sg : drm_device → drm_buf_desc → Int × drm_device
  drm_do_addbufs_pci : drm_device → drm_buf_desc → Int × drm_device

/-- The return value and the device after a call; `none` when it does not return. -/
def call (env : Env) (a : Alloc) (dev : drm_device) : Call → Option (Int × drm_device)
  | Call.addbufs_agp request => drm_legacy_addbufs_agp env a.drm_do_addbufs_agp dev request
  | Call.addbufs_sg capable request =>
    drm_legacy_addbufs_sg env a.drm_do_addbufs_sg capable dev request
  | Call.addbufs_pci capable request =>
    drm_legacy_addbufs_pci env a.drm_do_addbufs_pci capable dev request
  | Call.infobufs request_count copy_fault =>
    let r := drm_legacy_infobufs env dev request_count copy_fault
    some (r.1, r.2.1)
  | Call.mapbufs request_count vm_mmap_ret copy_fault =>
    (drm_legacy_mapbufs dev request_count vm_mmap_ret copy_fault).map fun r => (r.1, r.2.1)

/-- The device after a sequence of calls. -/
def calls (env : Env) (a : Alloc) (dev : drm_device) : List Call → Option drm_device
  | [] => some dev
  | c :: cs =>
    match call env a dev c with
    | some r => calls env a r.2 cs
    | none => none

/-- Whether `count` and `size` of a request pass the checks of the `addbufs` entry
points. -/
def valid (env : Env) (request : drm_buf_desc) : Prop :=
  0 ≤ request.count ∧ request.count ≤ 4096 ∧
  env.DRM_MIN_ORDER ≤ env.order_base_2 request.size ∧
  env.order_base_2 request.size ≤ env.DRM_MAX_ORDER

/-- The headers' values: orders 5 to 22, `order_base_2` the ceiling of the binary
logarithm. -/
def env0 : Env :=
  { order_base_2 := fun n => (Nat.clog 2 n.toNat : Nat)
    DRM_MIN_ORDER := 5
    DRM_MAX_ORDER := 22 }

/-- Allocation routines that do nothing and return 0. -/
def alloc0 : Alloc :=
  { drm_do_addbufs_agp := fun dev _ => (0, dev)
    drm_do_addbufs_sg := fun dev _ => (0, dev)
    drm_do_addbufs_pci := fun dev _ => (0, dev) }

/-- A device with DMA set up, no buffer allocated and `buf_use` zero. -/
def dev0 : drm_device :=
  { dma_lock := 0, buf_lock := 0, buf_use := 0, buf_alloc := 0
    dma := some { bufs := fun _ => { buf_count := 0, buf_size := 0, low_mark := 0,
                                     high_mark := 0, seg_count := 0 }
                  buf_count := 0, seg_count := 0, page_count := 0, byte_count := 0
                  use_agp := false, use_sg := false }
    driver_modeset := false, driver_have_dma := true, driver_sg := false
    agp := false, agp_buffer_map := false }

/-- The device after `drm_legacy_mapbufs` has been called on `dev0`. -/
def dev_mapped : drm_device :=
  match drm_legacy_mapbufs dev0 0 0 (fun _ => false) with
  | some r => r.2.1
  | none => dev0

/-- A request for 16 buffers of 4096 bytes. -/
def request0 : drm_buf_desc :=
  { count := 16, size := 4096, low_mark := 0, high_mark := 0, flags := 0, agp_start := 0 }

/-- `enum drm_map_type` of `drm.h`; `other` stands for a value that is none of the
enumerators. -/
inductive drm_map_type where
  | _DRM_FRAME_BUFFER
  | _DRM_REGISTERS
  | _DRM_SHM
  | _DRM_AGP
  | _DRM_SCATTER_GATHER
  | _DRM_CONSISTENT
  | other
  deriving DecidableEq, Repr

open drm_map_type

/-- A `struct drm_local_map`; `handle` is a pointer, 0 for NULL. -/
structure drm_local_map where
  offset : Nat
  size : Nat
  type : drm_map_type
  flags : Nat
  handle : Nat
  mtrr : Int
  deriving DecidableEq, Repr

/-- A `struct drm_map_list`, an entry of `dev->maplist`: `map` is the address of its
map. -/
structure drm_map_list where
  map : Nat
  user_token : Nat
  deriving DecidableEq, Repr

/-- What the headers define for maps: `PAGE_MASK`, the flag bits of
`enum drm_map_flags` that `drm_legacy_addmap` tests, and the width in bits of
`resource_size_t`. -/
structure MapEnv where
  PAGE_MASK : Nat
  _DRM_WRITE_COMBINING : Nat
  _DRM_CONTAINS_LOCK : Nat
  _DRM_REMOVABLE : Nat
  resource_size_bits : Nat

/-- The memory `drm_legacy_addmap` works on: the `struct drm_local_map`s by address, and
the fields of `struct drm_device` it reads or writes.  `hw_lock` is the pointer
`dev->lock.hw_lock` (0 for NULL); `agp` and `sg` tell whether `dev->agp` and `dev->sg`
are non-NULL. -/
structure MapMem where
  maps : Nat → drm_local_map
  maplist : List drm_map_list
  hw_lock : Nat
  agp : Bool
  sg : Bool

/-- The answers of the services `drm_legacy_addmap` consults: `kmalloc` for the map
(`none` for NULL), `ioremap` or `ioremap_wc` (0 for NULL), `kmalloc` for the shared
memory (0 for NULL), and whether `drm_pci_alloc` returns a handle. -/
structure MapAnswers where
  kmalloc_map : Option Nat
  ioremap : Nat
  kmalloc_handle : Nat
  drm_pci_alloc : Bool

/-- Write the map at address `p`. -/
def set_map (mem : MapMem) (p : Nat) (m : drm_local_map) : MapMem :=
  { mem with maps := fun q => if q = p then m else mem.maps q }

/-- The test of the `list_for_each_entry` loop of `drm_legacy_addmap` on the map of an
entry. -/
def is_kernel_map (env : MapEnv) (m : drm_local_map) (type : drm_map_type) (offset : Nat) :
    Bool :=
  decide (m.type = type ∧
    (m.offset = offset ∨ (m.type = _DRM_SHM ∧ m.flags = env._DRM_CONTAINS_LOCK)))

/-- The `list_for_each_entry` loop of `drm_legacy_addmap`: the first entry of the list
whose map passes the test, `none` when the loop runs to its end. -/
def find_kernel_map (env : MapEnv) (mem : MapMem) (type : drm_map_type) (offset : Nat) :
    List drm_map_list → Option drm_map_list
  | [] => none
  | entry :: rest =>
    if is_kernel_map env (mem.maps entry.map) type offset = true then some entry
    else find_kernel_map env mem type offset rest

/-- `drm_legacy_addmap`: the return value, the memory, and the pointer stored through
`map_ptr` (`none` when nothing is stored).  The result is `none` when the call reaches
`list_add(&entry->head, &dev->maplist)`: there `entry` is NULL, or what
`list_for_each_entry` leaves after a complete pass, and in neither case a
`struct drm_map_list`.  `kfree` leaves the memory as it is. -/
def drm_legacy_addmap (env : MapEnv) (mem : MapMem) (offset size : Nat)
    (type : drm_map_type) (flags : Nat) (a : MapAnswers) :
    Option (Int × MapMem × Option Nat) :=
  match a.kmalloc_map with
  | none => some (-ENOMEM, mem, none)
  | some map =>
    let mem := set_map mem map
      { offset := offset, size := size, type := type, flags := flags, handle := 0, mtrr := 0 }
    if flags &&& env._DRM_REMOVABLE ≠ 0 ∧ type ≠ _DRM_SHM then some (-EINVAL, mem, none)
    else if offset &&& env.PAGE_MASK ≠ 0 ∨ size &&& env.PAGE_MASK ≠ 0 then
      some (-EINVAL, mem, none)
    else if (offset + size) % 2 ^ env.resource_size_bits < offset then
      some (-EINVAL, mem, none)
    else
      let found :=
        if type = _DRM_REGISTERS ∨ type = _DRM_FRAME_BUFFER ∨ type = _DRM_SHM then
          find_kernel_map env mem type offset mem.maplist
        else none
      match found with
      | some entry =>
        let mem := set_map mem entry.map { mem.maps entry.map with size := size }
        some (0, mem, some map)
      | none =>
        match type with
        | _DRM_REGISTERS => if a.ioremap = 0 then some (-ENOMEM, mem, none) else none
        | _DRM_FRAME_BUFFER => none
        | _DRM_SHM =>
          if a.kmalloc_handle = 0 then some (-ENOMEM, mem, none)
          else if flags &&& env._DRM_CONTAINS_LOCK ≠ 0 ∧ mem.hw_lock ≠ 0 then
            some (-EBUSY, mem, none)
          else none
        | _DRM_AGP => if mem.agp = false then some (-EINVAL, mem, none) else none
        | _DRM_SCATTER_GATHER => if mem.sg = false then some (-EINVAL, mem, none) else none
        | _DRM_CONSISTENT =>
          if a.drm_pci_alloc = false then some (-ENOMEM, mem, none) else none
        | other => some (-EINVAL, mem, none)

/-- The values of the headers: 4096-byte pages, the flag bits of `drm.h`, a 64-bit
`resource_size_t`. -/
def map_env0 : MapEnv :=
  { PAGE_MASK := 4095, _DRM_WRITE_COMBINING := 16, _DRM_CONTAINS_LOCK := 32,
    _DRM_REMOVABLE := 64, resource_size_bits := 64 }

/-- A device whose map list holds one map, at address 1000: registers at offset 65536,
of size 4096, write-combining, mapped at 61440. -/
def map_mem0 : MapMem :=
  { maps := fun p =>
      if p = 1000 then
        { offset := 65536, size := 4096, type := _DRM_REGISTERS, flags := 16,
          handle := 61440, mtrr := 0 }
      else
        { offset := 0, size := 0, type := _DRM_FRAME_BUFFER, flags := 0, handle := 0,
          mtrr := 0 }
    maplist := [{ map := 1000, user_token := 0 }]
    hw_lock := 0, agp := false, sg := false }

/-- Every service succeeds; `kmalloc` returns the address 2000 for the map. -/
def map_answers0 : MapAnswers :=
  { kmalloc_map := some 2000, ioremap := 57344, kmalloc_handle := 53248,
    drm_pci_alloc := true }

/-- The value of an `int` expression whose mathematical value is `x`: two's complement
on 32 bits. -/
def int32 (x : Int) : Int := (x + 2147483648) % 4294967296 - 2147483648

/-- The `int` expression `x << n`. -/
def shl (x n : Int) : Int := int32 (x * 2 ^ n.toNat)

/-- The conversion of an `int` or pointer-sized value to `unsigned long`. -/
def u64 (x : Int) : Nat := (x % 18446744073709551616).toNat

/-- A `drm_dma_handle_t`, as returned by `drm_pci_alloc`. -/
structure drm_dma_handle where
  vaddr : Nat
  busaddr : Nat
  deriving DecidableEq, Repr

/-- A `struct drm_buf`; `dev_private` is a pointer, 0 for NULL. -/
structure drm_buf where
  idx : Int
  total : Int
  order : Int
  used : Int
  offset : Nat
  address : Nat
  bus_address : Nat
  pending : Int
  dev_priv_size : Int
  dev_private : Nat
  deriving DecidableEq, Repr

/-- What the headers define for `drm_do_addbufs_pci`: `PAGE_SHIFT`, `PAGE_SIZE`, the
flag `_DRM_PAGE_ALIGN` and `round_page`. -/
structure PciEnv where
  PAGE_SHIFT : Int
  PAGE_SIZE : Int
  _DRM_PAGE_ALIGN : Nat
  round_page : Int → Int

/-- The answers of the services `drm_do_addbufs_pci` consults: whether the three
`kmalloc` calls for `entry->buflist`, `entry->seglist` and `temp_pagelist` return
memory; the handle `drm_pci_alloc` returns for the segment stored at a given index of
`entry->seglist` (`none` for NULL); the pointer `kmalloc` returns for `dev_private` of
the buffer at a given index (0 for NULL); whether `krealloc` returns memory; and
`dev->driver->dev_priv_size`. -/
structure PciAnswers where
  kmalloc_buflist : Bool
  kmalloc_seglist : Bool
  kmalloc_pagelist : Bool
  drm_pci_alloc : Nat → Option drm_dma_handle
  kmalloc_dev_private : Nat → Nat
  krealloc_buflist : Bool
  dev_priv_size : Int

/-- The arrays that `drm_buf_entry` and `drm_device_dma` leave out, and
`entry->page_order`, for the entry `drm_do_addbufs_pci` works on: `entry->buflist`,
`entry->seglist` (`none` for a NULL pointer), `dma->buflist` (each element points at a
buffer of an entry: its order and index) and `dma->pagelist`, by index. -/
structure PciArrays where
  entry_buflist : Nat → drm_buf
  entry_seglist : Nat → Option drm_dma_handle
  entry_page_order : Int
  dma_buflist : Nat → Option (Nat × Nat)
  dma_pagelist : Nat → Nat

/-- What the loops of `drm_do_addbufs_pci` read and write: the hold count of
`dev->dma_lock`, the counts of `entry`, its two arrays, `temp_pagelist`, and the locals
`page_count` and `byte_count`. -/
structure PciLoop where
  dma_lock : Nat
  buf_count : Int
  seg_count : Int
  buflist : Nat → drm_buf
  seglist : Nat → Option drm_dma_handle
  temp_pagelist : Nat → Nat
  page_count : Int
  byte_count : Int

/-- A zeroed `struct drm_buf`. -/
def zero_buf : drm_buf :=
  { idx := 0, total := 0, order := 0, used := 0, offset := 0, address := 0,
    bus_address := 0, pending := 0, dev_priv_size := 0, dev_private := 0 }

/-- `drm_cleanup_buf_error` on the counts of the entry; what it frees is not
modelled. -/
def drm_cleanup_buf_error (st : PciLoop) : PciLoop :=
  let st := if st.seg_count ≠ 0 then { st with seg_count := 0 } else st
  if st.buf_count ≠ 0 then { st with buf_count := 0 } else st

/-- The body of the loop that records the pages of a segment:
`temp_pagelist[dma->page_count + page_count++] = dmah->vaddr + PAGE_SIZE * i`. -/
def pci_page_step (env : PciEnv) (dma_page_count : Int) (dmah : drm_dma_handle)
    (st : PciLoop) (i : Nat) : PciLoop :=
  { st with
    temp_pagelist := fun k =>
      if k = (int32 (dma_page_count + st.page_count)).toNat then
        dmah.vaddr + u64 (env.PAGE_SIZE * i)
      else st.temp_pagelist k
    page_count := int32 (st.page_count + 1) }

/-- The loop `for (i = 0; i < (1 << page_order); i++)` that records the pages of a
segment in `temp_pagelist`. -/
def pci_pages (env : PciEnv) (dma_page_count page_order : Int) (dmah : drm_dma_handle)
    (st : PciLoop) : PciLoop :=
  (List.range (shl 1 page_order).toNat).foldl (pci_page_step env dma_page_count dmah) st

/-- The loop `for (offset = 0; offset + size <= total && entry->buf_count < count; ...)`
that cuts a segment into buffers, from `offset` on.  The result is whether a
`dev_private` allocation failed, and the state; `none` when `fuel` iterations did not
end the loop. -/
def pci_buffers (a : PciAnswers) (order size alignment total count dma_buf_count : Int)
    (dma_byte_count : Int) (dmah : drm_dma_handle) :
    Nat → Nat → PciLoop → Option (Bool × PciLoop)
  | 0, _, _ => none
  | fuel + 1, offset, st =>
    if (offset + u64 size) % 18446744073709551616 ≤ u64 total ∧ st.buf_count < count then
      let buf : drm_buf :=
        { idx := int32 (dma_buf_count + st.buf_count)
          total := alignment
          order := order
          used := 0
          offset := (u64 dma_byte_count + u64 st.byte_count + offset) % 18446744073709551616
          address := dmah.vaddr + offset
          bus_address := (dmah.busaddr + offset) % 18446744073709551616
          pending := 0
          dev_priv_size := a.dev_priv_size
          dev_private := a.kmalloc_dev_private st.buf_count.toNat }
      let st := { st with
        buflist := fun j => if j = st.buf_count.toNat then buf else st.buflist j }
      if a.kmalloc_dev_private st.buf_count.toNat = 0 then
        some (true, drm_cleanup_buf_error { st with buf_count := count, seg_count := count })
      else
        pci_buffers a order size alignment total count dma_buf_count dma_byte_count dmah fuel
          ((offset + u64 alignment) % 18446744073709551616)
          { st with buf_count := int32 (st.buf_count + 1) }
    else some (false, st)

/-- The loop `while (entry->buf_count < count)` of `drm_do_addbufs_pci`, one segment
per iteration.  The result is whether an allocation failed, and the state; `none` when
`fuel` iterations did not end this loop or the loop over the buffers of a segment. -/
def pci_segments (env : PciEnv) (a : PciAnswers)
    (order size alignment total count page_order : Int)
    (dma_buf_count dma_page_count dma_byte_count : Int) (bfuel : Nat) :
    Nat → PciLoop → Option (Bool × PciLoop)
  | 0, _ => none
  | fuel + 1, st =>
    if st.buf_count < count then
      let st := { st with dma_lock := st.dma_lock - 1 }
      let dmah := a.drm_pci_alloc st.seg_count.toNat
      let st := { st with dma_lock := st.dma_lock + 1 }
      match dmah with
      | none =>
        some (true, drm_cleanup_buf_error { st with buf_count := count, seg_count := count })
      | some dmah =>
        let st := { st with
          seglist := fun k => if k = st.seg_count.toNat then some dmah else st.seglist k
          seg_count := int32 (st.seg_count + 1) }
        let st := pci_pages env dma_page_count page_order dmah st
        match pci_buffers a order size alignment total count dma_buf_count dma_byte_count
            dmah bfuel 0 st with
        | none => none
        | some (true, st) => some (true, st)
        | some (false, st) =>
          pci_segments env a order size alignment total count page_order dma_buf_count
            dma_page_count dma_byte_count bfuel fuel
            { st with byte_count := int32 (st.byte_count + shl env.PAGE_SIZE page_order) }
    else some (false, st)

/-- The `page_order` that `drm_do_addbufs_pci` computes for an order. -/
def pci_page_order (env : PciEnv) (order : Int) : Int :=
  if order - env.PAGE_SHIFT > 0 then order - env.PAGE_SHIFT else 0

/-- The state in which `drm_do_addbufs_pci` enters its segment loop: the counts of the
entry as it finds them, the two arrays of the entry freshly allocated and zeroed, the
page list copied. -/
def pci_enter (dev : drm_device) (entry : drm_buf_entry) (arr : PciArrays) : PciLoop :=
  { dma_lock := dev.dma_lock, buf_count := entry.buf_count, seg_count := entry.seg_count,
    buflist := fun _ => zero_buf, seglist := fun _ => none,
    temp_pagelist := arr.dma_pagelist, page_count := 0, byte_count := 0 }

/-- The `alignment` that `drm_do_addbufs_pci` computes. -/
def pci_alignment (env : PciEnv) (size : Int) (flags : Nat) : Int :=
  if flags &&& env._DRM_PAGE_ALIGN ≠ 0 then env.round_page size else size

/-- The segment loop of `drm_do_addbufs_pci` as the function runs it: on the locals it
has computed from the request, from the state `pci_enter`. -/
def pci_loop (henv : Env) (env : PciEnv) (a : PciAnswers) (fuel : Nat) (arr : PciArrays)
    (dev : drm_device) (dma : drm_device_dma) (request : drm_buf_desc) :
    Option (Bool × PciLoop) :=
  let order := henv.order_base_2 request.size
  let size := shl 1 order
  let page_order := pci_page_order env order
  pci_segments env a order size (pci_alignment env size request.flags)
    (shl env.PAGE_SIZE page_order) request.count page_order dma.buf_count dma.page_count
    dma.byte_count fuel fuel (pci_enter dev (dma.bufs order.toNat) arr)

/-- What `drm_do_addbufs_pci` leaves when it returns `ret` with the loop state `st`:
the entry of the order carries the counts of `st`, `size` and `page_order`, and the
arrays of the entry are those of `st`. -/
def pci_finish (dev : drm_device) (order size page_order : Int) (ret : Int) (st : PciLoop)
    (dma : drm_device_dma) (request : drm_buf_desc) (arr : PciArrays) :
    Int × drm_device × drm_buf_desc × PciArrays :=
  let entry := { dma.bufs order.toNat with
    buf_size := size, buf_count := st.buf_count, seg_count := st.seg_count }
  let dma := { dma with bufs := fun o => if o = order.toNat then entry else dma.bufs o }
  (ret, { dev with dma := some dma, dma_lock := st.dma_lock }, request,
    { arr with entry_buflist := st.buflist, entry_seglist := st.seglist,
               entry_page_order := page_order })

/-- `drm_do_addbufs_pci`: the return value, the device, the request and the arrays.
`henv` and `env` are what the headers define; `a` holds the answers of the allocators.
The result is `none` when `dev->dma` is NULL or when `fuel` iterations did not end one
of the loops. -/
def drm_do_addbufs_pci (henv : Env) (env : PciEnv) (a : PciAnswers) (fuel : Nat)
    (arr : PciArrays) (dev : drm_device) (request : drm_buf_desc) :
    Option (Int × drm_device × drm_buf_desc × PciArrays) :=
  match dev.dma with
  | none => none
  | some dma =>
    let order := henv.order_base_2 request.size
    let size := shl 1 order
    let page_order := pci_page_order env order
    if a.kmalloc_buflist = false ∨ a.kmalloc_seglist = false ∨ a.kmalloc_pagelist = false then
      some (-ENOMEM, dev, request, arr)
    else
      match pci_loop henv env a fuel arr dev dma request with
      | none => none
      | some (true, st) => some (pci_finish dev order size page_order (-ENOMEM) st dma request arr)
      | some (false, st) =>
        if a.krealloc_buflist = false then
          some (pci_finish dev order size page_order (-ENOMEM) (drm_cleanup_buf_error st) dma
            request arr)
        else
          let arr := { arr with
            dma_buflist := fun k =>
              if dma.buf_count.toNat ≤ k ∧ k < dma.buf_count.toNat + st.buf_count.toNat then
                some (order.toNat, k - dma.buf_count.toNat)
              else arr.dma_buflist k
            dma_pagelist := st.temp_pagelist }
          let dma := { dma with
            buf_count := int32 (dma.buf_count + st.buf_count)
            seg_count := int32 (dma.seg_count + st.seg_count)
            page_count := int32 (dma.page_count + shl st.seg_count page_order)
            byte_count := dma.byte_count + int32 (env.PAGE_SIZE * shl st.seg_count page_order) }
          some (pci_finish dev order size page_order 0 st dma
            { request with count := st.buf_count, size := size } arr)

/-- What holds in the segment loop of `drm_do_addbufs_pci` between two segments: every
segment allocated so far has received a buffer, no more buffers than asked for exist,
`page_count` counts the pages of the segments, and the first buffer of each segment
starts at the segment's address. -/
structure SegInv (count page_order : Int) (st : PciLoop) : Prop where
  seg_nonneg : 0 ≤ st.seg_count
  seg_le : st.seg_count ≤ st.buf_count
  buf_le : st.buf_count ≤ count
  pages : st.page_count = st.seg_count * 2 ^ page_order.toNat
  first : ∀ k, k < st.seg_count.toNat → ∃ j h, j < st.buf_count.toNat ∧
    st.seglist k = some h ∧ (st.buflist j).address = h.vaddr

/-- What the claims on `drm_do_addbufs_pci` assume of the header constants: pages of
`2 ^ PAGE_SHIFT` bytes, and orders for which neither a buffer size nor a segment size
nor the page count of 4096 segments overflows an `int`. -/
structure PciSane (henv : Env) (env : PciEnv) : Prop where
  shift : 0 ≤ env.PAGE_SHIFT ∧ env.PAGE_SHIFT ≤ 30
  size : env.PAGE_SIZE = 2 ^ env.PAGE_SHIFT.toNat
  min : 0 ≤ henv.DRM_MIN_ORDER
  max : henv.DRM_MAX_ORDER ≤ 30
  pages : henv.DRM_MAX_ORDER - env.PAGE_SHIFT ≤ 18

/-- Every allocation of a call of `drm_do_addbufs_pci` succeeds. -/
def all_succeed (a : PciAnswers) : Prop :=
  a.kmalloc_buflist = true ∧ a.kmalloc_seglist = true ∧ a.kmalloc_pagelist = true ∧
  (∀ k, a.drm_pci_alloc k ≠ none) ∧ (∀ j, a.kmalloc_dev_private j ≠ 0) ∧
  a.krealloc_buflist = true

/-- The headers' values: pages of 4096 bytes, `_DRM_PAGE_ALIGN` is bit 0. -/
def pci_env0 : PciEnv :=
  { PAGE_SHIFT := 12, PAGE_SIZE := 4096, _DRM_PAGE_ALIGN := 1,
    round_page := fun x => (x + 4095) / 4096 * 4096 }

/-- Every allocation succeeds; segment `k` is at address `1048576 * (k + 1)`. -/
def pci_answers0 : PciAnswers :=
  { kmalloc_buflist := true, kmalloc_seglist := true, kmalloc_pagelist := true
    drm_pci_alloc := fun k => some { vaddr := 1048576 * (k + 1), busaddr := 1048576 * (k + 1) }
    kmalloc_dev_private := fun j => 512 + j
    krealloc_buflist := true
    dev_priv_size := 8 }

/-- No buffer, no page. -/
def pci_arrays0 : PciArrays :=
  { entry_buflist := fun _ => zero_buf, entry_seglist := fun _ => none,
    entry_page_order := 0, dma_buflist := fun _ => none, dma_pagelist := fun _ => 0 }

/-- The headers' values of `env0`, with `order_base_2` found by search among the
exponents below 64. -/
def env1 : Env :=
  { order_base_2 := fun n =>
      ((((List.range 64).find? fun k => decide (n ≤ 2 ^ k)).getD 0 : Nat) : Int)
    DRM_MIN_ORDER := 5
    DRM_MAX_ORDER := 22 }

/-- A request for 5 buffers of 1024 bytes. -/
def request_small : drm_buf_desc :=
  { count := 5, size := 1024, low_mark := 0, high_mark := 0, flags := 0, agp_start := 0 }

end DrmBufs

/-!
# Hardware-assisted I2C transfers (`sys/dev/drm/radeon/atombios_i2c.c`)

`radeon_atom_hw_i2c_xfer` cuts every message into transactions that
`radeon_process_i2c_ch` hands to the AtomBIOS table `ProcessI2cChannelTransaction`.
The table is external: the status it reports for each transaction is an input.  The
calls of `radeon_process_i2c_ch` are recorded in order.  The two mutexes, taken and
released around every transaction, and the bytes read back are not modelled.
-/

namespace AtomI2c

def EINVAL : Int := 22
def EIO : Int := 5

def ATOM_MAX_HW_I2C_WRITE : Nat := 3
def ATOM_MAX_HW_I2C_READ : Nat := 255
def TARGET_HW_I2C_CLOCK : Nat := 50

/-- What the headers define: the transaction flags `HW_I2C_WRITE` and `HW_I2C_READ` and
the status `HW_ASSISTED_I2C_STATUS_SUCCESS` of `atombios.h`, and the message flag
`IIC_M_RD` of `iic.h`. -/
structure Env where
  HW_I2C_WRITE : Nat
  HW_I2C_READ : Nat
  HW_ASSISTED_I2C_STATUS_SUCCESS : Nat
  IIC_M_RD : Nat

/-- A `struct iic_msg`; `buf` holds the bytes behind the pointer. -/
structure iic_msg where
  slave : Nat
  flags : Nat
  len : Nat
  buf : List Nat
  deriving DecidableEq, Repr

/-- The fields of `PROCESS_I2C_CHANNEL_TRANSACTION_PS_ALLOCATION` that
`radeon_process_i2c_ch` fills in. -/
structure PROCESS_I2C_CHANNEL_TRANSACTION_PS_ALLOCATION where
  ucRegIndex : Nat
  lpI2CDataOut : Nat
  ucFlag : Nat
  ucI2CSpeed : Nat
  ucTransBytes : Nat
  ucSlaveAddr : Nat
  ucLineNumber : Nat
  deriving DecidableEq, Repr

/-- What a call of `radeon_process_i2c_ch` does: its return value `r`, the arguments it
hands to the table (`none` when it returns before executing it), and the number of
bytes it copies with `memcpy` into the 16-bit word `out`. -/
structure Outcome where
  r : Int
  args : Option PROCESS_I2C_CHANNEL_TRANSACTION_PS_ALLOCATION
  copied : Nat
  deriving DecidableEq, Repr

/-- The value of a little-endian sequence of bytes. -/
def le_value : List Nat → Nat
  | [] => 0
  | b :: bs => b % 256 + 256 * le_value bs

/-- `radeon_process_i2c_ch`.  `i2c_id` is `chan->rec.i2c_id`; `buf` is `none` for a NULL
pointer, else the bytes from the pointer on; `ucStatus` is the status the table
reports.  `slave_addr`, `flags` and `num` are `u8` parameters. -/
def radeon_process_i2c_ch (env : Env) (i2c_id : Nat) (slave_addr flags : Nat)
    (buf : Option (List Nat)) (num : Nat) (ucStatus : Nat) : Outcome :=
  let slave_addr := slave_addr % 256
  let flags := flags % 256
  let num := num % 256
  if flags &&& env.HW_I2C_WRITE ≠ 0 then
    if num > ATOM_MAX_HW_I2C_WRITE then { r := -EINVAL, args := none, copied := 0 }
    else
      let ucRegIndex := match buf with
        | none => 0
        | some b => b.getD 0 0
      let num := if num ≠ 0 then num - 1 else num
      let data := if num ≠ 0 then ((buf.getD []).drop 1).take num else []
      let args : PROCESS_I2C_CHANNEL_TRANSACTION_PS_ALLOCATION :=
        { ucRegIndex := ucRegIndex, lpI2CDataOut := le_value data, ucFlag := flags,
          ucI2CSpeed := TARGET_HW_I2C_CLOCK, ucTransBytes := num,
          ucSlaveAddr := (slave_addr * 2) % 256, ucLineNumber := i2c_id }
      let copied := if num ≠ 0 then num else 0
      if ucStatus ≠ env.HW_ASSISTED_I2C_STATUS_SUCCESS then
        { r := - EIO, args := some args, copied := copied }
      else { r := 0, args := some args, copied := copied }
  else
    if num > ATOM_MAX_HW_I2C_READ then { r := -EINVAL, args := none, copied := 0 }
    else
      let args : PROCESS_I2C_CHANNEL_TRANSACTION_PS_ALLOCATION :=
        { ucRegIndex := 0, lpI2CDataOut := 0, ucFlag := flags,
          ucI2CSpeed := TARGET_HW_I2C_CLOCK, ucTransBytes := num,
          ucSlaveAddr := (slave_addr * 2) % 256, ucLineNumber := i2c_id }
      if ucStatus ≠ env.HW_ASSISTED_I2C_STATUS_SUCCESS then
        { r := - EIO, args := some args, copied := 0 }
      else { r := 0, args := some args, copied := 0 }

/-- A call of `radeon_process_i2c_ch` made by `radeon_atom_hw_i2c_xfer`: the index of
the message it is made for, the slave address and flags passed, the buffer passed
(`none` for NULL, `some o` for `&p->buf[o]`) and the byte count passed. -/
structure Transaction where
  msg : Nat
  slave : Nat
  flags : Nat
  offset : Option Nat
  num : Nat
  deriving DecidableEq, Repr

/-- The `max_bytes` that `radeon_atom_hw_i2c_xfer` chooses for a message. -/
def max_bytes (env : Env) (p : iic_msg) : Nat :=
  if p.flags &&& env.IIC_M_RD ≠ 0 then ATOM_MAX_HW_I2C_READ else ATOM_MAX_HW_I2C_WRITE

/-- The `flags` that `radeon_atom_hw_i2c_xfer` chooses for a message. -/
def dir_flags (env : Env) (p : iic_msg) : Nat :=
  if p.flags &&& env.IIC_M_RD ≠ 0 then env.HW_I2C_READ else env.HW_I2C_WRITE

/-- The `while (remaining)` loop of `radeon_atom_hw_i2c_xfer` for message `p`, the
`i`-th of the list.  `status k` is the status the table reports for the `k`-th
transaction of the call; `log` holds the transactions made so far.  The result is the
value `radeon_atom_hw_i2c_xfer` returns at once when it is not 0, and the log; `none`
when `fuel` iterations did not end the loop. -/
def xfer_chunks (env : Env) (i2c_id : Nat) (status : Nat → Nat) (i : Nat) (p : iic_msg) :
    Nat → Nat → Nat → List Transaction → Option (Int × List Transaction)
  | 0, _, _, _ => none
  | fuel + 1, remaining, buffer_offset, log =>
    if remaining = 0 then some (0, log)
    else
      let current_count := if remaining > max_bytes env p then max_bytes env p else remaining
      let ret := (radeon_process_i2c_ch env i2c_id p.slave (dir_flags env p)
        (some (p.buf.drop buffer_offset)) current_count (status log.length)).r
      let log := log ++ [{ msg := i, slave := p.slave, flags := dir_flags env p,
                           offset := some buffer_offset, num := current_count }]
      if ret ≠ 0 then some (ret, log)
      else xfer_chunks env i2c_id status i p fuel (remaining - current_count)
        (buffer_offset + current_count) log

/-- The `for (i = 0; i < num; i++)` loop of `radeon_atom_hw_i2c_xfer` from message `i`
on. -/
def xfer_msgs (env : Env) (i2c_id : Nat) (status : Nat → Nat) (fuel : Nat) :
    Nat → List iic_msg → List Transaction → Option (Int × List Transaction)
  | _, [], log => some (0, log)
  | i, p :: ps, log =>
    match xfer_chunks env i2c_id status i p fuel p.len 0 log with
    | none => none
    | some (ret, log) =>
      if ret ≠ 0 then some (ret, log)
      else xfer_msgs env i2c_id status fuel (i + 1) ps log

/-- The test for a bus probe: one message, of length 0. -/
def is_bus_probe (msgs : List iic_msg) : Bool :=
  match msgs with
  | [p] => decide (p.len = 0)
  | _ => false

/-- `radeon_atom_hw_i2c_xfer` on the messages `msgs` (`num` is their number): the
return value and the calls of `radeon_process_i2c_ch` it made, in order; `none` when a
chunking loop did not end within `fuel` iterations. -/
def radeon_atom_hw_i2c_xfer (env : Env) (i2c_id : Nat) (status : Nat → Nat) (fuel : Nat)
    (msgs : List iic_msg) : Option (Int × List Transaction) :=
  if is_bus_probe msgs = true then
    let slave := (msgs.map fun p => p.slave).headD 0
    let ret := (radeon_process_i2c_ch env i2c_id slave env.HW_I2C_WRITE none 0 (status 0)).r
    some (ret, [{ msg := 0, slave := slave, flags := env.HW_I2C_WRITE, offset := none,
                  num := 0 }])
  else xfer_msgs env i2c_id status fuel 0 msgs []

/-- The transactions of the log made for message `i`. -/
def of_msg (i : Nat) (log : List Transaction) : List Transaction :=
  log.filter fun t => decide (t.msg = i)

/-- The sum of the byte counts of a list of transactions. -/
def total_bytes (log : List Transaction) : Nat :=
  (log.map fun t => t.num).sum

/-- The buffers of the transactions follow one another from offset `o` on: each starts
where the one before ended. -/
def contiguous_from : Nat → List Transaction → Prop
  | _, [] => True
  | o, t :: ts => t.offset = some o ∧ contiguous_from (o + t.num) ts

/-- What the transactions `new` made for message `p`, the `i`-th, are when the chunking
loop started with `remaining` bytes left at offset `start` and `ret` is what it
returned. -/
structure Chunked (env : Env) (i : Nat) (p : iic_msg) (start remaining : Nat) (ret : Int)
    (new : List Transaction) : Prop where
  call : ∀ t ∈ new, t.msg = i ∧ t.slave = p.slave ∧ t.flags = dir_flags env p
  bound : ∀ t ∈ new, 1 ≤ t.num ∧ t.num ≤ max_bytes env p
  contiguous : contiguous_from start new
  sum_le : total_bytes new ≤ remaining
  sum_eq : ret = 0 → total_bytes new = remaining
  ret : ret = 0 ∨ ret = - EIO

/-- The values of the headers. -/
def env0 : Env :=
  { HW_I2C_WRITE := 1, HW_I2C_READ := 0, HW_ASSISTED_I2C_STATUS_SUCCESS := 1, IIC_M_RD := 1 }

/-- A write of 5 bytes to the slave at address 80. -/
def write5 : iic_msg :=
  { slave := 80, flags := 0, len := 5, buf := [16, 1, 2, 3, 4] }

/-- A read of 600 bytes from the slave at address 80. -/
def read600 : iic_msg :=
  { slave := 80, flags := 1, len := 600, buf := List.replicate 600 0 }

end AtomI2c

namespace TTM

open ttm_ref_type

/-! ## Concurrent calls of `ttm_ref_object_add`

Several threads run `ttm_ref_object_add` for the same session, base object and
reference type.  A thread's run is cut where the source takes or drops
`tfile->lock` and between its calls of the accounting service and of the allocator:
what happens with the lock held is one step, because the table, the list and the
records' counts are only accessed with the lock held and `kref_get` on the base
object is atomic; the charge is a step, the allocation with the initialisation of
the new record, which no other thread can reach yet, is a step.  A schedule names,
step after step, the thread that runs, with the answers the services would give
that step.  The `existed` cell is local to a thread and is left out. -/

/-- Where a thread stands in `ttm_ref_object_add`: about to take the lock and look
the record up; about to charge; charged, about to allocate; holding the new record
at `ref`, about to take the lock and insert it; having lost the insert, about to
uncharge and free the record at `ref`; returned `ret`. -/
inductive Pc where
  | find
  | alloc
  | kmalloc
  | insert (ref : Nat)
  | cleanup (ref : Nat)
  | done (ret : Int)
  deriving DecidableEq, Repr

/-- The lookup under the lock: `drm_ht_find_item`, and `kref_get` on a hit. -/
def add_step_find (s : State) (tfile base : Nat) (ref_type : ttm_ref_type) : State × Pc :=
  let s := lock_file s tfile
  match drm_ht_find_item ((s.files tfile).ref_hash ref_type) (s.bases base).hash_key with
  | some ref =>
    let s := match s.refs ref with
      | some r => set_ref s ref (some { r with kref := kref_get r.kref })
      | none => s
    (unlock_file s tfile, Pc.done 0)
  | none => (unlock_file s tfile, Pc.alloc)

/-- The charge: `ttm_mem_global_alloc`. -/
def add_step_alloc (size : Nat) (s : State) (alloc_ret : Int) : State × Pc :=
  let s := ttm_mem_global_alloc s size alloc_ret
  if alloc_ret ≠ 0 then (s, Pc.done alloc_ret)
  else (s, Pc.kmalloc)

/-- The allocation, `kmalloc`, and the initialisation of the new record. -/
def add_step_kmalloc (size : Nat) (s : State) (tfile base : Nat) (ref_type : ttm_ref_type)
    (kmalloc_ret : Option Nat) : State × Pc :=
  match kmalloc_ret with
  | none => (ttm_mem_global_free s size, Pc.done (-ENOMEM))
  | some ref =>
    (set_ref s ref (some
      { hash_key := (s.bases base).hash_key, obj := some base, tfile := tfile,
        ref_type := ref_type, kref := kref_init }), Pc.insert ref)

/-- The insert under the lock: `drm_ht_insert_item`, and on success `list_add_tail`
and `kref_get` on the base object. -/
def add_step_insert (s : State) (tfile base : Nat) (ref_type : ttm_ref_type) (ref : Nat) :
    State × Pc :=
  let s := lock_file s tfile
  let f := s.files tfile
  match drm_ht_insert_item (f.ref_hash ref_type) (s.bases base).hash_key ref with
  | some ht =>
    let s := set_file s tfile { f with
      ref_hash := fun t => if t = ref_type then ht else f.ref_hash t
      ref_list := f.ref_list ++ [ref] }
    let s := set_base s base
      { s.bases base with refcount := kref_get (s.bases base).refcount }
    (unlock_file s tfile, Pc.done 0)
  | none => (unlock_file s tfile, Pc.cleanup ref)

/-- After a lost insert: `ttm_mem_global_free`, `kfree`, and back to the head of the
loop. -/
def add_step_cleanup (size : Nat) (s : State) (ref : Nat) : State × Pc :=
  let s := ttm_mem_global_free s size
  let s := set_ref s ref none
  (s, Pc.find)

/-- One step of a thread. -/
def add_step (size : Nat) (s : State) (tfile base : Nat) (ref_type : ttm_ref_type)
    (alloc_ret : Int) (kmalloc_ret : Option Nat) : Pc → State × Pc
  | Pc.find => add_step_find s tfile base ref_type
  | Pc.alloc => add_step_alloc size s alloc_ret
  | Pc.kmalloc => add_step_kmalloc size s tfile base ref_type kmalloc_ret
  | Pc.insert ref => add_step_insert s tfile base ref_type ref
  | Pc.cleanup ref => add_step_cleanup size s ref
  | Pc.done ret => (s, Pc.done ret)

/-- The shared memory and where each thread stands. -/
structure Threads where
  s : State
  pcs : List Pc

/-- A step of the schedule: the thread that runs, and the answers of
`ttm_mem_global_alloc` and `kmalloc` should it ask. -/
structure Turn where
  tid : Nat
  alloc_ret : Int
  kmalloc_ret : Option Nat

/-- The thread named by the turn makes one step. -/
def sched_step (size tfile base : Nat) (ref_type : ttm_ref_type) (c : Threads) (t : Turn) :
    Threads :=
  match c.pcs.get? t.tid with
  | none => c
  | some pc =>
    let r := add_step size c.s tfile base ref_type t.alloc_ret t.kmalloc_ret pc
    { s := r.1, pcs := c.pcs.set t.tid r.2 }

/-- The threads after a schedule. -/
def sched_run (size tfile base : Nat) (ref_type : ttm_ref_type) (c : Threads) :
    List Turn → Threads
  | [] => c
  | t :: ts => sched_run size tfile base ref_type (sched_step size tfile base ref_type c t) ts

/-- When `kmalloc` is asked it returns memory that holds no live record. -/
def fresh_sched (size tfile base : Nat) (ref_type : ttm_ref_type) :
    Threads → List Turn → Prop
  | _, [] => True
  | c, t :: ts =>
    (∀ ref, c.pcs.get? t.tid = some Pc.kmalloc → t.kmalloc_ret = some ref →
      c.s.refs ref = none) ∧
    fresh_sched size tfile base ref_type (sched_step size tfile base ref_type c t) ts

/-- The number of threads that have returned 0. -/
def done_zero (pcs : List Pc) : Nat :=
  pcs.countP fun pc => decide (pc = Pc.done 0)

/-- The number of threads that have charged and not yet allocated. -/
def waiting (pcs : List Pc) : Nat :=
  pcs.countP fun pc => decide (pc = Pc.kmalloc)

/-- The record a thread holds and has not linked, if any. -/
def held (pc : Pc) : Option Nat :=
  match pc with
  | Pc.insert ref => some ref
  | Pc.cleanup ref => some ref
  | _ => none

/-- The records held by threads and not linked. -/
def in_flight (pcs : List Pc) : List Nat :=
  pcs.filterMap held

/-- Whether a thread has returned. -/
def is_done (pc : Pc) : Bool :=
  match pc with
  | Pc.done _ => true
  | _ => false

/-- The number of turns of thread `tid` in a schedule. -/
def turns (tid : Nat) (ts : List Turn) : Nat :=
  ts.countP fun t => decide (t.tid = tid)

/-- Two threads of session 11 acquire `TTM_REF_SYNCCPU_READ` on the object of
`registered`. -/
def two_threads : Threads :=
  { s := registered, pcs := [Pc.find, Pc.find] }

/-- Both threads miss the lookup, charge and allocate (at addresses 201 and 202);
thread 0 wins the insert, thread 1 loses it, frees its record and finds the one of
thread 0; thread 0 is then given two more turns.  Every turn carries the answers the
services would give if asked. -/
def race : List Turn :=
  [⟨0, 0, some 201⟩, ⟨1, 0, some 202⟩, ⟨0, 0, some 201⟩, ⟨1, 0, some 202⟩,
   ⟨0, 0, some 201⟩, ⟨1, 0, some 202⟩, ⟨0, 0, some 201⟩, ⟨1, 0, some 202⟩,
   ⟨1, 0, some 202⟩, ⟨1, 0, some 202⟩, ⟨0, 0, some 201⟩, ⟨0, 0, some 201⟩]

/-- The state in which the insert step leaves `s` when it links the record at `ref`:
the record is in the table of its type and at the tail of the list, the base object's
count is raised. -/
def insert_linked (s : State) (tfile base : Nat) (ref_type : ttm_ref_type) (ref : Nat) :
    State :=
  set_base
    (set_file s tfile { s.files tfile with
      ref_hash := fun t => if t = ref_type then
          (fun k => if k = (s.bases base).hash_key then some ref
            else (s.files tfile).ref_hash ref_type k)
        else (s.files tfile).ref_hash t
      ref_list := (s.files tfile).ref_list ++ [ref] })
    base { s.bases base with refcount := (s.bases base).refcount + 1 }

/-- The invariant of concurrent acquisitions by threads of session `tfile`, for the
object `base` and the type `ref_type`, started in a state `s0` in which the session
has no record for them: the records threads hold are distinct and live; a record about
to be inserted is a new record for the object; as long as the table has no record no
thread has returned 0, and the object's count and the list are those of `s0`; once the
table has a record, its internal count is the number of threads that have returned 0,
the object's count is one above that of `s0` and the list is that of `s0` with the
record at its tail; the charge is that of `s0` plus `size` for each thread that has
charged and not yet allocated, for each record held by a thread and for the record in
the table. -/
structure Racing (size tfile base : Nat) (ref_type : ttm_ref_type) (s0 : State)
    (c : Threads) : Prop where
  key : (c.s.bases base).hash_key = (s0.bases base).hash_key
  nodup : (in_flight c.pcs).Nodup
  live : ∀ r ∈ in_flight c.pcs, c.s.refs r ≠ none
  fresh : ∀ r, Pc.insert r ∈ c.pcs →
    c.s.refs r = some ⟨(s0.bases base).hash_key, 1, ref_type, some base, tfile⟩
  lost : ∀ r, Pc.cleanup r ∈ c.pcs →
    (c.s.files tfile).ref_hash ref_type (s0.bases base).hash_key ≠ none
  before : (c.s.files tfile).ref_hash ref_type (s0.bases base).hash_key = none →
    done_zero c.pcs = 0 ∧ (c.s.bases base).refcount = (s0.bases base).refcount ∧
    (c.s.files tfile).ref_list = (s0.files tfile).ref_list
  after : ∀ w, (c.s.files tfile).ref_hash ref_type (s0.bases base).hash_key = some w →
    c.s.refs w = some ⟨(s0.bases base).hash_key, (done_zero c.pcs : Int), ref_type,
      some base, tfile⟩ ∧
    (c.s.bases base).refcount = (s0.bases base).refcount + 1 ∧
    (c.s.files tfile).ref_list = (s0.files tfile).ref_list ++ [w] ∧
    w ∉ in_flight c.pcs
  ledger : c.s.mem_glob = s0.mem_glob + (size : Int) *
    ((waiting c.pcs : Int) + ((in_flight c.pcs).length : Int) +
      (if (c.s.files tfile).ref_hash ref_type (s0.bases base).hash_key = none then 0 else 1))

/-- An upper bound on the steps a thread still makes: `has` tells whether the table
has the record. -/
def steps_left (has : Bool) (pc : Pc) : Nat :=
  match pc with
  | Pc.find => if has then 1 else 6
  | Pc.alloc => 5
  | Pc.kmalloc => 4
  | Pc.insert _ => 3
  | Pc.cleanup _ => 2
  | Pc.done _ => 0

/-- Whether the base object at address `base` is in the device's directory, under some
key. -/
def in_directory (s : State) (base : Nat) : Prop :=
  ∃ key, s.tdev.object_hash key = some base

/-- A base object whose reference count is at least 1 is in the directory. -/
def Listed (s : State) (base : Nat) : Prop :=
  1 ≤ (s.bases base).refcount → in_directory s base

/-- The reachable states in which the most recent `ttm_base_object_init` of the object at
address `base` returned 0: the states such a call leaves, and the states reached from
them by calls of the entry points other than a `ttm_base_object_init` of `base` itself.
The calls obey the same conditions as in `Reachable`. -/
inductive Registered (size : Nat) (base : Nat) : State → Ghost → Prop where
  | init (s : State) (g : Ghost) (fuel tfile : Nat) (shareable : Bool)
      (object_type : Nat) (refcount_release ref_obj_release : Bool) (probe : Option Nat)
      (alloc_ret : Int) (kmalloc_ret : Option Nat) (s' : State) :
      Reachable size s g → tfile ∈ g.sessions →
      (∀ k, s.tdev.object_hash k ≠ some base) →
      (∀ ref, kmalloc_ret = some ref → s.refs ref = none) →
      ttm_base_object_init size fuel s tfile base shareable object_type refcount_release
        ref_obj_release probe alloc_ret kmalloc_ret = some (0, s') →
      Registered size base s' g
  | file_init (s : State) (g : Ghost) (tfile : Nat) (ht_create_ret : ttm_ref_type → Int)
      (s' : State) :
      Registered size base s g → tfile ∉ g.sessions →
      ttm_object_file_init s (some tfile) ht_create_ret = (some tfile, s') →
      Registered size base s' { g with sessions := tfile :: g.sessions }
  | file_init_failed (s : State) (g : Ghost) (tfile : Nat)
      (ht_create_ret : ttm_ref_type → Int) (s' : State) :
      Registered size base s g → tfile ∉ g.sessions →
      ttm_object_file_init s (some tfile) ht_create_ret = (none, s') →
      Registered size base s' g
  | base_init (s : State) (g : Ghost) (fuel tfile other : Nat) (shareable : Bool)
      (object_type : Nat) (refcount_release ref_obj_release : Bool) (probe : Option Nat)
      (alloc_ret : Int) (kmalloc_ret : Option Nat) (ret : Int) (s' : State) :
      Registered size base s g → other ≠ base → tfile ∈ g.sessions →
      (∀ k, s.tdev.object_hash k ≠ some other) →
      (∀ ref, kmalloc_ret = some ref → s.refs ref = none) →
      ttm_base_object_init size fuel s tfile other shareable object_type refcount_release
        ref_obj_release probe alloc_ret kmalloc_ret = some (ret, s') →
      Registered size base s' g
  | lookup (s : State) (g : Ghost) (tfile key b : Nat) (s' : State) :
      Registered size base s g → tfile ∈ g.sessions →
      ttm_base_object_lookup s tfile key = (some b, s') →
      Registered size base s'
        { g with handles := fun x => if x = b then g.handles x + 1 else g.handles x }
  | lookup_null (s : State) (g : Ghost) (tfile key : Nat) (s' : State) :
      Registered size base s g → tfile ∈ g.sessions →
      ttm_base_object_lookup s tfile key = (none, s') →
      Registered size base s' g
  | base_unref (s : State) (g : Ghost) (b : Nat) :
      Registered size base s g → 0 < g.handles b →
      Registered size base (ttm_base_object_unref s b)
        { g with handles := fun x => if x = b then g.handles x - 1 else g.handles x }
  | ref_add (s : State) (g : Ghost) (fuel tfile b : Nat) (ref_type : ttm_ref_type)
      (existed : Option Bool) (alloc_ret : Int) (kmalloc_ret : Option Nat) (ret : Int)
      (e : Option Bool) (s' : State) :
      Registered size base s g → tfile ∈ g.sessions →
      s.tdev.object_hash (s.bases b).hash_key = some b →
      (∀ ref, kmalloc_ret = some ref → s.refs ref = none) →
      ttm_ref_object_add size fuel s tfile b ref_type existed alloc_ret kmalloc_ret
        = some (ret, e, s') →
      Registered size base s' g
  | ref_base_unref (s : State) (g : Ghost) (tfile key : Nat) (ref_type : ttm_ref_type) :
      Registered size base s g → tfile ∈ g.sessions →
      Registered size base (ttm_ref_object_base_unref size s tfile key ref_type).2 g
  | file_release (s : State) (g : Ghost) (fuel tfile : Nat) (s' : State) :
      Registered size base s g → tfile ∈ g.sessions →
      ttm_object_file_release size fuel s tfile = some s' →
      Registered size base s' { g with sessions := g.sessions.erase tfile }

/-- The state after a failed registration: session 10 registers the object at address
100 under key 5, and the accounting service refuses the charge for the usage record
(`-ENOMEM`). -/
def registration_failed : State :=
  state_of (ttm_base_object_init 64 1 three_sessions 10 100 true 0 true true (some 5) (-12)
    none)

/-- Whether the record at address `p` is in a table of session `tfile`: the record is
live and targets a base object, and `ref_hash[ref->ref_type]` holds it under that
object's key. -/
def in_table (s : State) (tfile p : Nat) : Prop :=
  ∃ r base, s.refs p = some r ∧ r.obj = some base ∧
    (s.files tfile).ref_hash r.ref_type (s.bases base).hash_key = some p

/-- The record list and the tables of session `tfile` agree: a record is on the list
exactly when it is in the table of its type under its object's key, every table entry
is for a listed record of that type and key, and the list names no record twice and no
two records of the same key and type. -/
structure Linked (s : State) (tfile : Nat) : Prop where
  listed_iff : ∀ p, p ∈ (s.files tfile).ref_list ↔ in_table s tfile p
  hashed : ∀ t key p, (s.files tfile).ref_hash t key = some p →
    p ∈ (s.files tfile).ref_list ∧
    ∃ r, s.refs p = some r ∧ r.ref_type = t ∧ r.hash_key = key
  nodup : (s.files tfile).ref_list.Nodup
  distinct : ∀ p ∈ (s.files tfile).ref_list, ∀ q ∈ (s.files tfile).ref_list,
    ∀ rp rq, s.refs p = some rp → s.refs q = some rq →
      rp.hash_key = rq.hash_key → rp.ref_type = rq.ref_type → p = q

/-- One iteration of the `while (!list_empty(&tfile->ref_list))` loop of
`ttm_object_file_release`: the first record of the list is released.  With an empty
list the loop has ended and the state stays. -/
def drain_step (size : Nat) (s : State) (tfile : Nat) : State :=
  match (s.files tfile).ref_list with
  | [] => s
  | ref :: _ => ttm_ref_object_release size s ref

/-- The state after `n` iterations of the drain loop of `ttm_object_file_release`. -/
def drain (size : Nat) : Nat → State → Nat → State
  | 0, s, _ => s
  | n + 1, s, tfile => drain size n (drain_step size s tfile) tfile

/-- Every live reference record has an internal count of at least 1. -/
def Alive (s : State) : Prop :=
  ∀ p r, s.refs p = some r → 1 ≤ r.kref

/-- Between `s` and `s'` the base object at address `b` has kept its `refcount_release`
hook, and, when it has none, its pointer `base->tfile` to the session that registered
it: `ttm_object_file_unref(&base->tfile)` has not run for it. -/
structure SessionKept (s s' : State) (b : Nat) : Prop where
  hook : (s'.bases b).refcount_release = (s.bases b).refcount_release
  tfile : (s.bases b).refcount_release = false → (s'.bases b).tfile = (s.bases b).tfile

/-- Whether a call is a `ttm_base_object_init` of the object at address `base`. -/
def is_init_of (base : Nat) : Op → Bool
  | Op.base_init _ b _ _ _ _ _ _ _ => decide (b = base)
  | _ => false

/-- Session 10 registers the shareable object at address 100 under key 5 with no
hook at all, then looks it up, releases its usage record and gives the looked-up
pointer back: the object's count reaches 0. -/
def dropped_no_hook : State :=
  ttm_base_object_unref last_handle_no_hook 100

/-! ## Field-by-field effect of the primitives -/

@[simp] theorem lock_object_object_lock (s : State) :
    (lock_object s).tdev.object_lock = s.tdev.object_lock + 1 := rfl

@[simp] theorem lock_object_object_hash (s : State) :
    (lock_object s).tdev.object_hash = s.tdev.object_hash := rfl

@[simp] theorem lock_object_object_count (s : State) :
    (lock_object s).tdev.object_count = s.tdev.object_count := rfl

@[simp] theorem lock_object_files (s : State) :
    (lock_object s).files = s.files := rfl

@[simp] theorem lock_object_bases (s : State) :
    (lock_object s).bases = s.bases := rfl

@[simp] theorem lock_object_refs (s : State) :
    (lock_object s).refs = s.refs := rfl

@[simp] theorem lock_object_mem_glob (s : State) :
    (lock_object s).mem_glob = s.mem_glob := rfl

@[simp] theorem lock_object_calls (s : State) :
    (lock_object s).calls = s.calls := rfl

@[simp] theorem unlock_object_object_lock (s : State) :
    (unlock_object s).tdev.object_lock = s.tdev.object_lock - 1 := rfl

@[simp] theorem unlock_object_object_hash (s : State) :
    (unlock_object s).tdev.object_hash = s.tdev.object_hash := rfl

@[simp] theorem unlock_object_object_count (s : State) :
    (unlock_object s).tdev.object_count = s.tdev.object_count := rfl

@[simp] theorem unlock_object_files (s : State) :
    (unlock_object s).files = s.files := rfl

@[simp] theorem unlock_object_bases (s : State) :
    (unlock_object s).bases = s.bases := rfl

@[simp] theorem unlock_object_refs (s : State) :
    (unlock_object s).refs = s.refs := rfl

@[simp] theorem unlock_object_mem_glob (s : State) :
    (unlock_object s).mem_glob = s.mem_glob := rfl

@[simp] theorem unlock_object_calls (s : State) :
    (unlock_object s).calls = s.calls := rfl

@[simp] theorem lockinit_object_object_lock (s : State) :
    (lockinit_object s).tdev.object_lock = 0 := rfl

@[simp] theorem lockinit_object_object_hash (s : State) :
    (lockinit_object s).tdev.object_hash = s.tdev.object_hash := rfl

@[simp] theorem lockinit_object_object_count (s : State) :
    (lockinit_object s).tdev.object_count = s.tdev.object_count := rfl

@[simp] theorem lockinit_object_files (s : State) :
    (lockinit_object s).files = s.files := rfl

@[simp] theorem lockinit_object_bases (s : State) :
    (lockinit_object s).bases = s.bases := rfl

@[simp] theorem lockinit_object_refs (s : State) :
    (lockinit_object s).refs = s.refs := rfl

@[simp] theorem lockinit_object_mem_glob (s : State) :
    (lockinit_object s).mem_glob = s.mem_glob := rfl

@[simp] theorem lockinit_object_calls (s : State) :
    (lockinit_object s).calls = s.calls := rfl

@[simp] theorem set_object_hash_object_lock (s : State) (ht : drm_open_hash) :
    (set_object_hash s ht).tdev.object_lock = s.tdev.object_lock := rfl

@[simp] theorem set_object_hash_object_hash (s : State) (ht : drm_open_hash) :
    (set_object_hash s ht).tdev.object_hash = ht := rfl

@[simp] theorem set_object_hash_object_count (s : State) (ht : drm_open_hash) :
    (set_object_hash s ht).tdev.object_count = s.tdev.object_count := rfl

@[simp] theorem set_object_hash_files (s : State) (ht : drm_open_hash) :
    (set_object_hash s ht).files = s.files := rfl

@[simp] theorem set_object_hash_bases (s : State) (ht : drm_open_hash) :
    (set_object_hash s ht).bases = s.bases := rfl

@[simp] theorem set_object_hash_refs (s : State) (ht : drm_open_hash) :
    (set_object_hash s ht).refs = s.refs := rfl

@[simp] theorem set_object_hash_mem_glob (s : State) (ht : drm_open_hash) :
    (set_object_hash s ht).mem_glob = s.mem_glob := rfl

@[simp] theorem set_object_hash_calls (s : State) (ht : drm_open_hash) :
    (set_object_hash s ht).calls = s.calls := rfl

@[simp] theorem set_file_object_lock (s : State) (t : Nat) (f : ttm_object_file) :
    (set_file s t f).tdev.object_lock = s.tdev.object_lock := rfl

@[simp] theorem set_file_object_hash (s : State) (t : Nat) (f : ttm_object_file) :
    (set_file s t f).tdev.object_hash = s.tdev.object_hash := rfl

@[simp] theorem set_file_object_count (s : State) (t : Nat) (f : ttm_object_file) :
    (set_file s t f).tdev.object_count = s.tdev.object_count := rfl

@[simp] theorem set_file_bases (s : State) (t : Nat) (f : ttm_object_file) :
    (set_file s t f).bases = s.bases := rfl

@[simp] theorem set_file_refs (s : State) (t : Nat) (f : ttm_object_file) :
    (set_file s t f).refs = s.refs := rfl

@[simp] theorem set_file_mem_glob (s : State) (t : Nat) (f : ttm_object_file) :
    (set_file s t f).mem_glob = s.mem_glob := rfl

@[simp] theorem set_file_calls (s : State) (t : Nat) (f : ttm_object_file) :
    (set_file s t f).calls = s.calls := rfl

@[simp] theorem set_base_object_lock (s : State) (b : Nat) (o : ttm_base_object) :
    (set_base s b o).tdev.object_lock = s.tdev.object_lock := rfl

@[simp] theorem set_base_object_hash (s : State) (b : Nat) (o : ttm_base_object) :
    (set_base s b o).tdev.object_hash = s.tdev.object_hash := rfl

@[simp] theorem set_base_object_count (s : State) (b : Nat) (o : ttm_base_object) :
    (set_base s b o).tdev.object_count = s.tdev.object_count := rfl

@[simp] theorem set_base_files (s : State) (b : Nat) (o : ttm_base_object) :
    (set_base s b o).files = s.files := rfl

@[simp] theorem set_base_refs (s : State) (b : Nat) (o : ttm_base_object) :
    (set_base s b o).refs = s.refs := rfl

@[simp] theorem set_base_mem_glob (s : State) (b : Nat) (o : ttm_base_object) :
    (set_base s b o).mem_glob = s.mem_glob := rfl

@[simp] theorem set_base_calls (s : State) (b : Nat) (o : ttm_base_object) :
    (set_base s b o).calls = s.calls := rfl

@[simp] theorem set_ref_object_lock (s : State) (r : Nat) (o : Option ttm_ref_object) :
    (set_ref s r o).tdev.object_lock = s.tdev.object_lock := rfl

@[simp] theorem set_ref_object_hash (s : State) (r : Nat) (o : Option ttm_ref_object) :
    (set_ref s r o).tdev.object_hash = s.tdev.object_hash := rfl

@[simp] theorem set_ref_object_count (s : State) (r : Nat) (o : Option ttm_ref_object) :
    (set_ref s r o).tdev.object_count = s.tdev.object_count := rfl

@[simp] theorem set_ref_files (s : State) (r : Nat) (o : Option ttm_ref_object) :
    (set_ref s r o).files = s.files := rfl

@[simp] theorem set_ref_bases (s : State) (r : Nat) (o : Option ttm_ref_object) :
    (set_ref s r o).bases = s.bases := rfl

@[simp] theorem set_ref_mem_glob (s : State) (r : Nat) (o : Option ttm_ref_object) :
    (set_ref s r o).mem_glob = s.mem_glob := rfl

@[simp] theorem set_ref_calls (s : State) (r : Nat) (o : Option ttm_ref_object) :
    (set_ref s r o).calls = s.calls := rfl

@[simp] theorem lock_file_object_lock (s : State) (t : Nat) :
    (lock_file s t).tdev.object_lock = s.tdev.object_lock := rfl

@[simp] theorem lock_file_object_hash (s : State) (t : Nat) :
    (lock_file s t).tdev.object_hash = s.tdev.object_hash := rfl

@[simp] theorem lock_file_object_count (s : State) (t : Nat) :
    (lock_file s t).tdev.object_count = s.tdev.object_count := rfl

@[simp] theorem lock_file_bases (s : State) (t : Nat) :
    (lock_file s t).bases = s.bases := rfl

@[simp] theorem lock_file_refs (s : State) (t : Nat) :
    (lock_file s t).refs = s.refs := rfl

@[simp] theorem lock_file_mem_glob (s : State) (t : Nat) :
    (lock_file s t).mem_glob = s.mem_glob := rfl

@[simp] theorem lock_file_calls (s : State) (t : Nat) :
    (lock_file s t).calls = s.calls := rfl

@[simp] theorem unlock_file_object_lock (s : State) (t : Nat) :
    (unlock_file s t).tdev.object_lock = s.tdev.object_lock := rfl

@[simp] theorem unlock_file_object_hash (s : State) (t : Nat) :
    (unlock_file s t).tdev.object_hash = s.tdev.object_hash := rfl

@[simp] theorem unlock_file_object_count (s : State) (t : Nat) :
    (unlock_file s t).tdev.object_count = s.tdev.object_count := rfl

@[simp] theorem unlock_file_bases (s : State) (t : Nat) :
    (unlock_file s t).bases = s.bases := rfl

@[simp] theorem unlock_file_refs (s : State) (t : Nat) :
    (unlock_file s t).refs = s.refs := rfl

@[simp] theorem unlock_file_mem_glob (s : State) (t : Nat) :
    (unlock_file s t).mem_glob = s.mem_glob := rfl

@[simp] theorem unlock_file_calls (s : State) (t : Nat) :
    (unlock_file s t).calls = s.calls := rfl

@[simp] theorem call_hook_object_lock (s : State) (c : Callback) :
    (call_hook s c).tdev.object_lock = s.tdev.object_lock := rfl

@[simp] theorem call_hook_object_hash (s : State) (c : Callback) :
    (call_hook s c).tdev.object_hash = s.tdev.object_hash := rfl

@[simp] theorem call_hook_object_count (s : State) (c : Callback) :
    (call_hook s c).tdev.object_count = s.tdev.object_count := rfl

@[simp] theorem call_hook_files (s : State) (c : Callback) :
    (call_hook s c).files = s.files := rfl

@[simp] theorem call_hook_bases (s : State) (c : Callback) :
    (call_hook s c).bases = s.bases := rfl

@[simp] theorem call_hook_refs (s : State) (c : Callback) :
    (call_hook s c).refs = s.refs := rfl

@[simp] theorem call_hook_mem_glob (s : State) (c : Callback) :
    (call_hook s c).mem_glob = s.mem_glob := rfl

@[simp] theorem call_hook_calls (s : State) (c : Callback) :
    (call_hook s c).calls = s.calls ++ [(c, s.toMem)] := rfl

@[simp] theorem ttm_mem_global_free_object_lock (s : State) (n : Nat) :
    (ttm_mem_global_free s n).tdev.object_lock = s.tdev.object_lock := rfl

@[simp] theorem ttm_mem_global_free_object_hash (s : State) (n : Nat) :
    (ttm_mem_global_free s n).tdev.object_hash = s.tdev.object_hash := rfl

@[simp] theorem ttm_mem_global_free_object_count (s : State) (n : Nat) :
    (ttm_mem_global_free s n).tdev.object_count = s.tdev.object_count := rfl

@[simp] theorem ttm_mem_global_free_files (s : State) (n : Nat) :
    (ttm_mem_global_free s n).files = s.files := rfl

@[simp] theorem ttm_mem_global_free_bases (s : State) (n : Nat) :
    (ttm_mem_global_free s n).bases = s.bases := rfl

@[simp] theorem ttm_mem_global_free_refs (s : State) (n : Nat) :
    (ttm_mem_global_free s n).refs = s.refs := rfl

@[simp] theorem ttm_mem_global_free_mem_glob (s : State) (n : Nat) :
    (ttm_mem_global_free s n).mem_glob = s.mem_glob - n := rfl

@[simp] theorem ttm_mem_global_free_calls (s : State) (n : Nat) :
    (ttm_mem_global_free s n).calls = s.calls := rfl

@[simp] theorem ttm_mem_global_alloc_object_lock (s : State) (n : Nat) (ret : Int) :
    (ttm_mem_global_alloc s n ret).tdev.object_lock = s.tdev.object_lock := by
  unfold ttm_mem_global_alloc; split <;> rfl

@[simp] theorem ttm_mem_global_alloc_object_hash (s : State) (n : Nat) (ret : Int) :
    (ttm_mem_global_alloc s n ret).tdev.object_hash = s.tdev.object_hash := by
  unfold ttm_mem_global_alloc; split <;> rfl

@[simp] theorem ttm_mem_global_alloc_object_count (s : State) (n : Nat) (ret : Int) :
    (ttm_mem_global_alloc s n ret).tdev.object_count = s.tdev.object_count := by
  unfold ttm_mem_global_alloc; split <;> rfl

@[simp] theorem ttm_mem_global_alloc_files (s : State) (n : Nat) (ret : Int) :
    (ttm_mem_global_alloc s n ret).files = s.files := by
  unfold ttm_mem_global_alloc; split <;> rfl

@[simp] theorem ttm_mem_global_alloc_bases (s : State) (n : Nat) (ret : Int) :
    (ttm_mem_global_alloc s n ret).bases = s.bases := by
  unfold ttm_mem_global_alloc; split <;> rfl

@[simp] theorem ttm_mem_global_alloc_refs (s : State) (n : Nat) (ret : Int) :
    (ttm_mem_global_alloc s n ret).refs = s.refs := by
  unfold ttm_mem_global_alloc; split <;> rfl

@[simp] theorem ttm_mem_global_alloc_mem_glob (s : State) (n : Nat) (ret : Int) :
    (ttm_mem_global_alloc s n ret).mem_glob = if ret = 0 then s.mem_glob + n else s.mem_glob := by
  unfold ttm_mem_global_alloc; split <;> simp_all

@[simp] theorem ttm_mem_global_alloc_calls (s : State) (n : Nat) (ret : Int) :
    (ttm_mem_global_alloc s n ret).calls = s.calls := by
  unfold ttm_mem_global_alloc; split <;> rfl

@[simp] theorem ttm_object_file_ref_object_lock (s : State) (t : Nat) :
    (ttm_object_file_ref s t).tdev.object_lock = s.tdev.object_lock := rfl

@[simp] theorem ttm_object_file_ref_object_hash (s : State) (t : Nat) :
    (ttm_object_file_ref s t).tdev.object_hash = s.tdev.object_hash := rfl

@[simp] theorem ttm_object_file_ref_object_count (s : State) (t : Nat) :
    (ttm_object_file_ref s t).tdev.object_count = s.tdev.object_count := rfl

@[simp] theorem ttm_object_file_ref_bases (s : State) (t : Nat) :
    (ttm_object_file_ref s t).bases = s.bases := rfl

@[simp] theorem ttm_object_file_ref_refs (s : State) (t : Nat) :
    (ttm_object_file_ref s t).refs = s.refs := rfl

@[simp] theorem ttm_object_file_ref_mem_glob (s : State) (t : Nat) :
    (ttm_object_file_ref s t).mem_glob = s.mem_glob := rfl

@[simp] theorem ttm_object_file_ref_calls (s : State) (t : Nat) :
    (ttm_object_file_ref s t).calls = s.calls := rfl

@[simp] theorem ttm_object_file_unref_object_lock (s : State) (t : Nat) :
    (ttm_object_file_unref s t).tdev.object_lock = s.tdev.object_lock := rfl

@[simp] theorem ttm_object_file_unref_object_hash (s : State) (t : Nat) :
    (ttm_object_file_unref s t).tdev.object_hash = s.tdev.object_hash := rfl

@[simp] theorem ttm_object_file_unref_object_count (s : State) (t : Nat) :
    (ttm_object_file_unref s t).tdev.object_count = s.tdev.object_count := rfl

@[simp] theorem ttm_object_file_unref_bases (s : State) (t : Nat) :
    (ttm_object_file_unref s t).bases = s.bases := rfl

@[simp] theorem ttm_object_file_unref_refs (s : State) (t : Nat) :
    (ttm_object_file_unref s t).refs = s.refs := rfl

@[simp] theorem ttm_object_file_unref_mem_glob (s : State) (t : Nat) :
    (ttm_object_file_unref s t).mem_glob = s.mem_glob := rfl

@[simp] theorem ttm_object_file_unref_calls (s : State) (t : Nat) :
    (ttm_object_file_unref s t).calls = s.calls := rfl

@[simp] theorem set_file_files (s : State) (t : Nat) (f : ttm_object_file) :
    (set_file s t f).files = fun p => if p = t then f else s.files p := rfl

@[simp] theorem set_base_bases (s : State) (b : Nat) (o : ttm_base_object) :
    (set_base s b o).bases = fun p => if p = b then o else s.bases p := rfl

@[simp] theorem set_ref_refs (s : State) (r : Nat) (o : Option ttm_ref_object) :
    (set_ref s r o).refs = fun p => if p = r then o else s.refs p := rfl

@[simp] theorem lock_file_files_lock (s : State) (t p : Nat) :
    ((lock_file s t).files p).lock = if p = t then (s.files t).lock + 1 else (s.files p).lock := by
  unfold lock_file set_file; dsimp only; split <;> simp_all [kref_get, kref_put]

@[simp] theorem lock_file_files_ref_list (s : State) (t p : Nat) :
    ((lock_file s t).files p).ref_list = (s.files p).ref_list := by
  unfold lock_file set_file; dsimp only; split <;> simp_all

@[simp] theorem lock_file_files_ref_hash (s : State) (t p : Nat) :
    ((lock_file s t).files p).ref_hash = (s.files p).ref_hash := by
  unfold lock_file set_file; dsimp only; split <;> simp_all

@[simp] theorem lock_file_files_refcount (s : State) (t p : Nat) :
    ((lock_file s t).files p).refcount = (s.files p).refcount := by
  unfold lock_file set_file; dsimp only; split <;> simp_all

@[simp] theorem unlock_file_files_lock (s : State) (t p : Nat) :
    ((unlock_file s t).files p).lock = if p = t then (s.files t).lock - 1 else (s.files p).lock := by
  unfold unlock_file set_file; dsimp only; split <;> simp_all [kref_get, kref_put]

@[simp] theorem unlock_file_files_ref_list (s : State) (t p : Nat) :
    ((unlock_file s t).files p).ref_list = (s.files p).ref_list := by
  unfold unlock_file set_file; dsimp only; split <;> simp_all

@[simp] theorem unlock_file_files_ref_hash (s : State) (t p : Nat) :
    ((unlock_file s t).files p).ref_hash = (s.files p).ref_hash := by
  unfold unlock_file set_file; dsimp only; split <;> simp_all

@[simp] theorem unlock_file_files_refcount (s : State) (t p : Nat) :
    ((unlock_file s t).files p).refcount = (s.files p).refcount := by
  unfold unlock_file set_file; dsimp only; split <;> simp_all

@[simp] theorem ttm_object_file_ref_files_lock (s : State) (t p : Nat) :
    ((ttm_object_file_ref s t).files p).lock = (s.files p).lock := by
  unfold ttm_object_file_ref set_file; dsimp only; split <;> simp_all

@[simp] theorem ttm_object_file_ref_files_ref_list (s : State) (t p : Nat) :
    ((ttm_object_file_ref s t).files p).ref_list = (s.files p).ref_list := by
  unfold ttm_object_file_ref set_file; dsimp only; split <;> simp_all

@[simp] theorem ttm_object_file_ref_files_ref_hash (s : State) (t p : Nat) :
    ((ttm_object_file_ref s t).files p).ref_hash = (s.files p).ref_hash := by
  unfold ttm_object_file_ref set_file; dsimp only; split <;> simp_all

@[simp] theorem ttm_object_file_ref_files_refcount (s : State) (t p : Nat) :
    ((ttm_object_file_ref s t).files p).refcount = if p = t then (s.files t).refcount + 1 else (s.files p).refcount := by
  unfold ttm_object_file_ref set_file; dsimp only; split <;> simp_all [kref_get, kref_put]

@[simp] theorem ttm_object_file_unref_files_lock (s : State) (t p : Nat) :
    ((ttm_object_file_unref s t).files p).lock = (s.files p).lock := by
  unfold ttm_object_file_unref set_file; dsimp only; split <;> simp_all

@[simp] theorem ttm_object_file_unref_files_ref_list (s : State) (t p : Nat) :
    ((ttm_object_file_unref s t).files p).ref_list = (s.files p).ref_list := by
  unfold ttm_object_file_unref set_file; dsimp only; split <;> simp_all

@[simp] theorem ttm_object_file_unref_files_ref_hash (s : State) (t p : Nat) :
    ((ttm_object_file_unref s t).files p).ref_hash = (s.files p).ref_hash := by
  unfold ttm_object_file_unref set_file; dsimp only; split <;> simp_all

@[simp] theorem ttm_object_file_unref_files_refcount (s : State) (t p : Nat) :
    ((ttm_object_file_unref s t).files p).refcount = if p = t then (s.files t).refcount - 1 else (s.files p).refcount := by
  unfold ttm_object_file_unref set_file; dsimp only; split <;> simp_all [kref_get, kref_put]

@[simp] theorem set_file_tdev (s : State) (t : Nat) (f : ttm_object_file) :
    (set_file s t f).tdev = s.tdev := rfl

@[simp] theorem set_base_tdev (s : State) (b : Nat) (o : ttm_base_object) :
    (set_base s b o).tdev = s.tdev := rfl

@[simp] theorem set_ref_tdev (s : State) (r : Nat) (o : Option ttm_ref_object) :
    (set_ref s r o).tdev = s.tdev := rfl

@[simp] theorem lock_file_tdev (s : State) (t : Nat) :
    (lock_file s t).tdev = s.tdev := rfl

@[simp] theorem unlock_file_tdev (s : State) (t : Nat) :
    (unlock_file s t).tdev = s.tdev := rfl

@[simp] theorem call_hook_tdev (s : State) (c : Callback) :
    (call_hook s c).tdev = s.tdev := rfl

@[simp] theorem ttm_mem_global_free_tdev (s : State) (n : Nat) :
    (ttm_mem_global_free s n).tdev = s.tdev := rfl

@[simp] theorem ttm_object_file_ref_tdev (s : State) (t : Nat) :
    (ttm_object_file_ref s t).tdev = s.tdev := rfl

@[simp] theorem ttm_object_file_unref_tdev (s : State) (t : Nat) :
    (ttm_object_file_unref s t).tdev = s.tdev := rfl

@[simp] theorem ttm_mem_global_alloc_tdev (s : State) (n : Nat) (ret : Int) :
    (ttm_mem_global_alloc s n ret).tdev = s.tdev := by
  unfold ttm_mem_global_alloc; split <;> rfl

@[simp] theorem call_hook_toMem (s : State) (c : Callback) :
    (call_hook s c).toMem = s.toMem := rfl

theorem state_ext_fields {s t : State}
    (h1 : s.tdev.object_lock = t.tdev.object_lock)
    (h2 : s.tdev.object_hash = t.tdev.object_hash)
    (h3 : s.tdev.object_count = t.tdev.object_count)
    (h4 : s.files = t.files) (h5 : s.bases = t.bases) (h6 : s.refs = t.refs)
    (h7 : s.mem_glob = t.mem_glob) (h8 : s.calls = t.calls) : s = t := by
  obtain ⟨⟨⟨_, _, _⟩, _, _, _, _⟩, _⟩ := s
  obtain ⟨⟨⟨_, _, _⟩, _, _, _, _⟩, _⟩ := t
  simp_all

/-! ## Effect of `ttm_base_object_unref`, field by field -/

theorem ttm_base_object_unref_nonzero (s : State) (base : Nat)
    (h : (s.bases base).refcount - 1 ≠ 0) :
    ttm_base_object_unref s base
      = set_base s base { s.bases base with refcount := (s.bases base).refcount - 1 } := by
  apply state_ext_fields <;> simp [ttm_base_object_unref, kref_put, h]

theorem ttm_base_object_unref_refcount (s : State) (base p : Nat) :
    ((ttm_base_object_unref s base).bases p).refcount =
      if p = base then (s.bases base).refcount - 1 else (s.bases p).refcount := by
  simp only [ttm_base_object_unref, ttm_release_base, kref_put]
  cases h : (s.bases base).tfile <;> by_cases hp : p = base <;>
    by_cases hc : (s.bases base).refcount - 1 = 0 <;>
    by_cases hr : (s.bases base).refcount_release = true <;> simp [h, hp, hc, hr]

theorem ttm_base_object_unref_hash_key (s : State) (base p : Nat) :
    ((ttm_base_object_unref s base).bases p).hash_key = (s.bases p).hash_key := by
  simp only [ttm_base_object_unref, ttm_release_base, kref_put]
  cases h : (s.bases base).tfile <;> by_cases hp : p = base <;>
    by_cases hc : (s.bases base).refcount - 1 = 0 <;>
    by_cases hr : (s.bases base).refcount_release = true <;> simp [h, hp, hc, hr]

theorem ttm_base_object_unref_shareable (s : State) (base p : Nat) :
    ((ttm_base_object_unref s base).bases p).shareable = (s.bases p).shareable := by
  simp only [ttm_base_object_unref, ttm_release_base, kref_put]
  cases h : (s.bases base).tfile <;> by_cases hp : p = base <;>
    by_cases hc : (s.bases base).refcount - 1 = 0 <;>
    by_cases hr : (s.bases base).refcount_release = true <;> simp [h, hp, hc, hr]

theorem ttm_base_object_unref_object_type (s : State) (base p : Nat) :
    ((ttm_base_object_unref s base).bases p).object_type = (s.bases p).object_type := by
  simp only [ttm_base_object_unref, ttm_release_base, kref_put]
  cases h : (s.bases base).tfile <;> by_cases hp : p = base <;>
    by_cases hc : (s.bases base).refcount - 1 = 0 <;>
    by_cases hr : (s.bases base).refcount_release = true <;> simp [h, hp, hc, hr]

theorem ttm_base_object_unref_refcount_release (s : State) (base p : Nat) :
    ((ttm_base_object_unref s base).bases p).refcount_release = (s.bases p).refcount_release := by
  simp only [ttm_base_object_unref, ttm_release_base, kref_put]
  cases h : (s.bases base).tfile <;> by_cases hp : p = base <;>
    by_cases hc : (s.bases base).refcount - 1 = 0 <;>
    by_cases hr : (s.bases base).refcount_release = true <;> simp [h, hp, hc, hr]

theorem ttm_base_object_unref_ref_obj_release (s : State) (base p : Nat) :
    ((ttm_base_object_unref s base).bases p).ref_obj_release = (s.bases p).ref_obj_release := by
  simp only [ttm_base_object_unref, ttm_release_base, kref_put]
  cases h : (s.bases base).tfile <;> by_cases hp : p = base <;>
    by_cases hc : (s.bases base).refcount - 1 = 0 <;>
    by_cases hr : (s.bases base).refcount_release = true <;> simp [h, hp, hc, hr]

theorem ttm_base_object_unref_tfile (s : State) (base p : Nat) :
    ((ttm_base_object_unref s base).bases p).tfile =
      if p = base ∧ (s.bases base).refcount - 1 = 0 ∧ (s.bases base).refcount_release = true
      then none else (s.bases p).tfile := by
  simp only [ttm_base_object_unref, ttm_release_base, kref_put]
  cases h : (s.bases base).tfile <;> by_cases hp : p = base <;>
    by_cases hc : (s.bases base).refcount - 1 = 0 <;>
    by_cases hr : (s.bases base).refcount_release = true <;> simp [h, hp, hc, hr]

theorem ttm_base_object_unref_files_lock (s : State) (base p : Nat) :
    ((ttm_base_object_unref s base).files p).lock = (s.files p).lock := by
  simp only [ttm_base_object_unref, ttm_release_base, kref_put]
  cases h : (s.bases base).tfile <;>
    by_cases hc : (s.bases base).refcount - 1 = 0 <;>
    by_cases hr : (s.bases base).refcount_release = true <;> simp [h, hc, hr]

theorem ttm_base_object_unref_files_ref_list (s : State) (base p : Nat) :
    ((ttm_base_object_unref s base).files p).ref_list = (s.files p).ref_list := by
  simp only [ttm_base_object_unref, ttm_release_base, kref_put]
  cases h : (s.bases base).tfile <;>
    by_cases hc : (s.bases base).refcount - 1 = 0 <;>
    by_cases hr : (s.bases base).refcount_release = true <;> simp [h, hc, hr]

theorem ttm_base_object_unref_files_ref_hash (s : State) (base p : Nat) :
    ((ttm_base_object_unref s base).files p).ref_hash = (s.files p).ref_hash := by
  simp only [ttm_base_object_unref, ttm_release_base, kref_put]
  cases h : (s.bases base).tfile <;>
    by_cases hc : (s.bases base).refcount - 1 = 0 <;>
    by_cases hr : (s.bases base).refcount_release = true <;> simp [h, hc, hr]

theorem ttm_base_object_unref_files_refcount (s : State) (base p : Nat) :
    ((ttm_base_object_unref s base).files p).refcount =
      if (s.bases base).tfile = some p ∧ (s.bases base).refcount - 1 = 0 ∧
          (s.bases base).refcount_release = true
      then (s.files p).refcount - 1 else (s.files p).refcount := by
  simp only [ttm_base_object_unref, ttm_release_base, kref_put]
  cases h : (s.bases base).tfile <;>
    by_cases hc : (s.bases base).refcount - 1 = 0 <;>
    by_cases hr : (s.bases base).refcount_release = true <;> simp [h, hc, hr]
  by_cases hp : p = ‹Nat›
  · subst hp; simp
  · have hp' : ¬ ‹Nat› = p := fun e => hp e.symm
    simp [hp, hp']

theorem ttm_base_object_unref_refs (s : State) (base : Nat) :
    (ttm_base_object_unref s base).refs = s.refs := by
  simp only [ttm_base_object_unref, ttm_release_base, kref_put]
  cases h : (s.bases base).tfile <;>
    by_cases hc : (s.bases base).refcount - 1 = 0 <;>
    by_cases hr : (s.bases base).refcount_release = true <;> simp [h, hc, hr]

theorem ttm_base_object_unref_mem_glob (s : State) (base : Nat) :
    (ttm_base_object_unref s base).mem_glob = s.mem_glob := by
  simp only [ttm_base_object_unref, ttm_release_base, kref_put]
  cases h : (s.bases base).tfile <;>
    by_cases hc : (s.bases base).refcount - 1 = 0 <;>
    by_cases hr : (s.bases base).refcount_release = true <;> simp [h, hc, hr]

theorem ttm_base_object_unref_object_lock (s : State) (base : Nat) :
    (ttm_base_object_unref s base).tdev.object_lock = s.tdev.object_lock := by
  simp only [ttm_base_object_unref, ttm_release_base, kref_put]
  cases h : (s.bases base).tfile <;>
    by_cases hc : (s.bases base).refcount - 1 = 0 <;>
    by_cases hr : (s.bases base).refcount_release = true <;> simp [h, hc, hr]

theorem ttm_base_object_unref_object_count (s : State) (base : Nat) :
    (ttm_base_object_unref s base).tdev.object_count = s.tdev.object_count := by
  simp only [ttm_base_object_unref, ttm_release_base, kref_put]
  cases h : (s.bases base).tfile <;>
    by_cases hc : (s.bases base).refcount - 1 = 0 <;>
    by_cases hr : (s.bases base).refcount_release = true <;> simp [h, hc, hr]

theorem ttm_base_object_unref_object_hash (s : State) (base : Nat) :
    (ttm_base_object_unref s base).tdev.object_hash =
      if (s.bases base).refcount - 1 = 0 then drm_ht_remove_item s.tdev.object_hash base
      else s.tdev.object_hash := by
  simp only [ttm_base_object_unref, ttm_release_base, kref_put]
  cases h : (s.bases base).tfile <;>
    by_cases hc : (s.bases base).refcount - 1 = 0 <;>
    by_cases hr : (s.bases base).refcount_release = true <;> simp [h, hc, hr]

theorem ttm_base_object_unref_calls (s : State) (base : Nat) :
    (ttm_base_object_unref s base).calls =
      if (s.bases base).refcount - 1 = 0 ∧ (s.bases base).refcount_release = true then
        s.calls ++ [(Callback.refcount_release base, (ttm_base_object_unref s base).toMem)]
      else s.calls := by
  simp only [ttm_base_object_unref, ttm_release_base, kref_put]
  cases h : (s.bases base).tfile <;>
    by_cases hc : (s.bases base).refcount - 1 = 0 <;>
    by_cases hr : (s.bases base).refcount_release = true <;> simp [h, hc, hr]

/-! ## `ttm_base_object_lookup`, case by case -/

theorem file_ext_fields {f g : ttm_object_file} (h1 : f.lock = g.lock)
    (h2 : f.ref_list = g.ref_list) (h3 : f.ref_hash = g.ref_hash)
    (h4 : f.refcount = g.refcount) : f = g := by
  cases f; cases g; simp_all

theorem base_ext_fields {a b : ttm_base_object} (h1 : a.hash_key = b.hash_key)
    (h2 : a.refcount = b.refcount) (h3 : a.shareable = b.shareable) (h4 : a.tfile = b.tfile)
    (h5 : a.object_type = b.object_type) (h6 : a.refcount_release = b.refcount_release)
    (h7 : a.ref_obj_release = b.ref_obj_release) : a = b := by
  cases a; cases b; simp_all

theorem set_base_self (s : State) (b : Nat) : set_base s b (s.bases b) = s := by
  apply state_ext_fields <;> try rfl
  funext p
  by_cases hp : p = b <;> simp [hp]

theorem ttm_base_object_lookup_absent (s : State) (tfile key : Nat)
    (h : s.tdev.object_hash key = none) :
    ttm_base_object_lookup s tfile key = (none, s) := by
  simp only [ttm_base_object_lookup, drm_ht_find_item, lock_object_object_hash, h]
  rfl

theorem ttm_base_object_lookup_zero (s : State) (tfile key base : Nat)
    (h : s.tdev.object_hash key = some base) (hz : (s.bases base).refcount = 0) :
    ttm_base_object_lookup s tfile key = (none, s) := by
  simp only [ttm_base_object_lookup, drm_ht_find_item, lock_object_object_hash, h,
    kref_get_unless_zero, lock_object_bases, hz]
  simp
  apply state_ext_fields <;> simp
  funext p
  by_cases hp : p = base
  · subst hp; simp; apply base_ext_fields <;> simp [hz]
  · simp [hp]

theorem ttm_base_object_lookup_denied (s : State) (tfile key base : Nat)
    (h : s.tdev.object_hash key = some base) (hz : (s.bases base).refcount ≠ 0)
    (ht : (s.bases base).tfile ≠ some tfile) (hs : (s.bases base).shareable = false) :
    ttm_base_object_lookup s tfile key = (none, s) := by
  have ht' : ¬ some tfile = (s.bases base).tfile := fun e => ht e.symm
  simp only [ttm_base_object_lookup, drm_ht_find_item, lock_object_object_hash, h,
    kref_get_unless_zero, lock_object_bases, hz]
  simp [ht', hs]
  apply state_ext_fields <;>
    try simp [ttm_base_object_unref_object_hash, ttm_base_object_unref_calls,
      ttm_base_object_unref_refs, ttm_base_object_unref_mem_glob,
      ttm_base_object_unref_object_lock, ttm_base_object_unref_object_count, hz]
  · funext p
    apply file_ext_fields <;>
      simp [ttm_base_object_unref_files_lock, ttm_base_object_unref_files_ref_list,
        ttm_base_object_unref_files_ref_hash, ttm_base_object_unref_files_refcount, hz]
  · funext p
    apply base_ext_fields <;>
      simp [ttm_base_object_unref_refcount, ttm_base_object_unref_hash_key,
        ttm_base_object_unref_shareable, ttm_base_object_unref_tfile,
        ttm_base_object_unref_object_type, ttm_base_object_unref_refcount_release,
        ttm_base_object_unref_ref_obj_release, hz] <;>
      by_cases hp : p = base <;> simp [hp, hs]

theorem ttm_base_object_lookup_granted (s : State) (tfile key base : Nat)
    (h : s.tdev.object_hash key = some base) (hz : (s.bases base).refcount ≠ 0)
    (ht : (s.bases base).shareable = true ∨ (s.bases base).tfile = some tfile) :
    ttm_base_object_lookup s tfile key =
      (some base,
        set_base s base { s.bases base with refcount := (s.bases base).refcount + 1 }) := by
  simp only [ttm_base_object_lookup, drm_ht_find_item, lock_object_object_hash, h,
    kref_get_unless_zero, lock_object_bases, hz]
  rcases ht with ht | ht
  · simp [ht]
    apply state_ext_fields <;> simp
  · simp [ht]
    apply state_ext_fields <;> simp

/-! ## Claims on `ttm_base_object_unref` and `ttm_base_object_lookup` -/

/-- C3 (as stated, refuted): in `last_handle_no_hook` the object at address 100 was
registered with a NULL `refcount_release`; `ttm_base_object_unref` takes its count to 0,
yet it is not the case that a `refcount_release` invocation is then recorded. -/
theorem C3_counterexample :
    ¬ (((ttm_base_object_unref last_handle_no_hook 100).bases 100).refcount = 0 →
        ∃ m : Mem, (ttm_base_object_unref last_handle_no_hook 100).calls
          = last_handle_no_hook.calls ++ [(Callback.refcount_release 100, m)]) := by
  intro h
  obtain ⟨m, hm⟩ := h (by decide)
  have hlen := congrArg List.length hm
  have h0 : (ttm_base_object_unref last_handle_no_hook 100).calls.length = 0 := by decide
  have h1 : last_handle_no_hook.calls.length = 0 := by decide
  simp [h0, h1] at hlen

/-- C3 (amended): `ttm_base_object_unref` on a registered object lowers its reference
count by exactly one.  If the result is 0, the object's key is removed from the
directory and, when the object has a `refcount_release` hook, that hook is invoked
exactly once, on a memory whose directory no longer contains the key; without a hook
nothing is invoked.  If the result is positive, the directory is unchanged and nothing
is invoked. -/
theorem C3_ttm_base_object_unref (s : State) (base : Nat)
    (hreg : s.tdev.object_hash (s.bases base).hash_key = some base) :
    ((ttm_base_object_unref s base).bases base).refcount = (s.bases base).refcount - 1 ∧
    (((ttm_base_object_unref s base).bases base).refcount = 0 →
      (ttm_base_object_unref s base).tdev.object_hash (s.bases base).hash_key = none ∧
      ((s.bases base).refcount_release = true →
        ∃ m : Mem, (ttm_base_object_unref s base).calls
            = s.calls ++ [(Callback.refcount_release base, m)] ∧
          m.tdev.object_hash (s.bases base).hash_key = none) ∧
      ((s.bases base).refcount_release = false →
        (ttm_base_object_unref s base).calls = s.calls)) ∧
    (0 < ((ttm_base_object_unref s base).bases base).refcount →
      (ttm_base_object_unref s base).tdev.object_hash = s.tdev.object_hash ∧
      (ttm_base_object_unref s base).calls = s.calls) := by
  have hrc := ttm_base_object_unref_refcount s base base
  simp only [if_true] at hrc
  refine ⟨hrc, ?_, ?_⟩
  · intro h0
    rw [hrc] at h0
    have hdir : (ttm_base_object_unref s base).tdev.object_hash (s.bases base).hash_key
        = none := by
      rw [ttm_base_object_unref_object_hash]
      simp [h0, drm_ht_remove_item, hreg]
    refine ⟨hdir, ?_, ?_⟩
    · intro hr
      refine ⟨(ttm_base_object_unref s base).toMem, ?_, hdir⟩
      rw [ttm_base_object_unref_calls]
      simp [h0, hr]
    · intro hr
      rw [ttm_base_object_unref_calls]
      simp [hr]
  · intro hpos
    rw [hrc] at hpos
    have hne : (s.bases base).refcount - 1 ≠ 0 := by omega
    rw [ttm_base_object_unref_object_hash, ttm_base_object_unref_calls]
    simp [hne]

/-- C3 (witness): the object of `last_handle_no_hook` is registered under its key, and
the unref lowers its count by one. -/
theorem C3_witness :
    last_handle_no_hook.tdev.object_hash (last_handle_no_hook.bases 100).hash_key = some 100 ∧
    ((ttm_base_object_unref last_handle_no_hook 100).bases 100).refcount
      = (last_handle_no_hook.bases 100).refcount - 1 :=
  ⟨by decide, (C3_ttm_base_object_unref last_handle_no_hook 100 (by decide)).1⟩

/-- C4: `ttm_base_object_lookup(tfile, key)` returns `base` exactly when the directory
maps `key` to `base`, the count of `base` is non-zero and `base` is shareable or owned
by `tfile`; and then the count of `base` is one higher, while the directory, every
other base object, every session and every reference record are unchanged. -/
theorem C4_ttm_base_object_lookup (s : State) (tfile key base : Nat) :
    ((ttm_base_object_lookup s tfile key).1 = some base ↔
      s.tdev.object_hash key = some base ∧ (s.bases base).refcount ≠ 0 ∧
        ((s.bases base).shareable = true ∨ (s.bases base).tfile = some tfile)) ∧
    ((ttm_base_object_lookup s tfile key).1 = some base →
      ((ttm_base_object_lookup s tfile key).2.bases base).refcount
          = (s.bases base).refcount + 1 ∧
      (ttm_base_object_lookup s tfile key).2.tdev.object_hash = s.tdev.object_hash ∧
      (∀ p, p ≠ base → (ttm_base_object_lookup s tfile key).2.bases p = s.bases p) ∧
      (ttm_base_object_lookup s tfile key).2.files = s.files ∧
      (ttm_base_object_lookup s tfile key).2.refs = s.refs) := by
  have key_iff : (ttm_base_object_lookup s tfile key).1 = some base ↔
      s.tdev.object_hash key = some base ∧ (s.bases base).refcount ≠ 0 ∧
        ((s.bases base).shareable = true ∨ (s.bases base).tfile = some tfile) := by
    cases hd : s.tdev.object_hash key with
    | none => simp [ttm_base_object_lookup_absent s tfile key hd]
    | some b =>
      by_cases hz : (s.bases b).refcount = 0
      · rw [ttm_base_object_lookup_zero s tfile key b hd hz]
        constructor
        · intro h; simp at h
        · rintro ⟨hb, hnz, -⟩
          have : b = base := by simpa using hb
          subst this; exact absurd hz hnz
      · by_cases hacc : (s.bases b).shareable = true ∨ (s.bases b).tfile = some tfile
        · rw [ttm_base_object_lookup_granted s tfile key b hd hz hacc]
          constructor
          · intro h
            have : b = base := by simpa using h
            subst this; exact ⟨rfl, hz, hacc⟩
          · rintro ⟨hb, -, -⟩
            simpa using hb
        · have hns : (s.bases b).shareable = false := by
            cases hsh : (s.bases b).shareable <;> simp_all
          have hnt : (s.bases b).tfile ≠ some tfile := fun e => hacc (Or.inr e)
          rw [ttm_base_object_lookup_denied s tfile key b hd hz hnt hns]
          constructor
          · intro h; simp at h
          · rintro ⟨hb, -, hacc'⟩
            have : b = base := by simpa using hb
            subst this; exact absurd hacc' hacc
  refine ⟨key_iff, ?_⟩
  intro h
  obtain ⟨hd, hz, hacc⟩ := key_iff.mp h
  rw [ttm_base_object_lookup_granted s tfile key base hd hz hacc]
  refine ⟨by simp, by simp, ?_, by simp, by simp⟩
  intro p hp
  simp [hp]

/-- C5: for a non-shareable object `O` registered under `key` by session `A`, a lookup
of `key` by another session `B` returns NULL and leaves the whole state, so `O`'s
count and the directory, exactly as before the call; a lookup of a key absent from the
directory gives the same result and the same state. -/
theorem C5_lookup_non_shareable (s : State) (A B key O : Nat)
    (hdir : s.tdev.object_hash key = some O) (hown : (s.bases O).tfile = some A)
    (hns : (s.bases O).shareable = false) (hAB : B ≠ A) :
    ttm_base_object_lookup s B key = (none, s) ∧
    ∀ k, s.tdev.object_hash k = none → ttm_base_object_lookup s B k = (none, s) := by
  refine ⟨?_, fun k hk => ttm_base_object_lookup_absent s B k hk⟩
  by_cases hz : (s.bases O).refcount = 0
  · exact ttm_base_object_lookup_zero s B key O hdir hz
  · apply ttm_base_object_lookup_denied s B key O hdir hz _ hns
    rw [hown]
    intro e
    exact hAB (Option.some.inj e).symm


/-! ## `ttm_ref_object_add`, case by case -/

theorem unlock_lock_file (s : State) (t : Nat) : unlock_file (lock_file s t) t = s := by
  apply state_ext_fields <;> try rfl
  funext p
  apply file_ext_fields <;> simp
  by_cases hp : p = t <;> simp [hp]

theorem files_eq_of_fields {s t : State}
    (h1 : ∀ p, (s.files p).lock = (t.files p).lock)
    (h2 : ∀ p, (s.files p).ref_list = (t.files p).ref_list)
    (h3 : ∀ p, (s.files p).ref_hash = (t.files p).ref_hash)
    (h4 : ∀ p, (s.files p).refcount = (t.files p).refcount) : s.files = t.files := by
  funext p
  exact file_ext_fields (h1 p) (h2 p) (h3 p) (h4 p)

/-- The record `ttm_ref_object_add` finds: its count is raised. -/
theorem ttm_ref_object_add_found (size fuel : Nat) (s : State) (tfile base : Nat)
    (ref_type : ttm_ref_type) (existed : Option Bool) (alloc_ret : Int)
    (kmalloc_ret : Option Nat) (ref : Nat) (r : ttm_ref_object)
    (hfind : (s.files tfile).ref_hash ref_type (s.bases base).hash_key = some ref)
    (hr : s.refs ref = some r) :
    ttm_ref_object_add size (fuel + 1) s tfile base ref_type existed alloc_ret kmalloc_ret
      = some (0, existed.map (fun _ => true),
          set_ref s ref (some { r with kref := r.kref + 1 })) := by
  simp only [ttm_ref_object_add, drm_ht_find_item, lock_file_files_ref_hash, lock_file_bases,
    hfind, lock_file_refs, hr, kref_get]
  simp
  apply state_ext_fields <;> try simp
  apply files_eq_of_fields <;> intro p <;> simp
  by_cases hp : p = tfile <;> simp [hp]

/-- No record yet, charge granted, memory obtained: a record with count 1 is linked. -/
theorem ttm_ref_object_add_new (size fuel : Nat) (s : State) (tfile base : Nat)
    (ref_type : ttm_ref_type) (existed : Option Bool) (kmalloc_ret : Option Nat) (ref : Nat)
    (hfind : (s.files tfile).ref_hash ref_type (s.bases base).hash_key = none)
    (hk : kmalloc_ret = some ref) :
    ttm_ref_object_add size (fuel + 1) s tfile base ref_type existed 0 kmalloc_ret
      = some (0, existed.map (fun _ => false),
          link_record size s tfile base ref_type ref) := by
  subst hk
  simp only [ttm_ref_object_add, drm_ht_find_item, lock_file_files_ref_hash, lock_file_bases,
    hfind, kref_get, kref_init, link_record, new_record]
  simp [drm_ht_insert_item, hfind]
  apply state_ext_fields <;> try simp
  funext p
  apply file_ext_fields <;> by_cases hp : p = tfile <;> simp [hp]

@[simp] theorem link_record_refs (size : Nat) (s : State) (tfile base : Nat)
    (ref_type : ttm_ref_type) (ref : Nat) :
    (link_record size s tfile base ref_type ref).refs =
      fun p => if p = ref then some (new_record s tfile base ref_type) else s.refs p := by
  simp [link_record]

@[simp] theorem link_record_ref_list (size : Nat) (s : State) (tfile base : Nat)
    (ref_type : ttm_ref_type) (ref p : Nat) :
    ((link_record size s tfile base ref_type ref).files p).ref_list =
      if p = tfile then (s.files tfile).ref_list ++ [ref] else (s.files p).ref_list := by
  by_cases hp : p = tfile <;> simp [link_record, hp]

@[simp] theorem link_record_ref_hash (size : Nat) (s : State) (tfile base : Nat)
    (ref_type : ttm_ref_type) (ref p : Nat) (t : ttm_ref_type) (k : Nat) :
    ((link_record size s tfile base ref_type ref).files p).ref_hash t k =
      if p = tfile ∧ t = ref_type ∧ k = (s.bases base).hash_key then some ref
      else (s.files p).ref_hash t k := by
  by_cases hp : p = tfile <;> by_cases ht : t = ref_type <;>
    by_cases hk : k = (s.bases base).hash_key <;> simp [link_record, hp, ht, hk]

@[simp] theorem link_record_files_lock (size : Nat) (s : State) (tfile base : Nat)
    (ref_type : ttm_ref_type) (ref p : Nat) :
    ((link_record size s tfile base ref_type ref).files p).lock = (s.files p).lock := by
  by_cases hp : p = tfile <;> simp [link_record, hp]

@[simp] theorem link_record_files_refcount (size : Nat) (s : State) (tfile base : Nat)
    (ref_type : ttm_ref_type) (ref p : Nat) :
    ((link_record size s tfile base ref_type ref).files p).refcount = (s.files p).refcount := by
  by_cases hp : p = tfile <;> simp [link_record, hp]

@[simp] theorem link_record_refcount (size : Nat) (s : State) (tfile base : Nat)
    (ref_type : ttm_ref_type) (ref p : Nat) :
    ((link_record size s tfile base ref_type ref).bases p).refcount =
      if p = base then (s.bases base).refcount + 1 else (s.bases p).refcount := by
  by_cases hp : p = base <;> simp [link_record, hp]

@[simp] theorem link_record_hash_key (size : Nat) (s : State) (tfile base : Nat)
    (ref_type : ttm_ref_type) (ref p : Nat) :
    ((link_record size s tfile base ref_type ref).bases p).hash_key = (s.bases p).hash_key := by
  by_cases hp : p = base <;> simp [link_record, hp]

@[simp] theorem link_record_shareable (size : Nat) (s : State) (tfile base : Nat)
    (ref_type : ttm_ref_type) (ref p : Nat) :
    ((link_record size s tfile base ref_type ref).bases p).shareable = (s.bases p).shareable := by
  by_cases hp : p = base <;> simp [link_record, hp]

@[simp] theorem link_record_tfile (size : Nat) (s : State) (tfile base : Nat)
    (ref_type : ttm_ref_type) (ref p : Nat) :
    ((link_record size s tfile base ref_type ref).bases p).tfile = (s.bases p).tfile := by
  by_cases hp : p = base <;> simp [link_record, hp]

@[simp] theorem link_record_object_type (size : Nat) (s : State) (tfile base : Nat)
    (ref_type : ttm_ref_type) (ref p : Nat) :
    ((link_record size s tfile base ref_type ref).bases p).object_type = (s.bases p).object_type := by
  by_cases hp : p = base <;> simp [link_record, hp]

@[simp] theorem link_record_refcount_release (size : Nat) (s : State) (tfile base : Nat)
    (ref_type : ttm_ref_type) (ref p : Nat) :
    ((link_record size s tfile base ref_type ref).bases p).refcount_release = (s.bases p).refcount_release := by
  by_cases hp : p = base <;> simp [link_record, hp]

@[simp] theorem link_record_ref_obj_release (size : Nat) (s : State) (tfile base : Nat)
    (ref_type : ttm_ref_type) (ref p : Nat) :
    ((link_record size s tfile base ref_type ref).bases p).ref_obj_release = (s.bases p).ref_obj_release := by
  by_cases hp : p = base <;> simp [link_record, hp]

@[simp] theorem link_record_tdev (size : Nat) (s : State) (tfile base : Nat)
    (ref_type : ttm_ref_type) (ref : Nat) :
    (link_record size s tfile base ref_type ref).tdev = s.tdev := by
  simp [link_record]

@[simp] theorem link_record_mem_glob (size : Nat) (s : State) (tfile base : Nat)
    (ref_type : ttm_ref_type) (ref : Nat) :
    (link_record size s tfile base ref_type ref).mem_glob = s.mem_glob + size := by
  simp [link_record]

@[simp] theorem link_record_calls (size : Nat) (s : State) (tfile base : Nat)
    (ref_type : ttm_ref_type) (ref : Nat) :
    (link_record size s tfile base ref_type ref).calls = s.calls := by
  simp [link_record]

/-- No record yet and the charge is denied: the error is returned, nothing changes. -/
theorem ttm_ref_object_add_denied (size fuel : Nat) (s : State) (tfile base : Nat)
    (ref_type : ttm_ref_type) (existed : Option Bool) (alloc_ret : Int)
    (kmalloc_ret : Option Nat)
    (hfind : (s.files tfile).ref_hash ref_type (s.bases base).hash_key = none)
    (hden : alloc_ret ≠ 0) :
    ttm_ref_object_add size (fuel + 1) s tfile base ref_type existed alloc_ret kmalloc_ret
      = some (alloc_ret, existed.map (fun _ => true), s) := by
  simp only [ttm_ref_object_add, drm_ht_find_item, lock_file_files_ref_hash, lock_file_bases,
    hfind]
  simp [hden, ttm_mem_global_alloc, unlock_lock_file]

/-- No record yet, charge granted, but `kmalloc` fails: the charge is given back. -/
theorem ttm_ref_object_add_nomem (size fuel : Nat) (s : State) (tfile base : Nat)
    (ref_type : ttm_ref_type) (existed : Option Bool)
    (hfind : (s.files tfile).ref_hash ref_type (s.bases base).hash_key = none) :
    ttm_ref_object_add size (fuel + 1) s tfile base ref_type existed 0 none
      = some (-ENOMEM, existed.map (fun _ => true), s) := by
  simp only [ttm_ref_object_add, drm_ht_find_item, lock_file_files_ref_hash, lock_file_bases,
    hfind]
  simp [unlock_lock_file]
  apply state_ext_fields <;> simp

theorem set_ref_self (s : State) (r : Nat) (o : Option ttm_ref_object) (h : s.refs r = o) :
    set_ref s r o = s := by
  apply state_ext_fields <;> try rfl
  funext p
  by_cases hp : p = r <;> simp [hp, h]

theorem set_ref_set_ref (s : State) (r : Nat) (a b : Option ttm_ref_object) :
    set_ref (set_ref s r a) r b = set_ref s r b := by
  apply state_ext_fields <;> try rfl
  funext p
  by_cases hp : p = r <;> simp [hp]

/-- Repeated acquisition of a record that exists only raises its count. -/
theorem ttm_ref_object_add_seq_found (size fuel : Nat) (tfile base : Nat)
    (ref_type : ttm_ref_type) (ref : Nat)
    (es : List (Option Bool × Int × Option Nat)) :
    ∀ (s : State) (r : ttm_ref_object),
      (s.files tfile).ref_hash ref_type (s.bases base).hash_key = some ref →
      s.refs ref = some r →
      ttm_ref_object_add_seq size (fuel + 1) s tfile base ref_type es
        = some (set_ref s ref (some { r with kref := r.kref + es.length })) := by
  induction es with
  | nil =>
    intro s r _ hr
    simp only [ttm_ref_object_add_seq, List.length_nil, Nat.cast_zero, add_zero]
    rw [set_ref_self s ref _ hr]
  | cons e es ih =>
    intro s r hfind hr
    simp only [ttm_ref_object_add_seq]
    rw [ttm_ref_object_add_found size fuel s tfile base ref_type e.1 e.2.1 e.2.2 ref r hfind hr]
    simp only [if_true]
    rw [ih (set_ref s ref (some { r with kref := r.kref + 1 })) { r with kref := r.kref + 1 }
      (by simpa using hfind) (by simp)]
    rw [set_ref_set_ref]
    simp only [List.length_cons, Nat.cast_add, Nat.cast_one]
    congr 4
    omega

theorem is_record_congr (s s' : State) (key : Nat) (t : ttm_ref_type) (p : Nat)
    (h : s'.refs p = s.refs p) : is_record s' key t p = is_record s key t p := by
  simp [is_record, h]

theorem filter_is_record_congr (s s' : State) (key : Nat) (t : ttm_ref_type) (l : List Nat)
    (h : ∀ p ∈ l, s'.refs p = s.refs p) :
    l.filter (is_record s' key t) = l.filter (is_record s key t) :=
  List.filter_congr fun p hp => is_record_congr s s' key t p (h p hp)

/-- The table hit is a dangling pointer: the call returns 0 all the same. -/
theorem ttm_ref_object_add_found_freed (size fuel : Nat) (s : State) (tfile base : Nat)
    (ref_type : ttm_ref_type) (existed : Option Bool) (alloc_ret : Int)
    (kmalloc_ret : Option Nat) (ref : Nat)
    (hfind : (s.files tfile).ref_hash ref_type (s.bases base).hash_key = some ref)
    (hr : s.refs ref = none) :
    ttm_ref_object_add size (fuel + 1) s tfile base ref_type existed alloc_ret kmalloc_ret
      = some (0, existed.map (fun _ => true), s) := by
  simp only [ttm_ref_object_add, drm_ht_find_item, lock_file_files_ref_hash, lock_file_bases,
    hfind, lock_file_refs, hr]
  simp [unlock_lock_file]

/-- With a table hit the call returns 0, reports `existed = true`, and changes neither
the tables, the lists, the keys nor which records are live. -/
theorem ttm_ref_object_add_hit (size fuel : Nat) (s : State) (tfile base : Nat)
    (ref_type : ttm_ref_type) (existed : Option Bool) (alloc_ret : Int)
    (kmalloc_ret : Option Nat) (ref : Nat)
    (hfind : (s.files tfile).ref_hash ref_type (s.bases base).hash_key = some ref) :
    ∃ s', ttm_ref_object_add size (fuel + 1) s tfile base ref_type existed alloc_ret
        kmalloc_ret = some (0, existed.map (fun _ => true), s') ∧
      s'.files = s.files ∧ s'.bases = s.bases ∧ s'.tdev = s.tdev ∧
      s'.mem_glob = s.mem_glob ∧ s'.calls = s.calls ∧
      (∀ p, p ≠ ref → s'.refs p = s.refs p) ∧
      (∀ key t p, is_record s' key t p = is_record s key t p) := by
  cases hr : s.refs ref with
  | none =>
    exact ⟨s, ttm_ref_object_add_found_freed size fuel s tfile base ref_type existed alloc_ret
      kmalloc_ret ref hfind hr, rfl, rfl, rfl, rfl, rfl, fun _ _ => rfl, fun _ _ _ => rfl⟩
  | some r =>
    refine ⟨_, ttm_ref_object_add_found size fuel s tfile base ref_type existed alloc_ret
      kmalloc_ret ref r hfind hr, by simp, by simp, by simp, by simp, by simp, ?_, ?_⟩
    · intro p hp; simp [hp]
    · intro key t p
      by_cases hp : p = ref
      · subst hp; simp [is_record, hr]
      · simp [is_record, hp]

/-- C10: with a non-NULL `existed` pointer, `ttm_ref_object_add` returns; it returns 0
exactly when the session's table of that type already held the key, or the charge is
granted and `kmalloc` returns memory; and when it returns 0 the cell holds a value,
which is `true` exactly when the table already held the key.  Moreover, when the record
list and the table agree on that key and `kmalloc` returns memory that is not on the
list, a second acquisition right after a successful one returns 0, reports
`existed = true`, and the session has exactly one record for the key and type. -/
theorem C10_ttm_ref_object_add_existed (size fuel : Nat) (s : State) (tfile base : Nat)
    (ref_type : ttm_ref_type) (c : Bool) (alloc_ret : Int) (kmalloc_ret : Option Nat) :
    ∃ ret e s', ttm_ref_object_add size (fuel + 1) s tfile base ref_type (some c) alloc_ret
        kmalloc_ret = some (ret, e, s') ∧
      (ret = 0 ↔
        (((s.files tfile).ref_hash ref_type (s.bases base).hash_key).isSome = true ∨
          (alloc_ret = 0 ∧ ∃ ref, kmalloc_ret = some ref))) ∧
      (ret = 0 → ∃ b, e = some b ∧
        (b = true ↔
          ((s.files tfile).ref_hash ref_type (s.bases base).hash_key).isSome = true)) ∧
      (ret = 0 →
        record_count s tfile (s.bases base).hash_key ref_type
          = (if ((s.files tfile).ref_hash ref_type (s.bases base).hash_key).isSome = true
              then 1 else 0) →
        (∀ r, kmalloc_ret = some r → r ∉ (s.files tfile).ref_list) →
        ∀ (c2 : Bool) (a2 : Int) (k2 : Option Nat),
          ∃ s'', ttm_ref_object_add size (fuel + 1) s' tfile base ref_type (some c2) a2 k2
              = some (0, some true, s'') ∧
            record_count s'' tfile (s.bases base).hash_key ref_type = 1) := by
  cases hfind : (s.files tfile).ref_hash ref_type (s.bases base).hash_key with
  | some ref =>
    obtain ⟨s', hadd, hfiles, hbases, -, -, -, -, hrec⟩ :=
      ttm_ref_object_add_hit size fuel s tfile base ref_type (some c) alloc_ret kmalloc_ret
        ref hfind
    refine ⟨0, some true, s', by simpa using hadd, by simp, fun _ => ⟨true, rfl, by simp⟩,
      ?_⟩
    intro _ hcons _ c2 a2 k2
    have hfind' : (s'.files tfile).ref_hash ref_type (s'.bases base).hash_key = some ref := by
      rw [hfiles, hbases]; exact hfind
    obtain ⟨s'', hadd2, hfiles2, -, -, -, -, -, hrec2⟩ :=
      ttm_ref_object_add_hit size fuel s' tfile base ref_type (some c2) a2 k2 ref hfind'
    refine ⟨s'', by simpa using hadd2, ?_⟩
    have h1 : record_count s'' tfile (s.bases base).hash_key ref_type
        = record_count s tfile (s.bases base).hash_key ref_type := by
      simp only [record_count, hfiles2, hfiles]
      congr 1
      apply List.filter_congr
      intro p _
      rw [hrec2, hrec]
    rw [h1, hcons]; simp
  | none =>
    by_cases ha : alloc_ret = 0
    · subst ha
      cases hk : kmalloc_ret with
      | none =>
        refine ⟨-ENOMEM, some true, s, ?_, ?_, ?_, ?_⟩
        · simpa using ttm_ref_object_add_nomem size fuel s tfile base ref_type (some c) hfind
        · simp [ENOMEM]
        · intro h; simp [ENOMEM] at h
        · intro h; simp [ENOMEM] at h
      | some ref =>
        refine ⟨0, some false, link_record size s tfile base ref_type ref, ?_, ?_, ?_, ?_⟩
        · simpa using ttm_ref_object_add_new size fuel s tfile base ref_type (some c)
            (some ref) ref hfind rfl
        · simp
        · intro _; exact ⟨false, rfl, by simp⟩
        · intro _ hcons hfresh c2 a2 k2
          have hfind' : ((link_record size s tfile base ref_type ref).files tfile).ref_hash
              ref_type ((link_record size s tfile base ref_type ref).bases base).hash_key
              = some ref := by simp
          obtain ⟨s'', hadd2, hfiles2, -, -, -, -, -, hrec2⟩ :=
            ttm_ref_object_add_hit size fuel (link_record size s tfile base ref_type ref)
              tfile base ref_type (some c2) a2 k2 ref hfind'
          refine ⟨s'', by simpa using hadd2, ?_⟩
          simp only [record_count, hfiles2, link_record_ref_list, if_true, List.filter_append]
          have hold : (s.files tfile).ref_list.filter
              (is_record s'' (s.bases base).hash_key ref_type)
              = (s.files tfile).ref_list.filter
                  (is_record s (s.bases base).hash_key ref_type) := by
            apply List.filter_congr
            intro p hp
            have hpr : p ≠ ref := fun h => hfresh ref rfl (h ▸ hp)
            rw [hrec2]
            apply is_record_congr
            simp [hpr]
          rw [hold]
          simp only [record_count] at hcons
          have hr : is_record s'' (s.bases base).hash_key ref_type ref = true := by
            rw [hrec2]; simp [is_record, new_record]
          simp at hcons
          simp [hr]
          exact hcons
    · refine ⟨alloc_ret, some true, s, ?_, ?_, fun h => absurd h ha, fun h => absurd h ha⟩
      · simpa using ttm_ref_object_add_denied size fuel s tfile base ref_type (some c)
          alloc_ret kmalloc_ret hfind ha
      · simp [ha]

/-! ## Effect of `ttm_ref_object_release`, field by field -/

theorem ttm_ref_object_release_refs (size : Nat) (s : State) (ref : Nat) (r : ttm_ref_object) (base : Nat)
    (hr : s.refs ref = some r) (hobj : r.obj = some base) :
    (ttm_ref_object_release size s ref).refs = fun p => if p = ref then none else s.refs p := by
  simp only [ttm_ref_object_release, hr, hobj]
  by_cases hh : r.ref_type ≠ TTM_REF_USAGE ∧ (s.bases base).ref_obj_release = true <;>
  simp [hh, ttm_base_object_unref_refs, ttm_base_object_unref_mem_glob,
    ttm_base_object_unref_object_lock, ttm_base_object_unref_object_count,
    ttm_base_object_unref_object_hash, ttm_base_object_unref_refcount,
    ttm_base_object_unref_hash_key, ttm_base_object_unref_shareable,
    ttm_base_object_unref_object_type, ttm_base_object_unref_refcount_release,
    ttm_base_object_unref_ref_obj_release, ttm_base_object_unref_tfile,
    ttm_base_object_unref_files_lock, ttm_base_object_unref_files_ref_list,
    ttm_base_object_unref_files_ref_hash, ttm_base_object_unref_files_refcount]
  all_goals
    funext p
    by_cases hp : p = ref <;> simp [hp]

theorem ttm_ref_object_release_mem_glob (size : Nat) (s : State) (ref : Nat) (r : ttm_ref_object) (base : Nat)
    (hr : s.refs ref = some r) (hobj : r.obj = some base) :
    (ttm_ref_object_release size s ref).mem_glob = s.mem_glob - size := by
  simp only [ttm_ref_object_release, hr, hobj]
  by_cases hh : r.ref_type ≠ TTM_REF_USAGE ∧ (s.bases base).ref_obj_release = true <;>
  simp [hh, ttm_base_object_unref_refs, ttm_base_object_unref_mem_glob,
    ttm_base_object_unref_object_lock, ttm_base_object_unref_object_count,
    ttm_base_object_unref_object_hash, ttm_base_object_unref_refcount,
    ttm_base_object_unref_hash_key, ttm_base_object_unref_shareable,
    ttm_base_object_unref_object_type, ttm_base_object_unref_refcount_release,
    ttm_base_object_unref_ref_obj_release, ttm_base_object_unref_tfile,
    ttm_base_object_unref_files_lock, ttm_base_object_unref_files_ref_list,
    ttm_base_object_unref_files_ref_hash, ttm_base_object_unref_files_refcount]

theorem ttm_ref_object_release_object_lock (size : Nat) (s : State) (ref : Nat) (r : ttm_ref_object) (base : Nat)
    (hr : s.refs ref = some r) (hobj : r.obj = some base) :
    (ttm_ref_object_release size s ref).tdev.object_lock = s.tdev.object_lock := by
  simp only [ttm_ref_object_release, hr, hobj]
  by_cases hh : r.ref_type ≠ TTM_REF_USAGE ∧ (s.bases base).ref_obj_release = true <;>
  simp [hh, ttm_base_object_unref_refs, ttm_base_object_unref_mem_glob,
    ttm_base_object_unref_object_lock, ttm_base_object_unref_object_count,
    ttm_base_object_unref_object_hash, ttm_base_object_unref_refcount,
    ttm_base_object_unref_hash_key, ttm_base_object_unref_shareable,
    ttm_base_object_unref_object_type, ttm_base_object_unref_refcount_release,
    ttm_base_object_unref_ref_obj_release, ttm_base_object_unref_tfile,
    ttm_base_object_unref_files_lock, ttm_base_object_unref_files_ref_list,
    ttm_base_object_unref_files_ref_hash, ttm_base_object_unref_files_refcount]

theorem ttm_ref_object_release_object_hash (size : Nat) (s : State) (ref : Nat) (r : ttm_ref_object) (base : Nat)
    (hr : s.refs ref = some r) (hobj : r.obj = some base) :
    (ttm_ref_object_release size s ref).tdev.object_hash =
      if (s.bases base).refcount - 1 = 0 then drm_ht_remove_item s.tdev.object_hash base
      else s.tdev.object_hash := by
  simp only [ttm_ref_object_release, hr, hobj]
  by_cases hh : r.ref_type ≠ TTM_REF_USAGE ∧ (s.bases base).ref_obj_release = true <;>
  simp [hh, ttm_base_object_unref_refs, ttm_base_object_unref_mem_glob,
    ttm_base_object_unref_object_lock, ttm_base_object_unref_object_count,
    ttm_base_object_unref_object_hash, ttm_base_object_unref_refcount,
    ttm_base_object_unref_hash_key, ttm_base_object_unref_shareable,
    ttm_base_object_unref_object_type, ttm_base_object_unref_refcount_release,
    ttm_base_object_unref_ref_obj_release, ttm_base_object_unref_tfile,
    ttm_base_object_unref_files_lock, ttm_base_object_unref_files_ref_list,
    ttm_base_object_unref_files_ref_hash, ttm_base_object_unref_files_refcount]

theorem ttm_ref_object_release_refcount (size : Nat) (s : State) (ref : Nat) (r : ttm_ref_object) (base : Nat)
    (hr : s.refs ref = some r) (hobj : r.obj = some base) (p : Nat) :
    ((ttm_ref_object_release size s ref).bases p).refcount =
      if p = base then (s.bases base).refcount - 1 else (s.bases p).refcount := by
  simp only [ttm_ref_object_release, hr, hobj]
  by_cases hh : r.ref_type ≠ TTM_REF_USAGE ∧ (s.bases base).ref_obj_release = true <;>
  simp [hh, ttm_base_object_unref_refs, ttm_base_object_unref_mem_glob,
    ttm_base_object_unref_object_lock, ttm_base_object_unref_object_count,
    ttm_base_object_unref_object_hash, ttm_base_object_unref_refcount,
    ttm_base_object_unref_hash_key, ttm_base_object_unref_shareable,
    ttm_base_object_unref_object_type, ttm_base_object_unref_refcount_release,
    ttm_base_object_unref_ref_obj_release, ttm_base_object_unref_tfile,
    ttm_base_object_unref_files_lock, ttm_base_object_unref_files_ref_list,
    ttm_base_object_unref_files_ref_hash, ttm_base_object_unref_files_refcount]

theorem ttm_ref_object_release_hash_key (size : Nat) (s : State) (ref : Nat) (r : ttm_ref_object) (base : Nat)
    (hr : s.refs ref = some r) (hobj : r.obj = some base) (p : Nat) :
    ((ttm_ref_object_release size s ref).bases p).hash_key = (s.bases p).hash_key := by
  simp only [ttm_ref_object_release, hr, hobj]
  by_cases hh : r.ref_type ≠ TTM_REF_USAGE ∧ (s.bases base).ref_obj_release = true <;>
  simp [hh, ttm_base_object_unref_refs, ttm_base_object_unref_mem_glob,
    ttm_base_object_unref_object_lock, ttm_base_object_unref_object_count,
    ttm_base_object_unref_object_hash, ttm_base_object_unref_refcount,
    ttm_base_object_unref_hash_key, ttm_base_object_unref_shareable,
    ttm_base_object_unref_object_type, ttm_base_object_unref_refcount_release,
    ttm_base_object_unref_ref_obj_release, ttm_base_object_unref_tfile,
    ttm_base_object_unref_files_lock, ttm_base_object_unref_files_ref_list,
    ttm_base_object_unref_files_ref_hash, ttm_base_object_unref_files_refcount]

theorem ttm_ref_object_release_ref_list (size : Nat) (s : State) (ref : Nat) (r : ttm_ref_object) (base : Nat)
    (hr : s.refs ref = some r) (hobj : r.obj = some base) (p : Nat) :
    ((ttm_ref_object_release size s ref).files p).ref_list =
      if p = r.tfile then (s.files p).ref_list.erase ref else (s.files p).ref_list := by
  simp only [ttm_ref_object_release, hr, hobj]
  by_cases hh : r.ref_type ≠ TTM_REF_USAGE ∧ (s.bases base).ref_obj_release = true <;>
  simp [hh, ttm_base_object_unref_refs, ttm_base_object_unref_mem_glob,
    ttm_base_object_unref_object_lock, ttm_base_object_unref_object_count,
    ttm_base_object_unref_object_hash, ttm_base_object_unref_refcount,
    ttm_base_object_unref_hash_key, ttm_base_object_unref_shareable,
    ttm_base_object_unref_object_type, ttm_base_object_unref_refcount_release,
    ttm_base_object_unref_ref_obj_release, ttm_base_object_unref_tfile,
    ttm_base_object_unref_files_lock, ttm_base_object_unref_files_ref_list,
    ttm_base_object_unref_files_ref_hash, ttm_base_object_unref_files_refcount]
  all_goals by_cases hp : p = r.tfile <;> simp [hp]

theorem ttm_ref_object_release_ref_hash (size : Nat) (s : State) (ref : Nat) (r : ttm_ref_object) (base : Nat)
    (hr : s.refs ref = some r) (hobj : r.obj = some base) (p : Nat)
    (t : ttm_ref_type) (k : Nat) :
    ((ttm_ref_object_release size s ref).files p).ref_hash t k =
      if p = r.tfile ∧ t = r.ref_type ∧ (s.files p).ref_hash t k = some ref then none
      else (s.files p).ref_hash t k := by
  simp only [ttm_ref_object_release, hr, hobj]
  by_cases hh : r.ref_type ≠ TTM_REF_USAGE ∧ (s.bases base).ref_obj_release = true <;>
  simp [hh, ttm_base_object_unref_refs, ttm_base_object_unref_mem_glob,
    ttm_base_object_unref_object_lock, ttm_base_object_unref_object_count,
    ttm_base_object_unref_object_hash, ttm_base_object_unref_refcount,
    ttm_base_object_unref_hash_key, ttm_base_object_unref_shareable,
    ttm_base_object_unref_object_type, ttm_base_object_unref_refcount_release,
    ttm_base_object_unref_ref_obj_release, ttm_base_object_unref_tfile,
    ttm_base_object_unref_files_lock, ttm_base_object_unref_files_ref_list,
    ttm_base_object_unref_files_ref_hash, ttm_base_object_unref_files_refcount]
  all_goals
    by_cases hp : p = r.tfile <;> by_cases ht : t = r.ref_type <;>
      simp [hp, ht, drm_ht_remove_item]

theorem ttm_ref_object_release_files_lock (size : Nat) (s : State) (ref : Nat) (r : ttm_ref_object) (base : Nat)
    (hr : s.refs ref = some r) (hobj : r.obj = some base) (p : Nat) :
    ((ttm_ref_object_release size s ref).files p).lock =
      if p = r.tfile then (s.files p).lock - 1 + 1 else (s.files p).lock := by
  simp only [ttm_ref_object_release, hr, hobj]
  by_cases hh : r.ref_type ≠ TTM_REF_USAGE ∧ (s.bases base).ref_obj_release = true <;>
  simp [hh, ttm_base_object_unref_refs, ttm_base_object_unref_mem_glob,
    ttm_base_object_unref_object_lock, ttm_base_object_unref_object_count,
    ttm_base_object_unref_object_hash, ttm_base_object_unref_refcount,
    ttm_base_object_unref_hash_key, ttm_base_object_unref_shareable,
    ttm_base_object_unref_object_type, ttm_base_object_unref_refcount_release,
    ttm_base_object_unref_ref_obj_release, ttm_base_object_unref_tfile,
    ttm_base_object_unref_files_lock, ttm_base_object_unref_files_ref_list,
    ttm_base_object_unref_files_ref_hash, ttm_base_object_unref_files_refcount]
  all_goals by_cases hp : p = r.tfile <;> simp [hp]

/-! ## `ttm_ref_object_base_unref` -/

theorem ttm_ref_object_base_unref_absent (size : Nat) (s : State) (tfile key : Nat)
    (ref_type : ttm_ref_type) (h : (s.files tfile).ref_hash ref_type key = none) :
    ttm_ref_object_base_unref size s tfile key ref_type = (-EINVAL, s) := by
  simp only [ttm_ref_object_base_unref, drm_ht_find_item, lock_file_files_ref_hash, h]
  rw [unlock_lock_file]

/-- The record's count stays non-zero: only the count changes. -/
theorem ttm_ref_object_base_unref_keep (size : Nat) (s : State) (tfile key : Nat)
    (ref_type : ttm_ref_type) (ref : Nat) (r : ttm_ref_object)
    (hfind : (s.files tfile).ref_hash ref_type key = some ref)
    (hr : s.refs ref = some r) (hc : r.kref ≠ 1) :
    ttm_ref_object_base_unref size s tfile key ref_type
      = (0, set_ref s ref (some { r with kref := r.kref - 1 })) := by
  have hc' : ¬ r.kref - 1 = 0 := by omega
  simp only [ttm_ref_object_base_unref, drm_ht_find_item, lock_file_files_ref_hash, hfind,
    lock_file_refs, hr, kref_put]
  simp [hc']
  apply state_ext_fields <;> try simp
  funext p
  apply file_ext_fields <;> by_cases hp : p = tfile <;> simp [hp]

/-- The record's count reaches zero: the state is that of `ttm_ref_object_release`,
run with the session lock held. -/
theorem ttm_ref_object_base_unref_last (size : Nat) (s : State) (tfile key : Nat)
    (ref_type : ttm_ref_type) (ref : Nat) (r : ttm_ref_object)
    (hfind : (s.files tfile).ref_hash ref_type key = some ref)
    (hr : s.refs ref = some r) (hc : r.kref = 1) :
    ttm_ref_object_base_unref size s tfile key ref_type
      = (0, unlock_file (ttm_ref_object_release size
          (set_ref (lock_file s tfile) ref (some { r with kref := 0 })) ref) tfile) := by
  simp only [ttm_ref_object_base_unref, drm_ht_find_item, lock_file_files_ref_hash, hfind,
    lock_file_refs, hr, kref_put]
  simp [hc]

/-- C6: when session `tfile` holds, under `key` in the table of `ref_type`, a record of
internal count `c` that belongs to it, `ttm_ref_object_base_unref` returns 0.  If
`c` is not 1, the only change is that the record's count is `c - 1`: table, list, base
object and charge are as before.  If `c = 1`, the count is set to 0 and the record is
torn down by `ttm_ref_object_release`: it is freed and removed from the table and from
the list, the base object's count is one lower and `size` is uncharged. -/
theorem C6_ttm_ref_object_base_unref (size : Nat) (s : State) (tfile key : Nat)
    (ref_type : ttm_ref_type) (ref : Nat) (r : ttm_ref_object) (base : Nat)
    (hfind : (s.files tfile).ref_hash ref_type key = some ref)
    (hr : s.refs ref = some r) (htf : r.tfile = tfile) (hty : r.ref_type = ref_type)
    (hobj : r.obj = some base) :
    (ttm_ref_object_base_unref size s tfile key ref_type).1 = 0 ∧
    (r.kref ≠ 1 →
      (ttm_ref_object_base_unref size s tfile key ref_type).2
        = set_ref s ref (some { r with kref := r.kref - 1 })) ∧
    (r.kref = 1 →
      (ttm_ref_object_base_unref size s tfile key ref_type).2
        = unlock_file (ttm_ref_object_release size
            (set_ref (lock_file s tfile) ref (some { r with kref := 0 })) ref) tfile ∧
      (ttm_ref_object_base_unref size s tfile key ref_type).2.refs ref = none ∧
      ((ttm_ref_object_base_unref size s tfile key ref_type).2.files tfile).ref_hash
        ref_type key = none ∧
      ((ttm_ref_object_base_unref size s tfile key ref_type).2.files tfile).ref_list
        = (s.files tfile).ref_list.erase ref ∧
      ((ttm_ref_object_base_unref size s tfile key ref_type).2.bases base).refcount
        = (s.bases base).refcount - 1 ∧
      (ttm_ref_object_base_unref size s tfile key ref_type).2.mem_glob
        = s.mem_glob - size) := by
  subst htf hty
  by_cases hc : r.kref = 1
  · have hr' : (set_ref (lock_file s r.tfile) ref (some { r with kref := 0 })).refs ref
        = some { r with kref := 0 } := by simp
    rw [ttm_ref_object_base_unref_last size s r.tfile key r.ref_type ref r hfind hr hc]
    refine ⟨rfl, fun h => absurd hc h, fun _ => ⟨rfl, ?_, ?_, ?_, ?_, ?_⟩⟩
    · simp [ttm_ref_object_release_refs size _ ref _ base hr' hobj]
    · simp [ttm_ref_object_release_ref_hash size _ ref _ base hr' hobj, hfind]
    · simp [ttm_ref_object_release_ref_list size _ ref _ base hr' hobj]
    · simp [ttm_ref_object_release_refcount size _ ref _ base hr' hobj]
    · simp [ttm_ref_object_release_mem_glob size _ ref _ base hr' hobj]
  · rw [ttm_ref_object_base_unref_keep size s r.tfile key r.ref_type ref r hfind hr hc]
    exact ⟨rfl, fun _ => rfl, fun h => absurd h hc⟩

/-! ## `ttm_base_object_init` -/

theorem ttm_base_object_init_no_key (size fuel : Nat) (s : State) (tfile base : Nat)
    (shareable : Bool) (object_type : Nat) (rr ror : Bool) (alloc_ret : Int)
    (kmalloc_ret : Option Nat) :
    ∃ s', ttm_base_object_init size fuel s tfile base shareable object_type rr ror none
      alloc_ret kmalloc_ret = some (-EINVAL, s') := by
  simp [ttm_base_object_init, drm_ht_just_insert_please]

theorem ttm_base_object_init_key_taken (size fuel : Nat) (s : State) (tfile base : Nat)
    (shareable : Bool) (object_type : Nat) (rr ror : Bool) (alloc_ret : Int)
    (kmalloc_ret : Option Nat) (key b : Nat) (h : s.tdev.object_hash key = some b) :
    ∃ s', ttm_base_object_init size fuel s tfile base shareable object_type rr ror (some key)
      alloc_ret kmalloc_ret = some (-EINVAL, s') := by
  simp [ttm_base_object_init, drm_ht_just_insert_please, drm_ht_insert_item, h]

theorem ttm_base_object_init_inserted (size fuel : Nat) (s : State) (tfile base : Nat)
    (shareable : Bool) (object_type : Nat) (rr ror : Bool) (alloc_ret : Int)
    (kmalloc_ret : Option Nat) (key : Nat) (h : s.tdev.object_hash key = none) :
    ttm_base_object_init size fuel s tfile base shareable object_type rr ror (some key)
      alloc_ret kmalloc_ret =
    match ttm_ref_object_add size fuel
        (init_inserted s tfile base shareable object_type rr ror key) tfile base
        TTM_REF_USAGE none alloc_ret kmalloc_ret with
    | none => none
    | some (ret, _, s) =>
      if ret ≠ 0 then
        some (ret, unlock_object (set_object_hash (lock_object s)
          (drm_ht_remove_item s.tdev.object_hash base)))
      else some (0, ttm_base_object_unref s base) := by
  simp [ttm_base_object_init, drm_ht_just_insert_please, drm_ht_insert_item, h, init_inserted]

@[simp] theorem init_inserted_refs (s : State) (tfile base : Nat) (shareable : Bool)
    (object_type : Nat) (rr ror : Bool) (key : Nat) :
    (init_inserted s tfile base shareable object_type rr ror key).refs = s.refs := by
  simp [init_inserted]

@[simp] theorem init_inserted_mem_glob (s : State) (tfile base : Nat) (shareable : Bool)
    (object_type : Nat) (rr ror : Bool) (key : Nat) :
    (init_inserted s tfile base shareable object_type rr ror key).mem_glob = s.mem_glob := by
  simp [init_inserted]

@[simp] theorem init_inserted_calls (s : State) (tfile base : Nat) (shareable : Bool)
    (object_type : Nat) (rr ror : Bool) (key : Nat) :
    (init_inserted s tfile base shareable object_type rr ror key).calls = s.calls := by
  simp [init_inserted]

@[simp] theorem init_inserted_object_lock (s : State) (tfile base : Nat) (shareable : Bool)
    (object_type : Nat) (rr ror : Bool) (key : Nat) :
    (init_inserted s tfile base shareable object_type rr ror key).tdev.object_lock = 0 := by
  simp [init_inserted]

@[simp] theorem init_inserted_object_count (s : State) (tfile base : Nat) (shareable : Bool)
    (object_type : Nat) (rr ror : Bool) (key : Nat) :
    (init_inserted s tfile base shareable object_type rr ror key).tdev.object_count = s.tdev.object_count := by
  simp [init_inserted]

@[simp] theorem init_inserted_object_hash (s : State) (tfile base : Nat) (shareable : Bool)
    (object_type : Nat) (rr ror : Bool) (key : Nat) :
    (init_inserted s tfile base shareable object_type rr ror key).tdev.object_hash = fun k => if k = key then some base else s.tdev.object_hash k := by
  simp [init_inserted]

@[simp] theorem init_inserted_files_lock (s : State) (tfile base : Nat) (shareable : Bool)
    (object_type : Nat) (rr ror : Bool) (key : Nat) (p : Nat) :
    ((init_inserted s tfile base shareable object_type rr ror key).files p).lock = (s.files p).lock := by
  simp [init_inserted]

@[simp] theorem init_inserted_files_ref_list (s : State) (tfile base : Nat) (shareable : Bool)
    (object_type : Nat) (rr ror : Bool) (key : Nat) (p : Nat) :
    ((init_inserted s tfile base shareable object_type rr ror key).files p).ref_list = (s.files p).ref_list := by
  simp [init_inserted]

@[simp] theorem init_inserted_files_ref_hash (s : State) (tfile base : Nat) (shareable : Bool)
    (object_type : Nat) (rr ror : Bool) (key : Nat) (p : Nat) :
    ((init_inserted s tfile base shareable object_type rr ror key).files p).ref_hash = (s.files p).ref_hash := by
  simp [init_inserted]

@[simp] theorem init_inserted_files_refcount (s : State) (tfile base : Nat) (shareable : Bool)
    (object_type : Nat) (rr ror : Bool) (key : Nat) (p : Nat) :
    ((init_inserted s tfile base shareable object_type rr ror key).files p).refcount =
      if p = tfile then (s.files tfile).refcount + 1 else (s.files p).refcount := by
  simp [init_inserted]

@[simp] theorem init_inserted_bases (s : State) (tfile base : Nat) (shareable : Bool)
    (object_type : Nat) (rr ror : Bool) (key : Nat) :
    (init_inserted s tfile base shareable object_type rr ror key).bases = fun p => if p = base then
        { hash_key := key, refcount := 1, shareable := shareable, tfile := some tfile,
          object_type := object_type, refcount_release := rr, ref_obj_release := ror }
      else s.bases p := by
  funext p
  by_cases hp : p = base <;> simp [init_inserted, hp, kref_init]

/-- C1: `ttm_base_object_init` returns.  In a state where no session record exists for
a key that is absent from the directory, it returns 0 exactly when the directory insert
succeeds (the probed key is free), the charge of the usage record is granted and
`kmalloc` returns memory; and whenever it returns 0 the key it was assigned maps to the
object in the directory, the object's count is exactly 1, and the session holds exactly
one `TTM_REF_USAGE` record for that key, of internal count 1, in its table and on its
record list. -/
theorem C1_ttm_base_object_init (size fuel : Nat) (s : State) (tfile base : Nat)
    (shareable : Bool) (object_type : Nat) (rr ror : Bool) (probe : Option Nat)
    (alloc_ret : Int) (kmalloc_ret : Option Nat)
    (hwf : ∀ key, s.tdev.object_hash key = none →
      (s.files tfile).ref_hash TTM_REF_USAGE key = none ∧
      record_count s tfile key TTM_REF_USAGE = 0)
    (hfresh : ∀ ref, kmalloc_ret = some ref → ref ∉ (s.files tfile).ref_list) :
    ∃ ret s', ttm_base_object_init size (fuel + 1) s tfile base shareable object_type rr ror
        probe alloc_ret kmalloc_ret = some (ret, s') ∧
      (ret = 0 ↔ ((∃ key, probe = some key ∧ s.tdev.object_hash key = none) ∧
        alloc_ret = 0 ∧ ∃ ref, kmalloc_ret = some ref)) ∧
      (ret = 0 → ∃ key ref, probe = some key ∧ kmalloc_ret = some ref ∧
        s'.tdev.object_hash key = some base ∧ (s'.bases base).hash_key = key ∧
        (s'.bases base).refcount = 1 ∧
        (s'.files tfile).ref_hash TTM_REF_USAGE key = some ref ∧
        s'.refs ref = some { hash_key := key, kref := 1, ref_type := TTM_REF_USAGE,
                             obj := some base, tfile := tfile } ∧
        ref ∈ (s'.files tfile).ref_list ∧
        record_count s' tfile key TTM_REF_USAGE = 1) := by
  cases probe with
  | none =>
    obtain ⟨s', h⟩ := ttm_base_object_init_no_key size (fuel + 1) s tfile base shareable
      object_type rr ror alloc_ret kmalloc_ret
    refine ⟨_, s', h, ⟨fun h0 => by simp [EINVAL] at h0, ?_⟩,
      fun h0 => by simp [EINVAL] at h0⟩
    rintro ⟨⟨key, hp, -⟩, -⟩
    cases hp
  | some key =>
    cases hd : s.tdev.object_hash key with
    | some b =>
      obtain ⟨s', h⟩ := ttm_base_object_init_key_taken size (fuel + 1) s tfile base shareable
        object_type rr ror alloc_ret kmalloc_ret key b hd
      refine ⟨_, s', h, ⟨fun h0 => by simp [EINVAL] at h0, ?_⟩,
        fun h0 => by simp [EINVAL] at h0⟩
      rintro ⟨⟨key', hp, hfree⟩, -⟩
      cases hp
      rw [hd] at hfree
      cases hfree
    | none =>
      obtain ⟨hnorec, hcount⟩ := hwf key hd
      rw [ttm_base_object_init_inserted size (fuel + 1) s tfile base shareable object_type rr
        ror alloc_ret kmalloc_ret key hd]
      have hfind : ((init_inserted s tfile base shareable object_type rr ror key).files
          tfile).ref_hash TTM_REF_USAGE
          ((init_inserted s tfile base shareable object_type rr ror key).bases base).hash_key
          = none := by simpa using hnorec
      by_cases ha : alloc_ret = 0
      · subst ha
        cases hk : kmalloc_ret with
        | none =>
          rw [ttm_ref_object_add_nomem size fuel _ tfile base TTM_REF_USAGE none hfind]
          simp [ENOMEM]
        | some ref =>
          rw [ttm_ref_object_add_new size fuel _ tfile base TTM_REF_USAGE none (some ref) ref
            hfind rfl]
          simp only [ne_eq, not_true_eq_false, if_false]
          refine ⟨0, _, rfl, ⟨fun _ => ⟨⟨key, rfl, hd⟩, trivial, ref, rfl⟩, fun _ => rfl⟩,
            fun _ => ⟨key, ref, rfl, rfl, ?_⟩⟩
          have hne : ((link_record size
              (init_inserted s tfile base shareable object_type rr ror key) tfile base
              TTM_REF_USAGE ref).bases base).refcount - 1 ≠ 0 := by simp
          rw [ttm_base_object_unref_nonzero _ base hne]
          refine ⟨by simp, by simp, by simp, by simp, by simp [new_record], by simp, ?_⟩
          simp only [record_count, set_base_files, link_record_ref_list, if_true,
            List.filter_append]
          rw [init_inserted_files_ref_list]
          rw [filter_is_record_congr s _ key TTM_REF_USAGE (s.files tfile).ref_list
            (fun p hp => by
              have hpr : p ≠ ref := fun h => hfresh ref hk (h ▸ hp)
              simp [hpr])]
          simp only [record_count] at hcount
          simp [hcount, is_record, new_record]
      · rw [ttm_ref_object_add_denied size fuel _ tfile base TTM_REF_USAGE none alloc_ret
          kmalloc_ret hfind ha]
        simp only [ne_eq, ha, not_false_eq_true, if_true]
        refine ⟨alloc_ret, _, rfl, ⟨fun h0 => absurd h0 ha, ?_⟩, fun h0 => absurd h0 ha⟩
        rintro ⟨-, h0, -⟩
        exact h0.elim

/-! ## `ttm_object_file_release` -/

theorem targets_congr (s s' : State) (base p : Nat) (h : s'.refs p = s.refs p) :
    targets s' base p = targets s base p := by
  simp [targets, h]

/-- The drain loop on a list of distinct live records owned by the session: with
enough fuel it ends with an empty list, every record of the list freed, and each base
object's count lowered by the number of records of the list that targeted it. -/
theorem ttm_object_file_release_loop_spec (size : Nat) (tfile : Nat) (extra : Nat) :
    ∀ (l : List Nat) (s : State), (s.files tfile).ref_list = l → l.Nodup →
      (∀ p ∈ l, ∃ r b, s.refs p = some r ∧ r.tfile = tfile ∧ r.obj = some b) →
      ∃ s', ttm_object_file_release_loop size (l.length + 1 + extra) s tfile = some s' ∧
        (s'.files tfile).ref_list = [] ∧
        (∀ b, (s'.bases b).refcount
          = (s.bases b).refcount - ((l.filter (targets s b)).length : Int)) := by
  intro l
  induction l with
  | nil =>
    intro s hl _ _
    refine ⟨s, ?_, hl, ?_⟩
    · have : ([] : List Nat).length + 1 + extra = extra + 1 := by simp; omega
      rw [this]
      simp [ttm_object_file_release_loop, hl]
    · intro b; simp
  | cons ref rest ih =>
    intro s hl hnd hown
    obtain ⟨r, b0, hr, htf, hobj⟩ := hown ref (List.mem_cons_self _ _)
    have hnotin : ref ∉ rest := (List.nodup_cons.mp hnd).1
    have hl' : ((ttm_ref_object_release size s ref).files tfile).ref_list = rest := by
      rw [ttm_ref_object_release_ref_list size s ref r b0 hr hobj]
      simp [htf, hl]
    have hrefs : ∀ p ∈ rest, (ttm_ref_object_release size s ref).refs p = s.refs p := by
      intro p hp
      have hpr : p ≠ ref := fun h => hnotin (h ▸ hp)
      rw [ttm_ref_object_release_refs size s ref r b0 hr hobj]
      simp [hpr]
    obtain ⟨s', hrun, hlist, hcnt⟩ := ih (ttm_ref_object_release size s ref) hl'
      (List.nodup_cons.mp hnd).2
      (fun p hp => by
        obtain ⟨r', b', h1, h2, h3⟩ := hown p (List.mem_cons_of_mem _ hp)
        exact ⟨r', b', by rw [hrefs p hp]; exact h1, h2, h3⟩)
    refine ⟨s', ?_, hlist, ?_⟩
    · have : (ref :: rest).length + 1 + extra = (rest.length + 1 + extra) + 1 := by
        simp; omega
      rw [this]
      simp only [ttm_object_file_release_loop, hl]
      exact hrun
    · intro b
      rw [hcnt b, ttm_ref_object_release_refcount size s ref r b0 hr hobj]
      rw [List.filter_congr (fun p hp => targets_congr s _ b p (hrefs p hp))]
      by_cases hb : b = b0
      · subst hb
        simp [List.filter_cons, targets, hr, hobj]
        omega
      · have hb' : ¬ b0 = b := fun h => hb h.symm
        simp [List.filter_cons, targets, hr, hobj, hb, hb']

/-- C7: on a session whose record list holds distinct live records that belong to it,
`ttm_object_file_release` returns (given one unit of fuel per record and one more);
afterwards the session's record list is empty, its per-type tables hold no record, and
each base object's count has dropped by exactly the number of the session's records
that targeted it, whatever their internal counts were. -/
theorem C7_ttm_object_file_release (size : Nat) (s : State) (tfile extra : Nat)
    (hnd : (s.files tfile).ref_list.Nodup)
    (hown : ∀ p ∈ (s.files tfile).ref_list,
      ∃ r b, s.refs p = some r ∧ r.tfile = tfile ∧ r.obj = some b) :
    ∃ s', ttm_object_file_release size ((s.files tfile).ref_list.length + 1 + extra) s tfile
        = some s' ∧
      (s'.files tfile).ref_list = [] ∧
      (∀ t k, (s'.files tfile).ref_hash t k = none) ∧
      ∀ b, (s'.bases b).refcount
        = (s.bases b).refcount - (records_targeting s tfile b : Int) := by
  obtain ⟨s1, hrun, hlist, hcnt⟩ := ttm_object_file_release_loop_spec size tfile extra
    (s.files tfile).ref_list (lock_file s tfile) (by simp) hnd (by simpa using hown)
  refine ⟨ttm_object_file_unref (unlock_file (set_file s1 tfile
    { s1.files tfile with ref_hash := fun _ => drm_ht_remove }) tfile) tfile, ?_, ?_, ?_, ?_⟩
  · simp only [ttm_object_file_release, hrun]
  · simp [hlist]
  · intro t k; simp [drm_ht_remove]
  · intro b
    simp only [ttm_object_file_unref_bases, unlock_file_bases, set_file_bases, hcnt b,
      lock_file_bases, records_targeting]
    rw [List.filter_congr (fun p _ => targets_congr s (lock_file s tfile) b p rfl)]

/-! ## The directory only loses keys, except by registration -/

theorem drm_ht_remove_item_none (ht : drm_open_hash) (item k : Nat) (h : ht k = none) :
    drm_ht_remove_item ht item k = none := by
  simp [drm_ht_remove_item, h]

theorem ttm_base_object_unref_keeps_absent (s : State) (base k : Nat)
    (h : s.tdev.object_hash k = none) :
    (ttm_base_object_unref s base).tdev.object_hash k = none := by
  rw [ttm_base_object_unref_object_hash]
  split
  · exact drm_ht_remove_item_none _ _ _ h
  · exact h

theorem ttm_base_object_lookup_object_hash (s : State) (tfile key : Nat) :
    (ttm_base_object_lookup s tfile key).2.tdev.object_hash = s.tdev.object_hash := by
  cases hd : s.tdev.object_hash key with
  | none => rw [ttm_base_object_lookup_absent s tfile key hd]
  | some b =>
    by_cases hz : (s.bases b).refcount = 0
    · rw [ttm_base_object_lookup_zero s tfile key b hd hz]
    · by_cases hacc : (s.bases b).shareable = true ∨ (s.bases b).tfile = some tfile
      · rw [ttm_base_object_lookup_granted s tfile key b hd hz hacc]; simp
      · have hns : (s.bases b).shareable = false := by
          cases hsh : (s.bases b).shareable <;> simp_all
        have hnt : (s.bases b).tfile ≠ some tfile := fun e => hacc (Or.inr e)
        rw [ttm_base_object_lookup_denied s tfile key b hd hz hnt hns]

theorem ttm_ref_object_add_tdev (size : Nat) (tfile base : Nat) (ref_type : ttm_ref_type)
    (alloc_ret : Int) (kmalloc_ret : Option Nat) :
    ∀ (fuel : Nat) (s : State) (existed : Option Bool) (ret : Int) (e : Option Bool)
      (s' : State),
      ttm_ref_object_add size fuel s tfile base ref_type existed alloc_ret kmalloc_ret
        = some (ret, e, s') → s'.tdev = s.tdev := by
  intro fuel
  induction fuel with
  | zero => intro s existed ret e s' h; simp [ttm_ref_object_add] at h
  | succ fuel ih =>
    intro s existed ret e s' h
    cases hfind : (s.files tfile).ref_hash ref_type (s.bases base).hash_key with
    | some ref =>
      obtain ⟨s1, hadd, -, -, htdev, -⟩ := ttm_ref_object_add_hit size fuel s tfile base
        ref_type existed alloc_ret kmalloc_ret ref hfind
      rw [hadd] at h
      cases h
      exact htdev
    | none =>
      by_cases ha : alloc_ret = 0
      · subst ha
        cases hk : kmalloc_ret with
        | none =>
          subst hk
          rw [ttm_ref_object_add_nomem size fuel s tfile base ref_type existed hfind] at h
          cases h; rfl
        | some ref =>
          rw [ttm_ref_object_add_new size fuel s tfile base ref_type existed kmalloc_ret ref
            hfind hk] at h
          cases h; simp
      · rw [ttm_ref_object_add_denied size fuel s tfile base ref_type existed alloc_ret
          kmalloc_ret hfind ha] at h
        cases h; rfl

theorem ttm_ref_object_release_keeps_absent (size : Nat) (s : State) (ref k : Nat)
    (h : s.tdev.object_hash k = none) :
    (ttm_ref_object_release size s ref).tdev.object_hash k = none := by
  cases hr : s.refs ref with
  | none => simpa [ttm_ref_object_release, hr] using h
  | some r =>
    cases hobj : r.obj with
    | none => simpa [ttm_ref_object_release, hr, hobj] using h
    | some base =>
      rw [ttm_ref_object_release_object_hash size s ref r base hr hobj]
      split
      · exact drm_ht_remove_item_none _ _ _ h
      · exact h

theorem ttm_ref_object_base_unref_keeps_absent (size : Nat) (s : State) (tfile key : Nat)
    (ref_type : ttm_ref_type) (k : Nat) (h : s.tdev.object_hash k = none) :
    (ttm_ref_object_base_unref size s tfile key ref_type).2.tdev.object_hash k = none := by
  cases hfind : (s.files tfile).ref_hash ref_type key with
  | none => rw [ttm_ref_object_base_unref_absent size s tfile key ref_type hfind]; exact h
  | some ref =>
    cases hr : s.refs ref with
    | none =>
      simpa [ttm_ref_object_base_unref, drm_ht_find_item, hfind, hr] using h
    | some r =>
      by_cases hc : r.kref = 1
      · rw [ttm_ref_object_base_unref_last size s tfile key ref_type ref r hfind hr hc]
        simp only [unlock_file_object_hash]
        apply ttm_ref_object_release_keeps_absent
        simpa using h
      · rw [ttm_ref_object_base_unref_keep size s tfile key ref_type ref r hfind hr hc]
        simpa using h

theorem ttm_object_file_release_loop_keeps_absent (size tfile k : Nat) :
    ∀ (fuel : Nat) (s s' : State), s.tdev.object_hash k = none →
      ttm_object_file_release_loop size fuel s tfile = some s' →
      s'.tdev.object_hash k = none := by
  intro fuel
  induction fuel with
  | zero => intro s s' _ h; simp [ttm_object_file_release_loop] at h
  | succ fuel ih =>
    intro s s' hk h
    simp only [ttm_object_file_release_loop] at h
    split at h
    · cases h; exact hk
    · exact ih _ _ (ttm_ref_object_release_keeps_absent size s _ k hk) h

theorem ttm_object_file_release_keeps_absent (size fuel : Nat) (s s' : State) (tfile k : Nat)
    (hk : s.tdev.object_hash k = none)
    (h : ttm_object_file_release size fuel s tfile = some s') :
    s'.tdev.object_hash k = none := by
  simp only [ttm_object_file_release] at h
  split at h
  · cases h
  · rename_i s1 hloop
    cases h
    simp only [ttm_object_file_unref_object_hash, unlock_file_object_hash,
      set_file_object_hash]
    exact ttm_object_file_release_loop_keeps_absent size tfile k fuel _ _ (by simpa using hk)
      hloop

theorem ttm_object_file_init_tdev (s : State) (kmalloc_ret : Option Nat)
    (ht_create_ret : ttm_ref_type → Int) :
    (ttm_object_file_init s kmalloc_ret ht_create_ret).2.tdev = s.tdev := by
  cases kmalloc_ret with
  | none => rfl
  | some tfile =>
    simp only [ttm_object_file_init]
    split_ifs <;> simp

theorem ttm_base_object_init_keeps_absent (size fuel : Nat) (s : State) (tfile base : Nat)
    (shareable : Bool) (object_type : Nat) (rr ror : Bool) (probe : Option Nat)
    (alloc_ret : Int) (kmalloc_ret : Option Nat) (k : Nat) (ret : Int) (s' : State)
    (hk : s.tdev.object_hash k = none) (hprobe : probe = some k → ret ≠ 0)
    (h : ttm_base_object_init size fuel s tfile base shareable object_type rr ror probe
      alloc_ret kmalloc_ret = some (ret, s')) :
    s'.tdev.object_hash k = none := by
  cases probe with
  | none =>
    simp [ttm_base_object_init, drm_ht_just_insert_please] at h
    obtain ⟨-, rfl⟩ := h
    simpa using hk
  | some key =>
    cases hd : s.tdev.object_hash key with
    | some b =>
      simp [ttm_base_object_init, drm_ht_just_insert_please, drm_ht_insert_item, hd] at h
      obtain ⟨-, rfl⟩ := h
      simpa using hk
    | none =>
      rw [ttm_base_object_init_inserted size fuel s tfile base shareable object_type rr ror
        alloc_ret kmalloc_ret key hd] at h
      split at h
      · cases h
      · rename_i ret1 e1 s1 hadd
        have htdev := ttm_ref_object_add_tdev size tfile base TTM_REF_USAGE alloc_ret
          kmalloc_ret fuel _ none ret1 e1 s1 hadd
        split at h
        · cases h
          simp only [unlock_object_object_hash, set_object_hash_object_hash,
            lock_object_object_hash, htdev, init_inserted_object_hash, drm_ht_remove_item]
          by_cases e : k = key
          · simp [e]
          · simp [e, hk]
        · cases h
          have hne : k ≠ key := fun e => hprobe (by rw [e]) rfl
          have hk1 : s1.tdev.object_hash k = none := by
            rw [htdev]; simp [hne, hk]
          exact ttm_base_object_unref_keeps_absent s1 base k hk1

theorem exec_keeps_absent (size fuel : Nat) (s s' : State) (op : Op) (k : Nat)
    (hk : s.tdev.object_hash k = none) (hop : ¬ registers_under size fuel k s op)
    (h : exec size fuel s op = some s') : s'.tdev.object_hash k = none := by
  cases op with
  | file_init kmalloc_ret ht_create_ret =>
    simp only [exec, Option.some.injEq] at h
    subst h
    rw [ttm_object_file_init_tdev]; exact hk
  | base_init tfile base shareable object_type rr ror probe alloc_ret kmalloc_ret =>
    simp only [exec, Option.map_eq_some'] at h
    obtain ⟨⟨ret, s1⟩, h1, rfl⟩ := h
    refine ttm_base_object_init_keeps_absent size fuel s tfile base shareable object_type rr
      ror probe alloc_ret kmalloc_ret k ret s1 hk ?_ h1
    intro hp hret
    exact hop ⟨hp, s1, by rw [h1, hret]⟩
  | lookup tfile key =>
    simp only [exec, Option.some.injEq] at h
    subst h
    rw [ttm_base_object_lookup_object_hash]; exact hk
  | base_unref base =>
    simp only [exec, Option.some.injEq] at h
    subst h
    exact ttm_base_object_unref_keeps_absent s base k hk
  | ref_add tfile base ref_type existed alloc_ret kmalloc_ret =>
    simp only [exec, Option.map_eq_some'] at h
    obtain ⟨⟨ret, e, s1⟩, h1, rfl⟩ := h
    rw [ttm_ref_object_add_tdev size tfile base ref_type alloc_ret kmalloc_ret fuel s existed
      ret e s1 h1]
    exact hk
  | ref_base_unref tfile key ref_type =>
    simp only [exec, Option.some.injEq] at h
    subst h
    exact ttm_ref_object_base_unref_keeps_absent size s tfile key ref_type k hk
  | file_release tfile =>
    exact ttm_object_file_release_keeps_absent size fuel s s' tfile k hk h

theorem run_keeps_absent (size fuel : Nat) (k : Nat) :
    ∀ (ops : List Op) (s s' : State), s.tdev.object_hash k = none →
      no_registration_under size fuel k s ops → run size fuel s ops = some s' →
      s'.tdev.object_hash k = none := by
  intro ops
  induction ops with
  | nil => intro s s' hk _ h; simp only [run, Option.some.injEq] at h; subst h; exact hk
  | cons op ops ih =>
    intro s s' hk hops h
    simp only [run] at h
    split at h
    · rename_i s1 hexec
      exact ih s1 s' (exec_keeps_absent size fuel s s1 op k hk hops.1 hexec)
        (hops.2 s1 hexec) h
    · cases h

/-- C8: once `ttm_base_object_unref` has taken the count of an object registered under
`key` to 0, a lookup of `key` by any session returns NULL in every state reached by any
sequence of calls none of which registers an object under `key` (a registration that
is assigned `key` but fails does not count); and it returns NULL already on the memory
on which the `refcount_release` hook is invoked. -/
theorem C8_no_lookup_after_zero (size fuel : Nat) (s : State) (base : Nat)
    (hreg : s.tdev.object_hash (s.bases base).hash_key = some base)
    (hzero : ((ttm_base_object_unref s base).bases base).refcount = 0) :
    (∀ (ops : List Op) (s' : State) (tfile : Nat),
      no_registration_under size fuel (s.bases base).hash_key
        (ttm_base_object_unref s base) ops →
      run size fuel (ttm_base_object_unref s base) ops = some s' →
      (ttm_base_object_lookup s' tfile (s.bases base).hash_key).1 = none) ∧
    (∀ (m : Mem) (cs : List (Callback × Mem)) (tfile : Nat),
      (ttm_base_object_unref s base).calls = s.calls ++ [(Callback.refcount_release base, m)] →
      (ttm_base_object_lookup { toMem := m, calls := cs } tfile (s.bases base).hash_key).1
        = none) := by
  have hrc := ttm_base_object_unref_refcount s base base
  simp only [if_true] at hrc
  rw [hrc] at hzero
  have hdir : (ttm_base_object_unref s base).tdev.object_hash (s.bases base).hash_key
      = none := by
    rw [ttm_base_object_unref_object_hash]
    simp [hzero, drm_ht_remove_item, hreg]
  refine ⟨?_, ?_⟩
  · intro ops s' tfile hops hrun
    have h := run_keeps_absent size fuel (s.bases base).hash_key ops _ s' hdir hops hrun
    rw [ttm_base_object_lookup_absent s' tfile _ h]
  · intro m cs tfile hcalls
    rw [ttm_base_object_unref_calls] at hcalls
    split at hcalls
    · have hm := List.append_cancel_left hcalls
      simp only [List.cons.injEq, Prod.mk.injEq, true_and, and_true] at hm
      have hd : ({ toMem := m, calls := cs } : State).tdev.object_hash (s.bases base).hash_key
          = none := by
        show m.tdev.object_hash (s.bases base).hash_key = none
        rw [← hm]; exact hdir
      rw [ttm_base_object_lookup_absent _ tfile _ hd]
    · have hlen := congrArg List.length hcalls
      simp at hlen

/-- C8 (witness): in `last_handle` the pointer returned by a lookup is the last reference
on the object registered under key 5.  Once it is given back, session 12 looks key 5 up
and session 11 tries to register another object under key 5, which fails because the
accounting service denies the charge; a lookup of key 5 by session 11 then returns
NULL. -/
theorem C8_witness :
    last_handle.tdev.object_hash (last_handle.bases 100).hash_key = some 100 ∧
    ((ttm_base_object_unref last_handle 100).bases 100).refcount = 0 ∧
    (ttm_base_object_lookup
      ((run 64 1 (ttm_base_object_unref last_handle 100)
        [Op.lookup 12 5, Op.base_init 11 102 true 0 true true (some 5) 7 none]).getD boot) 11
      (last_handle.bases 100).hash_key).1 = none :=
  ⟨by decide, by decide,
   (C8_no_lookup_after_zero 64 1 last_handle 100 (by decide) (by decide)).1
     [Op.lookup 12 5, Op.base_init 11 102 true 0 true true (some 5) 7 none] _ 11
     ⟨fun h => h, fun s1 h1 => ⟨by
        rintro ⟨-, s', h⟩
        simp only [exec, Option.some.injEq] at h1
        subst h1
        have h7 : (ttm_base_object_init 64 1
            (ttm_base_object_lookup (ttm_base_object_unref last_handle 100) 12 5).2 11 102
            true 0 true true (some 5) 7 none).map Prod.fst = some 7 := by decide
        rw [h] at h7
        simp at h7, fun _ _ => trivial⟩⟩
     rfl⟩

/-! ## The invariant of reachable states -/

theorem targets_iff_view (s : State) (b p : Nat) :
    targets s b p = true ↔ ∃ key t tf, rec_view (s.refs p) = some (key, t, some b, tf) := by
  cases h : s.refs p with
  | none => simp [targets, rec_view, h]
  | some r =>
    simp only [targets, rec_view, h, Option.map_some', Option.some.injEq, Prod.mk.injEq,
      decide_eq_true_eq]
    constructor
    · intro ho; exact ⟨r.hash_key, r.ref_type, r.tfile, rfl, rfl, ho, rfl⟩
    · rintro ⟨_, _, _, -, -, ho, -⟩; exact ho

theorem targets_of_view (s s' : State) (b p : Nat)
    (h : rec_view (s'.refs p) = rec_view (s.refs p)) : targets s' b p = targets s b p := by
  rw [Bool.eq_iff_iff, targets_iff_view, targets_iff_view, h]

theorem records_targeting_congr (s s' : State) (tf b : Nat)
    (hl : (s'.files tf).ref_list = (s.files tf).ref_list)
    (hr : ∀ p ∈ (s.files tf).ref_list, rec_view (s'.refs p) = rec_view (s.refs p)) :
    records_targeting s' tf b = records_targeting s tf b := by
  simp only [records_targeting, hl]
  rw [List.filter_congr (fun p hp => targets_of_view s s' b p (hr p hp))]

theorem total_records_congr (s s' : State) (l : List Nat) (b : Nat)
    (h : ∀ tf ∈ l, records_targeting s' tf b = records_targeting s tf b) :
    total_records s' l b = total_records s l b := by
  simp only [total_records]
  rw [List.map_congr_left h]

theorem le_sum_map_of_mem (f : Nat → Nat) :
    ∀ (l : List Nat) (x : Nat), x ∈ l → f x ≤ (l.map f).sum := by
  intro l
  induction l with
  | nil => intro x hx; simp at hx
  | cons a l ih =>
    intro x hx
    simp only [List.map_cons, List.sum_cons]
    rcases List.mem_cons.mp hx with rfl | hx
    · omega
    · have := ih x hx; omega

theorem sum_map_change_one (f f' : Nat → Nat) (x : Nat) :
    ∀ (l : List Nat), l.Nodup → x ∈ l → (∀ y ∈ l, y ≠ x → f' y = f y) →
      (l.map f').sum + f x = (l.map f).sum + f' x := by
  intro l
  induction l with
  | nil => intro _ hx; simp at hx
  | cons a l ih =>
    intro hnd hx hoff
    simp only [List.map_cons, List.sum_cons]
    have hnd' := List.nodup_cons.mp hnd
    rcases List.mem_cons.mp hx with rfl | hx
    · have : (l.map f').sum = (l.map f).sum := by
        congr 1
        apply List.map_congr_left
        intro y hy
        exact hoff y (List.mem_cons_of_mem _ hy) (fun e => hnd'.1 (e ▸ hy))
      omega
    · have hax : a ≠ x := fun e => hnd'.1 (e ▸ hx)
      have h1 := ih hnd'.2 hx (fun y hy hne => hoff y (List.mem_cons_of_mem _ hy) hne)
      have h2 := hoff a (List.mem_cons_self _ _) hax
      omega

theorem sum_map_erase_add (f : Nat → Nat) (x : Nat) :
    ∀ (l : List Nat), x ∈ l → ((l.erase x).map f).sum + f x = (l.map f).sum := by
  intro l
  induction l with
  | nil => intro hx; simp at hx
  | cons a l ih =>
    intro hx
    by_cases hax : a = x
    · subst hax; simp; omega
    · have hx' : x ∈ l := by
        rcases List.mem_cons.mp hx with h | h
        · exact absurd h.symm hax
        · exact h
      have := ih hx'
      rw [List.erase_cons_tail (by simpa using hax)]
      simp only [List.map_cons, List.sum_cons]
      omega

theorem filter_erase_length (f f' : Nat → Bool) (x : Nat) :
    ∀ (l : List Nat), l.Nodup → x ∈ l → (∀ y ∈ l, y ≠ x → f' y = f y) →
      ((l.erase x).filter f').length + (if f x = true then 1 else 0) = (l.filter f).length := by
  intro l
  induction l with
  | nil => intro _ hx; simp at hx
  | cons a l ih =>
    intro hnd hx hoff
    have hnd' := List.nodup_cons.mp hnd
    by_cases hax : a = x
    · subst hax
      have : l.filter f' = l.filter f := by
        apply List.filter_congr
        intro y hy
        exact hoff y (List.mem_cons_of_mem _ hy) (fun e => hnd'.1 (e ▸ hy))
      simp only [List.erase_cons_head, this, List.filter_cons]
      split <;> simp
    · have hx' : x ∈ l := by
        rcases List.mem_cons.mp hx with h | h
        · exact absurd h.symm hax
        · exact h
      have h1 := ih hnd'.2 hx' (fun y hy hne => hoff y (List.mem_cons_of_mem _ hy) hne)
      have h2 := hoff a (List.mem_cons_self _ _) hax
      rw [List.erase_cons_tail (by simpa using hax)]
      simp only [List.filter_cons, h2]
      cases hfa : f a
      · simpa using h1
      · simp only [if_true, List.length_cons]; omega

theorem total_records_of_view (s s' : State) (l : List Nat) (b : Nat)
    (hl : ∀ tf ∈ l, (s'.files tf).ref_list = (s.files tf).ref_list)
    (hr : ∀ tf ∈ l, ∀ p ∈ (s.files tf).ref_list,
      rec_view (s'.refs p) = rec_view (s.refs p)) :
    total_records s' l b = total_records s l b :=
  total_records_congr s s' l b fun tf htf =>
    records_targeting_congr s s' tf b (hl tf htf) (hr tf htf)

theorem Inv_of_sameView {s s' : State} {g : Ghost} (v : SameView g.sessions s s')
    (h : Inv s g) : Inv s' g where
  sessions_nodup := h.sessions_nodup
  list_nodup := fun tf htf => by rw [v.list tf htf]; exact h.list_nodup tf htf
  listed := fun tf htf p hp => by
    rw [v.list tf htf] at hp
    obtain ⟨key, t, b, h1, h2, h3⟩ := h.listed tf htf p hp
    exact ⟨key, t, b, by rw [v.recs tf htf p hp, h1], by rw [v.dir, h2],
      by rw [v.hash tf htf, h3]⟩
  hashed := fun tf htf t key p hp => by
    rw [v.hash tf htf] at hp
    obtain ⟨h1, o, tf', h2⟩ := h.hashed tf htf t key p hp
    exact ⟨by rw [v.list tf htf]; exact h1, o, tf', by rw [v.recs tf htf p h1, h2]⟩
  dir_key := fun k b hk => by
    rw [v.dir] at hk
    rw [v.key]; exact h.dir_key k b hk
  handle_live := fun b hb => by
    rw [v.key, v.dir]; exact h.handle_live b hb
  counted := fun k b hk => by
    rw [v.dir] at hk
    rw [v.cnt, total_records_of_view s s' g.sessions b v.list v.recs]
    exact h.counted k b hk

theorem Inv_device_init (s0 : State) :
    Inv (ttm_object_device_init s0) { sessions := [], handles := fun _ => 0 } where
  sessions_nodup := List.nodup_nil
  list_nodup := fun tf htf => by simp at htf
  listed := fun tf htf => by simp at htf
  hashed := fun tf htf => by simp at htf
  dir_key := fun k b hk => by simp [ttm_object_device_init, drm_ht_remove] at hk
  handle_live := fun b hb => by simp at hb
  counted := fun k b hk => by simp [ttm_object_device_init, drm_ht_remove] at hk

/-! ### Opening a session -/

theorem ttm_object_file_init_files_other (s : State) (tf : Nat)
    (hc : ttm_ref_type → Int) (p : Nat) (hp : p ≠ tf) :
    (ttm_object_file_init s (some tf) hc).2.files p = s.files p := by
  simp only [ttm_object_file_init]
  split_ifs <;> simp [hp]

theorem ttm_object_file_init_bases (s : State) (k : Option Nat) (hc : ttm_ref_type → Int) :
    (ttm_object_file_init s k hc).2.bases = s.bases := by
  cases k with
  | none => rfl
  | some tf => simp only [ttm_object_file_init]; split_ifs <;> simp

theorem ttm_object_file_init_refs (s : State) (k : Option Nat) (hc : ttm_ref_type → Int) :
    (ttm_object_file_init s k hc).2.refs = s.refs := by
  cases k with
  | none => rfl
  | some tf => simp only [ttm_object_file_init]; split_ifs <;> simp

theorem ttm_object_file_init_opened (s : State) (tf : Nat) (hc : ttm_ref_type → Int)
    (h : (ttm_object_file_init s (some tf) hc).1 = some tf) :
    ((ttm_object_file_init s (some tf) hc).2.files tf).ref_list = [] ∧
    ∀ t k, ((ttm_object_file_init s (some tf) hc).2.files tf).ref_hash t k = none := by
  simp only [ttm_object_file_init] at h ⊢
  split_ifs at h ⊢
  all_goals simp at h ⊢
  intro t k
  cases t <;> simp [drm_ht_remove]

theorem ttm_object_file_init_sameView (s : State) (l : List Nat) (tf : Nat)
    (hc : ttm_ref_type → Int) (htf : tf ∉ l) :
    SameView l s (ttm_object_file_init s (some tf) hc).2 where
  dir := by rw [ttm_object_file_init_tdev]
  key := fun b => by rw [ttm_object_file_init_bases]
  cnt := fun b => by rw [ttm_object_file_init_bases]
  list := fun p hp => by
    rw [ttm_object_file_init_files_other s tf hc p (fun e => htf (e ▸ hp))]
  hash := fun p hp => by
    rw [ttm_object_file_init_files_other s tf hc p (fun e => htf (e ▸ hp))]
  recs := fun _ _ p _ => by rw [ttm_object_file_init_refs]

theorem Inv_file_init (s : State) (g : Ghost) (tf : Nat) (hc : ttm_ref_type → Int)
    (h : Inv s g) (htf : tf ∉ g.sessions)
    (hok : (ttm_object_file_init s (some tf) hc).1 = some tf) :
    Inv (ttm_object_file_init s (some tf) hc).2 { g with sessions := tf :: g.sessions } := by
  have h' := Inv_of_sameView (ttm_object_file_init_sameView s g.sessions tf hc htf) h
  obtain ⟨hlist, hhash⟩ := ttm_object_file_init_opened s tf hc hok
  refine ⟨List.nodup_cons.mpr ⟨htf, h.sessions_nodup⟩, ?_, ?_, ?_, h'.dir_key, h'.handle_live, ?_⟩
  · intro p hp
    rcases List.mem_cons.mp hp with rfl | hp
    · rw [hlist]; exact List.nodup_nil
    · exact h'.list_nodup p hp
  · intro p hp
    rcases List.mem_cons.mp hp with rfl | hp
    · rw [hlist]; intro q hq; simp at hq
    · exact h'.listed p hp
  · intro p hp
    rcases List.mem_cons.mp hp with rfl | hp
    · intro t key q hq; rw [hhash] at hq; cases hq
    · exact h'.hashed p hp
  · intro k b hk
    have := h'.counted k b hk
    simp only [total_records, List.map_cons, List.sum_cons, records_targeting, hlist,
      List.filter_nil, List.length_nil, zero_add] at this ⊢
    exact this

/-! ### References given and taken back -/

theorem total_records_pos_of_listed (s : State) (l : List Nat) (tf p b key : Nat)
    (t : ttm_ref_type) (htf : tf ∈ l) (hp : p ∈ (s.files tf).ref_list)
    (hview : rec_view (s.refs p) = some (key, t, some b, tf)) :
    0 < total_records s l b := by
  have h1 : 0 < records_targeting s tf b := by
    simp only [records_targeting]
    apply List.length_pos_of_mem (a := p)
    rw [List.mem_filter]
    exact ⟨hp, (targets_iff_view s b p).mpr ⟨key, t, tf, hview⟩⟩
  have h2 : records_targeting s tf b ≤ total_records s l b :=
    le_sum_map_of_mem (fun tf => records_targeting s tf b) l tf htf
  omega

/-- An object that no listed record targets leaves the directory, and the clients hold
no pointer to it any more. -/
theorem Inv_evict {s s' : State} {g g' : Ghost} (b : Nat) (h : Inv s g)
    (hzero : total_records s g.sessions b = 0)
    (hs : g'.sessions = g.sessions) (hh0 : g'.handles b = 0)
    (hh : ∀ b', b' ≠ b → g'.handles b' = g.handles b')
    (hdir : s'.tdev.object_hash = drm_ht_remove_item s.tdev.object_hash b)
    (hkey : ∀ b', b' ≠ b → (s'.bases b').hash_key = (s.bases b').hash_key)
    (hcnt : ∀ b', b' ≠ b → (s'.bases b').refcount = (s.bases b').refcount)
    (hlist : ∀ tf ∈ g.sessions, (s'.files tf).ref_list = (s.files tf).ref_list)
    (hhash : ∀ tf ∈ g.sessions, (s'.files tf).ref_hash = (s.files tf).ref_hash)
    (hrecs : ∀ tf ∈ g.sessions, ∀ p ∈ (s.files tf).ref_list,
      rec_view (s'.refs p) = rec_view (s.refs p)) :
    Inv s' g' := by
  have hkeep : ∀ k b', s.tdev.object_hash k = some b' → b' ≠ b →
      s'.tdev.object_hash k = some b' := by
    intro k b' hk hne
    rw [hdir]
    simp only [drm_ht_remove_item, hk, Option.some.injEq]
    rw [if_neg hne]
  have hsub : ∀ k b', s'.tdev.object_hash k = some b' →
      s.tdev.object_hash k = some b' ∧ b' ≠ b := by
    intro k b' hk
    rw [hdir] at hk
    simp only [drm_ht_remove_item] at hk
    split at hk
    · cases hk
    · rename_i hne
      exact ⟨hk, fun e => hne (by rw [hk, e])⟩
  refine ⟨hs ▸ h.sessions_nodup, ?_, ?_, ?_, ?_, ?_, ?_⟩
  · intro tf htf
    rw [hs] at htf
    rw [hlist tf htf]; exact h.list_nodup tf htf
  · intro tf htf p hp
    rw [hs] at htf
    rw [hlist tf htf] at hp
    obtain ⟨key, t, b1, h1, h2, h3⟩ := h.listed tf htf p hp
    have hb1 : b1 ≠ b := by
      intro e
      have := total_records_pos_of_listed s g.sessions tf p b1 key t htf hp h1
      rw [e] at this; omega
    exact ⟨key, t, b1, by rw [hrecs tf htf p hp, h1], hkeep key b1 h2 hb1,
      by rw [hhash tf htf, h3]⟩
  · intro tf htf t key p hp
    rw [hs] at htf
    rw [hhash tf htf] at hp
    obtain ⟨h1, o, tf', h2⟩ := h.hashed tf htf t key p hp
    exact ⟨by rw [hlist tf htf]; exact h1, o, tf', by rw [hrecs tf htf p h1, h2]⟩
  · intro k b' hk
    rw [hkey b' (hsub k b' hk).2]; exact h.dir_key k b' (hsub k b' hk).1
  · intro b' hb'
    have hne : b' ≠ b := by
      intro e; rw [e, hh0] at hb'; omega
    rw [hh b' hne] at hb'
    rw [hkey b' hne]
    exact hkeep _ b' (h.handle_live b' hb') hne
  · intro k b' hk
    obtain ⟨hk', hne⟩ := hsub k b' hk
    rw [hcnt b' hne, hh b' hne, hs,
      total_records_of_view s s' g.sessions b' hlist hrecs]
    exact h.counted k b' hk'

/-- The count of one object and the number of pointers the clients hold to it move
together. -/
theorem Inv_adjust {s s' : State} {g g' : Ghost} (b : Nat) (h : Inv s g)
    (hs : g'.sessions = g.sessions)
    (hlive : 0 < g'.handles b → s.tdev.object_hash (s.bases b).hash_key = some b)
    (hh : ∀ b', b' ≠ b → g'.handles b' = g.handles b')
    (hdir : s'.tdev.object_hash = s.tdev.object_hash)
    (hkey : ∀ b', (s'.bases b').hash_key = (s.bases b').hash_key)
    (hcntb : (s'.bases b).refcount - (g'.handles b : Int)
      = (s.bases b).refcount - (g.handles b : Int))
    (hcnt : ∀ b', b' ≠ b → (s'.bases b').refcount = (s.bases b').refcount)
    (hlist : ∀ tf ∈ g.sessions, (s'.files tf).ref_list = (s.files tf).ref_list)
    (hhash : ∀ tf ∈ g.sessions, (s'.files tf).ref_hash = (s.files tf).ref_hash)
    (hrecs : ∀ tf ∈ g.sessions, ∀ p ∈ (s.files tf).ref_list,
      rec_view (s'.refs p) = rec_view (s.refs p)) :
    Inv s' g' := by
  refine ⟨hs ▸ h.sessions_nodup, ?_, ?_, ?_, ?_, ?_, ?_⟩
  · intro tf htf
    rw [hs] at htf
    rw [hlist tf htf]; exact h.list_nodup tf htf
  · intro tf htf p hp
    rw [hs] at htf
    rw [hlist tf htf] at hp
    obtain ⟨key, t, b1, h1, h2, h3⟩ := h.listed tf htf p hp
    exact ⟨key, t, b1, by rw [hrecs tf htf p hp, h1], by rw [hdir, h2],
      by rw [hhash tf htf, h3]⟩
  · intro tf htf t key p hp
    rw [hs] at htf
    rw [hhash tf htf] at hp
    obtain ⟨h1, o, tf', h2⟩ := h.hashed tf htf t key p hp
    exact ⟨by rw [hlist tf htf]; exact h1, o, tf', by rw [hrecs tf htf p h1, h2]⟩
  · intro k b' hk
    rw [hdir] at hk
    rw [hkey]; exact h.dir_key k b' hk
  · intro b' hb'
    rw [hkey, hdir]
    by_cases hne : b' = b
    · subst hne; exact hlive hb'
    · rw [hh b' hne] at hb'
      exact h.handle_live b' hb'
  · intro k b' hk
    rw [hdir] at hk
    have hc := h.counted k b' hk
    rw [hs, total_records_of_view s s' g.sessions b' hlist hrecs]
    by_cases hne : b' = b
    · subst hne; omega
    · rw [hcnt b' hne, hh b' hne]; exact hc

theorem Inv_base_unref {s : State} {g g' : Ghost} (b : Nat) (h : Inv s g)
    (hb : 0 < g.handles b) (hs : g'.sessions = g.sessions)
    (hhb : g'.handles b = g.handles b - 1)
    (hh : ∀ b', b' ≠ b → g'.handles b' = g.handles b') :
    Inv (ttm_base_object_unref s b) g' := by
  have hlive := h.handle_live b hb
  have hc := h.counted _ b hlive
  by_cases hz : (s.bases b).refcount - 1 = 0
  · apply Inv_evict b h (by omega) hs (by omega) hh
    · rw [ttm_base_object_unref_object_hash, if_pos hz]
    · intro b' _; rw [ttm_base_object_unref_hash_key]
    · intro b' hne; rw [ttm_base_object_unref_refcount, if_neg hne]
    · intro tf _; rw [ttm_base_object_unref_files_ref_list]
    · intro tf _; rw [ttm_base_object_unref_files_ref_hash]
    · intro tf _ p _; rw [ttm_base_object_unref_refs]
  · apply Inv_adjust b h hs (fun _ => hlive) hh
    · rw [ttm_base_object_unref_object_hash, if_neg hz]
    · intro b'; rw [ttm_base_object_unref_hash_key]
    · rw [ttm_base_object_unref_refcount, if_pos rfl]; omega
    · intro b' hne; rw [ttm_base_object_unref_refcount, if_neg hne]
    · intro tf _; rw [ttm_base_object_unref_files_ref_list]
    · intro tf _; rw [ttm_base_object_unref_files_ref_hash]
    · intro tf _ p _; rw [ttm_base_object_unref_refs]

theorem ttm_base_object_lookup_cases (s : State) (tfile key : Nat) :
    ttm_base_object_lookup s tfile key = (none, s) ∨
    ∃ b, s.tdev.object_hash key = some b ∧
      ttm_base_object_lookup s tfile key = (some b,
        set_base s b { s.bases b with refcount := (s.bases b).refcount + 1 }) := by
  cases hd : s.tdev.object_hash key with
  | none => exact Or.inl (ttm_base_object_lookup_absent s tfile key hd)
  | some b =>
    by_cases hz : (s.bases b).refcount = 0
    · exact Or.inl (ttm_base_object_lookup_zero s tfile key b hd hz)
    · by_cases hacc : (s.bases b).shareable = true ∨ (s.bases b).tfile = some tfile
      · exact Or.inr ⟨b, rfl, ttm_base_object_lookup_granted s tfile key b hd hz hacc⟩
      · have hns : (s.bases b).shareable = false := by
          cases hsh : (s.bases b).shareable <;> simp_all
        have hnt : (s.bases b).tfile ≠ some tfile := fun e => hacc (Or.inr e)
        exact Or.inl (ttm_base_object_lookup_denied s tfile key b hd hz hnt hns)

theorem Inv_lookup {s s' : State} {g : Ghost} (tfile key base : Nat) (h : Inv s g)
    (hl : ttm_base_object_lookup s tfile key = (some base, s')) :
    Inv s' { g with handles := fun b => if b = base then g.handles b + 1 else g.handles b } := by
  rcases ttm_base_object_lookup_cases s tfile key with h0 | ⟨b, hd, h1⟩
  · rw [h0] at hl; cases hl
  · rw [h1] at hl
    cases hl
    have hkey := h.dir_key key base hd
    refine Inv_adjust base h rfl (fun _ => by rw [hkey]; exact hd) ?_ ?_ ?_ ?_ ?_ ?_ ?_ ?_
    · intro b' hne; simp [hne]
    · simp
    · intro b'; by_cases hb : b' = base <;> simp [hb]
    · simp
    · intro b' hne; simp [hne]
    · intro tf _; simp
    · intro tf _; simp
    · intro tf _ p _; simp

theorem Inv_lookup_null {s s' : State} {g : Ghost} (tfile key : Nat) (h : Inv s g)
    (hl : ttm_base_object_lookup s tfile key = (none, s')) : Inv s' g := by
  rcases ttm_base_object_lookup_cases s tfile key with h0 | ⟨b, hd, h1⟩
  · rw [h0] at hl; cases hl; exact h
  · rw [h1] at hl; cases hl

/-- A listed record is unlinked from its session; the reference it held on its target
is from now on a pointer held by the caller. -/
theorem Inv_unlink {s s' : State} {g g' : Ghost} (tf p key : Nat) (t : ttm_ref_type)
    (b : Nat) (h : Inv s g) (htf : tf ∈ g.sessions) (hp : p ∈ (s.files tf).ref_list)
    (hview : rec_view (s.refs p) = some (key, t, some b, tf))
    (hs : g'.sessions = g.sessions) (hhb : g'.handles b = g.handles b + 1)
    (hh : ∀ b', b' ≠ b → g'.handles b' = g.handles b')
    (hdir : s'.tdev.object_hash = s.tdev.object_hash)
    (hkey : ∀ b', (s'.bases b').hash_key = (s.bases b').hash_key)
    (hcnt : ∀ b', (s'.bases b').refcount = (s.bases b').refcount)
    (hlist_tf : (s'.files tf).ref_list = (s.files tf).ref_list.erase p)
    (hlist : ∀ tf' ∈ g.sessions, tf' ≠ tf → (s'.files tf').ref_list = (s.files tf').ref_list)
    (hhash_tf : ∀ t' k, (s'.files tf).ref_hash t' k =
      if t' = t ∧ (s.files tf).ref_hash t' k = some p then none
      else (s.files tf).ref_hash t' k)
    (hhash : ∀ tf' ∈ g.sessions, tf' ≠ tf → (s'.files tf').ref_hash = (s.files tf').ref_hash)
    (hrecs : ∀ q, q ≠ p → rec_view (s'.refs q) = rec_view (s.refs q)) :
    Inv s' g' := by
  have hnd := h.list_nodup tf htf
  have F1 : ∀ tf' ∈ g.sessions, p ∈ (s.files tf').ref_list → tf' = tf := by
    intro tf' htf' hq
    obtain ⟨_, _, _, h1, -, -⟩ := h.listed tf' htf' p hq
    rw [hview] at h1
    simp only [Option.some.injEq, Prod.mk.injEq] at h1
    exact h1.2.2.2.symm
  have hmem : ∀ tf' ∈ g.sessions, ∀ q, q ∈ (s'.files tf').ref_list ↔
      q ∈ (s.files tf').ref_list ∧ q ≠ p := by
    intro tf' htf' q
    by_cases e : tf' = tf
    · subst e
      rw [hlist_tf, hnd.mem_erase_iff]
      exact ⟨fun ⟨a, c⟩ => ⟨c, a⟩, fun ⟨a, c⟩ => ⟨c, a⟩⟩
    · rw [hlist tf' htf' e]
      exact ⟨fun hq => ⟨hq, fun e' => e (F1 tf' htf' (e' ▸ hq))⟩, fun hq => hq.1⟩
  have hkeyb : s.tdev.object_hash (s.bases b).hash_key = some b := by
    obtain ⟨key1, t1, b1, h1, h2, -⟩ := h.listed tf htf p hp
    rw [hview] at h1
    simp only [Option.some.injEq, Prod.mk.injEq] at h1
    obtain ⟨rfl, -, rfl, -⟩ := h1
    rw [h.dir_key _ _ h2]; exact h2
  refine ⟨hs ▸ h.sessions_nodup, ?_, ?_, ?_, ?_, ?_, ?_⟩
  · intro tf' htf'
    rw [hs] at htf'
    by_cases e : tf' = tf
    · subst e; rw [hlist_tf]; exact hnd.erase p
    · rw [hlist tf' htf' e]; exact h.list_nodup tf' htf'
  · intro tf' htf' q hq
    rw [hs] at htf'
    obtain ⟨hq1, hqp⟩ := (hmem tf' htf' q).mp hq
    obtain ⟨key1, t1, b1, h1, h2, h3⟩ := h.listed tf' htf' q hq1
    refine ⟨key1, t1, b1, by rw [hrecs q hqp, h1], by rw [hdir, h2], ?_⟩
    by_cases e : tf' = tf
    · subst e
      rw [hhash_tf, h3, if_neg]
      rintro ⟨-, e'⟩
      exact hqp (Option.some.inj e')
    · rw [hhash tf' htf' e, h3]
  · intro tf' htf' t' k' q hq
    rw [hs] at htf'
    have hold : (s.files tf').ref_hash t' k' = some q ∧ q ≠ p := by
      by_cases e : tf' = tf
      · subst e
        rw [hhash_tf] at hq
        split at hq
        · cases hq
        · rename_i hcond
          refine ⟨hq, fun e' => ?_⟩
          subst e'
          obtain ⟨-, o, tf'', h2⟩ := h.hashed tf' htf' t' k' q hq
          rw [hview] at h2
          simp only [Option.some.injEq, Prod.mk.injEq] at h2
          exact hcond ⟨h2.2.1.symm, hq⟩
      · rw [hhash tf' htf' e] at hq
        refine ⟨hq, fun e' => ?_⟩
        exact e (F1 tf' htf' (e' ▸ (h.hashed tf' htf' t' k' q hq).1))
    obtain ⟨h1, o, tf'', h2⟩ := h.hashed tf' htf' t' k' q hold.1
    exact ⟨(hmem tf' htf' q).mpr ⟨h1, hold.2⟩, o, tf'', by rw [hrecs q hold.2, h2]⟩
  · intro k b' hk
    rw [hdir] at hk
    rw [hkey]; exact h.dir_key k b' hk
  · intro b' hb'
    rw [hkey, hdir]
    by_cases hne : b' = b
    · subst hne; exact hkeyb
    · rw [hh b' hne] at hb'
      exact h.handle_live b' hb'
  · intro k b' hk
    rw [hdir] at hk
    have hc := h.counted k b' hk
    have htgt : targets s b' p = true ↔ b' = b := by
      rw [targets_iff_view, hview]
      simp only [Option.some.injEq, Prod.mk.injEq]
      constructor
      · rintro ⟨_, _, _, -, -, e, -⟩; exact e.symm
      · intro e; exact ⟨key, t, tf, rfl, rfl, e.symm, rfl⟩
    have hrt_tf : records_targeting s' tf b' + (if targets s b' p = true then 1 else 0)
        = records_targeting s tf b' := by
      simp only [records_targeting, hlist_tf]
      exact filter_erase_length (targets s b') (targets s' b') p _ hnd hp
        (fun y _ hy => targets_of_view s s' b' y (hrecs y hy))
    have hrt : ∀ tf' ∈ g.sessions, tf' ≠ tf →
        records_targeting s' tf' b' = records_targeting s tf' b' := by
      intro tf' htf' e
      apply records_targeting_congr s s' tf' b' (hlist tf' htf' e)
      intro q hq
      exact hrecs q (fun e' => e (F1 tf' htf' (e' ▸ hq)))
    have hsum : total_records s' g.sessions b' + records_targeting s tf b'
        = total_records s g.sessions b' + records_targeting s' tf b' :=
      sum_map_change_one (fun x => records_targeting s x b')
        (fun x => records_targeting s' x b') tf g.sessions h.sessions_nodup htf hrt
    rw [hcnt, hs]
    by_cases hne : b' = b
    · subst hne
      rw [if_pos (htgt.mpr rfl)] at hrt_tf
      rw [hhb]; push_cast; omega
    · rw [if_neg (fun e => hne (htgt.mp e))] at hrt_tf
      rw [hh b' hne]; omega

/-! ### Releasing a record -/

theorem ttm_ref_object_release_eq (size : Nat) (s : State) (ref : Nat) (r : ttm_ref_object)
    (base : Nat) (hr : s.refs ref = some r) (hobj : r.obj = some base) :
    ttm_ref_object_release size s ref =
      lock_file (set_ref (ttm_mem_global_free
        (ttm_base_object_unref (release_unlinked s ref r base) base) size) ref none)
        r.tfile := by
  simp only [ttm_ref_object_release, hr, hobj, release_unlinked]

theorem release_unlinked_tdev (s : State) (ref : Nat) (r : ttm_ref_object) (base : Nat) :
    (release_unlinked s ref r base).tdev = s.tdev := by
  simp only [release_unlinked]
  split_ifs <;> simp

theorem release_unlinked_bases (s : State) (ref : Nat) (r : ttm_ref_object) (base : Nat) :
    (release_unlinked s ref r base).bases = s.bases := by
  simp only [release_unlinked]
  split_ifs <;> simp

theorem release_unlinked_refs (s : State) (ref : Nat) (r : ttm_ref_object) (base : Nat) :
    (release_unlinked s ref r base).refs =
      fun p => if p = ref then some { r with obj := none } else s.refs p := by
  simp only [release_unlinked]
  split_ifs <;> simp

theorem release_unlinked_ref_list (s : State) (ref : Nat) (r : ttm_ref_object) (base : Nat)
    (p : Nat) :
    ((release_unlinked s ref r base).files p).ref_list =
      if p = r.tfile then (s.files p).ref_list.erase ref else (s.files p).ref_list := by
  simp only [release_unlinked]
  split_ifs <;> simp_all

theorem release_unlinked_ref_hash (s : State) (ref : Nat) (r : ttm_ref_object) (base : Nat)
    (p : Nat) (t : ttm_ref_type) (k : Nat) :
    ((release_unlinked s ref r base).files p).ref_hash t k =
      if p = r.tfile ∧ t = r.ref_type ∧ (s.files p).ref_hash t k = some ref then none
      else (s.files p).ref_hash t k := by
  have hfiles : (release_unlinked s ref r base).files p =
      (unlock_file (set_file s r.tfile { s.files r.tfile with
        ref_hash := fun t =>
          if t = r.ref_type then drm_ht_remove_item ((s.files r.tfile).ref_hash t) ref
          else (s.files r.tfile).ref_hash t
        ref_list := (s.files r.tfile).ref_list.erase ref }) r.tfile).files p := by
    simp only [release_unlinked]
    split_ifs <;> simp
  rw [hfiles]
  by_cases hp : p = r.tfile <;> by_cases ht : t = r.ref_type <;>
    by_cases hv : (s.files p).ref_hash t k = some ref <;>
    simp_all [drm_ht_remove_item]

theorem rec_view_some (o : Option ttm_ref_object) (key : Nat) (t : ttm_ref_type)
    (ob : Option Nat) (tf : Nat) (h : rec_view o = some (key, t, ob, tf)) :
    ∃ r, o = some r ∧ r.hash_key = key ∧ r.ref_type = t ∧ r.obj = ob ∧ r.tfile = tf := by
  cases o with
  | none => simp [rec_view] at h
  | some r =>
    simp only [rec_view, Option.map_some', Option.some.injEq, Prod.mk.injEq] at h
    exact ⟨r, rfl, h.1, h.2.1, h.2.2.1, h.2.2.2⟩

theorem Inv_release_unlinked {s : State} {g : Ghost} (tf p : Nat) (r : ttm_ref_object)
    (b : Nat) (h : Inv s g) (htf : tf ∈ g.sessions) (hp : p ∈ (s.files tf).ref_list)
    (hr : s.refs p = some r) (hrtf : r.tfile = tf) (hobj : r.obj = some b) :
    Inv (release_unlinked s p r b)
      { g with handles := fun b' => if b' = b then g.handles b' + 1 else g.handles b' } := by
  have hview : rec_view (s.refs p) = some (r.hash_key, r.ref_type, some b, tf) := by
    simp [rec_view, hr, hrtf, hobj]
  refine Inv_unlink tf p r.hash_key r.ref_type b h htf hp hview rfl (by simp) ?_ ?_ ?_ ?_ ?_
    ?_ ?_ ?_ ?_
  · intro b' hne; simp [hne]
  · rw [release_unlinked_tdev]
  · intro b'; rw [release_unlinked_bases]
  · intro b'; rw [release_unlinked_bases]
  · rw [release_unlinked_ref_list, if_pos hrtf.symm]
  · intro tf' _ hne
    rw [release_unlinked_ref_list, if_neg (fun e => hne (e.trans hrtf))]
  · intro t' k
    rw [release_unlinked_ref_hash]
    simp [hrtf]
  · intro tf' _ hne
    funext t' k
    rw [release_unlinked_ref_hash, if_neg]
    rintro ⟨e, -⟩
    exact hne (e.trans hrtf)
  · intro q hq
    rw [release_unlinked_refs]
    simp [hq]

/-- `ttm_ref_object_release` on a listed record preserves the invariant. -/
theorem Inv_release {s : State} {g : Ghost} (size tf p : Nat) (h : Inv s g)
    (htf : tf ∈ g.sessions) (hp : p ∈ (s.files tf).ref_list) :
    Inv (ttm_ref_object_release size s p) g := by
  obtain ⟨key, t, b, hview, -, -⟩ := h.listed tf htf p hp
  obtain ⟨r, hr, -, -, hobj, hrtf⟩ := rec_view_some _ _ _ _ _ hview
  have h1 := Inv_release_unlinked tf p r b h htf hp hr hrtf hobj
  have h2 : Inv (ttm_base_object_unref (release_unlinked s p r b) b) g :=
    Inv_base_unref b h1 (by simp) rfl (by simp) (fun b' hne => by simp [hne])
  rw [ttm_ref_object_release_eq size s p r b hr hobj]
  have hpu : ((ttm_base_object_unref (release_unlinked s p r b) b).refs p)
      = some { r with obj := none } := by
    rw [ttm_base_object_unref_refs, release_unlinked_refs]; simp
  have hnotin : ∀ tf' ∈ g.sessions,
      ∀ q ∈ ((ttm_base_object_unref (release_unlinked s p r b) b).files tf').ref_list,
        q ≠ p := by
    intro tf' htf' q hq e
    subst e
    obtain ⟨_, _, _, hv, -, -⟩ := h2.listed tf' htf' q hq
    rw [hpu] at hv
    simp [rec_view] at hv
  refine Inv_of_sameView ⟨by simp, fun _ => by simp, fun _ => by simp, fun _ _ => by simp,
    fun _ _ => by simp, ?_⟩ h2
  intro tf' htf' q hq
  have := hnotin tf' htf' q hq
  simp [this]

/-! ### Acquiring a record -/

/-- `ttm_ref_object_add` links a new record to an object of the directory. -/
theorem Inv_link {s : State} {g : Ghost} (size tf b : Nat) (t : ttm_ref_type) (ref : Nat)
    (h : Inv s g) (htf : tf ∈ g.sessions)
    (hlive : s.tdev.object_hash (s.bases b).hash_key = some b)
    (hfree : s.refs ref = none)
    (hnone : (s.files tf).ref_hash t (s.bases b).hash_key = none) :
    Inv (link_record size s tf b t ref) g := by
  have hnot : ∀ tf' ∈ g.sessions, ref ∉ (s.files tf').ref_list := by
    intro tf' htf' hq
    obtain ⟨_, _, _, hv, -, -⟩ := h.listed tf' htf' ref hq
    rw [hfree] at hv
    simp [rec_view] at hv
  have hrecs : ∀ tf' ∈ g.sessions, ∀ q ∈ (s.files tf').ref_list,
      (link_record size s tf b t ref).refs q = s.refs q := by
    intro tf' htf' q hq
    have : q ≠ ref := fun e => hnot tf' htf' (e ▸ hq)
    simp [this]
  refine ⟨h.sessions_nodup, ?_, ?_, ?_, ?_, ?_, ?_⟩
  · intro tf' htf'
    rw [link_record_ref_list]
    split
    · rename_i e
      subst e
      exact List.Nodup.append (h.list_nodup _ htf) (List.nodup_singleton ref)
        (by simpa using hnot _ htf)
    · exact h.list_nodup tf' htf'
  · intro tf' htf' q hq
    rw [link_record_ref_list] at hq
    have hold : q ∈ (s.files tf').ref_list →
        ∃ key t_1 b_1, rec_view ((link_record size s tf b t ref).refs q)
            = some (key, t_1, some b_1, tf') ∧
          (link_record size s tf b t ref).tdev.object_hash key = some b_1 ∧
          ((link_record size s tf b t ref).files tf').ref_hash t_1 key = some q := by
      intro hq1
      obtain ⟨key1, t1, b1, h1, h2, h3⟩ := h.listed tf' htf' q hq1
      refine ⟨key1, t1, b1, by rw [hrecs tf' htf' q hq1, h1], by simpa using h2, ?_⟩
      rw [link_record_ref_hash, if_neg, h3]
      rintro ⟨e1, e2, e3⟩
      subst e1 e2 e3
      rw [hnone] at h3
      cases h3
    split at hq
    · rename_i e
      subst e
      rcases List.mem_append.mp hq with hq1 | hq1
      · exact hold hq1
      · have : q = ref := by simpa using hq1
        subst this
        exact ⟨(s.bases b).hash_key, t, b, by simp [rec_view, new_record],
          by simpa using hlive, by simp⟩
    · exact hold hq
  · intro tf' htf' t' k' q hq
    rw [link_record_ref_hash] at hq
    split at hq
    · rename_i hc
      obtain ⟨e1, e2, e3⟩ := hc
      subst e1 e2 e3
      have : q = ref := (Option.some.inj hq).symm
      subst this
      exact ⟨by simp, some b, tf', by simp [rec_view, new_record]⟩
    · obtain ⟨h1, o, tf'', h2⟩ := h.hashed tf' htf' t' k' q hq
      refine ⟨?_, o, tf'', by rw [hrecs tf' htf' q h1, h2]⟩
      rw [link_record_ref_list]
      split
      · rename_i e; subst e; exact List.mem_append_left _ h1
      · exact h1
  · intro k b' hk
    rw [link_record_hash_key]
    exact h.dir_key k b' (by simpa using hk)
  · intro b' hb'
    rw [link_record_hash_key]
    simpa using h.handle_live b' hb'
  · intro k b' hk
    have hc := h.counted k b' (by simpa using hk)
    have hrt_tf : records_targeting (link_record size s tf b t ref) tf b'
        = records_targeting s tf b' + (if b' = b then 1 else 0) := by
      simp only [records_targeting, link_record_ref_list, if_true, List.filter_append,
        List.length_append]
      rw [List.filter_congr (fun q hq => targets_congr s _ b' q (hrecs tf htf q hq))]
      congr 1
      by_cases e : b' = b
      · subst e; simp [List.filter_cons, targets, new_record]
      · have e' : ¬ b = b' := fun x => e x.symm
        simp [List.filter_cons, targets, new_record, e, e']
    have hrt : ∀ tf' ∈ g.sessions, tf' ≠ tf →
        records_targeting (link_record size s tf b t ref) tf' b'
          = records_targeting s tf' b' := by
      intro tf' htf' e
      simp only [records_targeting, link_record_ref_list, if_neg e]
      rw [List.filter_congr (fun q hq => targets_congr s _ b' q (hrecs tf' htf' q hq))]
    have hsum : total_records (link_record size s tf b t ref) g.sessions b'
          + records_targeting s tf b'
        = total_records s g.sessions b'
          + records_targeting (link_record size s tf b t ref) tf b' :=
      sum_map_change_one (fun x => records_targeting s x b')
        (fun x => records_targeting (link_record size s tf b t ref) x b') tf g.sessions
        h.sessions_nodup htf hrt
    rw [link_record_refcount]
    by_cases e : b' = b
    · subst e
      simp only [if_true] at hrt_tf ⊢
      omega
    · simp only [if_neg e] at hrt_tf ⊢
      omega

theorem Inv_set_kref {s : State} {g : Ghost} (p : Nat) (r : ttm_ref_object) (c : Int)
    (h : Inv s g) (hr : s.refs p = some r) :
    Inv (set_ref s p (some { r with kref := c })) g := by
  refine Inv_of_sameView ⟨by simp, fun _ => by simp, fun _ => by simp, fun _ _ => by simp,
    fun _ _ => by simp, ?_⟩ h
  intro tf' _ q _
  by_cases e : q = p
  · subst e; simp [rec_view, hr]
  · simp [e]

theorem Inv_ref_add {s s' : State} {g : Ghost} (size fuel tfile base : Nat)
    (ref_type : ttm_ref_type) (existed : Option Bool) (alloc_ret : Int)
    (kmalloc_ret : Option Nat) (ret : Int) (e : Option Bool) (h : Inv s g)
    (htf : tfile ∈ g.sessions)
    (hlive : s.tdev.object_hash (s.bases base).hash_key = some base)
    (hfree : ∀ ref, kmalloc_ret = some ref → s.refs ref = none)
    (hadd : ttm_ref_object_add size fuel s tfile base ref_type existed alloc_ret kmalloc_ret
      = some (ret, e, s')) :
    Inv s' g := by
  cases fuel with
  | zero => simp [ttm_ref_object_add] at hadd
  | succ fuel =>
    cases hfind : (s.files tfile).ref_hash ref_type (s.bases base).hash_key with
    | some ref =>
      cases hr : s.refs ref with
      | none =>
        rw [ttm_ref_object_add_found_freed size fuel s tfile base ref_type existed alloc_ret
          kmalloc_ret ref hfind hr] at hadd
        cases hadd; exact h
      | some r =>
        rw [ttm_ref_object_add_found size fuel s tfile base ref_type existed alloc_ret
          kmalloc_ret ref r hfind hr] at hadd
        cases hadd
        exact Inv_set_kref ref r _ h hr
    | none =>
      by_cases ha : alloc_ret = 0
      · subst ha
        cases hk : kmalloc_ret with
        | none =>
          subst hk
          rw [ttm_ref_object_add_nomem size fuel s tfile base ref_type existed hfind] at hadd
          cases hadd; exact h
        | some ref =>
          rw [ttm_ref_object_add_new size fuel s tfile base ref_type existed kmalloc_ret ref
            hfind hk] at hadd
          cases hadd
          exact Inv_link size tfile base ref_type ref h htf hlive (hfree ref hk) hfind
      · rw [ttm_ref_object_add_denied size fuel s tfile base ref_type existed alloc_ret
          kmalloc_ret hfind ha] at hadd
        cases hadd; exact h

theorem Inv_lock_file {s : State} {g : Ghost} (tf : Nat) (h : Inv s g) :
    Inv (lock_file s tf) g :=
  Inv_of_sameView ⟨by simp, fun _ => by simp, fun _ => by simp, fun _ _ => by simp,
    fun _ _ => by simp, fun _ _ _ _ => by simp⟩ h

theorem Inv_unlock_file {s : State} {g : Ghost} (tf : Nat) (h : Inv s g) :
    Inv (unlock_file s tf) g :=
  Inv_of_sameView ⟨by simp, fun _ => by simp, fun _ => by simp, fun _ _ => by simp,
    fun _ _ => by simp, fun _ _ _ _ => by simp⟩ h

theorem Inv_ref_base_unref {s : State} {g : Ghost} (size tfile key : Nat)
    (ref_type : ttm_ref_type) (h : Inv s g) (htf : tfile ∈ g.sessions) :
    Inv (ttm_ref_object_base_unref size s tfile key ref_type).2 g := by
  cases hfind : (s.files tfile).ref_hash ref_type key with
  | none => rw [ttm_ref_object_base_unref_absent size s tfile key ref_type hfind]; exact h
  | some ref =>
    obtain ⟨hmem, o, tf', hv⟩ := h.hashed tfile htf ref_type key ref hfind
    obtain ⟨r, hr, -⟩ := rec_view_some _ _ _ _ _ hv
    by_cases hc : r.kref = 1
    · rw [ttm_ref_object_base_unref_last size s tfile key ref_type ref r hfind hr hc]
      apply Inv_unlock_file
      apply Inv_release size tfile ref _ htf (by simpa using hmem)
      exact Inv_set_kref ref r 0 (Inv_lock_file tfile h) (by simpa using hr)
    · rw [ttm_ref_object_base_unref_keep size s tfile key ref_type ref r hfind hr hc]
      exact Inv_set_kref ref r _ h hr

/-! ### Closing a session -/

theorem Inv_file_release_loop {g : Ghost} (size tfile : Nat) (htf : tfile ∈ g.sessions) :
    ∀ (fuel : Nat) (s s' : State), Inv s g →
      ttm_object_file_release_loop size fuel s tfile = some s' →
      Inv s' g ∧ (s'.files tfile).ref_list = [] := by
  intro fuel
  induction fuel with
  | zero => intro s s' _ h; simp [ttm_object_file_release_loop] at h
  | succ fuel ih =>
    intro s s' hinv h
    simp only [ttm_object_file_release_loop] at h
    split at h
    · rename_i hl
      cases h
      exact ⟨hinv, hl⟩
    · rename_i ref rest hl
      exact ih _ s' (Inv_release size tfile ref hinv htf (by rw [hl]; simp)) h

theorem Inv_close {s s' : State} {g : Ghost} (tf : Nat) (h : Inv s g) (htf : tf ∈ g.sessions)
    (hempty : (s.files tf).ref_list = [])
    (v : SameView (g.sessions.erase tf) s s') :
    Inv s' { g with sessions := g.sessions.erase tf } := by
  have hsub : ∀ tf', tf' ∈ g.sessions.erase tf → tf' ∈ g.sessions :=
    fun tf' h' => List.mem_of_mem_erase h'
  refine ⟨h.sessions_nodup.erase tf, ?_, ?_, ?_, ?_, ?_, ?_⟩
  · intro tf' htf'
    rw [v.list tf' htf']; exact h.list_nodup tf' (hsub tf' htf')
  · intro tf' htf' p hp
    rw [v.list tf' htf'] at hp
    obtain ⟨key, t, b, h1, h2, h3⟩ := h.listed tf' (hsub tf' htf') p hp
    exact ⟨key, t, b, by rw [v.recs tf' htf' p hp, h1], by rw [v.dir, h2],
      by rw [v.hash tf' htf', h3]⟩
  · intro tf' htf' t key p hp
    rw [v.hash tf' htf'] at hp
    obtain ⟨h1, o, tf'', h2⟩ := h.hashed tf' (hsub tf' htf') t key p hp
    exact ⟨by rw [v.list tf' htf']; exact h1, o, tf'', by rw [v.recs tf' htf' p h1, h2]⟩
  · intro k b hk
    rw [v.dir] at hk
    rw [v.key]; exact h.dir_key k b hk
  · intro b hb
    rw [v.key, v.dir]; exact h.handle_live b hb
  · intro k b hk
    rw [v.dir] at hk
    have hc := h.counted k b hk
    have h0 : records_targeting s tf b = 0 := by simp [records_targeting, hempty]
    have hsum : total_records s (g.sessions.erase tf) b + records_targeting s tf b
        = total_records s g.sessions b :=
      sum_map_erase_add (fun x => records_targeting s x b) tf g.sessions htf
    rw [v.cnt, total_records_of_view s s' _ b v.list v.recs]
    show (s.bases b).refcount
      = (total_records s (g.sessions.erase tf) b : Int) + (g.handles b : Int)
    omega

theorem Inv_file_release {s s' : State} {g : Ghost} (size fuel tfile : Nat) (h : Inv s g)
    (htf : tfile ∈ g.sessions)
    (hrel : ttm_object_file_release size fuel s tfile = some s') :
    Inv s' { g with sessions := g.sessions.erase tfile } := by
  simp only [ttm_object_file_release] at hrel
  split at hrel
  · cases hrel
  · rename_i s1 hloop
    cases hrel
    obtain ⟨h1, hl⟩ := Inv_file_release_loop size tfile htf fuel _ s1 (Inv_lock_file tfile h)
      hloop
    have hne : ∀ tf' ∈ g.sessions.erase tfile, tf' ≠ tfile :=
      fun tf' h' e => (List.Nodup.mem_erase_iff h.sessions_nodup).mp h' |>.1 e
    refine Inv_close tfile h1 htf hl ⟨by simp, fun _ => by simp, fun _ => by simp, ?_, ?_,
      fun _ _ _ _ => by simp⟩
    · intro tf' htf'
      simp [hne tf' htf']
    · intro tf' htf'
      simp [hne tf' htf']

/-! ### Registering an object -/

theorem drm_ht_remove_item_absent (ht : drm_open_hash) (item : Nat)
    (h : ∀ k, ht k ≠ some item) : drm_ht_remove_item ht item = ht := by
  funext k
  simp [drm_ht_remove_item, h k]

theorem total_records_zero_of_absent {s : State} {g : Ghost} (base : Nat) (h : Inv s g)
    (habs : ∀ k, s.tdev.object_hash k ≠ some base) :
    total_records s g.sessions base = 0 := by
  simp only [total_records]
  apply List.sum_eq_zero
  intro n hn
  obtain ⟨tf, htf, rfl⟩ := List.mem_map.mp hn
  simp only [records_targeting, List.length_eq_zero, List.filter_eq_nil_iff]
  intro p hp htg
  obtain ⟨key, t, b, hv, hd, -⟩ := h.listed tf htf p hp
  obtain ⟨key', t', tf', hv'⟩ := (targets_iff_view s base p).mp htg
  rw [hv] at hv'
  simp only [Option.some.injEq, Prod.mk.injEq] at hv'
  obtain ⟨rfl, -, rfl, -⟩ := hv'
  exact habs key hd

theorem handles_zero_of_absent {s : State} {g : Ghost} (base : Nat) (h : Inv s g)
    (habs : ∀ k, s.tdev.object_hash k ≠ some base) : g.handles base = 0 := by
  by_contra hne
  exact habs _ (h.handle_live base (Nat.pos_of_ne_zero hne))

theorem no_record_of_absent_key {s : State} {g : Ghost} (tf key : Nat) (t : ttm_ref_type)
    (h : Inv s g) (htf : tf ∈ g.sessions) (hk : s.tdev.object_hash key = none) :
    (s.files tf).ref_hash t key = none := by
  cases hfind : (s.files tf).ref_hash t key with
  | none => rfl
  | some p =>
    obtain ⟨hmem, o, tf', hv⟩ := h.hashed tf htf t key p hfind
    obtain ⟨key1, t1, b1, hv1, hd, -⟩ := h.listed tf htf p hmem
    rw [hv] at hv1
    simp only [Option.some.injEq, Prod.mk.injEq] at hv1
    obtain ⟨rfl, -⟩ := hv1
    rw [hk] at hd
    cases hd

/-- The object is filled in and inserted under a free key; until the usage record
exists, its one reference is a pointer held by the caller. -/
theorem Inv_init_inserted {s : State} {g : Ghost} (tfile base : Nat) (shareable : Bool)
    (object_type : Nat) (rr ror : Bool) (key : Nat) (h : Inv s g)
    (habs : ∀ k, s.tdev.object_hash k ≠ some base)
    (hk : s.tdev.object_hash key = none) :
    Inv (init_inserted s tfile base shareable object_type rr ror key)
      { g with handles := fun b => if b = base then 1 else g.handles b } := by
  have htot := total_records_zero_of_absent base h habs
  have hrecs : ∀ b, total_records (init_inserted s tfile base shareable object_type rr ror key)
      g.sessions b = total_records s g.sessions b := fun b =>
    total_records_of_view s _ g.sessions b (fun _ _ => by simp) (fun _ _ _ _ => by simp)
  have hkeep : ∀ k b, s.tdev.object_hash k = some b →
      (init_inserted s tfile base shareable object_type rr ror key).tdev.object_hash k
        = some b := by
    intro k b hkb
    have : k ≠ key := fun e => by rw [e, hk] at hkb; cases hkb
    simp [this, hkb]
  refine ⟨h.sessions_nodup, ?_, ?_, ?_, ?_, ?_, ?_⟩
  · intro tf htf
    rw [init_inserted_files_ref_list]; exact h.list_nodup tf htf
  · intro tf htf p hp
    rw [init_inserted_files_ref_list] at hp
    obtain ⟨key1, t1, b1, h1, h2, h3⟩ := h.listed tf htf p hp
    exact ⟨key1, t1, b1, by simpa using h1, hkeep key1 b1 h2, by simpa using h3⟩
  · intro tf htf t k p hp
    rw [init_inserted_files_ref_hash] at hp
    obtain ⟨h1, o, tf', h2⟩ := h.hashed tf htf t k p hp
    exact ⟨by simpa using h1, o, tf', by simpa using h2⟩
  · intro k b hkb
    simp only [init_inserted_object_hash] at hkb
    simp only [init_inserted_bases]
    split at hkb
    · rename_i e
      cases hkb
      simp [e]
    · have hb : b ≠ base := fun e => habs k (e ▸ hkb)
      simp only [if_neg hb]
      exact h.dir_key k b hkb
  · intro b hb
    simp only [init_inserted_bases]
    by_cases e : b = base
    · subst e; simp
    · simp only [if_neg e] at hb ⊢
      exact hkeep _ b (h.handle_live b hb)
  · intro k b hkb
    simp only [init_inserted_object_hash] at hkb
    rw [hrecs]
    simp only [init_inserted_bases]
    split at hkb
    · cases hkb
      simp [htot]
    · have hb : b ≠ base := fun e => habs k (e ▸ hkb)
      simp only [if_neg hb]
      exact h.counted k b hkb

theorem Inv_base_init {s s' : State} {g : Ghost} (size fuel tfile base : Nat)
    (shareable : Bool) (object_type : Nat) (rr ror : Bool) (probe : Option Nat)
    (alloc_ret : Int) (kmalloc_ret : Option Nat) (ret : Int) (h : Inv s g)
    (htf : tfile ∈ g.sessions) (habs : ∀ k, s.tdev.object_hash k ≠ some base)
    (hfree : ∀ ref, kmalloc_ret = some ref → s.refs ref = none)
    (hinit : ttm_base_object_init size fuel s tfile base shareable object_type rr ror probe
      alloc_ret kmalloc_ret = some (ret, s')) :
    Inv s' g := by
  have htot := total_records_zero_of_absent base h habs
  have hh0 := handles_zero_of_absent base h habs
  have hrem := drm_ht_remove_item_absent s.tdev.object_hash base habs
  -- the failure paths leave a state that differs from `s` only at `base` and in locks
  have hfail : ∀ s1 : State, s1.tdev.object_hash = s.tdev.object_hash →
      (∀ b, b ≠ base → s1.bases b = s.bases b) →
      (∀ tf, (s1.files tf).ref_list = (s.files tf).ref_list) →
      (∀ tf, (s1.files tf).ref_hash = (s.files tf).ref_hash) →
      s1.refs = s.refs → Inv s1 g := by
    intro s1 h1 h2 h3 h4 h5
    exact Inv_evict base h htot rfl hh0 (fun _ _ => rfl) (by rw [h1, hrem])
      (fun b hb => by rw [h2 b hb]) (fun b hb => by rw [h2 b hb]) (fun tf _ => h3 tf)
      (fun tf _ => h4 tf) (fun _ _ p _ => by rw [h5])
  cases probe with
  | none =>
    simp [ttm_base_object_init, drm_ht_just_insert_please] at hinit
    obtain ⟨-, rfl⟩ := hinit
    exact hfail _ (by simp) (fun b hb => by simp [hb]) (fun tf => by simp)
      (fun tf => by simp) (by simp)
  | some key =>
    cases hd : s.tdev.object_hash key with
    | some b0 =>
      simp [ttm_base_object_init, drm_ht_just_insert_please, drm_ht_insert_item, hd] at hinit
      obtain ⟨-, rfl⟩ := hinit
      exact hfail _ (by simp) (fun b hb => by simp [hb]) (fun tf => by simp)
        (fun tf => by simp) (by simp)
    | none =>
      rw [ttm_base_object_init_inserted size fuel s tfile base shareable object_type rr ror
        alloc_ret kmalloc_ret key hd] at hinit
      have hi := Inv_init_inserted tfile base shareable object_type rr ror key h habs hd
      have hnorec := no_record_of_absent_key tfile key TTM_REF_USAGE h htf hd
      have hfind : ((init_inserted s tfile base shareable object_type rr ror key).files
          tfile).ref_hash TTM_REF_USAGE
          ((init_inserted s tfile base shareable object_type rr ror key).bases base).hash_key
          = none := by simpa using hnorec
      have hremi : drm_ht_remove_item
          (init_inserted s tfile base shareable object_type rr ror key).tdev.object_hash base
          = s.tdev.object_hash := by
        funext k
        simp only [drm_ht_remove_item, init_inserted_object_hash]
        by_cases e : k = key
        · simp [e, hd]
        · simp [e, habs k]
      have hundo : Inv (unlock_object (set_object_hash
          (lock_object (init_inserted s tfile base shareable object_type rr ror key))
          (drm_ht_remove_item (init_inserted s tfile base shareable object_type rr ror
            key).tdev.object_hash base))) g :=
        hfail _ (by simpa using hremi) (fun b hb => by simp [hb]) (fun tf => by simp)
          (fun tf => by simp) (by simp)
      cases fuel with
      | zero => simp [ttm_ref_object_add] at hinit
      | succ fuel =>
        by_cases ha : alloc_ret = 0
        · subst ha
          cases hkm : kmalloc_ret with
          | none =>
            subst hkm
            rw [ttm_ref_object_add_nomem size fuel _ tfile base TTM_REF_USAGE none hfind]
              at hinit
            simp [ENOMEM] at hinit
            obtain ⟨-, rfl⟩ := hinit
            exact hundo
          | some ref =>
            rw [ttm_ref_object_add_new size fuel _ tfile base TTM_REF_USAGE none kmalloc_ret
              ref hfind hkm] at hinit
            simp only [ne_eq, not_true_eq_false, if_false, Option.some.injEq,
              Prod.mk.injEq] at hinit
            obtain ⟨-, rfl⟩ := hinit
            have hl := Inv_link size tfile base TTM_REF_USAGE ref hi htf (by simp)
              (by simpa using hfree ref hkm) hfind
            exact Inv_base_unref base hl (by simp) rfl (by simp [hh0])
              (fun b hb => by simp [hb])
        · rw [ttm_ref_object_add_denied size fuel _ tfile base TTM_REF_USAGE none alloc_ret
            kmalloc_ret hfind ha] at hinit
          simp [ha] at hinit
          obtain ⟨-, rfl⟩ := hinit
          exact hundo

/-! ### Every reachable state satisfies the invariant -/

theorem Reachable_Inv {size : Nat} {s : State} {g : Ghost} (h : Reachable size s g) :
    Inv s g := by
  induction h with
  | device_init s0 _ _ => exact Inv_device_init s0
  | file_init s g tfile hc s' _ hnew heq ih =>
    have h1 : (ttm_object_file_init s (some tfile) hc).1 = some tfile := by rw [heq]
    have h2 : s' = (ttm_object_file_init s (some tfile) hc).2 := by rw [heq]
    rw [h2]
    exact Inv_file_init s g tfile hc ih hnew h1
  | file_init_failed s g tfile hc s' _ hnew heq ih =>
    have h2 : s' = (ttm_object_file_init s (some tfile) hc).2 := by rw [heq]
    rw [h2]
    exact Inv_of_sameView (ttm_object_file_init_sameView s g.sessions tfile hc hnew) ih
  | base_init s g fuel tfile base shareable object_type rr ror probe alloc_ret kmalloc_ret ret
      s' _ htf habs hfree hinit ih =>
    exact Inv_base_init size fuel tfile base shareable object_type rr ror probe alloc_ret
      kmalloc_ret ret ih htf habs hfree hinit
  | lookup s g tfile key base s' _ _ hl ih => exact Inv_lookup tfile key base ih hl
  | lookup_null s g tfile key s' _ _ hl ih => exact Inv_lookup_null tfile key ih hl
  | base_unref s g base _ hb ih =>
    exact Inv_base_unref base ih hb rfl (by simp) (fun b hne => by simp [hne])
  | ref_add s g fuel tfile base ref_type existed alloc_ret kmalloc_ret ret e s' _ htf hlive
      hfree hadd ih =>
    exact Inv_ref_add size fuel tfile base ref_type existed alloc_ret kmalloc_ret ret e ih htf
      hlive hfree hadd
  | ref_base_unref s g tfile key ref_type _ htf ih =>
    exact Inv_ref_base_unref size tfile key ref_type ih htf
  | file_release s g fuel tfile s' _ htf hrel ih =>
    exact Inv_file_release size fuel tfile ih htf hrel

theorem reachable_three_sessions :
    Reachable 64 three_sessions { sessions := [12, 11, 10], handles := fun _ => 0 } := by
  have h0 : Reachable 64 boot { sessions := [], handles := fun _ => 0 } :=
    Reachable.device_init _ (fun _ => rfl) rfl
  have h1 := Reachable.file_init boot _ 10 (fun _ => 0) _ h0 (by simp) rfl
  have h2 := Reachable.file_init _ _ 11 (fun _ => 0) _ h1 (by simp) rfl
  exact Reachable.file_init _ _ 12 (fun _ => 0) _ h2 (by simp) rfl

theorem reachable_registered :
    Reachable 64 registered { sessions := [12, 11, 10], handles := fun _ => 0 } :=
  Reachable.base_init three_sessions _ 1 10 100 true 0 true true (some 5) 0 (some 200) 0
    registered reachable_three_sessions (by simp) (fun k h => by cases h)
    (fun ref _ => rfl) rfl

theorem reachable_shared_by_three :
    Reachable 64 shared_by_three { sessions := [12, 11, 10], handles := fun _ => 0 } := by
  have h1 := Reachable.ref_add registered _ 1 11 100 TTM_REF_SYNCCPU_READ none 0 (some 201) 0
    none _ reachable_registered (by simp) (by decide) (fun ref h => by cases h; rfl) rfl
  exact Reachable.ref_add _ _ 1 12 100 TTM_REF_SYNCCPU_READ none 0 (some 202) 0
    none shared_by_three h1 (by simp) (by decide) (fun ref h => by cases h; rfl) rfl

/-- In a reachable state a key that is absent from the directory has no record in an
open session: neither in a table nor on the list. -/
theorem reachable_absent_key_no_record {size : Nat} {s : State} {g : Ghost}
    (hreach : Reachable size s g) (tf : Nat) (htf : tf ∈ g.sessions) (t : ttm_ref_type)
    (key : Nat) (hk : s.tdev.object_hash key = none) :
    (s.files tf).ref_hash t key = none ∧ record_count s tf key t = 0 := by
  have h := Reachable_Inv hreach
  refine ⟨no_record_of_absent_key tf key t h htf hk, ?_⟩
  simp only [record_count, List.length_eq_zero, List.filter_eq_nil_iff]
  intro p hp hrec
  obtain ⟨key1, t1, b1, hv, hd, -⟩ := h.listed tf htf p hp
  obtain ⟨r, hr, hk1, -⟩ := rec_view_some _ _ _ _ _ hv
  simp only [is_record, hr, decide_eq_true_eq] at hrec
  rw [← hrec.1, hk1, hd] at hk
  cases hk

/-- In a reachable state memory that holds no live record is on no open session's
list. -/
theorem reachable_free_not_listed {size : Nat} {s : State} {g : Ghost}
    (hreach : Reachable size s g) (tf : Nat) (htf : tf ∈ g.sessions) (ref : Nat)
    (hfree : s.refs ref = none) : ref ∉ (s.files tf).ref_list := by
  intro hp
  obtain ⟨_, _, _, hv, -, -⟩ := (Reachable_Inv hreach).listed tf htf ref hp
  rw [hfree] at hv
  simp [rec_view] at hv


/-! ## Error paths -/

theorem ttm_ref_object_base_unref_hit_ret (size : Nat) (s : State) (tfile key : Nat)
    (ref_type : ttm_ref_type) (ref : Nat)
    (hfind : (s.files tfile).ref_hash ref_type key = some ref) :
    (ttm_ref_object_base_unref size s tfile key ref_type).1 = 0 := by
  cases hr : s.refs ref with
  | none => simp [ttm_ref_object_base_unref, drm_ht_find_item, hfind, hr]
  | some r =>
    by_cases hc : r.kref = 1
    · rw [ttm_ref_object_base_unref_last size s tfile key ref_type ref r hfind hr hc]
    · rw [ttm_ref_object_base_unref_keep size s tfile key ref_type ref r hfind hr hc]

/-- C11: `ttm_ref_object_base_unref(tfile, key, ref_type)` returns `-EINVAL` and leaves the
whole state as it was (internal counts, tables, lists, base counts and charge)
whenever the table of `ref_type` of session `tfile` has no record under `key`,
whatever the other tables of the session and the other sessions hold; and it returns
0 whenever that table has a record under `key`. -/
theorem C11_ttm_ref_object_base_unref_not_found (size : Nat) (s : State) (tfile key : Nat)
    (ref_type : ttm_ref_type) :
    ((s.files tfile).ref_hash ref_type key = none →
      ttm_ref_object_base_unref size s tfile key ref_type = (-EINVAL, s)) ∧
    (∀ ref, (s.files tfile).ref_hash ref_type key = some ref →
      (ttm_ref_object_base_unref size s tfile key ref_type).1 = 0) :=
  ⟨ttm_ref_object_base_unref_absent size s tfile key ref_type,
   ttm_ref_object_base_unref_hit_ret size s tfile key ref_type⟩

/-- C12: when the session's table has no record for the key and type and the accounting
service answers a non-zero error, `ttm_ref_object_add` returns that error and leaves
the whole state as it was: no record, same tables and list, same base count, same
charge.  When the table has the record, the call returns 0 with the same resulting
state whatever the accounting service and `kmalloc` would answer, and the charge is
unchanged. -/
theorem C12_ttm_ref_object_add_denied (size fuel : Nat) (s : State) (tfile base : Nat)
    (ref_type : ttm_ref_type) (existed : Option Bool) :
    (∀ (alloc_ret : Int) (kmalloc_ret : Option Nat),
      (s.files tfile).ref_hash ref_type (s.bases base).hash_key = none → alloc_ret ≠ 0 →
      ttm_ref_object_add size (fuel + 1) s tfile base ref_type existed alloc_ret kmalloc_ret
        = some (alloc_ret, existed.map (fun _ => true), s)) ∧
    (∀ ref, (s.files tfile).ref_hash ref_type (s.bases base).hash_key = some ref →
      ∃ s', s'.mem_glob = s.mem_glob ∧
        ∀ (alloc_ret : Int) (kmalloc_ret : Option Nat),
          ttm_ref_object_add size (fuel + 1) s tfile base ref_type existed alloc_ret
            kmalloc_ret = some (0, existed.map (fun _ => true), s')) := by
  refine ⟨fun alloc_ret kmalloc_ret hfind hden =>
    ttm_ref_object_add_denied size fuel s tfile base ref_type existed alloc_ret kmalloc_ret
      hfind hden, ?_⟩
  intro ref hfind
  cases hr : s.refs ref with
  | none =>
    exact ⟨s, rfl, fun a k => ttm_ref_object_add_found_freed size fuel s tfile base ref_type
      existed a k ref hfind hr⟩
  | some r =>
    exact ⟨_, by simp, fun a k => ttm_ref_object_add_found size fuel s tfile base ref_type
      existed a k ref r hfind hr⟩

/-- C13: `ttm_base_object_init` on an object that is not in the directory returns; when
it returns a non-zero value, the object is not in the directory (the directory is the
one before the call), the records, the record lists and the tables of every session
are those before the call, so that no record targets the object that did not before,
and the charge is the one before the call.  The value is `-EINVAL` when no key could
be inserted, and the answer of the accounting service when the charge for the usage
record is denied. -/
theorem C13_ttm_base_object_init_failure (size fuel : Nat) (s : State) (tfile base : Nat)
    (shareable : Bool) (object_type : Nat) (rr ror : Bool) (probe : Option Nat)
    (alloc_ret : Int) (kmalloc_ret : Option Nat)
    (hfresh : ∀ k, s.tdev.object_hash k ≠ some base) :
    ∃ ret s', ttm_base_object_init size (fuel + 1) s tfile base shareable object_type rr ror
        probe alloc_ret kmalloc_ret = some (ret, s') ∧
      (ret ≠ 0 →
        (∀ k, s'.tdev.object_hash k ≠ some base) ∧
        s'.tdev.object_hash = s.tdev.object_hash ∧
        s'.refs = s.refs ∧
        (∀ tf, (s'.files tf).ref_list = (s.files tf).ref_list ∧
          (s'.files tf).ref_hash = (s.files tf).ref_hash) ∧
        (∀ tf, records_targeting s' tf base = records_targeting s tf base) ∧
        s'.mem_glob = s.mem_glob) ∧
      ((probe = none ∨ ∃ k b, probe = some k ∧ s.tdev.object_hash k = some b) →
        ret = -EINVAL) ∧
      (∀ k, probe = some k → s.tdev.object_hash k = none →
        (s.files tfile).ref_hash TTM_REF_USAGE k = none → alloc_ret ≠ 0 → ret = alloc_ret) := by
  have hrem := drm_ht_remove_item_absent s.tdev.object_hash base hfresh
  -- what is left of a failed call
  have hfail : ∀ s1 : State, s1.tdev.object_hash = s.tdev.object_hash →
      s1.refs = s.refs → (∀ tf, (s1.files tf).ref_list = (s.files tf).ref_list) →
      (∀ tf, (s1.files tf).ref_hash = (s.files tf).ref_hash) →
      s1.mem_glob = s.mem_glob →
      (∀ k, s1.tdev.object_hash k ≠ some base) ∧
        s1.tdev.object_hash = s.tdev.object_hash ∧
        s1.refs = s.refs ∧
        (∀ tf, (s1.files tf).ref_list = (s.files tf).ref_list ∧
          (s1.files tf).ref_hash = (s.files tf).ref_hash) ∧
        (∀ tf, records_targeting s1 tf base = records_targeting s tf base) ∧
        s1.mem_glob = s.mem_glob := by
    intro s1 h1 h2 h3 h4 h5
    refine ⟨fun k => by rw [h1]; exact hfresh k, h1, h2, fun tf => ⟨h3 tf, h4 tf⟩, ?_, h5⟩
    intro tf
    simp only [records_targeting, h3 tf]
    rw [List.filter_congr (fun p _ => targets_congr s s1 base p (by rw [h2]))]
  cases probe with
  | none =>
    obtain ⟨s', h⟩ := ttm_base_object_init_no_key size (fuel + 1) s tfile base shareable
      object_type rr ror alloc_ret kmalloc_ret
    refine ⟨-EINVAL, s', h, ?_, fun _ => rfl, fun k hk => by cases hk⟩
    intro _
    simp [ttm_base_object_init, drm_ht_just_insert_please] at h
    subst h
    exact hfail _ (by simp) (by simp) (fun tf => by simp) (fun tf => by simp) (by simp)
  | some key =>
    cases hd : s.tdev.object_hash key with
    | some b0 =>
      obtain ⟨s', h⟩ := ttm_base_object_init_key_taken size (fuel + 1) s tfile base shareable
        object_type rr ror alloc_ret kmalloc_ret key b0 hd
      refine ⟨-EINVAL, s', h, ?_, fun _ => rfl, ?_⟩
      · intro _
        simp [ttm_base_object_init, drm_ht_just_insert_please, drm_ht_insert_item, hd] at h
        subst h
        exact hfail _ (by simp) (by simp) (fun tf => by simp) (fun tf => by simp) (by simp)
      · intro k hk hk0
        cases hk
        rw [hd] at hk0
        cases hk0
    | none =>
      have hremi : drm_ht_remove_item
          (init_inserted s tfile base shareable object_type rr ror key).tdev.object_hash base
          = s.tdev.object_hash := by
        funext k
        simp only [drm_ht_remove_item, init_inserted_object_hash]
        by_cases e : k = key
        · simp [e, hd]
        · simp [e, hfresh k]
      have hundo := hfail (unlock_object (set_object_hash
          (lock_object (init_inserted s tfile base shareable object_type rr ror key))
          (drm_ht_remove_item (init_inserted s tfile base shareable object_type rr ror
            key).tdev.object_hash base)))
        (by simpa using hremi) (by simp) (fun tf => by simp) (fun tf => by simp) (by simp)
      have hnot : ¬ (some key = none ∨ ∃ k b, some key = some k ∧
          s.tdev.object_hash k = some b) := by
        rintro (h | ⟨k, b, hk, hb⟩)
        · cases h
        · cases hk; rw [hd] at hb; cases hb
      rw [ttm_base_object_init_inserted size (fuel + 1) s tfile base shareable object_type rr
        ror alloc_ret kmalloc_ret key hd]
      cases hfind : ((init_inserted s tfile base shareable object_type rr ror key).files
          tfile).ref_hash TTM_REF_USAGE
          ((init_inserted s tfile base shareable object_type rr ror key).bases base).hash_key with
      | some ref =>
        obtain ⟨s1, hadd, -⟩ := ttm_ref_object_add_hit size fuel _ tfile base TTM_REF_USAGE
          none alloc_ret kmalloc_ret ref hfind
        rw [hadd]
        simp only [ne_eq, not_true_eq_false, if_false]
        refine ⟨0, _, rfl, fun h => absurd rfl h, ?_, ?_⟩
        · intro h; cases h with
          | inl h => cases h
          | inr h => obtain ⟨k, b, hk, hb⟩ := h; cases hk; rw [hd] at hb; cases hb
        · intro k hk _ hnone
          cases hk
          simp only [init_inserted_files_ref_hash, init_inserted_bases, if_true] at hfind
          rw [hnone] at hfind
          cases hfind
      | none =>
        by_cases ha : alloc_ret = 0
        · subst ha
          cases hkm : kmalloc_ret with
          | none =>
            rw [ttm_ref_object_add_nomem size fuel _ tfile base TTM_REF_USAGE none hfind]
            have hne : ¬ (-ENOMEM : Int) = 0 := by simp [ENOMEM]
            simp only [ne_eq, hne, not_false_eq_true, if_true]
            exact ⟨-ENOMEM, _, rfl, fun _ => hundo,
              fun h => absurd h hnot, fun _ _ _ _ h => by simp at h⟩
          | some ref =>
            rw [ttm_ref_object_add_new size fuel _ tfile base TTM_REF_USAGE none (some ref)
              ref hfind rfl]
            simp only [ne_eq, not_true_eq_false, if_false]
            exact ⟨0, _, rfl, fun h => absurd rfl h,
              fun h => absurd h hnot, fun _ _ _ _ h => by simp at h⟩
        · rw [ttm_ref_object_add_denied size fuel _ tfile base TTM_REF_USAGE none alloc_ret
            kmalloc_ret hfind ha]
          simp only [ne_eq, ha, not_false_eq_true, if_true]
          exact ⟨alloc_ret, _, rfl, fun _ => hundo, fun h => absurd h hnot,
            fun _ _ _ _ _ => rfl⟩

/-! ## Hook invocations of `ttm_ref_object_release` -/

theorem release_unlinked_eq (s : State) (ref : Nat) (r : ttm_ref_object) (base : Nat) :
    release_unlinked s ref r base =
      set_ref (if r.ref_type ≠ TTM_REF_USAGE ∧ (s.bases base).ref_obj_release = true then
          call_hook (release_unlocked s ref r) (Callback.ref_obj_release base r.ref_type)
        else release_unlocked s ref r) ref (some { r with obj := none }) := rfl

@[simp] theorem release_unlocked_tdev (s : State) (ref : Nat) (r : ttm_ref_object) :
    (release_unlocked s ref r).tdev = s.tdev := rfl

@[simp] theorem release_unlocked_bases (s : State) (ref : Nat) (r : ttm_ref_object) :
    (release_unlocked s ref r).bases = s.bases := rfl

@[simp] theorem release_unlocked_refs (s : State) (ref : Nat) (r : ttm_ref_object) :
    (release_unlocked s ref r).refs = s.refs := rfl

@[simp] theorem release_unlocked_mem_glob (s : State) (ref : Nat) (r : ttm_ref_object) :
    (release_unlocked s ref r).mem_glob = s.mem_glob := rfl

@[simp] theorem release_unlocked_calls (s : State) (ref : Nat) (r : ttm_ref_object) :
    (release_unlocked s ref r).calls = s.calls := rfl

theorem release_unlocked_files_lock (s : State) (ref : Nat) (r : ttm_ref_object) (p : Nat) :
    ((release_unlocked s ref r).files p).lock =
      if p = r.tfile then (s.files p).lock - 1 else (s.files p).lock := by
  simp only [release_unlocked]
  by_cases hp : p = r.tfile <;> simp [hp]

theorem release_unlinked_calls (s : State) (ref : Nat) (r : ttm_ref_object) (base : Nat) :
    (release_unlinked s ref r base).calls =
      s.calls ++ (if r.ref_type ≠ TTM_REF_USAGE ∧ (s.bases base).ref_obj_release = true then
          [(Callback.ref_obj_release base r.ref_type, (release_unlocked s ref r).toMem)]
        else []) := by
  rw [release_unlinked_eq]
  split <;> simp

theorem release_unlinked_files_lock (s : State) (ref : Nat) (r : ttm_ref_object)
    (base p : Nat) :
    ((release_unlinked s ref r base).files p).lock =
      if p = r.tfile then (s.files p).lock - 1 else (s.files p).lock := by
  rw [release_unlinked_eq, ← release_unlocked_files_lock s ref r p]
  split <;> simp

/-- The hook invocations of `ttm_ref_object_release`: first `ref_obj_release`, when the
record's type is not `TTM_REF_USAGE` and the object has the hook, on the memory of
`release_unlocked`; then `refcount_release`, when the object's count reaches 0 and it
has the hook, on the memory `ttm_base_object_unref` leaves. -/
theorem ttm_ref_object_release_calls (size : Nat) (s : State) (ref : Nat)
    (r : ttm_ref_object) (base : Nat) (hr : s.refs ref = some r) (hobj : r.obj = some base) :
    (ttm_ref_object_release size s ref).calls =
      s.calls ++ (if r.ref_type ≠ TTM_REF_USAGE ∧ (s.bases base).ref_obj_release = true then
          [(Callback.ref_obj_release base r.ref_type, (release_unlocked s ref r).toMem)]
        else []) ++
      (if (s.bases base).refcount - 1 = 0 ∧ (s.bases base).refcount_release = true then
          [(Callback.refcount_release base,
            (ttm_base_object_unref (release_unlinked s ref r base) base).toMem)]
        else []) := by
  rw [ttm_ref_object_release_eq size s ref r base hr hobj]
  simp only [lock_file_calls, set_ref_calls, ttm_mem_global_free_calls]
  rw [ttm_base_object_unref_calls, release_unlinked_calls, release_unlinked_bases]
  split <;> simp

theorem ttm_ref_object_release_ref_obj_release (size : Nat) (s : State) (ref : Nat)
    (r : ttm_ref_object) (base : Nat) (hr : s.refs ref = some r) (hobj : r.obj = some base)
    (p : Nat) :
    ((ttm_ref_object_release size s ref).bases p).ref_obj_release
      = (s.bases p).ref_obj_release := by
  rw [ttm_ref_object_release_eq size s ref r base hr hobj]
  simp only [lock_file_bases, set_ref_bases, ttm_mem_global_free_bases]
  rw [ttm_base_object_unref_ref_obj_release, release_unlinked_bases]

/-- The invocations `ttm_ref_object_release` adds to the log: those of `ref_obj_release`
among them are one when the test of the source holds, and none otherwise. -/
theorem ttm_ref_object_release_hook_count (size : Nat) (s : State) (ref : Nat)
    (r : ttm_ref_object) (base : Nat) (hr : s.refs ref = some r) (hobj : r.obj = some base) :
    ∃ new, (ttm_ref_object_release size s ref).calls = s.calls ++ new ∧
      (new.filter is_ref_obj_release).length
        = if wants_ref_obj_release s ref = true then 1 else 0 := by
  refine ⟨_, by rw [ttm_ref_object_release_calls size s ref r base hr hobj,
    List.append_assoc], ?_⟩
  by_cases h1 : r.ref_type ≠ TTM_REF_USAGE <;>
    by_cases h2 : (s.bases base).ref_obj_release = true <;>
    by_cases h3 : (s.bases base).refcount - 1 = 0 ∧ (s.bases base).refcount_release = true <;>
    simp [wants_ref_obj_release, hr, hobj, h1, h2, h3, is_ref_obj_release]

/-- The drain loop of `ttm_object_file_release` invokes `ref_obj_release` once for each
record of the list that passes the test of `ttm_ref_object_release`. -/
theorem ttm_object_file_release_loop_hooks (size : Nat) (tfile : Nat) (extra : Nat) :
    ∀ (l : List Nat) (s : State), (s.files tfile).ref_list = l → l.Nodup →
      (∀ p ∈ l, ∃ r b, s.refs p = some r ∧ r.tfile = tfile ∧ r.obj = some b) →
      ∃ s' new, ttm_object_file_release_loop size (l.length + 1 + extra) s tfile = some s' ∧
        s'.calls = s.calls ++ new ∧
        (new.filter is_ref_obj_release).length
          = (l.filter (wants_ref_obj_release s)).length := by
  intro l
  induction l with
  | nil =>
    intro s hl _ _
    refine ⟨s, [], ?_, by simp, by simp⟩
    have : ([] : List Nat).length + 1 + extra = extra + 1 := by simp; omega
    rw [this]
    simp [ttm_object_file_release_loop, hl]
  | cons ref rest ih =>
    intro s hl hnd hown
    obtain ⟨r, b0, hr, htf, hobj⟩ := hown ref (List.mem_cons_self _ _)
    have hnotin : ref ∉ rest := (List.nodup_cons.mp hnd).1
    have hl' : ((ttm_ref_object_release size s ref).files tfile).ref_list = rest := by
      rw [ttm_ref_object_release_ref_list size s ref r b0 hr hobj]
      simp [htf, hl]
    have hrefs : ∀ p ∈ rest, (ttm_ref_object_release size s ref).refs p = s.refs p := by
      intro p hp
      have hpr : p ≠ ref := fun h => hnotin (h ▸ hp)
      rw [ttm_ref_object_release_refs size s ref r b0 hr hobj]
      simp [hpr]
    have hwant : ∀ p ∈ rest, wants_ref_obj_release (ttm_ref_object_release size s ref) p
        = wants_ref_obj_release s p := by
      intro p hp
      simp only [wants_ref_obj_release, hrefs p hp,
        ttm_ref_object_release_ref_obj_release size s ref r b0 hr hobj]
    obtain ⟨s', new, hrun, hcalls, hcnt⟩ := ih (ttm_ref_object_release size s ref) hl'
      (List.nodup_cons.mp hnd).2
      (fun p hp => by
        obtain ⟨r', b', h1, h2, h3⟩ := hown p (List.mem_cons_of_mem _ hp)
        exact ⟨r', b', by rw [hrefs p hp]; exact h1, h2, h3⟩)
    obtain ⟨new0, hcalls0, hcnt0⟩ := ttm_ref_object_release_hook_count size s ref r b0 hr hobj
    refine ⟨s', new0 ++ new, ?_, ?_, ?_⟩
    · have : (ref :: rest).length + 1 + extra = (rest.length + 1 + extra) + 1 := by
        simp; omega
      rw [this]
      simp only [ttm_object_file_release_loop, hl]
      exact hrun
    · rw [hcalls, hcalls0, List.append_assoc]
    · rw [List.filter_append, List.length_append, hcnt0, hcnt,
        List.filter_congr hwant, List.filter_cons]
      by_cases hw : wants_ref_obj_release s ref = true
      · simp [hw]; omega
      · simp [hw]

/-- C14: `ttm_ref_object_release` on a live record `r` for the object `base` (the
teardown run when the record's internal count reaches 0 and for each record of a
session being closed) adds to the log of hook invocations: one invocation of
`ref_obj_release` with `base` and the record's type when the type is not
`TTM_REF_USAGE` and the object has the hook, and none otherwise; then at most
invocations of `refcount_release`.  The `ref_obj_release` hook runs on a memory in
which the object's count is still the one before the teardown, and the teardown ends
with the count one lower.  `ttm_ref_object_base_unref` runs this teardown when the
internal count is 1 and invokes nothing otherwise; the drain loop of
`ttm_object_file_release` runs it on the head of the list, and over the whole list
invokes `ref_obj_release` once per record that passes the test. -/
theorem C14_ref_obj_release_hook (size : Nat) (s : State) (ref : Nat) (r : ttm_ref_object)
    (base : Nat) (hr : s.refs ref = some r) (hobj : r.obj = some base) :
    (∃ tail,
      (ttm_ref_object_release size s ref).calls =
        s.calls ++
        (if r.ref_type ≠ TTM_REF_USAGE ∧ (s.bases base).ref_obj_release = true then
          [(Callback.ref_obj_release base r.ref_type, (release_unlocked s ref r).toMem)]
         else []) ++ tail ∧
      ∀ e ∈ tail, e.1 = Callback.refcount_release base) ∧
    ((release_unlocked s ref r).bases base).refcount = (s.bases base).refcount ∧
    ((ttm_ref_object_release size s ref).bases base).refcount
      = (s.bases base).refcount - 1 ∧
    (∀ tfile key ref_type, (s.files tfile).ref_hash ref_type key = some ref →
      (r.kref = 1 →
        (ttm_ref_object_base_unref size s tfile key ref_type).2 =
          unlock_file (ttm_ref_object_release size
            (set_ref (lock_file s tfile) ref (some { r with kref := 0 })) ref) tfile ∧
        ∃ m tail,
          (ttm_ref_object_base_unref size s tfile key ref_type).2.calls =
            s.calls ++
            (if r.ref_type ≠ TTM_REF_USAGE ∧ (s.bases base).ref_obj_release = true then
              [(Callback.ref_obj_release base r.ref_type, m)] else []) ++ tail ∧
          (m.bases base).refcount = (s.bases base).refcount ∧
          ∀ e ∈ tail, e.1 = Callback.refcount_release base) ∧
      (r.kref ≠ 1 →
        (ttm_ref_object_base_unref size s tfile key ref_type).2.calls = s.calls)) ∧
    (∀ fuel tfile rest, (s.files tfile).ref_list = ref :: rest →
      ttm_object_file_release_loop size (fuel + 1) s tfile =
        ttm_object_file_release_loop size fuel (ttm_ref_object_release size s ref) tfile) ∧
    (∀ tfile extra, (s.files tfile).ref_list.Nodup →
      (∀ p ∈ (s.files tfile).ref_list,
        ∃ r' b, s.refs p = some r' ∧ r'.tfile = tfile ∧ r'.obj = some b) →
      ∃ s' new,
        ttm_object_file_release size ((s.files tfile).ref_list.length + 1 + extra) s tfile
          = some s' ∧
        s'.calls = s.calls ++ new ∧
        (new.filter is_ref_obj_release).length
          = ((s.files tfile).ref_list.filter (wants_ref_obj_release s)).length) := by
  have htail : ∀ e ∈ (if (s.bases base).refcount - 1 = 0 ∧
      (s.bases base).refcount_release = true then
        [(Callback.refcount_release base,
          (ttm_base_object_unref (release_unlinked s ref r base) base).toMem)]
      else []), e.1 = Callback.refcount_release base := by
    intro e he
    split at he
    · simp at he; rw [he]
    · simp at he
  refine ⟨⟨_, ttm_ref_object_release_calls size s ref r base hr hobj, htail⟩, rfl,
    by rw [ttm_ref_object_release_refcount size s ref r base hr hobj]; simp, ?_, ?_, ?_⟩
  · intro tfile key ref_type hfind
    refine ⟨fun hc => ?_, fun hc => ?_⟩
    · have heq := ttm_ref_object_base_unref_last size s tfile key ref_type ref r hfind hr hc
      refine ⟨by rw [heq], ?_⟩
      have hcalls := ttm_ref_object_release_calls size
        (set_ref (lock_file s tfile) ref (some { r with kref := 0 })) ref
        { r with kref := 0 } base (by simp) hobj
      refine ⟨(release_unlocked (set_ref (lock_file s tfile) ref (some { r with kref := 0 }))
          ref { r with kref := 0 }).toMem,
        (if (s.bases base).refcount - 1 = 0 ∧ (s.bases base).refcount_release = true then
          [(Callback.refcount_release base,
            (ttm_base_object_unref (release_unlinked
              (set_ref (lock_file s tfile) ref (some { r with kref := 0 })) ref
              { r with kref := 0 } base) base).toMem)]
         else []), ?_, rfl, ?_⟩
      · rw [heq]
        simp only [unlock_file_calls]
        exact hcalls
      · intro e he
        split at he
        · simp at he; rw [he]
        · simp at he
    · rw [ttm_ref_object_base_unref_keep size s tfile key ref_type ref r hfind hr hc]
      rfl
  · intro fuel tfile rest hl
    simp only [ttm_object_file_release_loop, hl]
  · intro tfile extra hnd hown
    obtain ⟨s1, new, hrun, hcalls, hcnt⟩ := ttm_object_file_release_loop_hooks size tfile extra
      (s.files tfile).ref_list (lock_file s tfile) (by simp) hnd (by simpa using hown)
    refine ⟨ttm_object_file_unref (unlock_file (set_file s1 tfile
      { s1.files tfile with ref_hash := fun _ => drm_ht_remove }) tfile) tfile, new,
      by simp only [ttm_object_file_release, hrun], ?_, ?_⟩
    · simpa using hcalls
    · rw [hcnt]
      rfl

/-! ## The usage record of a registration -/

/-- C16 (as stated, refuted): session 10 registers the object at address 100
(`registered`), then acquires `TTM_REF_USAGE` on it twice, each call returning 0: the
usage record's internal count is 3, not 2, the record of the registration being the
one that is found.  After two releases, each returning 0, the key is still in the
directory and no hook has been invoked. -/
theorem C16_counterexample :
    (ttm_base_object_init 64 1 three_sessions 10 100 true 0 true true (some 5) 0
      (some 200)).map Prod.fst = some 0 ∧
    (ttm_ref_object_add 64 1 registered 10 100 TTM_REF_USAGE none 0 none).map Prod.fst
      = some 0 ∧
    (ttm_ref_object_add 64 1
      (state_of_add (ttm_ref_object_add 64 1 registered 10 100 TTM_REF_USAGE none 0 none))
      10 100 TTM_REF_USAGE none 0 none).map Prod.fst = some 0 ∧
    (acquired_twice.refs 200).map (fun r => r.kref) = some 3 ∧
    ¬ ((acquired_twice.refs 200).map (fun r => r.kref) = some 2) ∧
    (ttm_ref_object_base_unref 64 acquired_twice 10 5 TTM_REF_USAGE).1 = 0 ∧
    (ttm_ref_object_base_unref 64
      (ttm_ref_object_base_unref 64 acquired_twice 10 5 TTM_REF_USAGE).2 10 5
      TTM_REF_USAGE).1 = 0 ∧
    ¬ (released_twice.tdev.object_hash 5 = none) ∧
    released_twice.tdev.object_hash 5 = some 100 ∧
    (released_twice.bases 100).refcount = 1 ∧
    released_twice.calls.length = 0 := by
  decide

/-- C16 (amended): in a state as `ttm_base_object_init` leaves it on success (the key
maps to the object, the object's count is 1, the session's usage table maps the key to
a record of internal count 1 for the object), two further acquisitions of
`TTM_REF_USAGE` by the session return 0 without consulting the accounting service or
`kmalloc`, and leave the record's internal count at 3 and the object's count at 1.
Two releases then return 0 and give back the state after registration: the object is
still in the directory.  The third release returns 0 and destroys the object: its
count is 0, its key is gone from the directory, the record is freed, and
`refcount_release` has been invoked exactly once if the object has the hook, and no
hook otherwise. -/
theorem C16_usage_acquired_twice (size fuel : Nat) (s : State) (tfile base key ref : Nat)
    (hdir : s.tdev.object_hash key = some base) (hkey : (s.bases base).hash_key = key)
    (hcount : (s.bases base).refcount = 1)
    (hfind : (s.files tfile).ref_hash TTM_REF_USAGE key = some ref)
    (hr : s.refs ref = some { hash_key := key, kref := 1, ref_type := TTM_REF_USAGE,
                              obj := some base, tfile := tfile }) :
    ∃ s1 s2,
      (∀ (a : Int) (k : Option Nat),
        ttm_ref_object_add size (fuel + 1) s tfile base TTM_REF_USAGE none a k
          = some (0, none, s1)) ∧
      (∀ (a : Int) (k : Option Nat),
        ttm_ref_object_add size (fuel + 1) s1 tfile base TTM_REF_USAGE none a k
          = some (0, none, s2)) ∧
      s2.refs ref = some { hash_key := key, kref := 3, ref_type := TTM_REF_USAGE,
                           obj := some base, tfile := tfile } ∧
      (s2.bases base).refcount = 1 ∧
      (ttm_ref_object_base_unref size s2 tfile key TTM_REF_USAGE).1 = 0 ∧
      ttm_ref_object_base_unref size
        (ttm_ref_object_base_unref size s2 tfile key TTM_REF_USAGE).2 tfile key TTM_REF_USAGE
        = (0, s) ∧
      (ttm_ref_object_base_unref size s tfile key TTM_REF_USAGE).1 = 0 ∧
      (ttm_ref_object_base_unref size s tfile key TTM_REF_USAGE).2.tdev.object_hash key
        = none ∧
      ((ttm_ref_object_base_unref size s tfile key TTM_REF_USAGE).2.bases base).refcount
        = 0 ∧
      (ttm_ref_object_base_unref size s tfile key TTM_REF_USAGE).2.refs ref = none ∧
      ∃ m, (ttm_ref_object_base_unref size s tfile key TTM_REF_USAGE).2.calls =
        s.calls ++ (if (s.bases base).refcount_release = true then
          [(Callback.refcount_release base, m)] else []) := by
  have hfind0 : (s.files tfile).ref_hash TTM_REF_USAGE (s.bases base).hash_key = some ref := by
    rw [hkey]; exact hfind
  refine ⟨set_ref s ref (some { hash_key := key, kref := 2, ref_type := TTM_REF_USAGE,
                                obj := some base, tfile := tfile }),
    set_ref s ref (some { hash_key := key, kref := 3, ref_type := TTM_REF_USAGE,
                          obj := some base, tfile := tfile }), ?_, ?_, by simp, by simpa using hcount,
    ?_, ?_, ?_, ?_, ?_, ?_, ?_⟩
  · intro a k
    rw [ttm_ref_object_add_found size fuel s tfile base TTM_REF_USAGE none a k ref _ hfind0 hr]
    simp
  · intro a k
    rw [ttm_ref_object_add_found size fuel _ tfile base TTM_REF_USAGE none a k ref
      { hash_key := key, kref := 2, ref_type := TTM_REF_USAGE, obj := some base,
        tfile := tfile } (by simpa using hfind0) (by simp)]
    simp [set_ref_set_ref]
  · exact ttm_ref_object_base_unref_hit_ret size _ tfile key TTM_REF_USAGE ref
      (by simpa using hfind)
  · have e1 := ttm_ref_object_base_unref_keep size
      (set_ref s ref (some (⟨key, 3, TTM_REF_USAGE, some base, tfile⟩ : ttm_ref_object))) tfile key TTM_REF_USAGE ref
      (⟨key, 3, TTM_REF_USAGE, some base, tfile⟩ : ttm_ref_object) (by simpa using hfind) (by simp) (by simp)
    rw [e1]
    have e2 := ttm_ref_object_base_unref_keep size
      (set_ref s ref (some (⟨key, 2, TTM_REF_USAGE, some base, tfile⟩ : ttm_ref_object))) tfile key TTM_REF_USAGE ref
      (⟨key, 2, TTM_REF_USAGE, some base, tfile⟩ : ttm_ref_object) (by simpa using hfind) (by simp) (by simp)
    simp only [set_ref_set_ref] at e2 ⊢
    norm_num at e2 ⊢
    rw [e2, set_ref_self s ref _ hr]
  · exact ttm_ref_object_base_unref_hit_ret size s tfile key TTM_REF_USAGE ref hfind
  · rw [ttm_ref_object_base_unref_last size s tfile key TTM_REF_USAGE ref _ hfind hr rfl]
    simp only [unlock_file_object_hash]
    rw [ttm_ref_object_release_object_hash size _ ref
      (⟨key, 0, TTM_REF_USAGE, some base, tfile⟩ : ttm_ref_object) base (by simp) rfl]
    simp [hcount, drm_ht_remove_item, hdir]
  · rw [ttm_ref_object_base_unref_last size s tfile key TTM_REF_USAGE ref _ hfind hr rfl]
    simp only [unlock_file_bases]
    rw [ttm_ref_object_release_refcount size _ ref
      (⟨key, 0, TTM_REF_USAGE, some base, tfile⟩ : ttm_ref_object) base (by simp) rfl]
    simp [hcount]
  · rw [ttm_ref_object_base_unref_last size s tfile key TTM_REF_USAGE ref _ hfind hr rfl]
    simp only [unlock_file_refs]
    rw [ttm_ref_object_release_refs size _ ref
      (⟨key, 0, TTM_REF_USAGE, some base, tfile⟩ : ttm_ref_object) base (by simp) rfl]
    simp
  · rw [ttm_ref_object_base_unref_last size s tfile key TTM_REF_USAGE ref _ hfind hr rfl]
    simp only [unlock_file_calls]
    rw [ttm_ref_object_release_calls size _ ref
      (⟨key, 0, TTM_REF_USAGE, some base, tfile⟩ : ttm_ref_object) base (by simp) rfl]
    by_cases hrr : (s.bases base).refcount_release = true
    · exact ⟨(ttm_base_object_unref (release_unlinked
        (set_ref (lock_file s tfile) ref (some ⟨key, 0, TTM_REF_USAGE, some base, tfile⟩)) ref
        ⟨key, 0, TTM_REF_USAGE, some base, tfile⟩ base) base).toMem, by simp [hcount, hrr]⟩
    · exact ⟨s.toMem, by simp [hcount, hrr]⟩

/-! ## Locks held while the hooks run -/

/-- The hooks `ttm_ref_object_release` invokes run with `object_lock` as on entry and
with the session's lock, held on entry, dropped. -/
theorem ttm_ref_object_release_locks (size : Nat) (s : State) (ref : Nat)
    (r : ttm_ref_object) (base : Nat) (hr : s.refs ref = some r) (hobj : r.obj = some base) :
    ∃ new, (ttm_ref_object_release size s ref).calls = s.calls ++ new ∧
      ∀ e ∈ new, e.2.tdev.object_lock = s.tdev.object_lock ∧
        ∀ p, (e.2.files p).lock
          = if p = r.tfile then (s.files p).lock - 1 else (s.files p).lock := by
  refine ⟨_, by rw [ttm_ref_object_release_calls size s ref r base hr hobj,
    List.append_assoc], ?_⟩
  intro e he
  rcases List.mem_append.mp he with h | h
  · split at h
    · simp only [List.mem_singleton] at h
      subst h
      exact ⟨rfl, fun p => release_unlocked_files_lock s ref r p⟩
    · simp at h
  · split at h
    · simp only [List.mem_singleton] at h
      subst h
      refine ⟨?_, fun p => ?_⟩
      · show (ttm_base_object_unref (release_unlinked s ref r base) base).tdev.object_lock = _
        rw [ttm_base_object_unref_object_lock, release_unlinked_tdev]
      · show ((ttm_base_object_unref (release_unlinked s ref r base) base).files p).lock = _
        rw [ttm_base_object_unref_files_lock, release_unlinked_files_lock]
    · simp at h

/-- The drain loop of `ttm_object_file_release`, entered with the session's lock held:
the hooks run with that lock dropped, and the loop ends with the locks as on entry. -/
theorem ttm_object_file_release_loop_locks (size : Nat) (tfile : Nat) (extra : Nat) :
    ∀ (l : List Nat) (s : State), (s.files tfile).ref_list = l → l.Nodup →
      (∀ p ∈ l, ∃ r b, s.refs p = some r ∧ r.tfile = tfile ∧ r.obj = some b) →
      1 ≤ (s.files tfile).lock →
      ∃ s' new, ttm_object_file_release_loop size (l.length + 1 + extra) s tfile = some s' ∧
        s'.calls = s.calls ++ new ∧
        (∀ e ∈ new, e.2.tdev.object_lock = s.tdev.object_lock ∧
          ∀ p, (e.2.files p).lock
            = if p = tfile then (s.files p).lock - 1 else (s.files p).lock) ∧
        s'.tdev.object_lock = s.tdev.object_lock ∧
        ∀ p, (s'.files p).lock = (s.files p).lock := by
  intro l
  induction l with
  | nil =>
    intro s hl _ _ _
    refine ⟨s, [], ?_, by simp, by simp, rfl, fun _ => rfl⟩
    have : ([] : List Nat).length + 1 + extra = extra + 1 := by simp; omega
    rw [this]
    simp [ttm_object_file_release_loop, hl]
  | cons ref rest ih =>
    intro s hl hnd hown hlock
    obtain ⟨r, b0, hr, htf, hobj⟩ := hown ref (List.mem_cons_self _ _)
    have hnotin : ref ∉ rest := (List.nodup_cons.mp hnd).1
    have hl' : ((ttm_ref_object_release size s ref).files tfile).ref_list = rest := by
      rw [ttm_ref_object_release_ref_list size s ref r b0 hr hobj]
      simp [htf, hl]
    have hrefs : ∀ p ∈ rest, (ttm_ref_object_release size s ref).refs p = s.refs p := by
      intro p hp
      have hpr : p ≠ ref := fun h => hnotin (h ▸ hp)
      rw [ttm_ref_object_release_refs size s ref r b0 hr hobj]
      simp [hpr]
    have hlk : ∀ p, ((ttm_ref_object_release size s ref).files p).lock = (s.files p).lock := by
      intro p
      rw [ttm_ref_object_release_files_lock size s ref r b0 hr hobj, htf]
      by_cases hp : p = tfile
      · subst hp; simp; omega
      · simp [hp]
    have hol : (ttm_ref_object_release size s ref).tdev.object_lock = s.tdev.object_lock :=
      ttm_ref_object_release_object_lock size s ref r b0 hr hobj
    obtain ⟨s', new, hrun, hcalls, hnew, hobjl, hfl⟩ := ih (ttm_ref_object_release size s ref)
      hl' (List.nodup_cons.mp hnd).2
      (fun p hp => by
        obtain ⟨r', b', h1, h2, h3⟩ := hown p (List.mem_cons_of_mem _ hp)
        exact ⟨r', b', by rw [hrefs p hp]; exact h1, h2, h3⟩)
      (by rw [hlk]; exact hlock)
    obtain ⟨new0, hcalls0, hnew0⟩ := ttm_ref_object_release_locks size s ref r b0 hr hobj
    refine ⟨s', new0 ++ new, ?_, ?_, ?_, by rw [hobjl, hol],
      fun p => by rw [hfl, hlk]⟩
    · have : (ref :: rest).length + 1 + extra = (rest.length + 1 + extra) + 1 := by
        simp; omega
      rw [this]
      simp only [ttm_object_file_release_loop, hl]
      exact hrun
    · rw [hcalls, hcalls0, List.append_assoc]
    · intro e he
      rcases List.mem_append.mp he with h | h
      · have := hnew0 e h
        rw [htf] at this
        exact this
      · obtain ⟨h1, h2⟩ := hnew e h
        refine ⟨by rw [h1, hol], fun p => ?_⟩
        rw [h2 p, hlk]

/-- C17: each invocation of `refcount_release` or `ref_obj_release` made by
`ttm_base_object_unref`, by `ttm_ref_object_base_unref` or by `ttm_object_file_release`
runs on a memory in which the device's `object_lock` and every session's lock are held
exactly as many times as when the operation was entered: the operation itself holds
neither lock at that moment.  Each of the three operations returns with both locks
held as many times as on entry. -/
theorem C17_hooks_run_unlocked (size : Nat) (s : State) :
    (∀ base, ∃ new, (ttm_base_object_unref s base).calls = s.calls ++ new ∧
      (∀ e ∈ new, same_locks e.2 s.toMem) ∧
      same_locks (ttm_base_object_unref s base).toMem s.toMem) ∧
    (∀ tfile key ref_type,
      (∀ ref r, (s.files tfile).ref_hash ref_type key = some ref → s.refs ref = some r →
        r.tfile = tfile ∧ ∃ b, r.obj = some b) →
      ∃ new, (ttm_ref_object_base_unref size s tfile key ref_type).2.calls = s.calls ++ new ∧
        (∀ e ∈ new, same_locks e.2 s.toMem) ∧
        same_locks (ttm_ref_object_base_unref size s tfile key ref_type).2.toMem s.toMem) ∧
    (∀ tfile extra, (s.files tfile).ref_list.Nodup →
      (∀ p ∈ (s.files tfile).ref_list,
        ∃ r b, s.refs p = some r ∧ r.tfile = tfile ∧ r.obj = some b) →
      ∃ s' new,
        ttm_object_file_release size ((s.files tfile).ref_list.length + 1 + extra) s tfile
          = some s' ∧
        s'.calls = s.calls ++ new ∧
        (∀ e ∈ new, same_locks e.2 s.toMem) ∧
        same_locks s'.toMem s.toMem) := by
  refine ⟨fun base => ?_, fun tfile key ref_type hown => ?_, fun tfile extra hnd hown => ?_⟩
  · have hfin : same_locks (ttm_base_object_unref s base).toMem s.toMem :=
      ⟨ttm_base_object_unref_object_lock s base,
       fun p => ttm_base_object_unref_files_lock s base p⟩
    refine ⟨if (s.bases base).refcount - 1 = 0 ∧ (s.bases base).refcount_release = true then
        [(Callback.refcount_release base, (ttm_base_object_unref s base).toMem)] else [],
      ?_, ?_, hfin⟩
    · rw [ttm_base_object_unref_calls]
      split <;> simp
    · intro e he
      split at he
      · simp only [List.mem_singleton] at he
        subst he
        exact hfin
      · simp at he
  · cases hfind : (s.files tfile).ref_hash ref_type key with
    | none =>
      rw [ttm_ref_object_base_unref_absent size s tfile key ref_type hfind]
      exact ⟨[], by simp, by simp, rfl, fun _ => rfl⟩
    | some ref =>
      cases hr : s.refs ref with
      | none =>
        have heq : (ttm_ref_object_base_unref size s tfile key ref_type).2 = s := by
          simp only [ttm_ref_object_base_unref, drm_ht_find_item, lock_file_files_ref_hash,
            hfind, lock_file_refs, hr]
          exact unlock_lock_file s tfile
        rw [heq]
        exact ⟨[], by simp, by simp, rfl, fun _ => rfl⟩
      | some r =>
        obtain ⟨htf, b, hobj⟩ := hown ref r hfind hr
        by_cases hc : r.kref = 1
        · rw [ttm_ref_object_base_unref_last size s tfile key ref_type ref r hfind hr hc]
          obtain ⟨new, hcalls, hnew⟩ := ttm_ref_object_release_locks size
            (set_ref (lock_file s tfile) ref (some { r with kref := 0 })) ref
            { r with kref := 0 } b (by simp) hobj
          refine ⟨new, by simpa using hcalls, ?_, ?_, ?_⟩
          · intro e he
            obtain ⟨h1, h2⟩ := hnew e he
            refine ⟨by simpa using h1, fun p => ?_⟩
            rw [h2 p]
            by_cases hp : p = tfile
            · subst hp; simp [htf]
            · simp [htf, hp]
          · show (unlock_file _ tfile).tdev.object_lock = _
            rw [unlock_file_object_lock,
              ttm_ref_object_release_object_lock size _ ref { r with kref := 0 } b (by simp)
                hobj]
            rfl
          · intro p
            show ((unlock_file _ tfile).files p).lock = _
            rw [unlock_file_files_lock]
            have hrel : ∀ q, ((ttm_ref_object_release size
                (set_ref (lock_file s tfile) ref (some { r with kref := 0 })) ref).files q).lock
                = if q = tfile then (s.files q).lock + 1 else (s.files q).lock := by
              intro q
              rw [ttm_ref_object_release_files_lock size _ ref { r with kref := 0 } b
                (by simp) hobj]
              show (if q = r.tfile then _ else _) = _
              rw [htf]
              by_cases hq : q = tfile
              · rw [if_pos hq, if_pos hq, hq]; simp
              · rw [if_neg hq, if_neg hq]; simp [hq]
            by_cases hp : p = tfile
            · rw [if_pos hp, hrel, if_pos rfl, hp]; simp
            · rw [if_neg hp, hrel, if_neg hp]
        · rw [ttm_ref_object_base_unref_keep size s tfile key ref_type ref r hfind hr hc]
          exact ⟨[], by simp, by simp, rfl, fun _ => rfl⟩
  · obtain ⟨s1, new, hrun, hcalls, hnew, hol, hfl⟩ := ttm_object_file_release_loop_locks size
      tfile extra (s.files tfile).ref_list (lock_file s tfile) (by simp) hnd
      (by simpa using hown) (by simp)
    refine ⟨ttm_object_file_unref (unlock_file (set_file s1 tfile
      { s1.files tfile with ref_hash := fun _ => drm_ht_remove }) tfile) tfile, new,
      by simp only [ttm_object_file_release, hrun], by simpa using hcalls, ?_, ?_, ?_⟩
    · intro e he
      obtain ⟨h1, h2⟩ := hnew e he
      refine ⟨by simpa using h1, fun p => ?_⟩
      rw [h2 p]
      by_cases hp : p = tfile
      · subst hp; simp
      · simp [hp]
    · simpa using hol
    · intro p
      have := hfl p
      by_cases hp : p = tfile
      · subst hp
        simp at this ⊢
        rw [this]; simp
      · simp [hp] at this ⊢
        exact this

/-! ## Objects in the directory have a positive count -/

theorem Positive_of_sub {s s' : State}
    (h : ∀ k b, s'.tdev.object_hash k = some b →
      s.tdev.object_hash k = some b ∧ (s.bases b).refcount ≤ (s'.bases b).refcount)
    (hp : Positive s) : Positive s' := by
  intro k b hk
  obtain ⟨h1, h2⟩ := h k b hk
  have := hp k b h1
  omega

theorem Positive_of_same {s s' : State} (hdir : s'.tdev.object_hash = s.tdev.object_hash)
    (hb : ∀ b, (s'.bases b).refcount = (s.bases b).refcount) (hp : Positive s) :
    Positive s' :=
  Positive_of_sub (fun k b hk => ⟨by rw [← hdir]; exact hk, by rw [hb]⟩) hp

theorem Positive_unref (s : State) (base : Nat) (hp : Positive s) :
    Positive (ttm_base_object_unref s base) := by
  intro k b hk
  rw [ttm_base_object_unref_object_hash] at hk
  rw [ttm_base_object_unref_refcount]
  by_cases hc : (s.bases base).refcount - 1 = 0
  · rw [if_pos hc] at hk
    simp only [drm_ht_remove_item] at hk
    by_cases hkb : s.tdev.object_hash k = some base
    · simp [hkb] at hk
    · rw [if_neg hkb] at hk
      have hne : b ≠ base := fun e => hkb (by rw [← e]; exact hk)
      rw [if_neg hne]
      exact hp k b hk
  · rw [if_neg hc] at hk
    have := hp k b hk
    by_cases hb : b = base
    · rw [if_pos hb]
      subst hb
      omega
    · rw [if_neg hb]; exact this

theorem Positive_lookup (s : State) (tfile key : Nat) (hp : Positive s) :
    Positive (ttm_base_object_lookup s tfile key).2 := by
  rcases ttm_base_object_lookup_cases s tfile key with h | ⟨b, _, h⟩
  · rw [h]; exact hp
  · rw [h]
    refine Positive_of_sub (fun k b' hk => ⟨by simpa using hk, ?_⟩) hp
    by_cases hb : b' = b
    · subst hb; simp
    · simp [hb]

theorem Positive_add (size fuel : Nat) (s s' : State) (tfile base : Nat)
    (ref_type : ttm_ref_type) (existed : Option Bool) (alloc_ret : Int)
    (kmalloc_ret : Option Nat) (ret : Int) (e : Option Bool)
    (h : ttm_ref_object_add size fuel s tfile base ref_type existed alloc_ret kmalloc_ret
      = some (ret, e, s')) (hp : Positive s) : Positive s' := by
  cases fuel with
  | zero => simp [ttm_ref_object_add] at h
  | succ fuel =>
    cases hfind : (s.files tfile).ref_hash ref_type (s.bases base).hash_key with
    | some ref =>
      obtain ⟨s1, hadd, -, hb, htdev, -⟩ := ttm_ref_object_add_hit size fuel s tfile base
        ref_type existed alloc_ret kmalloc_ret ref hfind
      rw [hadd] at h
      cases h
      exact Positive_of_same (by rw [htdev]) (fun b => by rw [hb]) hp
    | none =>
      by_cases ha : alloc_ret = 0
      · subst ha
        cases hk : kmalloc_ret with
        | none =>
          subst hk
          rw [ttm_ref_object_add_nomem size fuel s tfile base ref_type existed hfind] at h
          cases h; exact hp
        | some ref =>
          rw [ttm_ref_object_add_new size fuel s tfile base ref_type existed kmalloc_ret ref
            hfind hk] at h
          cases h
          refine Positive_of_sub (fun k b hk => ⟨by simpa using hk, ?_⟩) hp
          rw [link_record_refcount]
          by_cases hb : b = base
          · subst hb; simp
          · simp [hb]
      · rw [ttm_ref_object_add_denied size fuel s tfile base ref_type existed alloc_ret
          kmalloc_ret hfind ha] at h
        cases h; exact hp

theorem Positive_release (size : Nat) (s : State) (ref : Nat) (hp : Positive s) :
    Positive (ttm_ref_object_release size s ref) := by
  cases hr : s.refs ref with
  | none =>
    have : ttm_ref_object_release size s ref = s := by simp [ttm_ref_object_release, hr]
    rw [this]; exact hp
  | some r =>
    cases hobj : r.obj with
    | none =>
      refine Positive_of_same ?_ ?_ hp
      · simp [ttm_ref_object_release, hr, hobj]
      · intro b; simp [ttm_ref_object_release, hr, hobj]
    | some base =>
      rw [ttm_ref_object_release_eq size s ref r base hr hobj]
      have h1 : Positive (release_unlinked s ref r base) :=
        Positive_of_same (by rw [release_unlinked_tdev])
          (fun b => by rw [release_unlinked_bases]) hp
      exact Positive_of_same (by simp) (fun b => by simp) (Positive_unref _ base h1)

theorem Positive_ref_base_unref (size : Nat) (s : State) (tfile key : Nat)
    (ref_type : ttm_ref_type) (hp : Positive s) :
    Positive (ttm_ref_object_base_unref size s tfile key ref_type).2 := by
  cases hfind : (s.files tfile).ref_hash ref_type key with
  | none => rw [ttm_ref_object_base_unref_absent size s tfile key ref_type hfind]; exact hp
  | some ref =>
    cases hr : s.refs ref with
    | none =>
      have heq : (ttm_ref_object_base_unref size s tfile key ref_type).2 = s := by
        simp only [ttm_ref_object_base_unref, drm_ht_find_item, lock_file_files_ref_hash,
          hfind, lock_file_refs, hr]
        exact unlock_lock_file s tfile
      rw [heq]; exact hp
    | some r =>
      by_cases hc : r.kref = 1
      · rw [ttm_ref_object_base_unref_last size s tfile key ref_type ref r hfind hr hc]
        have h1 : Positive (set_ref (lock_file s tfile) ref (some { r with kref := 0 })) :=
          Positive_of_same (by simp) (fun b => by simp) hp
        exact Positive_of_same (by simp) (fun b => by simp)
          (Positive_release size _ ref h1)
      · rw [ttm_ref_object_base_unref_keep size s tfile key ref_type ref r hfind hr hc]
        exact Positive_of_same (by simp) (fun b => by simp) hp

theorem Positive_file_release_loop (size tfile : Nat) :
    ∀ (fuel : Nat) (s s' : State), Positive s →
      ttm_object_file_release_loop size fuel s tfile = some s' → Positive s' := by
  intro fuel
  induction fuel with
  | zero => intro s s' _ h; simp [ttm_object_file_release_loop] at h
  | succ fuel ih =>
    intro s s' hp h
    simp only [ttm_object_file_release_loop] at h
    split at h
    · cases h; exact hp
    · exact ih _ _ (Positive_release size s _ hp) h

theorem Positive_file_release (size fuel : Nat) (s s' : State) (tfile : Nat)
    (hp : Positive s) (h : ttm_object_file_release size fuel s tfile = some s') :
    Positive s' := by
  simp only [ttm_object_file_release] at h
  split at h
  · cases h
  · rename_i s1 hloop
    cases h
    have h1 : Positive (lock_file s tfile) :=
      Positive_of_same (by simp) (fun b => by simp) hp
    exact Positive_of_same (by simp) (fun b => by simp)
      (Positive_file_release_loop size tfile fuel _ _ h1 hloop)

theorem Positive_file_init (s : State) (kmalloc_ret : Option Nat)
    (ht_create_ret : ttm_ref_type → Int) (hp : Positive s) :
    Positive (ttm_object_file_init s kmalloc_ret ht_create_ret).2 :=
  Positive_of_same (by rw [ttm_object_file_init_tdev])
    (fun b => by rw [ttm_object_file_init_bases]) hp

theorem Positive_init_inserted (s : State) (tfile base : Nat) (shareable : Bool)
    (object_type : Nat) (rr ror : Bool) (key : Nat) (hp : Positive s) :
    Positive (init_inserted s tfile base shareable object_type rr ror key) := by
  intro k b hk
  rw [init_inserted_object_hash] at hk
  rw [init_inserted_bases]
  by_cases hb : b = base
  · simp [hb]
  · simp only [if_neg hb]
    by_cases hkk : k = key
    · simp [hkk] at hk
      exact absurd hk.symm hb
    · simp only [if_neg hkk] at hk
      exact hp k b hk

theorem Positive_base_init (size fuel : Nat) (s s' : State) (tfile base : Nat)
    (shareable : Bool) (object_type : Nat) (rr ror : Bool) (probe : Option Nat)
    (alloc_ret : Int) (kmalloc_ret : Option Nat) (ret : Int)
    (h : ttm_base_object_init size fuel s tfile base shareable object_type rr ror probe
      alloc_ret kmalloc_ret = some (ret, s')) (hp : Positive s) : Positive s' := by
  -- the insert failed: the object is filled in, its count is 1, the directory is as before
  have hfail : ∀ s1 : State, s1.tdev.object_hash = s.tdev.object_hash →
      (∀ b, (s1.bases b).refcount = if b = base then 1 else (s.bases b).refcount) →
      Positive s1 := by
    intro s1 hdir hb k b hk
    rw [hdir] at hk
    rw [hb]
    by_cases e : b = base
    · simp [e]
    · simp only [if_neg e]; exact hp k b hk
  cases probe with
  | none =>
    simp [ttm_base_object_init, drm_ht_just_insert_please] at h
    obtain ⟨-, rfl⟩ := h
    refine hfail _ (by simp) (fun b => ?_)
    by_cases e : b = base <;> simp [e, kref_init]
  | some key =>
    cases hd : s.tdev.object_hash key with
    | some b0 =>
      simp [ttm_base_object_init, drm_ht_just_insert_please, drm_ht_insert_item, hd] at h
      obtain ⟨-, rfl⟩ := h
      refine hfail _ (by simp) (fun b => ?_)
      by_cases e : b = base <;> simp [e, kref_init]
    | none =>
      rw [ttm_base_object_init_inserted size fuel s tfile base shareable object_type rr ror
        alloc_ret kmalloc_ret key hd] at h
      split at h
      · cases h
      · rename_i ret1 e1 s1 hadd
        have h1 : Positive s1 := Positive_add size fuel _ s1 tfile base TTM_REF_USAGE none
          alloc_ret kmalloc_ret ret1 e1 hadd
          (Positive_init_inserted s tfile base shareable object_type rr ror key hp)
        split at h
        · cases h
          refine Positive_of_sub (fun k b hk => ?_) h1
          simp only [unlock_object_object_hash, set_object_hash_object_hash,
            lock_object_object_hash, drm_ht_remove_item] at hk
          split at hk
          · cases hk
          · exact ⟨hk, by simp⟩
        · cases h
          exact Positive_unref s1 base h1

theorem Positive_exec (size fuel : Nat) (s s' : State) (op : Op) (hp : Positive s)
    (h : exec size fuel s op = some s') : Positive s' := by
  cases op with
  | file_init kmalloc_ret ht_create_ret =>
    simp only [exec, Option.some.injEq] at h
    subst h
    exact Positive_file_init s kmalloc_ret ht_create_ret hp
  | base_init tfile base shareable object_type rr ror probe alloc_ret kmalloc_ret =>
    simp only [exec, Option.map_eq_some'] at h
    obtain ⟨⟨ret, s1⟩, h1, rfl⟩ := h
    exact Positive_base_init size fuel s s1 tfile base shareable object_type rr ror probe
      alloc_ret kmalloc_ret ret h1 hp
  | lookup tfile key =>
    simp only [exec, Option.some.injEq] at h
    subst h
    exact Positive_lookup s tfile key hp
  | base_unref base =>
    simp only [exec, Option.some.injEq] at h
    subst h
    exact Positive_unref s base hp
  | ref_add tfile base ref_type existed alloc_ret kmalloc_ret =>
    simp only [exec, Option.map_eq_some'] at h
    obtain ⟨⟨ret, e, s1⟩, h1, rfl⟩ := h
    exact Positive_add size fuel s s1 tfile base ref_type existed alloc_ret kmalloc_ret ret e
      h1 hp
  | ref_base_unref tfile key ref_type =>
    simp only [exec, Option.some.injEq] at h
    subst h
    exact Positive_ref_base_unref size s tfile key ref_type hp
  | file_release tfile =>
    exact Positive_file_release size fuel s s' tfile hp h

theorem Positive_run (size fuel : Nat) :
    ∀ (ops : List Op) (s s' : State), Positive s → run size fuel s ops = some s' →
      Positive s' := by
  intro ops
  induction ops with
  | nil => intro s s' hp h; simp only [run, Option.some.injEq] at h; subst h; exact hp
  | cons op ops ih =>
    intro s s' hp h
    simp only [run] at h
    split at h
    · rename_i s1 h1
      exact ih s1 s' (Positive_exec size fuel s s1 op hp h1) h
    · cases h

theorem Reachable_Positive {size : Nat} {s : State} {g : Ghost} (h : Reachable size s g) :
    Positive s := by
  induction h with
  | device_init s0 _ _ => intro k b hk; cases hk
  | file_init s g tfile hc s' _ hnew heq ih =>
    have h2 : s' = (ttm_object_file_init s (some tfile) hc).2 := by rw [heq]
    rw [h2]
    exact Positive_file_init s _ hc ih
  | file_init_failed s g tfile hc s' _ hnew heq ih =>
    have h2 : s' = (ttm_object_file_init s (some tfile) hc).2 := by rw [heq]
    rw [h2]
    exact Positive_file_init s _ hc ih
  | base_init s g fuel tfile base shareable object_type rr ror probe alloc_ret kmalloc_ret ret
      s' _ htf habs hfree hinit ih =>
    exact Positive_base_init size fuel s s' tfile base shareable object_type rr ror probe
      alloc_ret kmalloc_ret ret hinit ih
  | lookup s g tfile key base s' _ _ hl ih =>
    have h2 : s' = (ttm_base_object_lookup s tfile key).2 := by rw [hl]
    rw [h2]
    exact Positive_lookup s tfile key ih
  | lookup_null s g tfile key s' _ _ hl ih =>
    have h2 : s' = (ttm_base_object_lookup s tfile key).2 := by rw [hl]
    rw [h2]
    exact Positive_lookup s tfile key ih
  | base_unref s g base _ hb ih => exact Positive_unref s base ih
  | ref_add s g fuel tfile base ref_type existed alloc_ret kmalloc_ret ret e s' _ htf hlive
      hfree hadd ih =>
    exact Positive_add size fuel s s' tfile base ref_type existed alloc_ret kmalloc_ret ret e
      hadd ih
  | ref_base_unref s g tfile key ref_type _ htf ih =>
    exact Positive_ref_base_unref size s tfile key ref_type ih
  | file_release s g fuel tfile s' _ htf hrel ih =>
    exact Positive_file_release size fuel s s' tfile ih hrel

theorem live_records_congr (s s' : State) (l : List Nat)
    (h : ∀ tf ∈ l, (s'.files tf).ref_list = (s.files tf).ref_list) :
    live_records s' l = live_records s l := by
  unfold live_records
  congr 1
  apply List.map_congr_left
  intro tf htf
  rw [h tf htf]

theorem Charged_of_same {size : Nat} {s s' : State} {g : Ghost}
    (hm : s'.mem_glob = s.mem_glob)
    (hl : ∀ tf ∈ g.sessions, (s'.files tf).ref_list = (s.files tf).ref_list)
    (hr : ∀ p r', s'.refs p = some r' → ∃ r, s.refs p = some r)
    (h : Charged size s g) : Charged size s' g := by
  refine ⟨by rw [hm, live_records_congr s s' g.sessions hl]; exact h.ledger, ?_⟩
  intro p r' hp
  obtain ⟨r, hr0⟩ := hr p r' hp
  obtain ⟨tf, htf, hmem⟩ := h.live_listed p r hr0
  exact ⟨tf, htf, by rw [hl tf htf]; exact hmem⟩

theorem Charged_link {size : Nat} {s : State} {g : Ghost} (tf b : Nat) (t : ttm_ref_type)
    (ref : Nat) (hnd : g.sessions.Nodup) (htf : tf ∈ g.sessions) (h : Charged size s g) :
    Charged size (link_record size s tf b t ref) g := by
  have hsum : live_records (link_record size s tf b t ref) g.sessions
      + (s.files tf).ref_list.length
      = live_records s g.sessions
        + ((link_record size s tf b t ref).files tf).ref_list.length :=
    sum_map_change_one (fun x => (s.files x).ref_list.length)
      (fun x => ((link_record size s tf b t ref).files x).ref_list.length) tf g.sessions hnd
      htf (fun y _ hne => by simp [hne])
  have hlen : ((link_record size s tf b t ref).files tf).ref_list.length
      = (s.files tf).ref_list.length + 1 := by simp
  have hlive : live_records (link_record size s tf b t ref) g.sessions
      = live_records s g.sessions + 1 := by
    omega
  refine ⟨?_, ?_⟩
  · rw [link_record_mem_glob, h.ledger, hlive]
    push_cast
    ring
  · intro p r hp
    by_cases hpr : p = ref
    · exact ⟨tf, htf, by simp [hpr]⟩
    · rw [link_record_refs] at hp
      simp only [if_neg hpr] at hp
      obtain ⟨tf', htf', hmem⟩ := h.live_listed p r hp
      refine ⟨tf', htf', ?_⟩
      by_cases e : tf' = tf
      · subst e; simp [hmem]
      · simp [e, hmem]

theorem Charged_release {size : Nat} {s : State} {g : Ghost} (tf p : Nat) (hinv : Inv s g)
    (htf : tf ∈ g.sessions) (hp : p ∈ (s.files tf).ref_list) (h : Charged size s g) :
    Charged size (ttm_ref_object_release size s p) g := by
  obtain ⟨key, t, b, hview, -, -⟩ := hinv.listed tf htf p hp
  obtain ⟨r, hr, -, -, hobj, hrtf⟩ := rec_view_some _ _ _ _ _ hview
  have hlist := ttm_ref_object_release_ref_list size s p r b hr hobj
  have hsum : live_records (ttm_ref_object_release size s p) g.sessions
      + (s.files tf).ref_list.length
      = live_records s g.sessions
        + ((ttm_ref_object_release size s p).files tf).ref_list.length :=
    sum_map_change_one (fun x => (s.files x).ref_list.length)
      (fun x => ((ttm_ref_object_release size s p).files x).ref_list.length) tf g.sessions
      hinv.sessions_nodup htf
      (fun y _ hne => by
        show ((ttm_ref_object_release size s p).files y).ref_list.length = _
        rw [hlist, hrtf, if_neg hne])
  have hlen : ((ttm_ref_object_release size s p).files tf).ref_list.length + 1
      = (s.files tf).ref_list.length := by
    rw [hlist, hrtf, if_pos rfl, List.length_erase_of_mem hp]
    have := List.length_pos_of_mem hp
    omega
  have hlive : live_records (ttm_ref_object_release size s p) g.sessions + 1
      = live_records s g.sessions := by
    omega
  refine ⟨?_, ?_⟩
  · rw [ttm_ref_object_release_mem_glob size s p r b hr hobj, h.ledger, ← hlive]
    push_cast
    ring
  · intro q rq hq
    rw [ttm_ref_object_release_refs size s p r b hr hobj] at hq
    by_cases hqp : q = p
    · simp [hqp] at hq
    · simp only [if_neg hqp] at hq
      obtain ⟨tf', htf', hmem⟩ := h.live_listed q rq hq
      refine ⟨tf', htf', ?_⟩
      rw [hlist]
      split
      · exact (List.mem_erase_of_ne hqp).mpr hmem
      · exact hmem

theorem Charged_set_ref {size : Nat} {s : State} {g : Ghost} (p : Nat)
    (r r' : ttm_ref_object) (hr : s.refs p = some r) (h : Charged size s g) :
    Charged size (set_ref s p (some r')) g := by
  refine @Charged_of_same size s (set_ref s p (some r')) g rfl (fun _ _ => rfl)
    (fun q rq hq => ?_) h
  by_cases e : q = p
  · exact ⟨r, by rw [e]; exact hr⟩
  · exact ⟨rq, by simpa [e] using hq⟩

theorem Charged_add {size : Nat} {s s' : State} {g : Ghost} (fuel tfile base : Nat)
    (ref_type : ttm_ref_type) (existed : Option Bool) (alloc_ret : Int)
    (kmalloc_ret : Option Nat) (ret : Int) (e : Option Bool) (hnd : g.sessions.Nodup)
    (htf : tfile ∈ g.sessions)
    (hadd : ttm_ref_object_add size fuel s tfile base ref_type existed alloc_ret kmalloc_ret
      = some (ret, e, s')) (h : Charged size s g) : Charged size s' g := by
  cases fuel with
  | zero => simp [ttm_ref_object_add] at hadd
  | succ fuel =>
    cases hfind : (s.files tfile).ref_hash ref_type (s.bases base).hash_key with
    | some ref =>
      cases hr : s.refs ref with
      | none =>
        rw [ttm_ref_object_add_found_freed size fuel s tfile base ref_type existed alloc_ret
          kmalloc_ret ref hfind hr] at hadd
        cases hadd; exact h
      | some r =>
        rw [ttm_ref_object_add_found size fuel s tfile base ref_type existed alloc_ret
          kmalloc_ret ref r hfind hr] at hadd
        cases hadd
        exact Charged_set_ref ref r _ hr h
    | none =>
      by_cases ha : alloc_ret = 0
      · subst ha
        cases hk : kmalloc_ret with
        | none =>
          subst hk
          rw [ttm_ref_object_add_nomem size fuel s tfile base ref_type existed hfind] at hadd
          cases hadd; exact h
        | some ref =>
          rw [ttm_ref_object_add_new size fuel s tfile base ref_type existed kmalloc_ret ref
            hfind hk] at hadd
          cases hadd
          exact Charged_link tfile base ref_type ref hnd htf h
      · rw [ttm_ref_object_add_denied size fuel s tfile base ref_type existed alloc_ret
          kmalloc_ret hfind ha] at hadd
        cases hadd; exact h

theorem Charged_ref_base_unref {size : Nat} {s : State} {g : Ghost} (tfile key : Nat)
    (ref_type : ttm_ref_type) (hinv : Inv s g) (htf : tfile ∈ g.sessions)
    (h : Charged size s g) :
    Charged size (ttm_ref_object_base_unref size s tfile key ref_type).2 g := by
  cases hfind : (s.files tfile).ref_hash ref_type key with
  | none => rw [ttm_ref_object_base_unref_absent size s tfile key ref_type hfind]; exact h
  | some ref =>
    obtain ⟨hmem, o, tf', hv⟩ := hinv.hashed tfile htf ref_type key ref hfind
    obtain ⟨r, hr, -⟩ := rec_view_some _ _ _ _ _ hv
    by_cases hc : r.kref = 1
    · rw [ttm_ref_object_base_unref_last size s tfile key ref_type ref r hfind hr hc]
      have hinv0 : Inv (set_ref (lock_file s tfile) ref (some { r with kref := 0 })) g :=
        Inv_set_kref ref r 0 (Inv_lock_file tfile hinv) (by simpa using hr)
      have h0 : Charged size (set_ref (lock_file s tfile) ref (some { r with kref := 0 })) g :=
        Charged_set_ref ref r _ (by simpa using hr)
          (Charged_of_same (by simp) (fun _ _ => by simp)
            (fun p r' hp => ⟨r', by simpa using hp⟩) h)
      have h1 := Charged_release tfile ref hinv0 htf (by simpa using hmem) h0
      exact Charged_of_same (by simp) (fun _ _ => by simp)
        (fun p r' hp => ⟨r', by simpa using hp⟩) h1
    · rw [ttm_ref_object_base_unref_keep size s tfile key ref_type ref r hfind hr hc]
      exact Charged_set_ref ref r _ hr h

theorem Charged_file_release_loop {size : Nat} {g : Ghost} (tfile : Nat)
    (htf : tfile ∈ g.sessions) :
    ∀ (fuel : Nat) (s s' : State), Inv s g → Charged size s g →
      ttm_object_file_release_loop size fuel s tfile = some s' → Charged size s' g := by
  intro fuel
  induction fuel with
  | zero => intro s s' _ _ h; simp [ttm_object_file_release_loop] at h
  | succ fuel ih =>
    intro s s' hinv hch h
    simp only [ttm_object_file_release_loop] at h
    split at h
    · cases h; exact hch
    · rename_i ref rest hl
      have hmem : ref ∈ (s.files tfile).ref_list := by rw [hl]; simp
      exact ih _ s' (Inv_release size tfile ref hinv htf hmem)
        (Charged_release tfile ref hinv htf hmem hch) h

theorem Charged_file_release {size : Nat} {s s' : State} {g : Ghost} (fuel tfile : Nat)
    (hinv : Inv s g) (htf : tfile ∈ g.sessions)
    (hrel : ttm_object_file_release size fuel s tfile = some s') (h : Charged size s g) :
    Charged size s' { g with sessions := g.sessions.erase tfile } := by
  simp only [ttm_object_file_release] at hrel
  split at hrel
  · cases hrel
  · rename_i s1 hloop
    cases hrel
    have hinv0 := Inv_lock_file tfile hinv
    have h0 : Charged size (lock_file s tfile) g :=
      Charged_of_same (by simp) (fun _ _ => by simp)
        (fun p r' hp => ⟨r', by simpa using hp⟩) h
    obtain ⟨-, hl⟩ := Inv_file_release_loop size tfile htf fuel _ s1 hinv0 hloop
    have h1 := Charged_file_release_loop tfile htf fuel _ s1 hinv0 h0 hloop
    have hsum : live_records s1 (g.sessions.erase tfile) + (s1.files tfile).ref_list.length
        = live_records s1 g.sessions :=
      sum_map_erase_add (fun x => (s1.files x).ref_list.length) tfile g.sessions htf
    rw [hl] at hsum
    have hlists : ∀ tf, ((ttm_object_file_unref (unlock_file (set_file s1 tfile
        { s1.files tfile with ref_hash := fun _ => drm_ht_remove }) tfile) tfile).files
          tf).ref_list = (s1.files tf).ref_list := by
      intro tf
      by_cases e : tf = tfile
      · subst e; simp
      · simp [e]
    refine ⟨?_, ?_⟩
    · show s1.mem_glob = _
      rw [h1.ledger]
      show _ = (size : Int) * (live_records _ (g.sessions.erase tfile) : Int)
      rw [live_records_congr s1 _ (g.sessions.erase tfile) (fun tf _ => hlists tf)]
      simp only [List.length_nil, Nat.add_zero] at hsum
      rw [hsum]
    · intro p r hp
      obtain ⟨tf, htf', hmem⟩ := h1.live_listed p r (by simpa using hp)
      have hne : tf ≠ tfile := by
        intro e
        rw [e, hl] at hmem
        simp at hmem
      exact ⟨tf, (List.mem_erase_of_ne hne).mpr htf', by rw [hlists]; exact hmem⟩

theorem ttm_object_file_init_mem_glob (s : State) (k : Option Nat)
    (hc : ttm_ref_type → Int) :
    (ttm_object_file_init s k hc).2.mem_glob = s.mem_glob := by
  cases k with
  | none => rfl
  | some tf => simp only [ttm_object_file_init]; split_ifs <;> simp

theorem Charged_file_init {size : Nat} {s : State} {g : Ghost} (tfile : Nat)
    (hc : ttm_ref_type → Int) (hnew : tfile ∉ g.sessions)
    (hopen : (ttm_object_file_init s (some tfile) hc).1 = some tfile)
    (h : Charged size s g) :
    Charged size (ttm_object_file_init s (some tfile) hc).2
      { g with sessions := tfile :: g.sessions } := by
  have hother : ∀ tf ∈ g.sessions,
      ((ttm_object_file_init s (some tfile) hc).2.files tf).ref_list
        = (s.files tf).ref_list := by
    intro tf htf
    rw [ttm_object_file_init_files_other s tfile hc tf (fun e => hnew (e ▸ htf))]
  refine ⟨?_, ?_⟩
  · rw [ttm_object_file_init_mem_glob, h.ledger]
    show _ = (size : Int) * (live_records _ (tfile :: g.sessions) : Int)
    have : live_records (ttm_object_file_init s (some tfile) hc).2 (tfile :: g.sessions)
        = live_records s g.sessions := by
      show ((tfile :: g.sessions).map _).sum = _
      rw [List.map_cons, List.sum_cons, (ttm_object_file_init_opened s tfile hc hopen).1]
      simp only [List.length_nil, Nat.zero_add]
      exact live_records_congr s _ g.sessions hother
    rw [this]
  · intro p r hp
    rw [ttm_object_file_init_refs] at hp
    obtain ⟨tf, htf, hmem⟩ := h.live_listed p r hp
    exact ⟨tf, List.mem_cons_of_mem _ htf, by rw [hother tf htf]; exact hmem⟩

theorem Charged_file_init_failed {size : Nat} {s : State} {g : Ghost} (tfile : Nat)
    (hc : ttm_ref_type → Int) (hnew : tfile ∉ g.sessions) (h : Charged size s g) :
    Charged size (ttm_object_file_init s (some tfile) hc).2 g :=
  Charged_of_same (ttm_object_file_init_mem_glob s _ hc)
    (fun tf htf => by
      rw [ttm_object_file_init_files_other s tfile hc tf (fun e => hnew (e ▸ htf))])
    (fun p r' hp => ⟨r', by rw [ttm_object_file_init_refs] at hp; exact hp⟩) h

theorem Charged_base_init {size : Nat} {s s' : State} {g : Ghost} (fuel tfile base : Nat)
    (shareable : Bool) (object_type : Nat) (rr ror : Bool) (probe : Option Nat)
    (alloc_ret : Int) (kmalloc_ret : Option Nat) (ret : Int) (hnd : g.sessions.Nodup)
    (htf : tfile ∈ g.sessions)
    (hinit : ttm_base_object_init size fuel s tfile base shareable object_type rr ror probe
      alloc_ret kmalloc_ret = some (ret, s')) (h : Charged size s g) : Charged size s' g := by
  cases probe with
  | none =>
    simp [ttm_base_object_init, drm_ht_just_insert_please] at hinit
    obtain ⟨-, rfl⟩ := hinit
    exact Charged_of_same (by simp) (fun _ _ => by simp)
      (fun p r' hp => ⟨r', by simpa using hp⟩) h
  | some key =>
    cases hd : s.tdev.object_hash key with
    | some b0 =>
      simp [ttm_base_object_init, drm_ht_just_insert_please, drm_ht_insert_item, hd] at hinit
      obtain ⟨-, rfl⟩ := hinit
      exact Charged_of_same (by simp) (fun _ _ => by simp)
        (fun p r' hp => ⟨r', by simpa using hp⟩) h
    | none =>
      rw [ttm_base_object_init_inserted size fuel s tfile base shareable object_type rr ror
        alloc_ret kmalloc_ret key hd] at hinit
      split at hinit
      · cases hinit
      · rename_i ret1 e1 s1 hadd
        have h0 : Charged size (init_inserted s tfile base shareable object_type rr ror key) g :=
          Charged_of_same (by simp) (fun _ _ => by simp)
            (fun p r' hp => ⟨r', by simpa using hp⟩) h
        have h1 : Charged size s1 g := Charged_add fuel tfile base TTM_REF_USAGE none alloc_ret
          kmalloc_ret ret1 e1 hnd htf hadd h0
        split at hinit
        · cases hinit
          exact Charged_of_same (by simp) (fun _ _ => by simp)
            (fun p r' hp => ⟨r', by simpa using hp⟩) h1
        · cases hinit
          exact Charged_of_same (ttm_base_object_unref_mem_glob s1 base)
            (fun tf _ => ttm_base_object_unref_files_ref_list s1 base tf)
            (fun p r' hp => ⟨r', by rw [ttm_base_object_unref_refs] at hp; exact hp⟩) h1

theorem Reachable_Charged {size : Nat} {s : State} {g : Ghost} (h : Reachable size s g) :
    Charged size s g := by
  induction h with
  | device_init s0 hrefs h0 =>
    refine ⟨?_, fun p r hp => ?_⟩
    · show s0.mem_glob = _
      rw [h0]; simp [live_records]
    · have : s0.refs p = some r := hp
      rw [hrefs p] at this
      cases this
  | file_init s g tfile hc s' hreach hnew heq ih =>
    have h1 : (ttm_object_file_init s (some tfile) hc).1 = some tfile := by rw [heq]
    have h2 : s' = (ttm_object_file_init s (some tfile) hc).2 := by rw [heq]
    rw [h2]
    exact Charged_file_init tfile hc hnew h1 ih
  | file_init_failed s g tfile hc s' hreach hnew heq ih =>
    have h2 : s' = (ttm_object_file_init s (some tfile) hc).2 := by rw [heq]
    rw [h2]
    exact Charged_file_init_failed tfile hc hnew ih
  | base_init s g fuel tfile base shareable object_type rr ror probe alloc_ret kmalloc_ret ret
      s' hreach htf habs hfree hinit ih =>
    exact Charged_base_init fuel tfile base shareable object_type rr ror probe alloc_ret
      kmalloc_ret ret (Reachable_Inv hreach).sessions_nodup htf hinit ih
  | lookup s g tfile key base s' hreach _ hl ih =>
    have h2 : s' = (ttm_base_object_lookup s tfile key).2 := by rw [hl]
    rcases ttm_base_object_lookup_cases s tfile key with hc | ⟨b, _, hc⟩
    · rw [hc] at h2; rw [h2]
      exact ⟨ih.ledger, ih.live_listed⟩
    · rw [hc] at h2; rw [h2]
      exact ⟨ih.ledger, ih.live_listed⟩
  | lookup_null s g tfile key s' hreach _ hl ih =>
    have h2 : s' = (ttm_base_object_lookup s tfile key).2 := by rw [hl]
    rcases ttm_base_object_lookup_cases s tfile key with hc | ⟨b, _, hc⟩
    · rw [hc] at h2; rw [h2]; exact ih
    · rw [hc] at h2; rw [h2]
      exact ⟨ih.ledger, ih.live_listed⟩
  | base_unref s g base hreach hb ih =>
    have := Charged_of_same (ttm_base_object_unref_mem_glob s base)
      (fun tf _ => ttm_base_object_unref_files_ref_list s base tf)
      (fun p r' hp => ⟨r', by rw [ttm_base_object_unref_refs] at hp; exact hp⟩) ih
    exact ⟨this.ledger, this.live_listed⟩
  | ref_add s g fuel tfile base ref_type existed alloc_ret kmalloc_ret ret e s' hreach htf
      hlive hfree hadd ih =>
    exact Charged_add fuel tfile base ref_type existed alloc_ret kmalloc_ret ret e
      (Reachable_Inv hreach).sessions_nodup htf hadd ih
  | ref_base_unref s g tfile key ref_type hreach htf ih =>
    exact Charged_ref_base_unref tfile key ref_type (Reachable_Inv hreach) htf ih
  | file_release s g fuel tfile s' hreach htf hrel ih =>
    exact Charged_file_release fuel tfile (Reachable_Inv hreach) htf hrel ih

/-- C15: in every reachable state the net amount charged to the memory accounting
service is `size`, the size of a reference record, times the number of records on the
record lists of the open sessions.  These are exactly the live records: every live
record is on the list of an open session, each list holds distinct live records, and
each record on a list belongs to that session, so that no record is counted twice. -/
theorem C15_charge_matches_records (size : Nat) (s : State) (g : Ghost)
    (hreach : Reachable size s g) :
    s.mem_glob = (size : Int) * (live_records s g.sessions : Int) ∧
    (∀ p r, s.refs p = some r → ∃ tf ∈ g.sessions, p ∈ (s.files tf).ref_list) ∧
    (∀ tf ∈ g.sessions, (s.files tf).ref_list.Nodup) ∧
    (∀ tf ∈ g.sessions, ∀ p ∈ (s.files tf).ref_list,
      ∃ r, s.refs p = some r ∧ r.tfile = tf) := by
  have hch := Reachable_Charged hreach
  have hinv := Reachable_Inv hreach
  refine ⟨hch.ledger, hch.live_listed, hinv.list_nodup, ?_⟩
  intro tf htf p hp
  obtain ⟨key, t, b, hview, -, -⟩ := hinv.listed tf htf p hp
  obtain ⟨r, hr, -, -, -, hrtf⟩ := rec_view_some _ _ _ _ _ hview
  exact ⟨r, hr, hrtf⟩

end TTM

namespace DrmBufs

open drm_map_type

/-! ## The guard on buffer allocation -/

theorem spin_unlock_lock_dma (dev : drm_device) : spin_unlock_dma (spin_lock_dma dev) = dev := by
  cases dev
  simp [spin_unlock_dma, spin_lock_dma]

theorem spin_unlock_lock_buf (dev : drm_device) : spin_unlock_buf (spin_lock_buf dev) = dev := by
  cases dev
  simp [spin_unlock_buf, spin_lock_buf]

theorem int_inc_pos (x : Int) (h0 : 0 ≤ x) (h1 : x < INT_MAX) :
    int_inc x = x + 1 ∧ 1 ≤ int_inc x := by
  have hne : x ≠ INT_MAX := ne_of_lt h1
  have he : int_inc x = x + 1 := by simp only [int_inc, if_neg hne]
  rw [he]
  exact ⟨rfl, by omega⟩

theorem drm_legacy_addbufs_agp_busy (env : Env)
    (f : drm_device → drm_buf_desc → Int × drm_device) (dev : drm_device)
    (request : drm_buf_desc) (hv : valid env request) (hb : dev.buf_use ≠ 0) :
    drm_legacy_addbufs_agp env f dev request = some (-EBUSY, dev) := by
  obtain ⟨h1, h2, h3, h4⟩ := hv
  have hc : ¬ (request.count < 0 ∨ request.count > 4096) := by omega
  have ho : ¬ (env.order_base_2 request.size < env.DRM_MIN_ORDER ∨
      env.order_base_2 request.size > env.DRM_MAX_ORDER) := by omega
  have hb' : (spin_lock_dma dev).buf_use ≠ 0 := hb
  simp only [drm_legacy_addbufs_agp, if_neg hc, if_neg ho, if_pos hb', spin_unlock_lock_dma]

theorem drm_legacy_addbufs_sg_busy (env : Env)
    (f : drm_device → drm_buf_desc → Int × drm_device) (dev : drm_device)
    (request : drm_buf_desc) (hv : valid env request) (hb : dev.buf_use ≠ 0) :
    drm_legacy_addbufs_sg env f true dev request = some (-EBUSY, dev) := by
  obtain ⟨h1, h2, h3, h4⟩ := hv
  have hc : ¬ (request.count < 0 ∨ request.count > 4096) := by omega
  have ho : ¬ (env.order_base_2 request.size < env.DRM_MIN_ORDER ∨
      env.order_base_2 request.size > env.DRM_MAX_ORDER) := by omega
  have hb' : (spin_lock_dma dev).buf_use ≠ 0 := hb
  have ht : ¬ (true = false) := by simp
  simp only [drm_legacy_addbufs_sg, if_neg ht, if_neg hc, if_neg ho, if_pos hb',
    spin_unlock_lock_dma]

theorem drm_legacy_addbufs_pci_busy (env : Env)
    (f : drm_device → drm_buf_desc → Int × drm_device) (dev : drm_device)
    (request : drm_buf_desc) (hv : valid env request) (hb : dev.buf_use ≠ 0) :
    drm_legacy_addbufs_pci env f true dev request = some (-EBUSY, dev) := by
  obtain ⟨h1, h2, h3, h4⟩ := hv
  have hc : ¬ (request.count < 0 ∨ request.count > 4096) := by omega
  have ho : ¬ (env.order_base_2 request.size < env.DRM_MIN_ORDER ∨
      env.order_base_2 request.size > env.DRM_MAX_ORDER) := by omega
  have hb' : (spin_lock_dma dev).buf_use ≠ 0 := hb
  have ht : ¬ (true = false) := by simp
  simp only [drm_legacy_addbufs_pci, if_neg ht, if_neg hc, if_neg ho, if_pos hb',
    spin_unlock_lock_dma]

/-- With `buf_use` non-zero, an `addbufs` entry point returns the device as it was. -/
theorem drm_legacy_addbufs_agp_gated (env : Env)
    (f : drm_device → drm_buf_desc → Int × drm_device) (dev : drm_device)
    (request : drm_buf_desc) (hb : dev.buf_use ≠ 0) :
    ∃ ret, drm_legacy_addbufs_agp env f dev request = some (ret, dev) := by
  have hb' : (spin_lock_dma dev).buf_use ≠ 0 := hb
  simp only [drm_legacy_addbufs_agp]
  split_ifs
  · exact ⟨_, rfl⟩
  · exact ⟨_, rfl⟩
  · exact ⟨_, by rw [spin_unlock_lock_dma]⟩

theorem drm_legacy_addbufs_sg_gated (env : Env)
    (f : drm_device → drm_buf_desc → Int × drm_device) (capable : Bool) (dev : drm_device)
    (request : drm_buf_desc) (hb : dev.buf_use ≠ 0) :
    ∃ ret, drm_legacy_addbufs_sg env f capable dev request = some (ret, dev) := by
  have hb' : (spin_lock_dma dev).buf_use ≠ 0 := hb
  simp only [drm_legacy_addbufs_sg]
  split_ifs
  · exact ⟨_, rfl⟩
  · exact ⟨_, rfl⟩
  · exact ⟨_, rfl⟩
  · exact ⟨_, by rw [spin_unlock_lock_dma]⟩

theorem drm_legacy_addbufs_pci_gated (env : Env)
    (f : drm_device → drm_buf_desc → Int × drm_device) (capable : Bool) (dev : drm_device)
    (request : drm_buf_desc) (hb : dev.buf_use ≠ 0) :
    ∃ ret, drm_legacy_addbufs_pci env f capable dev request = some (ret, dev) := by
  have hb' : (spin_lock_dma dev).buf_use ≠ 0 := hb
  simp only [drm_legacy_addbufs_pci]
  split_ifs
  · exact ⟨_, rfl⟩
  · exact ⟨_, rfl⟩
  · exact ⟨_, rfl⟩
  · exact ⟨_, by rw [spin_unlock_lock_dma]⟩

/-- `drm_legacy_infobufs` leaves `dev->dma` alone and raises `buf_use` by at most one. -/
theorem drm_legacy_infobufs_effect (env : Env) (dev : drm_device) (request_count : Int)
    (copy_fault : Nat → Bool) :
    (drm_legacy_infobufs env dev request_count copy_fault).2.1.dma = dev.dma ∧
    ((drm_legacy_infobufs env dev request_count copy_fault).2.1.buf_use = dev.buf_use ∨
     (drm_legacy_infobufs env dev request_count copy_fault).2.1.buf_use
       = int_inc dev.buf_use) := by
  simp only [drm_legacy_infobufs]
  cases hd : dev.dma <;> simp only [] <;> split_ifs <;>
    first
    | exact ⟨hd, Or.inl rfl⟩
    | exact ⟨hd, Or.inr rfl⟩

/-- `drm_legacy_infobufs` past its checks raises `buf_use`, whatever it then returns. -/
theorem drm_legacy_infobufs_passed (env : Env) (dev : drm_device) (request_count : Int)
    (copy_fault : Nat → Bool) (dma : drm_device_dma) (hm : dev.driver_modeset = false)
    (hh : dev.driver_have_dma = true) (hd : dev.dma = some dma) (ha : dev.buf_alloc = 0) :
    (drm_legacy_infobufs env dev request_count copy_fault).2.1
      = { dev with buf_use := int_inc dev.buf_use } ∧
    ((drm_legacy_infobufs env dev request_count copy_fault).1 = 0 ∨
     (drm_legacy_infobufs env dev request_count copy_fault).1 = -EFAULT) := by
  have ha' : ¬ (spin_lock_buf dev).buf_alloc ≠ 0 := by
    show ¬ dev.buf_alloc ≠ 0
    simp [ha]
  have hdev : spin_unlock_buf { spin_lock_buf dev with
      buf_use := int_inc (spin_lock_buf dev).buf_use }
      = { dev with buf_use := int_inc dev.buf_use } := by
    cases dev
    simp [spin_unlock_buf, spin_lock_buf]
  simp only [drm_legacy_infobufs, hm, hh, hd, if_neg ha', hdev]
  simp only [Bool.false_eq_true, if_false, Bool.true_eq_false]
  split_ifs
  · exact ⟨rfl, Or.inr rfl⟩
  · exact ⟨rfl, Or.inl rfl⟩

/-- `drm_legacy_mapbufs`, when it returns, has raised `buf_use` and changed nothing
else. -/
theorem drm_legacy_mapbufs_effect (dev : drm_device) (request_count : Int)
    (vm_mmap_ret : Int) (copy_fault : Nat → Bool) (ret : Int) (dev' : drm_device)
    (count : Int)
    (h : drm_legacy_mapbufs dev request_count vm_mmap_ret copy_fault
      = some (ret, dev', count)) :
    dev' = { dev with buf_use := int_inc dev.buf_use } := by
  have hdev : spin_unlock_dma { spin_lock_dma dev with
      buf_use := int_inc (spin_lock_dma dev).buf_use }
      = { dev with buf_use := int_inc dev.buf_use } := by
    cases dev
    simp [spin_unlock_dma, spin_lock_dma]
  simp only [drm_legacy_mapbufs, hdev] at h
  cases hd : dev.dma with
  | none => simp [hd] at h
  | some dma =>
    simp only [hd] at h
    split_ifs at h <;> (cases h; rfl)

theorem drm_legacy_mapbufs_returns (dev : drm_device) (request_count : Int)
    (vm_mmap_ret : Int) (copy_fault : Nat → Bool) (dma : drm_device_dma)
    (hd : dev.dma = some dma) :
    ∃ ret count, drm_legacy_mapbufs dev request_count vm_mmap_ret copy_fault
      = some (ret, { dev with buf_use := int_inc dev.buf_use }, count) := by
  have hdev : spin_unlock_dma { spin_lock_dma dev with
      buf_use := int_inc (spin_lock_dma dev).buf_use }
      = { dev with buf_use := int_inc dev.buf_use } := by
    cases dev
    simp [spin_unlock_dma, spin_lock_dma]
  simp only [drm_legacy_mapbufs, hdev, hd]
  split_ifs <;> exact ⟨_, _, rfl⟩

/-- A call made with `buf_use` at least 1 and below `INT_MAX` leaves `dev->dma` as it
was and `buf_use` at least 1, raised by at most one. -/
theorem call_gated (env : Env) (a : Alloc) (dev : drm_device) (c : Call) (ret : Int)
    (dev' : drm_device) (h1 : 1 ≤ dev.buf_use) (h2 : dev.buf_use < INT_MAX)
    (h : call env a dev c = some (ret, dev')) :
    dev'.dma = dev.dma ∧ dev.buf_use ≤ dev'.buf_use ∧ dev'.buf_use ≤ dev.buf_use + 1 := by
  have hb : dev.buf_use ≠ 0 := by omega
  have hinc := (int_inc_pos dev.buf_use (by omega) h2).1
  cases c with
  | addbufs_agp request =>
    obtain ⟨r, hr⟩ := drm_legacy_addbufs_agp_gated env a.drm_do_addbufs_agp dev request hb
    simp only [call, hr, Option.some.injEq, Prod.mk.injEq] at h
    rw [← h.2]
    exact ⟨rfl, le_refl _, by omega⟩
  | addbufs_sg capable request =>
    obtain ⟨r, hr⟩ := drm_legacy_addbufs_sg_gated env a.drm_do_addbufs_sg capable dev
      request hb
    simp only [call, hr, Option.some.injEq, Prod.mk.injEq] at h
    rw [← h.2]
    exact ⟨rfl, le_refl _, by omega⟩
  | addbufs_pci capable request =>
    obtain ⟨r, hr⟩ := drm_legacy_addbufs_pci_gated env a.drm_do_addbufs_pci capable dev
      request hb
    simp only [call, hr, Option.some.injEq, Prod.mk.injEq] at h
    rw [← h.2]
    exact ⟨rfl, le_refl _, by omega⟩
  | infobufs request_count copy_fault =>
    simp only [call, Option.some.injEq, Prod.mk.injEq] at h
    obtain ⟨hd, hu⟩ := drm_legacy_infobufs_effect env dev request_count copy_fault
    rw [← h.2]
    refine ⟨hd, ?_⟩
    rcases hu with hu | hu
    · rw [hu]; omega
    · rw [hu, hinc]; omega
  | mapbufs request_count vm_mmap_ret copy_fault =>
    simp only [call, Option.map_eq_some'] at h
    obtain ⟨⟨r, d, n⟩, hm, he⟩ := h
    simp only [Prod.mk.injEq] at he
    have := drm_legacy_mapbufs_effect dev request_count vm_mmap_ret copy_fault r d n hm
    rw [← he.2, this]
    refine ⟨rfl, ?_⟩
    show dev.buf_use ≤ int_inc dev.buf_use ∧ int_inc dev.buf_use ≤ dev.buf_use + 1
    rw [hinc]; omega

theorem calls_gated (env : Env) (a : Alloc) :
    ∀ (cs : List Call) (dev dev' : drm_device), 1 ≤ dev.buf_use →
      dev.buf_use + cs.length ≤ INT_MAX → calls env a dev cs = some dev' →
      dev'.dma = dev.dma ∧ 1 ≤ dev'.buf_use := by
  intro cs
  induction cs with
  | nil =>
    intro dev dev' h1 _ h
    simp only [calls, Option.some.injEq] at h
    subst h
    exact ⟨rfl, h1⟩
  | cons c cs ih =>
    intro dev dev' h1 h2 h
    simp only [List.length_cons, Nat.cast_add, Nat.cast_one] at h2
    simp only [calls] at h
    split at h
    · rename_i r hr
      obtain ⟨hd, hlo, hhi⟩ := call_gated env a dev c r.1 r.2 h1 (by omega) hr
      obtain ⟨hd', hpos⟩ := ih r.2 dev' (by omega) (by omega) h
      exact ⟨by rw [hd', hd], hpos⟩
    · cases h

/-- C19 (as stated, refuted): `dev_mapped` is the device after `drm_legacy_mapbufs` has
been called, and `buf_use` is 1; a later `drm_legacy_addbufs_pci` or
`drm_legacy_addbufs_sg` call for 16 buffers of 4096 bytes, which pass the checks on
count and size, by a caller without `CAP_SYS_ADMIN` returns `-EACCES`, not `-EBUSY`. -/
theorem C19_counterexample :
    (drm_legacy_mapbufs dev0 0 0 (fun _ => false)).map (fun r => r.1) = some 0 ∧
    dev_mapped.buf_use = 1 ∧
    (0 ≤ request0.count ∧ request0.count ≤ 4096 ∧
      env0.DRM_MIN_ORDER ≤ env0.order_base_2 request0.size ∧
      env0.order_base_2 request0.size ≤ env0.DRM_MAX_ORDER) ∧
    (drm_legacy_addbufs_pci env0 alloc0.drm_do_addbufs_pci false dev_mapped request0).map
      (fun r => r.1) = some (-EACCES) ∧
    ¬ ((drm_legacy_addbufs_pci env0 alloc0.drm_do_addbufs_pci false dev_mapped request0).map
      (fun r => r.1) = some (-EBUSY)) ∧
    (drm_legacy_addbufs_sg env0 alloc0.drm_do_addbufs_sg false dev_mapped request0).map
      (fun r => r.1) = some (-EACCES) := by
  refine ⟨by decide, by decide, ⟨by decide, by decide, ?_, ?_⟩, by decide, by decide,
    by decide⟩
  · show (5 : Int) ≤ ((Nat.clog 2 (4096 : Int).toNat : Nat) : Int)
    have : Nat.clog 2 (4096 : Int).toNat = 12 := by
      show Nat.clog 2 4096 = 12
      rw [show (4096 : Nat) = 2 ^ 12 from by norm_num]
      exact Nat.clog_pow 2 12 (by norm_num)
    rw [this]; norm_num
  · show ((Nat.clog 2 (4096 : Int).toNat : Nat) : Int) ≤ 22
    have : Nat.clog 2 (4096 : Int).toNat = 12 := by
      show Nat.clog 2 4096 = 12
      rw [show (4096 : Nat) = 2 ^ 12 from by norm_num]
      exact Nat.clog_pow 2 12 (by norm_num)
    rw [this]; norm_num

/-- C19 (amended): `drm_legacy_infobufs` past its feature, `dma` and `buf_alloc`
checks, and `drm_legacy_mapbufs` whenever it returns, leave the device as it was
except that `buf_use` is one higher, hence at least 1 when it was between 0 and
`INT_MAX - 1`; `drm_legacy_mapbufs` returns whenever `dev->dma` is not NULL.  On a
device whose `buf_use` is not 0, a `drm_legacy_addbufs_agp` call, and a
`drm_legacy_addbufs_sg` or `drm_legacy_addbufs_pci` call by a caller with
`CAP_SYS_ADMIN`, whose count and size pass validation returns `-EBUSY` and leaves the
whole device, `dev->dma` included, as it was; without `CAP_SYS_ADMIN` the last two
return `-EACCES`, the device unchanged.  After any sequence of calls of the five entry
points made with `buf_use` at least 1, short enough for the counter not to reach
`INT_MAX`, `dev->dma` is as before and `buf_use` is still at least 1. -/
theorem C19_addbufs_refused_after_use (env : Env) (a : Alloc) (dev : drm_device) :
    (∀ request_count copy_fault dma, dev.driver_modeset = false →
      dev.driver_have_dma = true → dev.dma = some dma → dev.buf_alloc = 0 →
      (drm_legacy_infobufs env dev request_count copy_fault).2.1
        = { dev with buf_use := int_inc dev.buf_use }) ∧
    (∀ request_count vm_mmap_ret copy_fault,
      (∀ ret dev' count, drm_legacy_mapbufs dev request_count vm_mmap_ret copy_fault
          = some (ret, dev', count) → dev' = { dev with buf_use := int_inc dev.buf_use }) ∧
      (∀ dma, dev.dma = some dma →
        ∃ ret count, drm_legacy_mapbufs dev request_count vm_mmap_ret copy_fault
          = some (ret, { dev with buf_use := int_inc dev.buf_use }, count))) ∧
    (0 ≤ dev.buf_use → dev.buf_use < INT_MAX → 1 ≤ int_inc dev.buf_use) ∧
    (dev.buf_use ≠ 0 → ∀ request, valid env request →
      drm_legacy_addbufs_agp env a.drm_do_addbufs_agp dev request = some (-EBUSY, dev) ∧
      drm_legacy_addbufs_sg env a.drm_do_addbufs_sg true dev request = some (-EBUSY, dev) ∧
      drm_legacy_addbufs_pci env a.drm_do_addbufs_pci true dev request
        = some (-EBUSY, dev)) ∧
    (∀ request,
      drm_legacy_addbufs_sg env a.drm_do_addbufs_sg false dev request = some (-EACCES, dev) ∧
      drm_legacy_addbufs_pci env a.drm_do_addbufs_pci false dev request
        = some (-EACCES, dev)) ∧
    (∀ cs dev', 1 ≤ dev.buf_use → dev.buf_use + cs.length ≤ INT_MAX →
      calls env a dev cs = some dev' → dev'.dma = dev.dma ∧ 1 ≤ dev'.buf_use) :=
  ⟨fun rc cf dma hm hh hd ha => (drm_legacy_infobufs_passed env dev rc cf dma hm hh hd ha).1,
   fun rc vr cf => ⟨fun ret dev' count h => drm_legacy_mapbufs_effect dev rc vr cf ret dev'
      count h, fun dma hd => drm_legacy_mapbufs_returns dev rc vr cf dma hd⟩,
   fun h0 h1 => (int_inc_pos dev.buf_use h0 h1).2,
   fun hb request hv => ⟨drm_legacy_addbufs_agp_busy env _ dev request hv hb,
     drm_legacy_addbufs_sg_busy env _ dev request hv hb,
     drm_legacy_addbufs_pci_busy env _ dev request hv hb⟩,
   fun request => ⟨by simp [drm_legacy_addbufs_sg], by simp [drm_legacy_addbufs_pci]⟩,
   fun cs dev' h1 h2 h => calls_gated env a cs dev dev' h1 h2 h⟩

/-! ## `drm_legacy_addmap` on a map the kernel already has -/

theorem set_map_maplist (mem : MapMem) (p : Nat) (m : drm_local_map) :
    (set_map mem p m).maplist = mem.maplist := rfl

theorem set_map_maps_self (mem : MapMem) (p : Nat) (m : drm_local_map) :
    (set_map mem p m).maps p = m := by
  simp [set_map]

theorem set_map_maps_other (mem : MapMem) (p q : Nat) (m : drm_local_map) (h : q ≠ p) :
    (set_map mem p m).maps q = mem.maps q := by
  simp [set_map, h]

/-- The search does not see a map that no entry of the list points at. -/
theorem find_kernel_map_set_map (env : MapEnv) (mem : MapMem) (p : Nat) (m : drm_local_map)
    (type : drm_map_type) (offset : Nat) :
    ∀ l : List drm_map_list, (∀ e ∈ l, e.map ≠ p) →
      find_kernel_map env (set_map mem p m) type offset l
        = find_kernel_map env mem type offset l := by
  intro l
  induction l with
  | nil => intro _; rfl
  | cons e rest ih =>
    intro h
    have he : e.map ≠ p := h e (List.mem_cons_self _ _)
    simp only [find_kernel_map, set_map_maps_other mem p e.map m he]
    rw [ih (fun e' he' => h e' (List.mem_cons_of_mem _ he'))]

/-- An entry the search returns is on the list and its map passes the test. -/
theorem find_kernel_map_some (env : MapEnv) (mem : MapMem) (type : drm_map_type)
    (offset : Nat) (entry : drm_map_list) :
    ∀ l : List drm_map_list, find_kernel_map env mem type offset l = some entry →
      entry ∈ l ∧ is_kernel_map env (mem.maps entry.map) type offset = true := by
  intro l
  induction l with
  | nil => intro h; cases h
  | cons e rest ih =>
    intro h
    simp only [find_kernel_map] at h
    split at h
    · rename_i ht
      cases h
      exact ⟨List.mem_cons_self _ _, ht⟩
    · obtain ⟨h1, h2⟩ := ih h
      exact ⟨List.mem_cons_of_mem _ h1, h2⟩

/-- What `drm_legacy_addmap` does when the list already holds a map of the requested
type at the requested offset (or, for `_DRM_SHM`, a map whose flags are
`_DRM_CONTAINS_LOCK`) and the arguments pass the checks: it returns 0, sets the size of
the map it found, and stores through `map_ptr` the address of the map it has just
allocated, whose offset, size, type and flags are the arguments and whose handle is
NULL. -/
theorem drm_legacy_addmap_kernel_map (env : MapEnv) (mem : MapMem) (offset size : Nat)
    (type : drm_map_type) (flags : Nat) (a : MapAnswers) (map : Nat) (entry : drm_map_list)
    (hk : a.kmalloc_map = some map)
    (hfresh : ∀ e ∈ mem.maplist, e.map ≠ map)
    (hrem : ¬ (flags &&& env._DRM_REMOVABLE ≠ 0 ∧ type ≠ _DRM_SHM))
    (halign : ¬ (offset &&& env.PAGE_MASK ≠ 0 ∨ size &&& env.PAGE_MASK ≠ 0))
    (hwrap : ¬ (offset + size) % 2 ^ env.resource_size_bits < offset)
    (htype : type = _DRM_REGISTERS ∨ type = _DRM_FRAME_BUFFER ∨ type = _DRM_SHM)
    (hfind : find_kernel_map env mem type offset mem.maplist = some entry) :
    ∃ mem', drm_legacy_addmap env mem offset size type flags a = some (0, mem', some map) ∧
      mem'.maps entry.map = { mem.maps entry.map with size := size } ∧
      mem'.maps map = { offset := offset, size := size, type := type, flags := flags,
                        handle := 0, mtrr := 0 } ∧
      mem'.maplist = mem.maplist ∧
      entry ∈ mem.maplist ∧ entry.map ≠ map := by
  obtain ⟨hmem, -⟩ := find_kernel_map_some env mem type offset entry mem.maplist hfind
  have hne : entry.map ≠ map := hfresh entry hmem
  have hfind' : find_kernel_map env (set_map mem map
      { offset := offset, size := size, type := type, flags := flags, handle := 0, mtrr := 0 })
      type offset mem.maplist = some entry := by
    rw [find_kernel_map_set_map env mem map _ type offset mem.maplist hfresh]; exact hfind
  refine ⟨set_map (set_map mem map
      { offset := offset, size := size, type := type, flags := flags, handle := 0, mtrr := 0 })
      entry.map { (set_map mem map
        { offset := offset, size := size, type := type, flags := flags, handle := 0,
          mtrr := 0 }).maps entry.map with size := size }, ?_, ?_, ?_, ?_, hmem, hne⟩
  · simp only [drm_legacy_addmap, hk, if_neg hrem, if_neg halign, if_neg hwrap, if_pos htype,
      set_map_maplist, hfind']
  · rw [set_map_maps_self, set_map_maps_other _ _ _ _ hne]
  · rw [set_map_maps_other _ _ _ _ (fun e => hne e.symm), set_map_maps_self]
  · rfl

/-- C24: on a device whose map list holds a `_DRM_REGISTERS` map at offset 65536 (at
address 1000, flags `_DRM_WRITE_COMBINING`, handle 61440), `drm_legacy_addmap` called
for `_DRM_REGISTERS` at offset 65536 with size 8192 and no flags returns 0 and sets the
existing map's size to 8192, but the pointer it stores through `map_ptr` is not the
existing map: it is the map allocated at the start of the call (address 2000), whose
handle is NULL and whose flags are the requested ones, not those of the existing
map. -/
theorem C24_addmap_hands_back_new_map :
    ∃ mem', drm_legacy_addmap map_env0 map_mem0 65536 8192 _DRM_REGISTERS 0 map_answers0
        = some (0, mem', some 2000) ∧
      map_mem0.maplist = [{ map := 1000, user_token := 0 }] ∧
      mem'.maplist = map_mem0.maplist ∧
      (mem'.maps 1000).size = 8192 ∧
      (mem'.maps 1000).handle = 61440 ∧ (mem'.maps 2000).handle = 0 ∧
      (mem'.maps 1000).flags = 16 ∧ (mem'.maps 2000).flags = 0 ∧
      (mem'.maps 1000).offset = 65536 ∧ (mem'.maps 2000).offset = 65536 := by
  obtain ⟨mem', h, h1, h2, h3, -, -⟩ := drm_legacy_addmap_kernel_map map_env0 map_mem0 65536
    8192 _DRM_REGISTERS 0 map_answers0 2000 { map := 1000, user_token := 0 } rfl
    (by decide) (by decide) (by decide) (by decide) (by decide) (by decide)
  have e1 : (mem'.maps 1000) = { map_mem0.maps 1000 with size := 8192 } := h1
  refine ⟨mem', h, rfl, h3, ?_, ?_, ?_, ?_, ?_, ?_, ?_⟩
  · rw [e1]
  · rw [e1]; decide
  · rw [h2]
  · rw [e1]; decide
  · rw [h2]
  · rw [e1]; decide
  · rw [h2]

/-! ## The segment loop of `drm_do_addbufs_pci` -/

theorem int32_of_range (x : Int) (h1 : -2147483648 ≤ x) (h2 : x < 2147483648) :
    int32 x = x := by
  unfold int32
  omega

theorem two_pow_le_of_le (n : Nat) (h : n ≤ 30) : (2 : Int) ^ n ≤ 1073741824 := by
  have h1 : (2 : Int) ^ n ≤ 2 ^ 30 := pow_le_pow_right₀ (by norm_num) h
  have h2 : (2 : Int) ^ 30 = 1073741824 := by norm_num
  rw [h2] at h1
  exact h1

theorem two_pow_pos (n : Nat) : (0 : Int) < 2 ^ n := by positivity

theorem shl_one (n : Int) (h : n.toNat ≤ 30) : shl 1 n = 2 ^ n.toNat := by
  have h1 := two_pow_le_of_le n.toNat h
  have h2 := two_pow_pos n.toNat
  unfold shl
  rw [one_mul]
  exact int32_of_range _ (by omega) (by omega)

/-- The orders that pass the checks of `drm_legacy_addbufs_pci` give a buffer size that
fits in a segment: `1 << order <= PAGE_SIZE << page_order`, both without overflow. -/
theorem pci_size_le_total (henv : Env) (env : PciEnv) (hs : PciSane henv env) (order : Int)
    (h1 : henv.DRM_MIN_ORDER ≤ order) (h2 : order ≤ henv.DRM_MAX_ORDER) :
    shl 1 order = 2 ^ order.toNat ∧
    shl env.PAGE_SIZE (pci_page_order env order)
      = 2 ^ (env.PAGE_SHIFT.toNat + (pci_page_order env order).toNat) ∧
    shl 1 order ≤ shl env.PAGE_SIZE (pci_page_order env order) ∧
    0 < shl 1 order ∧ shl env.PAGE_SIZE (pci_page_order env order) ≤ 1073741824 ∧
    0 ≤ pci_page_order env order ∧ (pci_page_order env order).toNat ≤ 18 := by
  obtain ⟨⟨hs1, hs2⟩, hs3, hs4, hs5, hs6⟩ := hs
  have ho : order.toNat ≤ 30 := by omega
  have hsz := shl_one order ho
  have hpo : 0 ≤ pci_page_order env order ∧ (pci_page_order env order).toNat ≤ 18 ∧
      order.toNat ≤ env.PAGE_SHIFT.toNat + (pci_page_order env order).toNat ∧
      env.PAGE_SHIFT.toNat + (pci_page_order env order).toNat ≤ 30 := by
    unfold pci_page_order
    split <;> omega
  obtain ⟨hp1, hp2, hp3, hp4⟩ := hpo
  have htot : shl env.PAGE_SIZE (pci_page_order env order)
      = 2 ^ (env.PAGE_SHIFT.toNat + (pci_page_order env order).toNat) := by
    unfold shl
    rw [hs3, ← pow_add]
    have h1 := two_pow_le_of_le _ hp4
    have h2 := two_pow_pos (env.PAGE_SHIFT.toNat + (pci_page_order env order).toNat)
    exact int32_of_range _ (by omega) (by omega)
  refine ⟨hsz, htot, ?_, ?_, ?_, hp1, hp2⟩
  · rw [hsz, htot]
    exact pow_le_pow_right₀ (by norm_num) hp3
  · rw [hsz]; exact two_pow_pos _
  · rw [htot]; exact two_pow_le_of_le _ hp4

theorem u64_of_range (x : Int) (h1 : 0 ≤ x) (h2 : x ≤ 1073741824) : u64 x = x.toNat := by
  unfold u64
  have : x % 18446744073709551616 = x := Int.emod_eq_of_lt h1 (by omega)
  rw [this]

/-- The page loop records `1 << page_order` pages and touches nothing else. -/
theorem pci_pages_fold (env : PciEnv) (dma_page_count : Int) (dmah : drm_dma_handle) :
    ∀ (n : Nat) (st : PciLoop), 0 ≤ st.page_count → st.page_count + n < 2147483648 →
      ((List.range n).foldl (pci_page_step env dma_page_count dmah) st).page_count
        = st.page_count + n ∧
      ((List.range n).foldl (pci_page_step env dma_page_count dmah) st).buf_count
        = st.buf_count ∧
      ((List.range n).foldl (pci_page_step env dma_page_count dmah) st).seg_count
        = st.seg_count ∧
      ((List.range n).foldl (pci_page_step env dma_page_count dmah) st).buflist
        = st.buflist ∧
      ((List.range n).foldl (pci_page_step env dma_page_count dmah) st).seglist
        = st.seglist ∧
      ((List.range n).foldl (pci_page_step env dma_page_count dmah) st).byte_count
        = st.byte_count ∧
      ((List.range n).foldl (pci_page_step env dma_page_count dmah) st).dma_lock
        = st.dma_lock := by
  intro n
  induction n with
  | zero => intro st _ _; simp
  | succ n ih =>
    intro st h0 hlt
    obtain ⟨h1, h2, h3, h4, h5, h6, h7⟩ := ih st h0 (by push_cast at hlt; omega)
    rw [List.range_succ, List.foldl_append]
    simp only [List.foldl_cons, List.foldl_nil]
    refine ⟨?_, h2, h3, h4, h5, h6, h7⟩
    show int32 (((List.range n).foldl (pci_page_step env dma_page_count dmah) st).page_count
      + 1) = st.page_count + ((n + 1 : Nat) : Int)
    rw [h1]
    push_cast at hlt ⊢
    rw [int32_of_range _ (by omega) (by omega)]
    ring

theorem pci_pages_spec (env : PciEnv) (dma_page_count page_order : Int)
    (dmah : drm_dma_handle) (st : PciLoop) (hpo : page_order.toNat ≤ 18)
    (h0 : 0 ≤ st.page_count) (hlt : st.page_count + 2 ^ page_order.toNat < 2147483648) :
    (pci_pages env dma_page_count page_order dmah st).page_count
      = st.page_count + 2 ^ page_order.toNat ∧
    (pci_pages env dma_page_count page_order dmah st).buf_count = st.buf_count ∧
    (pci_pages env dma_page_count page_order dmah st).seg_count = st.seg_count ∧
    (pci_pages env dma_page_count page_order dmah st).buflist = st.buflist ∧
    (pci_pages env dma_page_count page_order dmah st).seglist = st.seglist ∧
    (pci_pages env dma_page_count page_order dmah st).byte_count = st.byte_count ∧
    (pci_pages env dma_page_count page_order dmah st).dma_lock = st.dma_lock := by
  have hshl : shl 1 page_order = 2 ^ page_order.toNat := shl_one page_order (by omega)
  have hn : ((shl 1 page_order).toNat : Int) = 2 ^ page_order.toNat := by
    rw [hshl]
    exact Int.toNat_of_nonneg (le_of_lt (two_pow_pos _))
  have := pci_pages_fold env dma_page_count dmah (shl 1 page_order).toNat st h0
    (by rw [hn]; exact hlt)
  rw [hn] at this
  exact this

/-- The buffer loop of one segment ends without failure when no `dev_private`
allocation fails: it leaves at most `count` buffers, keeps the buffers that existed,
touches nothing but the buffer array and `entry->buf_count`, and, when its test holds
on entry, adds at least one buffer, the first at `offset` in the segment. -/
theorem pci_buffers_spec (a : PciAnswers) (hpriv : ∀ j, a.kmalloc_dev_private j ≠ 0)
    (order size alignment total count dbc dby : Int) (dmah : drm_dma_handle)
    (hc : count ≤ 4096) :
    ∀ (fuel offset : Nat) (st : PciLoop), 0 ≤ st.buf_count → st.buf_count ≤ count →
      (count - st.buf_count).toNat < fuel →
      ∃ st', pci_buffers a order size alignment total count dbc dby dmah fuel offset st
          = some (false, st') ∧
        st.buf_count ≤ st'.buf_count ∧ st'.buf_count ≤ count ∧
        st'.seg_count = st.seg_count ∧ st'.seglist = st.seglist ∧
        st'.page_count = st.page_count ∧ st'.byte_count = st.byte_count ∧
        st'.dma_lock = st.dma_lock ∧ st'.temp_pagelist = st.temp_pagelist ∧
        (∀ j, j < st.buf_count.toNat → st'.buflist j = st.buflist j) ∧
        ((offset + u64 size) % 18446744073709551616 ≤ u64 total → st.buf_count < count →
          st.buf_count < st'.buf_count ∧
          (st'.buflist st.buf_count.toNat).address = dmah.vaddr + offset) := by
  intro fuel
  induction fuel with
  | zero => intro _ _ _ _ h; omega
  | succ fuel ih =>
    intro offset st h0 hle hfuel
    by_cases hcond : (offset + u64 size) % 18446744073709551616 ≤ u64 total ∧
        st.buf_count < count
    · have e : int32 (st.buf_count + 1) = st.buf_count + 1 :=
        int32_of_range _ (by omega) (by omega)
      obtain ⟨st', hrun, h1, h2, h3, h4, h5, h6, h7, h8, h9, -⟩ := ih
        ((offset + u64 alignment) % 18446744073709551616)
        { st with
          buflist := fun j => if j = st.buf_count.toNat then
            { idx := int32 (dbc + st.buf_count)
              total := alignment
              order := order
              used := 0
              offset := (u64 dby + u64 st.byte_count + offset) % 18446744073709551616
              address := dmah.vaddr + offset
              bus_address := (dmah.busaddr + offset) % 18446744073709551616
              pending := 0
              dev_priv_size := a.dev_priv_size
              dev_private := a.kmalloc_dev_private st.buf_count.toNat }
            else st.buflist j
          buf_count := st.buf_count + 1 }
        (by show 0 ≤ st.buf_count + 1; omega)
        (by show st.buf_count + 1 ≤ count; omega)
        (by show (count - (st.buf_count + 1)).toNat < fuel; omega)
      refine ⟨st', ?_, ?_, h2, h3, h4, h5, h6, h7, h8, ?_, ?_⟩
      · simp only [pci_buffers, if_pos hcond, if_neg (hpriv _), e]
        exact hrun
      · have : st.buf_count + 1 ≤ st'.buf_count := h1
        omega
      · intro j hj
        have hj' : j < (st.buf_count + 1).toNat := by omega
        rw [h9 j hj']
        have hne : j ≠ st.buf_count.toNat := by omega
        simp only [if_neg hne]
      · intro _ _
        have h1' : st.buf_count + 1 ≤ st'.buf_count := h1
        refine ⟨by omega, ?_⟩
        rw [h9 st.buf_count.toNat (by show st.buf_count.toNat < (st.buf_count + 1).toNat; omega)]
        simp only [if_pos]
    · refine ⟨st, ?_, le_refl _, hle, rfl, rfl, rfl, rfl, rfl, rfl, fun _ _ => rfl, ?_⟩
      · simp only [pci_buffers, if_neg hcond]
      · intro h1 h2
        exact absurd ⟨h1, h2⟩ hcond

/-- The segment loop ends without failure when no allocation fails and a buffer fits in
a segment: it leaves exactly `count` buffers, and what `SegInv` says holds at its
end. -/
theorem pci_segments_spec (env : PciEnv) (a : PciAnswers)
    (hseg : ∀ k, a.drm_pci_alloc k ≠ none) (hpriv : ∀ j, a.kmalloc_dev_private j ≠ 0)
    (order size alignment total count page_order dbc dpc dby : Int) (bfuel : Nat)
    (hc : count ≤ 4096) (hpo : page_order.toNat ≤ 18)
    (hfit : (0 + u64 size) % 18446744073709551616 ≤ u64 total)
    (hb : count.toNat < bfuel) :
    ∀ (fuel : Nat) (st : PciLoop), SegInv count page_order st →
      (count - st.buf_count).toNat < fuel →
      ∃ st', pci_segments env a order size alignment total count page_order dbc dpc dby bfuel
          fuel st = some (false, st') ∧
        SegInv count page_order st' ∧ st'.buf_count = count := by
  have hP := two_pow_pos page_order.toNat
  have hP18 : (2 : Int) ^ page_order.toNat ≤ 262144 := by
    have h1 : (2 : Int) ^ page_order.toNat ≤ 2 ^ 18 := pow_le_pow_right₀ (by norm_num) hpo
    have h2 : (2 : Int) ^ 18 = 262144 := by norm_num
    rw [h2] at h1
    exact h1
  intro fuel
  induction fuel with
  | zero => intro _ _ h; omega
  | succ fuel ih =>
    intro st hinv hfuel
    obtain ⟨i1, i2, i3, i4, i5⟩ := hinv
    by_cases hlt : st.buf_count < count
    · obtain ⟨dmah, hd⟩ := Option.ne_none_iff_exists'.mp (hseg st.seg_count.toNat)
      have e : int32 (st.seg_count + 1) = st.seg_count + 1 :=
        int32_of_range _ (by omega) (by omega)
      -- the state once the segment is stored and its pages are recorded
      have hpg0 : 0 ≤ st.page_count := by
        rw [i4]; exact mul_nonneg i1 (le_of_lt hP)
      have hpgb : st.page_count + 2 ^ page_order.toNat < 2147483648 := by
        have h1 : (st.seg_count + 1) * 2 ^ page_order.toNat ≤ 4096 * 262144 :=
          mul_le_mul (by omega) hP18 (le_of_lt hP) (by norm_num)
        have h2 : (st.seg_count + 1) * 2 ^ page_order.toNat
            = st.page_count + 2 ^ page_order.toNat := by rw [i4]; ring
        omega
      obtain ⟨p1, p2, p3, p4, p5, p6, p7⟩ := pci_pages_spec env dpc page_order dmah
        { st with
          dma_lock := st.dma_lock - 1 + 1
          seglist := fun k => if k = st.seg_count.toNat then some dmah else st.seglist k
          seg_count := st.seg_count + 1 } hpo hpg0 hpgb
      obtain ⟨sb, hrun, b1, b2, b3, b4, b5, b6, b7, b8, b9, b10⟩ := pci_buffers_spec a hpriv
        order size alignment total count dbc dby dmah hc bfuel 0
        (pci_pages env dpc page_order dmah
          { st with
            dma_lock := st.dma_lock - 1 + 1
            seglist := fun k => if k = st.seg_count.toNat then some dmah else st.seglist k
            seg_count := st.seg_count + 1 })
        (by rw [p2]; show 0 ≤ st.buf_count; omega) (by rw [p2]; exact i3)
        (by rw [p2]; show (count - st.buf_count).toNat < bfuel; omega)
      rw [p2] at b1 b9 b10
      rw [p3] at b3
      rw [p5] at b4
      rw [p1] at b5
      rw [p4] at b9
      obtain ⟨c1, c2⟩ := b10 hfit hlt
      have c1' : st.buf_count < sb.buf_count := c1
      have b3' : sb.seg_count = st.seg_count + 1 := b3
      have b5' : sb.page_count = st.page_count + 2 ^ page_order.toNat := b5
      have b9' : ∀ j, j < st.buf_count.toNat → sb.buflist j = st.buflist j := b9
      have c2' : (sb.buflist st.buf_count.toNat).address = dmah.vaddr + 0 := c2
      obtain ⟨st', hrun', hinv', hcnt'⟩ := ih
        { sb with byte_count := int32 (sb.byte_count + shl env.PAGE_SIZE page_order) }
        ⟨by show 0 ≤ sb.seg_count; omega, by show sb.seg_count ≤ sb.buf_count; omega, b2,
         by show sb.page_count = sb.seg_count * 2 ^ page_order.toNat
            rw [b5', b3', i4]; ring,
         by
          intro k hk
          have hk' : k < (st.seg_count + 1).toNat := by
            have : k < sb.seg_count.toNat := hk
            rw [b3'] at this
            exact this
          show ∃ j h, j < sb.buf_count.toNat ∧ sb.seglist k = some h ∧
            (sb.buflist j).address = h.vaddr
          rw [b4]
          by_cases hks : k = st.seg_count.toNat
          · refine ⟨st.buf_count.toNat, dmah, by omega, by simp only [if_pos hks], ?_⟩
            rw [c2', Nat.add_zero]
          · obtain ⟨j, h, hj, hsl, hadr⟩ := i5 k (by omega)
            refine ⟨j, h, by omega, by simp only [if_neg hks]; exact hsl, ?_⟩
            rw [b9' j hj]; exact hadr⟩
        (by show (count - sb.buf_count).toNat < fuel; omega)
      refine ⟨st', ?_, hinv', hcnt'⟩
      simp only [pci_segments, if_pos hlt, hd, e, hrun]
      exact hrun'
    · refine ⟨st, ?_, ⟨i1, i2, i3, i4, i5⟩, by omega⟩
      simp only [pci_segments, if_neg hlt]

/-- C28: in `drm_do_addbufs_pci`, for every request with `0 <= count <= 4096` and
`DRM_MIN_ORDER <= order <= DRM_MAX_ORDER`, entered with the entry of that order empty
and with no allocation failing, a buffer fits in a segment
(`1 << order <= PAGE_SIZE << page_order`), so every segment allocated receives at
least one buffer, the first at the start of the segment.  The segment loop ends, within
`count + 1` iterations, with `entry->buf_count = count` and
`0 <= entry->seg_count <= count`; the number of page-list slots written is
`seg_count << page_order`, which does not exceed `count << page_order`; and the call
returns 0 with these counts in the entry of the order. -/
theorem C28_drm_do_addbufs_pci_segments (henv : Env) (env : PciEnv) (a : PciAnswers)
    (fuel : Nat) (arr : PciArrays) (dev : drm_device) (dma : drm_device_dma)
    (request : drm_buf_desc) (hsane : PciSane henv env) (hdma : dev.dma = some dma)
    (hcount : 0 ≤ request.count ∧ request.count ≤ 4096)
    (horder : henv.DRM_MIN_ORDER ≤ henv.order_base_2 request.size ∧
      henv.order_base_2 request.size ≤ henv.DRM_MAX_ORDER)
    (hempty : (dma.bufs (henv.order_base_2 request.size).toNat).buf_count = 0 ∧
      (dma.bufs (henv.order_base_2 request.size).toNat).seg_count = 0)
    (hok : all_succeed a) (hfuel : request.count.toNat < fuel) :
    shl 1 (henv.order_base_2 request.size)
      ≤ shl env.PAGE_SIZE (pci_page_order env (henv.order_base_2 request.size)) ∧
    ∃ st, pci_loop henv env a fuel arr dev dma request = some (false, st) ∧
      st.buf_count = request.count ∧ 0 ≤ st.seg_count ∧ st.seg_count ≤ request.count ∧
      st.page_count
        = st.seg_count * 2 ^ (pci_page_order env (henv.order_base_2 request.size)).toNat ∧
      shl st.seg_count (pci_page_order env (henv.order_base_2 request.size))
        = st.page_count ∧
      st.page_count
        ≤ request.count * 2 ^ (pci_page_order env (henv.order_base_2 request.size)).toNat ∧
      (∀ k, k < st.seg_count.toNat → ∃ j h, j < st.buf_count.toNat ∧
        st.seglist k = some h ∧ (st.buflist j).address = h.vaddr) ∧
      ∃ r dma', drm_do_addbufs_pci henv env a fuel arr dev request = some r ∧ r.1 = 0 ∧
        r.2.1.dma = some dma' ∧
        (dma'.bufs (henv.order_base_2 request.size).toNat).buf_count = request.count ∧
        (dma'.bufs (henv.order_base_2 request.size).toNat).seg_count = st.seg_count ∧
        dma'.page_count = int32 (dma.page_count + st.page_count) ∧
        r.2.2.1.count = request.count ∧
        r.2.2.2.entry_seglist = st.seglist ∧ r.2.2.2.entry_buflist = st.buflist ∧
        r.2.2.2.dma_pagelist = st.temp_pagelist := by
  obtain ⟨hsz, htot, hle, hpos, htb, hpo0, hpo18⟩ := pci_size_le_total henv env hsane
    (henv.order_base_2 request.size) horder.1 horder.2
  obtain ⟨hb1, hb2, hb3, hseg, hpriv, hre⟩ := hok
  have hP := two_pow_pos (pci_page_order env (henv.order_base_2 request.size)).toNat
  have hP18 : (2 : Int) ^ (pci_page_order env (henv.order_base_2 request.size)).toNat
      ≤ 262144 := by
    have h1 : (2 : Int) ^ (pci_page_order env (henv.order_base_2 request.size)).toNat
        ≤ 2 ^ 18 := pow_le_pow_right₀ (by norm_num) hpo18
    have h2 : (2 : Int) ^ 18 = 262144 := by norm_num
    rw [h2] at h1
    exact h1
  have hfit : (0 + u64 (shl 1 (henv.order_base_2 request.size))) % 18446744073709551616
      ≤ u64 (shl env.PAGE_SIZE (pci_page_order env (henv.order_base_2 request.size))) := by
    rw [u64_of_range _ (le_of_lt hpos) (by omega), u64_of_range _ (by omega) htb]
    have h1 : (shl 1 (henv.order_base_2 request.size)).toNat
        ≤ (shl env.PAGE_SIZE (pci_page_order env (henv.order_base_2 request.size))).toNat := by
      omega
    have h2 : (shl env.PAGE_SIZE
        (pci_page_order env (henv.order_base_2 request.size))).toNat ≤ 1073741824 := by omega
    omega
  have hinit : SegInv request.count (pci_page_order env (henv.order_base_2 request.size))
      (pci_enter dev (dma.bufs (henv.order_base_2 request.size).toNat) arr) :=
    ⟨by show (0 : Int) ≤ (dma.bufs (henv.order_base_2 request.size).toNat).seg_count
        rw [hempty.2],
     by show (dma.bufs (henv.order_base_2 request.size).toNat).seg_count
          ≤ (dma.bufs (henv.order_base_2 request.size).toNat).buf_count
        rw [hempty.1, hempty.2],
     by show (dma.bufs (henv.order_base_2 request.size).toNat).buf_count ≤ request.count
        rw [hempty.1]; exact hcount.1,
     by show (0 : Int) = (dma.bufs (henv.order_base_2 request.size).toNat).seg_count * _
        rw [hempty.2, zero_mul],
     by
      intro k hk
      have : k < (dma.bufs (henv.order_base_2 request.size).toNat).seg_count.toNat := hk
      rw [hempty.2] at this
      exact absurd this (by simp)⟩
  obtain ⟨st, hrun, hinv, hcnt⟩ := pci_segments_spec env a hseg hpriv
    (henv.order_base_2 request.size) (shl 1 (henv.order_base_2 request.size))
    (pci_alignment env (shl 1 (henv.order_base_2 request.size)) request.flags)
    (shl env.PAGE_SIZE (pci_page_order env (henv.order_base_2 request.size))) request.count
    (pci_page_order env (henv.order_base_2 request.size)) dma.buf_count dma.page_count
    dma.byte_count fuel hcount.2 hpo18 hfit hfuel fuel
    (pci_enter dev (dma.bufs (henv.order_base_2 request.size).toNat) arr) hinit
    (by show (request.count
          - (dma.bufs (henv.order_base_2 request.size).toNat).buf_count).toNat < fuel
        rw [hempty.1]; simpa using hfuel)
  have hloop : pci_loop henv env a fuel arr dev dma request = some (false, st) := hrun
  obtain ⟨i1, i2, i3, i4, i5⟩ := hinv
  have hsegle : st.seg_count ≤ request.count := by omega
  have hmul : st.seg_count * 2 ^ (pci_page_order env (henv.order_base_2 request.size)).toNat
      ≤ request.count * 2 ^ (pci_page_order env (henv.order_base_2 request.size)).toNat :=
    mul_le_mul_of_nonneg_right hsegle (le_of_lt hP)
  have hshl : shl st.seg_count (pci_page_order env (henv.order_base_2 request.size))
      = st.page_count := by
    have h1 : st.seg_count * 2 ^ (pci_page_order env (henv.order_base_2 request.size)).toNat
        ≤ 4096 * 262144 := mul_le_mul (by omega) hP18 (le_of_lt hP) (by norm_num)
    have h0 : 0 ≤ st.seg_count
        * 2 ^ (pci_page_order env (henv.order_base_2 request.size)).toNat :=
      mul_nonneg i1 (le_of_lt hP)
    unfold shl
    rw [i4]
    exact int32_of_range _ (by omega) (by omega)
  refine ⟨hle, st, hloop, hcnt, i1, hsegle, i4, hshl, by rw [i4]; exact hmul, i5, ?_⟩
  have hno : ¬ (a.kmalloc_buflist = false ∨ a.kmalloc_seglist = false ∨
      a.kmalloc_pagelist = false) := by
    rw [hb1, hb2, hb3]; simp
  have hre' : ¬ a.krealloc_buflist = false := by rw [hre]; simp
  cases hres : drm_do_addbufs_pci henv env a fuel arr dev request with
  | none => simp [drm_do_addbufs_pci, hdma, hno, hloop, hre'] at hres
  | some r =>
    simp only [drm_do_addbufs_pci, hdma, if_neg hno, hloop, if_neg hre',
      Option.some.injEq] at hres
    subst hres
    refine ⟨_, _, rfl, rfl, rfl, ?_, ?_, ?_, hcnt, rfl, rfl, rfl⟩
    · simp only [pci_finish, if_true]
      exact hcnt
    · simp only [pci_finish, if_true]
    · show int32 (dma.page_count
          + shl st.seg_count (pci_page_order env (henv.order_base_2 request.size)))
        = int32 (dma.page_count + st.page_count)
      rw [hshl]

end DrmBufs

namespace AtomI2c

/-! ## The transactions of `radeon_atom_hw_i2c_xfer` -/

theorem max_bytes_pos (env : Env) (p : iic_msg) : 1 ≤ max_bytes env p := by
  unfold max_bytes
  split <;> decide

theorem max_bytes_le (env : Env) (p : iic_msg) : max_bytes env p ≤ 255 := by
  unfold max_bytes
  split <;> decide

/-- A transaction that `radeon_atom_hw_i2c_xfer` issues is never rejected for its byte
count, and a write copies at most 2 bytes into the data word. -/
theorem radeon_process_i2c_ch_accepts (env : Env)
    (hw : (env.HW_I2C_WRITE % 256) &&& env.HW_I2C_WRITE ≠ 0)
    (hr : (env.HW_I2C_READ % 256) &&& env.HW_I2C_WRITE = 0)
    (i2c_id slave : Nat) (p : iic_msg) (buf : Option (List Nat)) (num ucStatus : Nat)
    (hnum : num ≤ max_bytes env p) :
    ((radeon_process_i2c_ch env i2c_id slave (dir_flags env p) buf num ucStatus).r = 0 ∨
      (radeon_process_i2c_ch env i2c_id slave (dir_flags env p) buf num ucStatus).r = - EIO) ∧
    (radeon_process_i2c_ch env i2c_id slave (dir_flags env p) buf num ucStatus).r ≠ -EINVAL ∧
    (radeon_process_i2c_ch env i2c_id slave (dir_flags env p) buf num ucStatus).copied ≤ 2 := by
  have hne : (- EIO : Int) ≠ -EINVAL := by decide
  have h0 : (0 : Int) ≠ -EINVAL := by decide
  by_cases hd : p.flags &&& env.IIC_M_RD ≠ 0
  · have hf : dir_flags env p = env.HW_I2C_READ := by simp only [dir_flags, if_pos hd]
    have hlt : ¬ num % 256 > ATOM_MAX_HW_I2C_READ := by
      have := Nat.mod_lt num (by decide : 256 > 0)
      simp only [ATOM_MAX_HW_I2C_READ]
      omega
    simp only [radeon_process_i2c_ch, hf, hr, ne_eq, not_true_eq_false, if_false, hlt]
    by_cases hs : ucStatus = env.HW_ASSISTED_I2C_STATUS_SUCCESS
    · simp [hs, h0]
    · simp [hs, hne]
  · have hf : dir_flags env p = env.HW_I2C_WRITE := by simp only [dir_flags, if_neg hd]
    have hm : max_bytes env p = 3 := by simp only [max_bytes, if_neg hd, ATOM_MAX_HW_I2C_WRITE]
    have hn3 : num ≤ 3 := by omega
    have hmod : num % 256 = num := Nat.mod_eq_of_lt (by omega)
    have hlt : ¬ num > ATOM_MAX_HW_I2C_WRITE := by
      simp only [ATOM_MAX_HW_I2C_WRITE]; omega
    simp only [radeon_process_i2c_ch, hf, hmod, ne_eq, hw, not_false_eq_true, if_true, hlt,
      if_false]
    by_cases hs : ucStatus = env.HW_ASSISTED_I2C_STATUS_SUCCESS
    · simp only [hs, not_true_eq_false, if_false]
      refine ⟨by simp, h0, ?_⟩
      split_ifs <;> omega
    · simp only [hs, not_false_eq_true, if_true]
      refine ⟨by simp, hne, ?_⟩
      split_ifs <;> omega

theorem total_bytes_cons (t : Transaction) (ts : List Transaction) :
    total_bytes (t :: ts) = t.num + total_bytes ts := by
  simp [total_bytes]

theorem total_bytes_nil : total_bytes [] = 0 := rfl

/-- The chunking loop ends within `remaining + 1` iterations, and its transactions are
as `Chunked` says. -/
theorem xfer_chunks_spec (env : Env)
    (hw : (env.HW_I2C_WRITE % 256) &&& env.HW_I2C_WRITE ≠ 0)
    (hr : (env.HW_I2C_READ % 256) &&& env.HW_I2C_WRITE = 0)
    (i2c_id : Nat) (status : Nat → Nat) (i : Nat) (p : iic_msg) :
    ∀ (fuel remaining buffer_offset : Nat) (log : List Transaction), remaining < fuel →
      ∃ ret new, xfer_chunks env i2c_id status i p fuel remaining buffer_offset log
          = some (ret, log ++ new) ∧
        Chunked env i p buffer_offset remaining ret new := by
  intro fuel
  induction fuel with
  | zero => intro remaining _ _ h; omega
  | succ fuel ih =>
    intro remaining buffer_offset log hlt
    by_cases h0 : remaining = 0
    · refine ⟨0, [], (by simp [xfer_chunks, h0]), ?_⟩
      exact ⟨fun t ht => (by cases ht), fun t ht => (by cases ht), trivial,
        (by simp [total_bytes]), fun _ => (by simp [total_bytes, h0]), Or.inl rfl⟩
    · have hmax := max_bytes_pos env p
      have hcc : 1 ≤ (if remaining > max_bytes env p then max_bytes env p else remaining) ∧
          (if remaining > max_bytes env p then max_bytes env p else remaining)
            ≤ max_bytes env p ∧
          (if remaining > max_bytes env p then max_bytes env p else remaining) ≤ remaining := by
        split <;> omega
      generalize hc : (if remaining > max_bytes env p then max_bytes env p else remaining)
        = cc at hcc
      obtain ⟨hc1, hc2, hc3⟩ := hcc
      obtain ⟨hret, -, -⟩ := radeon_process_i2c_ch_accepts env hw hr i2c_id p.slave p
        (some (p.buf.drop buffer_offset)) cc (status log.length) hc2
      have hstep : xfer_chunks env i2c_id status i p (fuel + 1) remaining buffer_offset log
          = if (radeon_process_i2c_ch env i2c_id p.slave (dir_flags env p)
                (some (p.buf.drop buffer_offset)) cc (status log.length)).r ≠ 0
            then some ((radeon_process_i2c_ch env i2c_id p.slave (dir_flags env p)
                (some (p.buf.drop buffer_offset)) cc (status log.length)).r,
              log ++ [⟨i, p.slave, dir_flags env p, some buffer_offset, cc⟩])
            else xfer_chunks env i2c_id status i p fuel (remaining - cc)
              (buffer_offset + cc)
              (log ++ [⟨i, p.slave, dir_flags env p, some buffer_offset, cc⟩]) := by
        simp only [xfer_chunks, if_neg h0, hc]
      rw [hstep]
      by_cases hz : (radeon_process_i2c_ch env i2c_id p.slave (dir_flags env p)
          (some (p.buf.drop buffer_offset)) cc (status log.length)).r = 0
      · rw [if_neg (not_not.mpr hz)]
        obtain ⟨ret, new, hrun, hch⟩ := ih (remaining - cc) (buffer_offset + cc)
          (log ++ [⟨i, p.slave, dir_flags env p, some buffer_offset, cc⟩]) (by omega)
        refine ⟨ret, ⟨i, p.slave, dir_flags env p, some buffer_offset, cc⟩ :: new, ?_, ?_⟩
        · rw [hrun]; simp
        · refine ⟨?_, ?_, ⟨rfl, hch.contiguous⟩, ?_, ?_, hch.ret⟩
          · intro t ht
            rcases List.mem_cons.mp ht with e | e
            · subst e; exact ⟨rfl, rfl, rfl⟩
            · exact hch.call t e
          · intro t ht
            rcases List.mem_cons.mp ht with e | e
            · subst e; exact ⟨hc1, hc2⟩
            · exact hch.bound t e
          · rw [total_bytes_cons]
            have := hch.sum_le
            show cc + total_bytes new ≤ remaining
            omega
          · intro hr0
            rw [total_bytes_cons]
            have := hch.sum_eq hr0
            show cc + total_bytes new = remaining
            omega
      · rw [if_pos hz]
        refine ⟨_, [⟨i, p.slave, dir_flags env p, some buffer_offset, cc⟩], rfl, ?_⟩
        refine ⟨?_, ?_, ⟨rfl, trivial⟩, ?_, fun hr0 => absurd hr0 hz, ?_⟩
        · intro t ht
          rw [List.mem_singleton] at ht
          subst ht; exact ⟨rfl, rfl, rfl⟩
        · intro t ht
          rw [List.mem_singleton] at ht
          subst ht; exact ⟨hc1, hc2⟩
        · rw [total_bytes_cons, total_bytes_nil]
          show cc + 0 ≤ remaining
          omega
        · rcases hret with e | e
          · exact absurd e hz
          · exact Or.inr e

theorem of_msg_append (i : Nat) (a b : List Transaction) :
    of_msg i (a ++ b) = of_msg i a ++ of_msg i b := by
  simp [of_msg]

theorem of_msg_self (i : Nat) (l : List Transaction) (h : ∀ t ∈ l, t.msg = i) :
    of_msg i l = l := by
  simp only [of_msg, List.filter_eq_self]
  intro t ht
  simp [h t ht]

theorem of_msg_other (i : Nat) (l : List Transaction) (h : ∀ t ∈ l, t.msg ≠ i) :
    of_msg i l = [] := by
  simp only [of_msg, List.filter_eq_nil_iff]
  intro t ht
  simp [h t ht]

/-- No transaction for a message: what `Chunked` says of a message that was not
reached. -/
theorem Chunked_nil (env : Env) (i : Nat) (p : iic_msg) :
    Chunked env i p 0 p.len (- EIO) [] :=
  ⟨fun t ht => (by cases ht), fun t ht => (by cases ht), trivial, (by simp [total_bytes]),
   fun h => (by simp [ EIO] at h), Or.inr rfl⟩

/-- The loop over the messages: it returns 0 or `-EIO`, every transaction is made for
a message of the list, and the transactions of each message are as `Chunked` says. -/
theorem xfer_msgs_spec (env : Env)
    (hw : (env.HW_I2C_WRITE % 256) &&& env.HW_I2C_WRITE ≠ 0)
    (hr : (env.HW_I2C_READ % 256) &&& env.HW_I2C_WRITE = 0)
    (i2c_id : Nat) (status : Nat → Nat) (fuel : Nat) :
    ∀ (ps : List iic_msg) (i : Nat) (log : List Transaction), (∀ p ∈ ps, p.len < fuel) →
      ∃ ret new, xfer_msgs env i2c_id status fuel i ps log = some (ret, log ++ new) ∧
        (ret = 0 ∨ ret = - EIO) ∧
        (∀ t ∈ new, i ≤ t.msg ∧ t.msg < i + ps.length) ∧
        (∀ j p, ps[j]? = some p →
          ∃ r, Chunked env (i + j) p 0 p.len r (of_msg (i + j) new) ∧ (ret = 0 → r = 0)) := by
  intro ps
  induction ps with
  | nil =>
    intro i log _
    exact ⟨0, [], (by simp [xfer_msgs]), Or.inl rfl, fun t ht => (by cases ht),
      fun j p h => (by simp at h)⟩
  | cons p ps ih =>
    intro i log hfuel
    obtain ⟨r1, new1, hrun1, hch1⟩ := xfer_chunks_spec env hw hr i2c_id status i p fuel p.len 0
      log (hfuel p (List.mem_cons_self _ _))
    have hmsg1 : ∀ t ∈ new1, t.msg = i := fun t ht => (hch1.call t ht).1
    by_cases hz : r1 = 0
    · subst hz
      obtain ⟨ret, new2, hrun2, hret2, hrange2, hall2⟩ := ih (i + 1) (log ++ new1)
        (fun q hq => hfuel q (List.mem_cons_of_mem _ hq))
      refine ⟨ret, new1 ++ new2, ?_, hret2, ?_, ?_⟩
      · simp only [xfer_msgs, hrun1, ne_eq, not_true_eq_false, if_false, hrun2,
          List.append_assoc]
      · intro t ht
        rcases List.mem_append.mp ht with h | h
        · rw [hmsg1 t h]
          simp
        · have := hrange2 t h
          simp only [List.length_cons]
          omega
      · intro j q hq
        cases j with
        | zero =>
          simp only [List.getElem?_cons_zero, Option.some.injEq] at hq
          subst hq
          have e2 : of_msg i new2 = [] :=
            of_msg_other _ _ (fun t ht => by have := (hrange2 t ht).1; omega)
          rw [Nat.add_zero, of_msg_append, e2, List.append_nil, of_msg_self _ _ hmsg1]
          exact ⟨0, hch1, fun _ => rfl⟩
        | succ j =>
          simp only [List.getElem?_cons_succ] at hq
          obtain ⟨r, hch, hr0⟩ := hall2 j q hq
          have e1 : of_msg (i + (j + 1)) new1 = [] :=
            of_msg_other _ _ (fun t ht => by rw [hmsg1 t ht]; omega)
          have e : i + 1 + j = i + (j + 1) := by omega
          rw [of_msg_append, e1, List.nil_append, ← e]
          exact ⟨r, hch, hr0⟩
    · refine ⟨r1, new1, ?_, ?_, ?_, ?_⟩
      · simp only [xfer_msgs, hrun1, ne_eq, hz, not_false_eq_true, if_true]
      · exact hch1.ret
      · intro t ht
        rw [hmsg1 t ht]
        simp
      · intro j q hq
        cases j with
        | zero =>
          simp only [List.getElem?_cons_zero, Option.some.injEq] at hq
          subst hq
          rw [Nat.add_zero, of_msg_self _ _ hmsg1]
          exact ⟨r1, hch1, fun h => absurd h hz⟩
        | succ j =>
          have e1 : of_msg (i + (j + 1)) new1 = [] :=
            of_msg_other _ _ (fun t ht => by rw [hmsg1 t ht]; omega)
          rw [e1]
          exact ⟨- EIO, Chunked_nil env _ q, fun h => absurd h hz⟩

end AtomI2c

namespace TTM

open ttm_ref_type

/-! ## Concurrent calls of `ttm_ref_object_add` -/

theorem add_step_find_miss (s : State) (tfile base : Nat) (ref_type : ttm_ref_type)
    (h : (s.files tfile).ref_hash ref_type (s.bases base).hash_key = none) :
    add_step_find s tfile base ref_type = (s, Pc.alloc) := by
  simp only [add_step_find, drm_ht_find_item, lock_file_files_ref_hash, lock_file_bases, h,
    unlock_lock_file]

theorem add_step_find_hit (s : State) (tfile base : Nat) (ref_type : ttm_ref_type)
    (w : Nat) (r : ttm_ref_object)
    (h : (s.files tfile).ref_hash ref_type (s.bases base).hash_key = some w)
    (hr : s.refs w = some r) :
    add_step_find s tfile base ref_type
      = (set_ref s w (some { r with kref := r.kref + 1 }), Pc.done 0) := by
  simp only [add_step_find, drm_ht_find_item, lock_file_files_ref_hash, lock_file_bases, h,
    lock_file_refs, hr, kref_get]
  congr 1
  apply state_ext_fields <;> try simp
  apply files_eq_of_fields <;> intro p <;> simp
  by_cases hp : p = tfile <;> simp [hp]

theorem add_step_alloc_denied (size : Nat) (s : State) (alloc_ret : Int)
    (h : alloc_ret ≠ 0) :
    add_step_alloc size s alloc_ret = (s, Pc.done alloc_ret) := by
  simp [add_step_alloc, h, ttm_mem_global_alloc]

theorem add_step_alloc_granted (size : Nat) (s : State) :
    add_step_alloc size s 0 = (ttm_mem_global_alloc s size 0, Pc.kmalloc) := by
  simp [add_step_alloc]

theorem add_step_kmalloc_some (size : Nat) (s : State) (tfile base : Nat)
    (ref_type : ttm_ref_type) (ref : Nat) :
    add_step_kmalloc size s tfile base ref_type (some ref)
      = (set_ref s ref (some ⟨(s.bases base).hash_key, 1, ref_type, some base, tfile⟩),
          Pc.insert ref) := by
  simp [add_step_kmalloc, kref_init]

theorem add_step_insert_win (s : State) (tfile base : Nat) (ref_type : ttm_ref_type)
    (ref : Nat) (h : (s.files tfile).ref_hash ref_type (s.bases base).hash_key = none) :
    add_step_insert s tfile base ref_type ref
      = (insert_linked s tfile base ref_type ref, Pc.done 0) := by
  simp only [add_step_insert, drm_ht_insert_item, lock_file_files_ref_hash, lock_file_bases,
    h, kref_get, insert_linked]
  congr 1
  apply state_ext_fields <;> try simp
  funext p
  apply file_ext_fields <;> by_cases hp : p = tfile <;> simp [hp]

theorem add_step_insert_lose (s : State) (tfile base : Nat) (ref_type : ttm_ref_type)
    (ref w : Nat) (h : (s.files tfile).ref_hash ref_type (s.bases base).hash_key = some w) :
    add_step_insert s tfile base ref_type ref = (s, Pc.cleanup ref) := by
  simp only [add_step_insert, drm_ht_insert_item, lock_file_files_ref_hash, lock_file_bases,
    h, unlock_lock_file]

/-- A thread that runs alone from the head of the loop does what the sequential
`ttm_ref_object_add` does. -/
theorem add_steps_alone (size fuel : Nat) (s : State) (tfile base : Nat)
    (ref_type : ttm_ref_type) (alloc_ret : Int) (kmalloc_ret : Option Nat) :
    ∃ ret s', ttm_ref_object_add size (fuel + 1) s tfile base ref_type none alloc_ret
        kmalloc_ret = some (ret, none, s') ∧
      ((add_step_find s tfile base ref_type = (s', Pc.done ret)) ∨
       (add_step_find s tfile base ref_type = (s, Pc.alloc) ∧
        (add_step_alloc size s alloc_ret = (s', Pc.done ret) ∨
         (add_step_alloc size s alloc_ret = (ttm_mem_global_alloc s size 0, Pc.kmalloc) ∧
          (add_step_kmalloc size (ttm_mem_global_alloc s size 0) tfile base ref_type
              kmalloc_ret = (s', Pc.done ret) ∨
           ∃ ref s1, add_step_kmalloc size (ttm_mem_global_alloc s size 0) tfile base
               ref_type kmalloc_ret = (s1, Pc.insert ref) ∧
             add_step_insert s1 tfile base ref_type ref = (s', Pc.done ret)))))) := by
  cases hfind : (s.files tfile).ref_hash ref_type (s.bases base).hash_key with
  | some w =>
    cases hr : s.refs w with
    | none =>
      refine ⟨0, s, ttm_ref_object_add_found_freed size fuel s tfile base ref_type none
        alloc_ret kmalloc_ret w hfind hr, Or.inl ?_⟩
      simp only [add_step_find, drm_ht_find_item, lock_file_files_ref_hash, lock_file_bases,
        hfind, lock_file_refs, hr, unlock_lock_file]
    | some r =>
      exact ⟨0, _, ttm_ref_object_add_found size fuel s tfile base ref_type none alloc_ret
        kmalloc_ret w r hfind hr, Or.inl (add_step_find_hit s tfile base ref_type w r hfind hr)⟩
  | none =>
    have hmiss := add_step_find_miss s tfile base ref_type hfind
    by_cases ha : alloc_ret = 0
    · subst ha
      have hch := add_step_alloc_granted size s
      cases hk : kmalloc_ret with
      | none =>
        refine ⟨-ENOMEM, s, ttm_ref_object_add_nomem size fuel s tfile base ref_type none
          hfind, Or.inr ⟨hmiss, Or.inr ⟨hch, Or.inl ?_⟩⟩⟩
        simp only [add_step_kmalloc]
        congr 1
        apply state_ext_fields <;> simp
      | some ref =>
        refine ⟨0, link_record size s tfile base ref_type ref,
          ttm_ref_object_add_new size fuel s tfile base ref_type none (some ref) ref hfind rfl,
          Or.inr ⟨hmiss, Or.inr ⟨hch, Or.inr ⟨ref, _,
            add_step_kmalloc_some size _ tfile base ref_type ref, ?_⟩⟩⟩⟩
        rw [add_step_insert_win _ tfile base ref_type ref (by simpa using hfind)]
        rfl
    · exact ⟨alloc_ret, s, ttm_ref_object_add_denied size fuel s tfile base ref_type none
        alloc_ret kmalloc_ret hfind ha,
        Or.inr ⟨hmiss, Or.inl (add_step_alloc_denied size s alloc_ret ha)⟩⟩

theorem in_flight_split (l1 l2 : List Pc) (a : Pc) :
    in_flight (l1 ++ a :: l2) = in_flight l1 ++ ((held a).toList ++ in_flight l2) := by
  simp only [in_flight, List.filterMap_append, List.filterMap_cons]
  cases held a <;> simp

theorem done_zero_split (l1 l2 : List Pc) (a : Pc) :
    done_zero (l1 ++ a :: l2)
      = done_zero l1 + ((if a = Pc.done 0 then 1 else 0) + done_zero l2) := by
  simp only [done_zero, List.countP_append, List.countP_cons]
  by_cases h : a = Pc.done 0
  · simp [h]; omega
  · simp [h]

theorem waiting_split (l1 l2 : List Pc) (a : Pc) :
    waiting (l1 ++ a :: l2)
      = waiting l1 + ((if a = Pc.kmalloc then 1 else 0) + waiting l2) := by
  simp only [waiting, List.countP_append, List.countP_cons]
  by_cases h : a = Pc.kmalloc
  · simp [h]; omega
  · simp [h]

theorem mem_in_flight_of_insert (l : List Pc) (r : Nat) (h : Pc.insert r ∈ l) :
    r ∈ in_flight l :=
  List.mem_filterMap.mpr ⟨_, h, rfl⟩

theorem mem_in_flight_of_cleanup (l : List Pc) (r : Nat) (h : Pc.cleanup r ∈ l) :
    r ∈ in_flight l :=
  List.mem_filterMap.mpr ⟨_, h, rfl⟩

/-- A step that leaves the memory alone, and neither starts nor ends a thread's hold on
a record or on a charge, nor returns 0, keeps the invariant. -/
theorem Racing_same_state {size tfile base : Nat} {ref_type : ttm_ref_type} {s0 s : State}
    (l1 l2 : List Pc) (a b : Pc)
    (h : Racing size tfile base ref_type s0 { s := s, pcs := l1 ++ a :: l2 })
    (hheld : held b = held a) (hda : a ≠ Pc.done 0) (hdb : b ≠ Pc.done 0)
    (hwa : a ≠ Pc.kmalloc) (hwb : b ≠ Pc.kmalloc)
    (hins : ∀ r, b = Pc.insert r → a = Pc.insert r)
    (hcl : ∀ r, b = Pc.cleanup r →
      (s.files tfile).ref_hash ref_type (s0.bases base).hash_key ≠ none) :
    Racing size tfile base ref_type s0 { s := s, pcs := l1 ++ b :: l2 } := by
  have hf : in_flight (l1 ++ b :: l2) = in_flight (l1 ++ a :: l2) := by
    rw [in_flight_split, in_flight_split, hheld]
  have hd : done_zero (l1 ++ b :: l2) = done_zero (l1 ++ a :: l2) := by
    rw [done_zero_split, done_zero_split, if_neg hda, if_neg hdb]
  have hw : waiting (l1 ++ b :: l2) = waiting (l1 ++ a :: l2) := by
    rw [waiting_split, waiting_split, if_neg hwa, if_neg hwb]
  refine ⟨h.key, ?_, ?_, ?_, ?_, ?_, ?_, ?_⟩
  · show (in_flight (l1 ++ b :: l2)).Nodup
    rw [hf]; exact h.nodup
  · intro r hr
    exact h.live r (by
      show r ∈ in_flight (l1 ++ a :: l2)
      rw [← hf]; exact hr)
  · intro r hr
    apply h.fresh r
    show Pc.insert r ∈ l1 ++ a :: l2
    have hr' : Pc.insert r ∈ l1 ++ b :: l2 := hr
    simp only [List.mem_append, List.mem_cons] at hr' ⊢
    rcases hr' with hr' | hr' | hr'
    · exact Or.inl hr'
    · exact Or.inr (Or.inl (hins r hr'.symm).symm)
    · exact Or.inr (Or.inr hr')
  · intro r hr
    have hr' : Pc.cleanup r ∈ l1 ++ b :: l2 := hr
    simp only [List.mem_append, List.mem_cons] at hr'
    rcases hr' with hr' | hr' | hr'
    · exact h.lost r (by
        show Pc.cleanup r ∈ l1 ++ a :: l2
        simp [hr'])
    · exact hcl r hr'.symm
    · exact h.lost r (by
        show Pc.cleanup r ∈ l1 ++ a :: l2
        simp [hr'])
  · intro hn
    have := h.before hn
    exact ⟨by show done_zero (l1 ++ b :: l2) = 0; rw [hd]; exact this.1, this.2⟩
  · intro w hw'
    obtain ⟨h1, h2, h3, h4⟩ := h.after w hw'
    refine ⟨?_, h2, h3, ?_⟩
    · show s.refs w = some ⟨_, (done_zero (l1 ++ b :: l2) : Int), _, _, _⟩
      rw [hd]; exact h1
    · show w ∉ in_flight (l1 ++ b :: l2)
      rw [hf]; exact h4
  · show s.mem_glob = _ + (size : Int) * ((waiting (l1 ++ b :: l2) : Int)
      + ((in_flight (l1 ++ b :: l2)).length : Int) + _)
    rw [hf, hw]; exact h.ledger

theorem mem_split_iff (l1 l2 : List Pc) (a x : Pc) :
    x ∈ l1 ++ a :: l2 ↔ x ∈ l1 ∨ x = a ∨ x ∈ l2 := by
  simp only [List.mem_append, List.mem_cons]

theorem mem_in_flight_split (l1 l2 : List Pc) (a : Pc) (r : Nat) :
    r ∈ in_flight (l1 ++ a :: l2) ↔ r ∈ in_flight l1 ∨ held a = some r ∨ r ∈ in_flight l2 := by
  rw [in_flight_split]
  cases h : held a <;> simp [eq_comm]

/-- The lookup hits: the record's internal count is raised and the thread returns 0. -/
theorem Racing_find_hit {size tfile base : Nat} {ref_type : ttm_ref_type} {s0 s : State}
    (l1 l2 : List Pc) (w : Nat) (r : ttm_ref_object)
    (h : Racing size tfile base ref_type s0 { s := s, pcs := l1 ++ Pc.find :: l2 })
    (hw : (s.files tfile).ref_hash ref_type (s0.bases base).hash_key = some w)
    (hr : s.refs w = some r) :
    Racing size tfile base ref_type s0
      { s := set_ref s w (some { r with kref := r.kref + 1 }),
        pcs := l1 ++ Pc.done 0 :: l2 } := by
  obtain ⟨h1, h2, h3, h4⟩ := h.after w hw
  have h1' : s.refs w = some ⟨(s0.bases base).hash_key,
      (done_zero (l1 ++ Pc.find :: l2) : Int), ref_type, some base, tfile⟩ := h1
  have h4' : w ∉ in_flight (l1 ++ Pc.find :: l2) := h4
  have hf : in_flight (l1 ++ Pc.done 0 :: l2) = in_flight (l1 ++ Pc.find :: l2) := by
    rw [in_flight_split, in_flight_split]; rfl
  have hd : done_zero (l1 ++ Pc.done 0 :: l2) = done_zero (l1 ++ Pc.find :: l2) + 1 := by
    rw [done_zero_split, done_zero_split]
    simp
    omega
  have hrefs : ∀ q, q ≠ w → (set_ref s w (some { r with kref := r.kref + 1 })).refs q
      = s.refs q := by
    intro q hq; simp [hq]
  refine ⟨h.key, ?_, ?_, ?_, ?_, ?_, ?_, ?_⟩
  · show (in_flight (l1 ++ Pc.done 0 :: l2)).Nodup
    rw [hf]; exact h.nodup
  · intro q hq
    have hq' : q ∈ in_flight (l1 ++ Pc.find :: l2) := by rw [← hf]; exact hq
    have hne : q ≠ w := fun e => h4' (e ▸ hq')
    show (set_ref s w _).refs q ≠ none
    rw [hrefs q hne]
    exact h.live q hq'
  · intro q hq
    have hq1 : Pc.insert q ∈ l1 ++ Pc.done 0 :: l2 := hq
    have hq2 : Pc.insert q ∈ l1 ++ Pc.find :: l2 := by
      rw [mem_split_iff] at hq1 ⊢
      rcases hq1 with e | e | e
      · exact Or.inl e
      · cases e
      · exact Or.inr (Or.inr e)
    have hne : q ≠ w := fun e => h4' (e ▸ mem_in_flight_of_insert _ q hq2)
    show (set_ref s w _).refs q = _
    rw [hrefs q hne]
    exact h.fresh q hq2
  · intro q _
    show (s.files tfile).ref_hash ref_type (s0.bases base).hash_key ≠ none
    rw [hw]; simp
  · intro hn
    have hn' : (s.files tfile).ref_hash ref_type (s0.bases base).hash_key = none := hn
    rw [hw] at hn'; cases hn'
  · intro w' hw'
    have hw'' : (s.files tfile).ref_hash ref_type (s0.bases base).hash_key = some w' := hw'
    rw [hw] at hw''
    cases hw''
    refine ⟨?_, h2, h3, ?_⟩
    · show (set_ref s w _).refs w = some ⟨_, (done_zero (l1 ++ Pc.done 0 :: l2) : Int), _, _, _⟩
      rw [h1'] at hr
      cases hr
      simp [hd]
    · show w ∉ in_flight (l1 ++ Pc.done 0 :: l2)
      rw [hf]; exact h4'
  · have hwt : waiting (l1 ++ Pc.done 0 :: l2) = waiting (l1 ++ Pc.find :: l2) := by
      rw [waiting_split, waiting_split]; simp
    show s.mem_glob = _ + (size : Int) * ((waiting (l1 ++ Pc.done 0 :: l2) : Int)
      + ((in_flight (l1 ++ Pc.done 0 :: l2)).length : Int) + _)
    rw [hf, hwt]; exact h.ledger

/-- A step that changes only the ledger, by what the change of the thread's hold on a
charge asks for, keeps the invariant. -/
theorem Racing_mem_only {size tfile base : Nat} {ref_type : ttm_ref_type} {s0 s s' : State}
    (l1 l2 : List Pc) (a b : Pc)
    (h : Racing size tfile base ref_type s0 { s := s, pcs := l1 ++ a :: l2 })
    (hrefs : s'.refs = s.refs) (hfiles : s'.files = s.files) (hbases : s'.bases = s.bases)
    (hheld : held b = held a) (hda : a ≠ Pc.done 0) (hdb : b ≠ Pc.done 0)
    (hins : ∀ r, b = Pc.insert r → a = Pc.insert r)
    (hcl : ∀ r, b = Pc.cleanup r → a = Pc.cleanup r)
    (hmem : s'.mem_glob + (size : Int) * (if a = Pc.kmalloc then 1 else 0)
      = s.mem_glob + (size : Int) * (if b = Pc.kmalloc then 1 else 0)) :
    Racing size tfile base ref_type s0 { s := s', pcs := l1 ++ b :: l2 } := by
  have hf : in_flight (l1 ++ b :: l2) = in_flight (l1 ++ a :: l2) := by
    rw [in_flight_split, in_flight_split, hheld]
  have hd : done_zero (l1 ++ b :: l2) = done_zero (l1 ++ a :: l2) := by
    rw [done_zero_split, done_zero_split, if_neg hda, if_neg hdb]
  have hsub : ∀ x : Pc, x ≠ b ∨ x = a → x ∈ l1 ++ b :: l2 → x ∈ l1 ++ a :: l2 := by
    intro x hx hm
    rw [mem_split_iff] at hm ⊢
    rcases hm with e | e | e
    · exact Or.inl e
    · rcases hx with hx | hx
      · exact absurd e hx
      · exact Or.inr (Or.inl hx)
    · exact Or.inr (Or.inr e)
  refine ⟨?_, ?_, ?_, ?_, ?_, ?_, ?_, ?_⟩
  · show (s'.bases base).hash_key = _
    rw [hbases]; exact h.key
  · show (in_flight (l1 ++ b :: l2)).Nodup
    rw [hf]; exact h.nodup
  · intro r hr
    show s'.refs r ≠ none
    rw [hrefs]
    exact h.live r (by
      show r ∈ in_flight (l1 ++ a :: l2)
      rw [← hf]; exact hr)
  · intro r hr
    show s'.refs r = _
    rw [hrefs]
    apply h.fresh r
    by_cases e : Pc.insert r = b
    · exact hsub _ (Or.inr (hins r e.symm).symm) hr
    · exact hsub _ (Or.inl e) hr
  · intro r hr
    show (s'.files tfile).ref_hash ref_type (s0.bases base).hash_key ≠ none
    rw [hfiles]
    apply h.lost r
    by_cases e : Pc.cleanup r = b
    · exact hsub _ (Or.inr (hcl r e.symm).symm) hr
    · exact hsub _ (Or.inl e) hr
  · intro hn
    have hn' : (s'.files tfile).ref_hash ref_type (s0.bases base).hash_key = none := hn
    rw [hfiles] at hn'
    have := h.before hn'
    refine ⟨by show done_zero (l1 ++ b :: l2) = 0; rw [hd]; exact this.1, ?_, ?_⟩
    · show (s'.bases base).refcount = _
      rw [hbases]; exact this.2.1
    · show (s'.files tfile).ref_list = _
      rw [hfiles]; exact this.2.2
  · intro w hw
    have hw' : (s'.files tfile).ref_hash ref_type (s0.bases base).hash_key = some w := hw
    rw [hfiles] at hw'
    obtain ⟨h1, h2, h3, h4⟩ := h.after w hw'
    refine ⟨?_, ?_, ?_, ?_⟩
    · show s'.refs w = some ⟨_, (done_zero (l1 ++ b :: l2) : Int), _, _, _⟩
      rw [hrefs, hd]; exact h1
    · show (s'.bases base).refcount = _
      rw [hbases]; exact h2
    · show (s'.files tfile).ref_list = _
      rw [hfiles]; exact h3
    · show w ∉ in_flight (l1 ++ b :: l2)
      rw [hf]; exact h4
  · have hl : s.mem_glob = s0.mem_glob + (size : Int) * ((waiting (l1 ++ a :: l2) : Int)
        + ((in_flight (l1 ++ a :: l2)).length : Int) +
        (if (s.files tfile).ref_hash ref_type (s0.bases base).hash_key = none then 0
          else 1)) := h.ledger
    show s'.mem_glob = _ + (size : Int) * ((waiting (l1 ++ b :: l2) : Int)
      + ((in_flight (l1 ++ b :: l2)).length : Int) +
      (if (s'.files tfile).ref_hash ref_type (s0.bases base).hash_key = none then 0 else 1))
    rw [hf, hfiles, waiting_split]
    rw [waiting_split] at hl
    by_cases ea : a = Pc.kmalloc <;> by_cases eb : b = Pc.kmalloc <;>
      simp only [ea, eb, if_true, if_false] at hmem hl ⊢ <;>
      push_cast at hl ⊢ <;> linarith


/-- `kmalloc` returns free memory: the thread, which had charged, holds a new record. -/
theorem Racing_kmalloc_some {size tfile base : Nat} {ref_type : ttm_ref_type}
    {s0 s : State} (l1 l2 : List Pc) (ref : Nat)
    (h : Racing size tfile base ref_type s0 { s := s, pcs := l1 ++ Pc.kmalloc :: l2 })
    (hfree : s.refs ref = none) :
    Racing size tfile base ref_type s0
      { s := set_ref s ref
          (some ⟨(s.bases base).hash_key, 1, ref_type, some base, tfile⟩),
        pcs := l1 ++ Pc.insert ref :: l2 } := by
  have hkey : (s.bases base).hash_key = (s0.bases base).hash_key := h.key
  have hold : in_flight (l1 ++ Pc.kmalloc :: l2) = in_flight l1 ++ in_flight l2 := by
    rw [in_flight_split]; rfl
  have hnew : in_flight (l1 ++ Pc.insert ref :: l2)
      = in_flight l1 ++ ref :: in_flight l2 := by
    rw [in_flight_split]; rfl
  have hnd : (in_flight l1 ++ in_flight l2).Nodup := by rw [← hold]; exact h.nodup
  have hlive : ∀ q ∈ in_flight l1 ++ in_flight l2, s.refs q ≠ none := by
    intro q hq; exact h.live q (by show q ∈ in_flight (l1 ++ Pc.kmalloc :: l2); rw [hold]; exact hq)
  have hnotin : ref ∉ in_flight l1 ++ in_flight l2 := fun hq => hlive ref hq hfree
  have hd : done_zero (l1 ++ Pc.insert ref :: l2) = done_zero (l1 ++ Pc.kmalloc :: l2) := by
    rw [done_zero_split, done_zero_split]; simp
  have hrefs : ∀ q, q ≠ ref → (set_ref s ref
      (some ⟨(s.bases base).hash_key, 1, ref_type, some base, tfile⟩)).refs q = s.refs q := by
    intro q hq; simp [hq]
  have hmem : ∀ q, q ∈ in_flight l1 ++ ref :: in_flight l2 ↔
      q = ref ∨ q ∈ in_flight l1 ++ in_flight l2 := by
    intro q; simp only [List.mem_append, List.mem_cons]; tauto
  refine ⟨?_, ?_, ?_, ?_, ?_, ?_, ?_, ?_⟩
  · show ((set_ref s ref _).bases base).hash_key = _
    simpa using hkey
  · show (in_flight (l1 ++ Pc.insert ref :: l2)).Nodup
    rw [hnew]
    exact List.nodup_middle.mpr (List.nodup_cons.mpr ⟨hnotin, hnd⟩)
  · intro q hq
    have hq' : q ∈ in_flight l1 ++ ref :: in_flight l2 := by rw [← hnew]; exact hq
    show (set_ref s ref _).refs q ≠ none
    rcases (hmem q).mp hq' with e | e
    · subst e; simp
    · have hne : q ≠ ref := fun e' => hnotin (e' ▸ e)
      rw [hrefs q hne]; exact hlive q e
  · intro q hq
    have hq1 : Pc.insert q ∈ l1 ++ Pc.insert ref :: l2 := hq
    show (set_ref s ref _).refs q = _
    by_cases e : q = ref
    · subst e; simp [hkey]
    · rw [hrefs q e]
      apply h.fresh q
      show Pc.insert q ∈ l1 ++ Pc.kmalloc :: l2
      rw [mem_split_iff] at hq1 ⊢
      rcases hq1 with e' | e' | e'
      · exact Or.inl e'
      · cases e'; exact absurd rfl e
      · exact Or.inr (Or.inr e')
  · intro q hq
    have hq1 : Pc.cleanup q ∈ l1 ++ Pc.insert ref :: l2 := hq
    show (s.files tfile).ref_hash ref_type (s0.bases base).hash_key ≠ none
    apply h.lost q
    show Pc.cleanup q ∈ l1 ++ Pc.kmalloc :: l2
    rw [mem_split_iff] at hq1 ⊢
    rcases hq1 with e' | e' | e'
    · exact Or.inl e'
    · cases e'
    · exact Or.inr (Or.inr e')
  · intro hn
    have hb := h.before hn
    refine ⟨by show done_zero (l1 ++ Pc.insert ref :: l2) = 0; rw [hd]; exact hb.1, ?_, ?_⟩
    · show ((set_ref s ref _).bases base).refcount = _
      simpa using hb.2.1
    · show ((set_ref s ref _).files tfile).ref_list = _
      simpa using hb.2.2
  · intro w hw
    obtain ⟨h1, h2, h3, h4⟩ := h.after w hw
    have h1' : s.refs w = some ⟨(s0.bases base).hash_key,
        (done_zero (l1 ++ Pc.kmalloc :: l2) : Int), ref_type, some base, tfile⟩ := h1
    have hne : w ≠ ref := fun e => by rw [e, hfree] at h1'; cases h1'
    refine ⟨?_, ?_, ?_, ?_⟩
    · show (set_ref s ref _).refs w
        = some ⟨_, (done_zero (l1 ++ Pc.insert ref :: l2) : Int), _, _, _⟩
      rw [hrefs w hne, hd]; exact h1'
    · show ((set_ref s ref _).bases base).refcount = _
      simpa using h2
    · show ((set_ref s ref _).files tfile).ref_list = _
      simpa using h3
    · show w ∉ in_flight (l1 ++ Pc.insert ref :: l2)
      rw [hnew, hmem]
      rintro (e | e)
      · exact hne e
      · exact h4 (by show w ∈ in_flight (l1 ++ Pc.kmalloc :: l2); rw [hold]; exact e)
  · have hwo : waiting (l1 ++ Pc.kmalloc :: l2) = waiting l1 + waiting l2 + 1 := by
      rw [waiting_split]; simp; omega
    have hwn : waiting (l1 ++ Pc.insert ref :: l2) = waiting l1 + waiting l2 := by
      rw [waiting_split]; simp
    have hl : s.mem_glob = s0.mem_glob + (size : Int) *
        ((waiting (l1 ++ Pc.kmalloc :: l2) : Int)
          + ((in_flight (l1 ++ Pc.kmalloc :: l2)).length : Int) +
          (if (s.files tfile).ref_hash ref_type (s0.bases base).hash_key = none then 0
            else 1)) := h.ledger
    show (set_ref s ref _).mem_glob
      = _ + (size : Int) * ((waiting (l1 ++ Pc.insert ref :: l2) : Int)
        + ((in_flight (l1 ++ Pc.insert ref :: l2)).length : Int) +
        (if ((set_ref s ref _).files tfile).ref_hash ref_type
          (s0.bases base).hash_key = none then 0 else 1))
    rw [hnew, hwn]
    rw [hold, hwo] at hl
    simp only [set_ref_mem_glob, set_ref_files, List.length_append, List.length_cons] at hl ⊢
    rw [hl]
    push_cast
    ring

/-- The charge is granted: the thread holds a charge. -/
theorem Racing_charge {size tfile base : Nat} {ref_type : ttm_ref_type} {s0 s : State}
    (l1 l2 : List Pc)
    (h : Racing size tfile base ref_type s0 { s := s, pcs := l1 ++ Pc.alloc :: l2 }) :
    Racing size tfile base ref_type s0
      { s := ttm_mem_global_alloc s size 0, pcs := l1 ++ Pc.kmalloc :: l2 } :=
  Racing_mem_only l1 l2 Pc.alloc Pc.kmalloc h (by simp) (by simp) (by simp) rfl (by simp)
    (by simp) (fun r e => by cases e) (fun r e => by cases e) (by simp)

/-- `kmalloc` fails: the thread gives its charge back and returns `-ENOMEM`. -/
theorem Racing_kmalloc_none {size tfile base : Nat} {ref_type : ttm_ref_type} {s0 s : State}
    (l1 l2 : List Pc)
    (h : Racing size tfile base ref_type s0 { s := s, pcs := l1 ++ Pc.kmalloc :: l2 }) :
    Racing size tfile base ref_type s0
      { s := ttm_mem_global_free s size, pcs := l1 ++ Pc.done (-ENOMEM) :: l2 } :=
  Racing_mem_only l1 l2 Pc.kmalloc (Pc.done (-ENOMEM)) h rfl rfl rfl rfl (by simp)
    (by simp [ENOMEM]) (fun r e => by cases e) (fun r e => by cases e) (by simp)

@[simp] theorem insert_linked_refs (s : State) (tfile base : Nat) (ref_type : ttm_ref_type)
    (ref : Nat) : (insert_linked s tfile base ref_type ref).refs = s.refs := by
  simp [insert_linked]

@[simp] theorem insert_linked_mem_glob (s : State) (tfile base : Nat)
    (ref_type : ttm_ref_type) (ref : Nat) :
    (insert_linked s tfile base ref_type ref).mem_glob = s.mem_glob := by
  simp [insert_linked]

@[simp] theorem insert_linked_refcount (s : State) (tfile base : Nat)
    (ref_type : ttm_ref_type) (ref : Nat) :
    ((insert_linked s tfile base ref_type ref).bases base).refcount
      = (s.bases base).refcount + 1 := by
  simp [insert_linked]

@[simp] theorem insert_linked_hash_key (s : State) (tfile base : Nat)
    (ref_type : ttm_ref_type) (ref : Nat) :
    ((insert_linked s tfile base ref_type ref).bases base).hash_key
      = (s.bases base).hash_key := by
  simp [insert_linked]

@[simp] theorem insert_linked_ref_list (s : State) (tfile base : Nat)
    (ref_type : ttm_ref_type) (ref : Nat) :
    ((insert_linked s tfile base ref_type ref).files tfile).ref_list
      = (s.files tfile).ref_list ++ [ref] := by
  simp [insert_linked]

@[simp] theorem insert_linked_ref_hash (s : State) (tfile base : Nat)
    (ref_type : ttm_ref_type) (ref : Nat) :
    ((insert_linked s tfile base ref_type ref).files tfile).ref_hash ref_type
      (s.bases base).hash_key = some ref := by
  simp [insert_linked]

/-- The insert succeeds: the thread's record becomes the record of the table and the
thread returns 0. -/
theorem Racing_insert_win {size tfile base : Nat} {ref_type : ttm_ref_type} {s0 s : State}
    (l1 l2 : List Pc) (ref : Nat)
    (h : Racing size tfile base ref_type s0 { s := s, pcs := l1 ++ Pc.insert ref :: l2 })
    (hn : (s.files tfile).ref_hash ref_type (s0.bases base).hash_key = none) :
    Racing size tfile base ref_type s0
      { s := insert_linked s tfile base ref_type ref, pcs := l1 ++ Pc.done 0 :: l2 } := by
  have hkey : (s.bases base).hash_key = (s0.bases base).hash_key := h.key
  have hold : in_flight (l1 ++ Pc.insert ref :: l2)
      = in_flight l1 ++ ref :: in_flight l2 := by
    rw [in_flight_split]; rfl
  have hnew : in_flight (l1 ++ Pc.done 0 :: l2) = in_flight l1 ++ in_flight l2 := by
    rw [in_flight_split]; rfl
  have hnd0 : (in_flight l1 ++ ref :: in_flight l2).Nodup := by rw [← hold]; exact h.nodup
  have hnd := List.nodup_cons.mp (List.nodup_middle.mp hnd0)
  have hsub : ∀ q, q ∈ in_flight l1 ++ in_flight l2 →
      q ∈ in_flight (l1 ++ Pc.insert ref :: l2) := by
    intro q hq
    rw [hold]
    simp only [List.mem_append, List.mem_cons] at hq ⊢
    tauto
  obtain ⟨hb1, hb2, hb3⟩ := h.before hn
  have hb1' : done_zero (l1 ++ Pc.insert ref :: l2) = 0 := hb1
  have hd : done_zero (l1 ++ Pc.done 0 :: l2) = 1 := by
    rw [done_zero_split] at hb1' ⊢
    simp at hb1' ⊢
    omega
  have htab : ((insert_linked s tfile base ref_type ref).files tfile).ref_hash ref_type
      (s0.bases base).hash_key = some ref := by
    rw [← hkey]; exact insert_linked_ref_hash s tfile base ref_type ref
  have hfr := h.fresh ref (by
    show Pc.insert ref ∈ l1 ++ Pc.insert ref :: l2
    simp)
  refine ⟨?_, ?_, ?_, ?_, ?_, ?_, ?_, ?_⟩
  · show ((insert_linked s tfile base ref_type ref).bases base).hash_key = _
    rw [insert_linked_hash_key]; exact hkey
  · show (in_flight (l1 ++ Pc.done 0 :: l2)).Nodup
    rw [hnew]; exact hnd.2
  · intro q hq
    show (insert_linked s tfile base ref_type ref).refs q ≠ none
    rw [insert_linked_refs]
    exact h.live q (hsub q (by rw [← hnew]; exact hq))
  · intro q hq
    have hq1 : Pc.insert q ∈ l1 ++ Pc.done 0 :: l2 := hq
    show (insert_linked s tfile base ref_type ref).refs q = _
    rw [insert_linked_refs]
    apply h.fresh q
    show Pc.insert q ∈ l1 ++ Pc.insert ref :: l2
    rw [mem_split_iff] at hq1 ⊢
    rcases hq1 with e | e | e
    · exact Or.inl e
    · cases e
    · exact Or.inr (Or.inr e)
  · intro q _
    show ((insert_linked s tfile base ref_type ref).files tfile).ref_hash ref_type
      (s0.bases base).hash_key ≠ none
    rw [htab]; simp
  · intro hn'
    have hn'' : ((insert_linked s tfile base ref_type ref).files tfile).ref_hash ref_type
      (s0.bases base).hash_key = none := hn'
    rw [htab] at hn''; cases hn''
  · intro w hw
    have hw' : ((insert_linked s tfile base ref_type ref).files tfile).ref_hash ref_type
      (s0.bases base).hash_key = some w := hw
    rw [htab] at hw'
    cases hw'
    refine ⟨?_, ?_, ?_, ?_⟩
    · show (insert_linked s tfile base ref_type ref).refs ref
        = some ⟨_, (done_zero (l1 ++ Pc.done 0 :: l2) : Int), _, _, _⟩
      rw [insert_linked_refs, hd]
      exact hfr
    · show ((insert_linked s tfile base ref_type ref).bases base).refcount = _
      rw [insert_linked_refcount]
      have : (s.bases base).refcount = (s0.bases base).refcount := hb2
      rw [this]
    · show ((insert_linked s tfile base ref_type ref).files tfile).ref_list = _
      rw [insert_linked_ref_list]
      have : (s.files tfile).ref_list = (s0.files tfile).ref_list := hb3
      rw [this]
    · show ref ∉ in_flight (l1 ++ Pc.done 0 :: l2)
      rw [hnew]; exact hnd.1
  · have hwt : waiting (l1 ++ Pc.done 0 :: l2) = waiting (l1 ++ Pc.insert ref :: l2) := by
      rw [waiting_split, waiting_split]; simp
    have hl : s.mem_glob = s0.mem_glob + (size : Int) *
        ((waiting (l1 ++ Pc.insert ref :: l2) : Int)
          + ((in_flight (l1 ++ Pc.insert ref :: l2)).length : Int) +
          (if (s.files tfile).ref_hash ref_type (s0.bases base).hash_key = none then 0
            else 1)) := h.ledger
    show (insert_linked s tfile base ref_type ref).mem_glob
      = _ + (size : Int) * ((waiting (l1 ++ Pc.done 0 :: l2) : Int)
        + ((in_flight (l1 ++ Pc.done 0 :: l2)).length : Int) +
        (if ((insert_linked s tfile base ref_type ref).files tfile).ref_hash ref_type
          (s0.bases base).hash_key = none then 0 else 1))
    rw [hold, hn, if_pos rfl] at hl
    rw [hnew, hwt, htab, insert_linked_mem_glob, hl,
      if_neg (by simp : ¬ (some ref : Option Nat) = none)]
    simp only [List.length_append, List.length_cons]
    push_cast
    ring

/-- After a lost insert the thread uncharges and frees its record. -/
theorem Racing_cleanup {size tfile base : Nat} {ref_type : ttm_ref_type} {s0 s : State}
    (l1 l2 : List Pc) (ref : Nat)
    (h : Racing size tfile base ref_type s0 { s := s, pcs := l1 ++ Pc.cleanup ref :: l2 }) :
    Racing size tfile base ref_type s0
      { s := set_ref (ttm_mem_global_free s size) ref none, pcs := l1 ++ Pc.find :: l2 } := by
  have hold : in_flight (l1 ++ Pc.cleanup ref :: l2)
      = in_flight l1 ++ ref :: in_flight l2 := by
    rw [in_flight_split]; rfl
  have hnew : in_flight (l1 ++ Pc.find :: l2) = in_flight l1 ++ in_flight l2 := by
    rw [in_flight_split]; rfl
  have hnd0 : (in_flight l1 ++ ref :: in_flight l2).Nodup := by rw [← hold]; exact h.nodup
  have hnd := List.nodup_cons.mp (List.nodup_middle.mp hnd0)
  have hsub : ∀ q, q ∈ in_flight l1 ++ in_flight l2 →
      q ∈ in_flight (l1 ++ Pc.cleanup ref :: l2) := by
    intro q hq
    rw [hold]
    simp only [List.mem_append, List.mem_cons] at hq ⊢
    tauto
  have hrin : ref ∈ in_flight (l1 ++ Pc.cleanup ref :: l2) := by
    rw [hold]; simp
  have hd : done_zero (l1 ++ Pc.find :: l2) = done_zero (l1 ++ Pc.cleanup ref :: l2) := by
    rw [done_zero_split, done_zero_split]; simp
  have hrefs : ∀ q, q ≠ ref → (set_ref (ttm_mem_global_free s size) ref none).refs q
      = s.refs q := by
    intro q hq; simp [hq]
  refine ⟨h.key, ?_, ?_, ?_, ?_, ?_, ?_, ?_⟩
  · show (in_flight (l1 ++ Pc.find :: l2)).Nodup
    rw [hnew]; exact hnd.2
  · intro q hq
    have hq' : q ∈ in_flight l1 ++ in_flight l2 := by rw [← hnew]; exact hq
    have hne : q ≠ ref := fun e => hnd.1 (e ▸ hq')
    show (set_ref (ttm_mem_global_free s size) ref none).refs q ≠ none
    rw [hrefs q hne]
    exact h.live q (hsub q hq')
  · intro q hq
    have hq1 : Pc.insert q ∈ l1 ++ Pc.find :: l2 := hq
    have hq2 : Pc.insert q ∈ l1 ++ Pc.cleanup ref :: l2 := by
      rw [mem_split_iff] at hq1 ⊢
      rcases hq1 with e | e | e
      · exact Or.inl e
      · cases e
      · exact Or.inr (Or.inr e)
    have hq3 : q ∈ in_flight l1 ++ in_flight l2 := by
      rw [← hnew]; exact mem_in_flight_of_insert _ q hq1
    have hne : q ≠ ref := fun e => hnd.1 (e ▸ hq3)
    show (set_ref (ttm_mem_global_free s size) ref none).refs q = _
    rw [hrefs q hne]
    exact h.fresh q hq2
  · intro q hq
    have hq1 : Pc.cleanup q ∈ l1 ++ Pc.find :: l2 := hq
    show (s.files tfile).ref_hash ref_type (s0.bases base).hash_key ≠ none
    exact h.lost ref (by
      show Pc.cleanup ref ∈ l1 ++ Pc.cleanup ref :: l2
      simp)
  · intro hn
    have hb := h.before hn
    exact ⟨by show done_zero (l1 ++ Pc.find :: l2) = 0; rw [hd]; exact hb.1, hb.2⟩
  · intro w hw
    obtain ⟨h1, h2, h3, h4⟩ := h.after w hw
    have hne : w ≠ ref := fun e => h4 (e ▸ hrin)
    refine ⟨?_, h2, h3, ?_⟩
    · show (set_ref (ttm_mem_global_free s size) ref none).refs w
        = some ⟨_, (done_zero (l1 ++ Pc.find :: l2) : Int), _, _, _⟩
      rw [hrefs w hne, hd]; exact h1
    · show w ∉ in_flight (l1 ++ Pc.find :: l2)
      rw [hnew]
      exact fun e => h4 (hsub w e)
  · have hwt : waiting (l1 ++ Pc.find :: l2) = waiting (l1 ++ Pc.cleanup ref :: l2) := by
      rw [waiting_split, waiting_split]; simp
    have hl : s.mem_glob = s0.mem_glob + (size : Int) *
        ((waiting (l1 ++ Pc.cleanup ref :: l2) : Int)
          + ((in_flight (l1 ++ Pc.cleanup ref :: l2)).length : Int) +
          (if (s.files tfile).ref_hash ref_type (s0.bases base).hash_key = none then 0
            else 1)) := h.ledger
    show (set_ref (ttm_mem_global_free s size) ref none).mem_glob
      = _ + (size : Int) * ((waiting (l1 ++ Pc.find :: l2) : Int)
        + ((in_flight (l1 ++ Pc.find :: l2)).length : Int) +
        (if (s.files tfile).ref_hash ref_type (s0.bases base).hash_key = none then 0 else 1))
    rw [hold] at hl
    rw [hnew, hwt]
    simp only [set_ref_mem_glob, ttm_mem_global_free_mem_glob, List.length_append,
      List.length_cons] at hl ⊢
    rw [hl]
    push_cast
    ring

theorem pcs_split_at :
    ∀ (l : List Pc) (i : Nat) (a : Pc), l.get? i = some a →
      ∃ l1 l2, l = l1 ++ a :: l2 ∧ ∀ b, l.set i b = l1 ++ b :: l2 := by
  intro l
  induction l with
  | nil => intro i a h; simp at h
  | cons x l ih =>
    intro i a h
    cases i with
    | zero =>
      simp only [List.get?_cons_zero, Option.some.injEq] at h
      subst h
      exact ⟨[], l, rfl, fun _ => rfl⟩
    | succ i =>
      simp only [List.get?_cons_succ] at h
      obtain ⟨l1, l2, h1, h2⟩ := ih i a h
      exact ⟨x :: l1, l2, by rw [h1]; rfl, fun b => by rw [List.set_cons_succ, h2 b]; rfl⟩

/-- Every step of a schedule keeps the invariant, when `kmalloc` returns free memory. -/
theorem Racing_step {size tfile base : Nat} {ref_type : ttm_ref_type} {s0 : State}
    (c : Threads) (t : Turn) (h : Racing size tfile base ref_type s0 c)
    (hfresh : ∀ ref, c.pcs.get? t.tid = some Pc.kmalloc → t.kmalloc_ret = some ref →
      c.s.refs ref = none) :
    Racing size tfile base ref_type s0 (sched_step size tfile base ref_type c t) := by
  obtain ⟨s, pcs⟩ := c
  have hkey : (s.bases base).hash_key = (s0.bases base).hash_key := h.key
  cases hget : pcs.get? t.tid with
  | none => simp only [sched_step, hget]; exact h
  | some pc =>
    obtain ⟨l1, l2, e1, e2⟩ := pcs_split_at pcs t.tid pc hget
    simp only [sched_step, hget, e2]
    subst e1
    cases pc with
    | find =>
      cases htab : (s.files tfile).ref_hash ref_type (s0.bases base).hash_key with
      | none =>
        have e := add_step_find_miss s tfile base ref_type (by rw [hkey]; exact htab)
        simp only [add_step, e]
        exact Racing_same_state l1 l2 Pc.find Pc.alloc h rfl (by simp) (by simp) (by simp)
          (by simp) (fun r e' => by cases e') (fun r e' => by cases e')
      | some w =>
        obtain ⟨h1, -⟩ := h.after w htab
        have e := add_step_find_hit s tfile base ref_type w _ (by rw [hkey]; exact htab) h1
        simp only [add_step, e]
        exact Racing_find_hit l1 l2 w _ h htab h1
    | alloc =>
      by_cases ha : t.alloc_ret = 0
      · have e := add_step_alloc_granted size s
        simp only [add_step, ha, e]
        exact Racing_charge l1 l2 h
      · have e := add_step_alloc_denied size s t.alloc_ret ha
        simp only [add_step, e]
        exact Racing_same_state l1 l2 Pc.alloc (Pc.done t.alloc_ret) h rfl (by simp)
          (by simpa using ha) (by simp) (by simp) (fun r e' => by cases e')
          (fun r e' => by cases e')
    | kmalloc =>
      cases hk : t.kmalloc_ret with
      | none =>
        simp only [add_step, add_step_kmalloc, hk]
        exact Racing_kmalloc_none l1 l2 h
      | some ref =>
        have e := add_step_kmalloc_some size s tfile base ref_type ref
        simp only [add_step, hk, e]
        exact Racing_kmalloc_some l1 l2 ref h (hfresh ref hget hk)
    | insert ref =>
      cases htab : (s.files tfile).ref_hash ref_type (s0.bases base).hash_key with
      | none =>
        have e := add_step_insert_win s tfile base ref_type ref (by rw [hkey]; exact htab)
        simp only [add_step, e]
        exact Racing_insert_win l1 l2 ref h htab
      | some w =>
        have e := add_step_insert_lose s tfile base ref_type ref w (by rw [hkey]; exact htab)
        simp only [add_step, e]
        exact Racing_same_state l1 l2 (Pc.insert ref) (Pc.cleanup ref) h rfl (by simp)
          (by simp) (by simp) (by simp) (fun r e' => by cases e')
          (fun r _ => by rw [htab]; simp)
    | cleanup ref =>
      simp only [add_step, add_step_cleanup]
      exact Racing_cleanup l1 l2 ref h
    | done ret =>
      simp only [add_step]
      exact h

theorem Racing_run {size tfile base : Nat} {ref_type : ttm_ref_type} {s0 : State} :
    ∀ (ts : List Turn) (c : Threads), Racing size tfile base ref_type s0 c →
      fresh_sched size tfile base ref_type c ts →
      Racing size tfile base ref_type s0 (sched_run size tfile base ref_type c ts) := by
  intro ts
  induction ts with
  | nil => intro c h _; exact h
  | cons t ts ih =>
    intro c h hf
    exact ih _ (Racing_step c t h hf.1) hf.2

theorem in_flight_replicate (n : Nat) : in_flight (List.replicate n Pc.find) = [] := by
  induction n with
  | zero => rfl
  | succ n ih => simp only [List.replicate_succ, in_flight, List.filterMap_cons, held] at ih ⊢; exact ih

theorem done_zero_replicate (n : Nat) : done_zero (List.replicate n Pc.find) = 0 := by
  induction n with
  | zero => rfl
  | succ n ih =>
    simp only [List.replicate_succ, done_zero, List.countP_cons] at ih ⊢
    simp [ih]

theorem waiting_replicate (n : Nat) : waiting (List.replicate n Pc.find) = 0 := by
  induction n with
  | zero => rfl
  | succ n ih =>
    simp only [List.replicate_succ, waiting, List.countP_cons] at ih ⊢
    simp [ih]

/-- The invariant holds when `n` threads enter `ttm_ref_object_add` in a state in which
the session has no record for the object and type. -/
theorem Racing_init (size tfile base : Nat) (ref_type : ttm_ref_type) (s0 : State) (n : Nat)
    (hn : (s0.files tfile).ref_hash ref_type (s0.bases base).hash_key = none) :
    Racing size tfile base ref_type s0 { s := s0, pcs := List.replicate n Pc.find } := by
  refine ⟨rfl, ?_, ?_, ?_, ?_, ?_, ?_, ?_⟩
  · show (in_flight (List.replicate n Pc.find)).Nodup
    rw [in_flight_replicate]; exact List.nodup_nil
  · intro r hr
    have : r ∈ in_flight (List.replicate n Pc.find) := hr
    rw [in_flight_replicate] at this
    cases this
  · intro r hr
    have : Pc.insert r ∈ List.replicate n Pc.find := hr
    cases (List.eq_of_mem_replicate this)
  · intro r hr
    have : Pc.cleanup r ∈ List.replicate n Pc.find := hr
    cases (List.eq_of_mem_replicate this)
  · intro _
    exact ⟨done_zero_replicate n, rfl, rfl⟩
  · intro w hw
    have : (s0.files tfile).ref_hash ref_type (s0.bases base).hash_key = some w := hw
    rw [hn] at this; cases this
  · show s0.mem_glob = s0.mem_glob + (size : Int) *
      ((waiting (List.replicate n Pc.find) : Int)
        + ((in_flight (List.replicate n Pc.find)).length : Int) +
        (if (s0.files tfile).ref_hash ref_type (s0.bases base).hash_key = none then 0 else 1))
    rw [in_flight_replicate, waiting_replicate, if_pos hn]
    simp

theorem steps_left_mono (has has' : Bool) (pc : Pc) (h : has = true → has' = true) :
    steps_left has' pc ≤ steps_left has pc := by
  cases pc <;> cases has <;> cases has' <;> simp [steps_left] at h ⊢

theorem is_done_of_steps_left (has : Bool) (pc : Pc) (h : steps_left has pc = 0) :
    is_done pc = true := by
  cases pc <;> cases has <;> simp [steps_left, is_done] at h ⊢

/-- A step of a thread lowers the bound on the steps it still makes, and does not take
the record out of the table. -/
theorem sched_step_progress {size tfile base : Nat} {ref_type : ttm_ref_type} {s0 : State}
    (c : Threads) (t : Turn) (h : Racing size tfile base ref_type s0 c) (pc : Pc)
    (hget : c.pcs.get? t.tid = some pc) :
    ∃ s' pc', sched_step size tfile base ref_type c t
        = { s := s', pcs := c.pcs.set t.tid pc' } ∧
      (((c.s.files tfile).ref_hash ref_type (s0.bases base).hash_key).isSome = true →
        ((s'.files tfile).ref_hash ref_type (s0.bases base).hash_key).isSome = true) ∧
      steps_left ((s'.files tfile).ref_hash ref_type (s0.bases base).hash_key).isSome pc'
        ≤ steps_left ((c.s.files tfile).ref_hash ref_type (s0.bases base).hash_key).isSome pc
          - 1 := by
  obtain ⟨s, pcs⟩ := c
  have hkey : (s.bases base).hash_key = (s0.bases base).hash_key := h.key
  have hget' : pcs.get? t.tid = some pc := hget
  simp only [sched_step, hget']
  cases pc with
  | find =>
    cases htab : (s.files tfile).ref_hash ref_type (s0.bases base).hash_key with
    | none =>
      have e := add_step_find_miss s tfile base ref_type (by rw [hkey]; exact htab)
      simp only [add_step, e]
      exact ⟨s, Pc.alloc, rfl, fun hh => by simp at hh, by simp [htab, steps_left]⟩
    | some w =>
      obtain ⟨h1, -⟩ := h.after w htab
      have e := add_step_find_hit s tfile base ref_type w _ (by rw [hkey]; exact htab) h1
      simp only [add_step, e]
      exact ⟨_, Pc.done 0, rfl, fun _ => by simp [htab], by simp [steps_left]⟩
  | alloc =>
    by_cases ha : t.alloc_ret = 0
    · have e := add_step_alloc_granted size s
      simp only [add_step, ha, e]
      exact ⟨_, Pc.kmalloc, rfl, fun hh => by simpa using hh, by simp [steps_left]⟩
    · have e := add_step_alloc_denied size s t.alloc_ret ha
      simp only [add_step, e]
      exact ⟨s, _, rfl, fun hh => hh, by simp [steps_left]⟩
  | kmalloc =>
    cases hk : t.kmalloc_ret with
    | none =>
      simp only [add_step, add_step_kmalloc, hk]
      exact ⟨_, _, rfl, fun hh => hh, by simp [steps_left]⟩
    | some ref =>
      have e := add_step_kmalloc_some size s tfile base ref_type ref
      simp only [add_step, hk, e]
      exact ⟨_, Pc.insert ref, rfl, fun hh => by simpa using hh, by simp [steps_left]⟩
  | insert ref =>
    cases htab : (s.files tfile).ref_hash ref_type (s0.bases base).hash_key with
    | none =>
      have e := add_step_insert_win s tfile base ref_type ref (by rw [hkey]; exact htab)
      simp only [add_step, e]
      exact ⟨_, Pc.done 0, rfl, fun hh => by simp at hh, by simp [steps_left]⟩
    | some w =>
      have e := add_step_insert_lose s tfile base ref_type ref w (by rw [hkey]; exact htab)
      simp only [add_step, e]
      exact ⟨s, Pc.cleanup ref, rfl, fun _ => by simp [htab], by simp [steps_left]⟩
  | cleanup ref =>
    have hl := h.lost ref (List.get?_mem hget')
    have hl' : (s.files tfile).ref_hash ref_type (s0.bases base).hash_key ≠ none := hl
    simp only [add_step, add_step_cleanup]
    refine ⟨_, Pc.find, rfl, fun hh => by simpa using hh, ?_⟩
    cases htab : (s.files tfile).ref_hash ref_type (s0.bases base).hash_key with
    | none => exact absurd htab hl'
    | some w => simp [steps_left, htab]
  | done ret =>
    simp only [add_step]
    exact ⟨s, Pc.done ret, rfl, fun hh => hh, by simp [steps_left]⟩

/-- Each turn of a thread lowers the bound on the steps it still makes. -/
theorem sched_run_progress {size tfile base : Nat} {ref_type : ttm_ref_type} {s0 : State}
    (tid : Nat) :
    ∀ (ts : List Turn) (c : Threads), Racing size tfile base ref_type s0 c →
      fresh_sched size tfile base ref_type c ts → ∀ pc, c.pcs.get? tid = some pc →
      ∃ pc', (sched_run size tfile base ref_type c ts).pcs.get? tid = some pc' ∧
        steps_left (((sched_run size tfile base ref_type c ts).s.files tfile).ref_hash
            ref_type (s0.bases base).hash_key).isSome pc'
          ≤ steps_left ((c.s.files tfile).ref_hash ref_type (s0.bases base).hash_key).isSome
              pc - turns tid ts := by
  intro ts
  induction ts with
  | nil =>
    intro c _ _ pc hget
    exact ⟨pc, hget, by simp only [sched_run, turns, List.countP_nil, Nat.sub_zero, le_refl]⟩
  | cons t ts ih =>
    intro c h hf pc hget
    have h1 := Racing_step c t h hf.1
    simp only [sched_run]
    cases hact : c.pcs.get? t.tid with
    | none =>
      have hne : t.tid ≠ tid := fun e => by rw [e, hget] at hact; cases hact
      have hc : sched_step size tfile base ref_type c t = c := by
        simp only [sched_step, hact]
      rw [hc] at h1 ⊢
      obtain ⟨pc', hp, hle⟩ := ih c h1 (hc ▸ hf.2) pc hget
      refine ⟨pc', hp, ?_⟩
      have : turns tid (t :: ts) = turns tid ts := by
        simp [turns, List.countP_cons, hne]
      rw [this]; exact hle
    | some pca =>
      obtain ⟨s', pc1, hc, hmono, hdec⟩ := sched_step_progress c t h pca hact
      rw [hc] at h1
      have hf2 : fresh_sched size tfile base ref_type
          { s := s', pcs := c.pcs.set t.tid pc1 } ts := hc ▸ hf.2
      rw [hc]
      by_cases e : t.tid = tid
      · have hpc : pca = pc := by rw [e, hget] at hact; cases hact; rfl
        subst hpc
        have hg : (c.pcs.set t.tid pc1).get? tid = some pc1 := by
          have hact2 := hact
          rw [List.get?_eq_getElem?] at hact2 ⊢
          rw [← e, List.getElem?_set_self', hact2]; rfl
        obtain ⟨pc', hp, hle⟩ := ih _ h1 hf2 pc1 hg
        refine ⟨pc', hp, ?_⟩
        have : turns tid (t :: ts) = turns tid ts + 1 := by
          simp [turns, List.countP_cons, e]
        rw [this]
        have hdec' : steps_left ((s'.files tfile).ref_hash ref_type
            (s0.bases base).hash_key).isSome pc1
          ≤ steps_left ((c.s.files tfile).ref_hash ref_type
            (s0.bases base).hash_key).isSome pca - 1 := hdec
        have hle' : steps_left (((sched_run size tfile base ref_type
            { s := s', pcs := c.pcs.set t.tid pc1 } ts).s.files tfile).ref_hash ref_type
            (s0.bases base).hash_key).isSome pc'
          ≤ steps_left ((s'.files tfile).ref_hash ref_type
            (s0.bases base).hash_key).isSome pc1 - turns tid ts := hle
        omega
      · have hg : (c.pcs.set t.tid pc1).get? tid = some pc := by
          have hget2 := hget
          rw [List.get?_eq_getElem?] at hget2 ⊢
          rw [List.getElem?_set_ne e]; exact hget2
        obtain ⟨pc', hp, hle⟩ := ih _ h1 hf2 pc hg
        refine ⟨pc', hp, ?_⟩
        have : turns tid (t :: ts) = turns tid ts := by
          simp [turns, List.countP_cons, e]
        rw [this]
        have hm := steps_left_mono _ _ pc hmono
        have hle' : steps_left (((sched_run size tfile base ref_type
            { s := s', pcs := c.pcs.set t.tid pc1 } ts).s.files tfile).ref_hash ref_type
            (s0.bases base).hash_key).isSome pc'
          ≤ steps_left ((s'.files tfile).ref_hash ref_type
            (s0.bases base).hash_key).isSome pc - turns tid ts := hle
        omega

theorem sched_step_length (size tfile base : Nat) (ref_type : ttm_ref_type) (c : Threads)
    (t : Turn) : (sched_step size tfile base ref_type c t).pcs.length = c.pcs.length := by
  simp only [sched_step]
  split <;> simp

theorem sched_run_length (size tfile base : Nat) (ref_type : ttm_ref_type) :
    ∀ (ts : List Turn) (c : Threads),
      (sched_run size tfile base ref_type c ts).pcs.length = c.pcs.length := by
  intro ts
  induction ts with
  | nil => intro c; rfl
  | cons t ts ih =>
    intro c
    simp only [sched_run]
    rw [ih, sched_step_length]

/-- With the charge granted and memory obtained, a thread only returns 0. -/
theorem add_step_granted_ret (size : Nat) (s : State) (tfile base : Nat)
    (ref_type : ttm_ref_type) (ref : Nat) (pc : Pc) (ret : Int)
    (h : (add_step size s tfile base ref_type 0 (some ref) pc).2 = Pc.done ret) :
    ret = 0 ∨ pc = Pc.done ret := by
  cases pc with
  | find =>
    simp only [add_step, add_step_find] at h
    split at h
    · simp only [Pc.done.injEq] at h
      exact Or.inl h.symm
    · cases h
  | alloc => simp [add_step, add_step_alloc] at h
  | kmalloc => simp [add_step, add_step_kmalloc] at h
  | insert r =>
    simp only [add_step, add_step_insert] at h
    split at h
    · simp only [Pc.done.injEq] at h
      exact Or.inl h.symm
    · cases h
  | cleanup r => simp [add_step, add_step_cleanup] at h
  | done r =>
    simp only [add_step] at h
    exact Or.inr h

theorem sched_run_granted (size tfile base : Nat) (ref_type : ttm_ref_type) :
    ∀ (ts : List Turn) (c : Threads),
      (∀ t ∈ ts, t.alloc_ret = 0 ∧ t.kmalloc_ret ≠ none) →
      (∀ ret, Pc.done ret ∈ c.pcs → ret = 0) →
      ∀ ret, Pc.done ret ∈ (sched_run size tfile base ref_type c ts).pcs → ret = 0 := by
  intro ts
  induction ts with
  | nil => intro c _ h; exact h
  | cons t ts ih =>
    intro c hg h
    simp only [sched_run]
    apply ih _ (fun t' ht' => hg t' (List.mem_cons_of_mem _ ht'))
    intro ret hret
    obtain ⟨ha, hk⟩ := hg t (List.mem_cons_self _ _)
    simp only [sched_step] at hret
    split at hret
    · exact h ret hret
    · rename_i pc hget
      rcases List.mem_or_eq_of_mem_set hret with hm | he
      · exact h ret hm
      · cases hk' : t.kmalloc_ret with
        | none => exact absurd hk' hk
        | some ref =>
          rw [ha, hk'] at he
          rcases add_step_granted_ret size c.s tfile base ref_type ref pc ret he.symm with e | e
          · exact e
          · exact h ret (e ▸ List.get?_mem hget)

theorem in_flight_of_done (l : List Pc) (h : ∀ pc ∈ l, pc = Pc.done 0) : in_flight l = [] := by
  apply List.filterMap_eq_nil_iff.mpr
  intro pc hpc
  rw [h pc hpc]; rfl

theorem done_zero_of_done (l : List Pc) (h : ∀ pc ∈ l, pc = Pc.done 0) :
    done_zero l = l.length := by
  apply List.countP_eq_length.mpr
  intro pc hpc
  simp [h pc hpc]

theorem waiting_of_done (l : List Pc) (h : ∀ pc ∈ l, pc = Pc.done 0) : waiting l = 0 := by
  apply List.countP_eq_zero.mpr
  intro pc hpc
  simp [h pc hpc]

theorem Listed_of_present {s : State} {b : Nat} (h : in_directory s b) : Listed s b :=
  fun _ => h

theorem Listed_of_same {s s' : State} {b : Nat}
    (hdir : s'.tdev.object_hash = s.tdev.object_hash)
    (hb : (s'.bases b).refcount = (s.bases b).refcount) (h : Listed s b) : Listed s' b := by
  intro hpos
  rw [hb] at hpos
  obtain ⟨k, hk⟩ := h hpos
  exact ⟨k, by rw [hdir]; exact hk⟩

theorem Listed_unref (s : State) (x b : Nat) (h : Listed s b) :
    Listed (ttm_base_object_unref s x) b := by
  intro hpos
  rw [ttm_base_object_unref_refcount] at hpos
  unfold in_directory
  rw [ttm_base_object_unref_object_hash]
  by_cases hb : b = x
  · subst hb
    rw [if_pos rfl] at hpos
    have hc : (s.bases b).refcount - 1 ≠ 0 := by omega
    rw [if_neg hc]
    exact h (by omega)
  · rw [if_neg hb] at hpos
    obtain ⟨k, hk⟩ := h hpos
    refine ⟨k, ?_⟩
    have hne : ¬ s.tdev.object_hash k = some x := by
      rw [hk]; intro e; exact hb (Option.some.inj e)
    split
    · simp only [drm_ht_remove_item, if_neg hne]; exact hk
    · exact hk

theorem Listed_lookup (s : State) (tfile key b : Nat) (h : Listed s b) :
    Listed (ttm_base_object_lookup s tfile key).2 b := by
  rcases ttm_base_object_lookup_cases s tfile key with h1 | ⟨b0, hd, h1⟩
  · rw [h1]; exact h
  · rw [h1]
    by_cases hb : b = b0
    · subst hb
      exact Listed_of_present ⟨key, by simpa using hd⟩
    · exact Listed_of_same (by simp) (by simp [hb]) h

theorem Listed_add (size fuel : Nat) (s s' : State) (tfile base b : Nat)
    (ref_type : ttm_ref_type) (existed : Option Bool) (alloc_ret : Int)
    (kmalloc_ret : Option Nat) (ret : Int) (e : Option Bool)
    (hadd : ttm_ref_object_add size fuel s tfile base ref_type existed alloc_ret kmalloc_ret
      = some (ret, e, s')) (hdir : b = base → in_directory s b) (h : Listed s b) :
    Listed s' b := by
  cases fuel with
  | zero => simp [ttm_ref_object_add] at hadd
  | succ fuel =>
    cases hfind : (s.files tfile).ref_hash ref_type (s.bases base).hash_key with
    | some ref =>
      obtain ⟨s1, h1, -, hb, htdev, -⟩ := ttm_ref_object_add_hit size fuel s tfile base
        ref_type existed alloc_ret kmalloc_ret ref hfind
      rw [h1] at hadd
      cases hadd
      exact Listed_of_same (by rw [htdev]) (by rw [hb]) h
    | none =>
      by_cases ha : alloc_ret = 0
      · subst ha
        cases hk : kmalloc_ret with
        | none =>
          subst hk
          rw [ttm_ref_object_add_nomem size fuel s tfile base ref_type existed hfind] at hadd
          cases hadd; exact h
        | some ref =>
          rw [ttm_ref_object_add_new size fuel s tfile base ref_type existed kmalloc_ret ref
            hfind hk] at hadd
          cases hadd
          by_cases hb : b = base
          · obtain ⟨k, hk'⟩ := hdir hb
            exact Listed_of_present ⟨k, by simpa using hk'⟩
          · exact Listed_of_same (by simp) (by rw [link_record_refcount]; simp [hb]) h
      · rw [ttm_ref_object_add_denied size fuel s tfile base ref_type existed alloc_ret
          kmalloc_ret hfind ha] at hadd
        cases hadd; exact h

theorem Listed_release (size : Nat) (s : State) (ref b : Nat) (h : Listed s b) :
    Listed (ttm_ref_object_release size s ref) b := by
  cases hr : s.refs ref with
  | none =>
    have : ttm_ref_object_release size s ref = s := by simp [ttm_ref_object_release, hr]
    rw [this]; exact h
  | some r =>
    cases hobj : r.obj with
    | none =>
      refine Listed_of_same ?_ ?_ h
      · simp [ttm_ref_object_release, hr, hobj]
      · simp [ttm_ref_object_release, hr, hobj]
    | some base =>
      rw [ttm_ref_object_release_eq size s ref r base hr hobj]
      have h1 : Listed (release_unlinked s ref r base) b :=
        Listed_of_same (by rw [release_unlinked_tdev]) (by rw [release_unlinked_bases]) h
      exact Listed_of_same (by simp) (by simp) (Listed_unref _ base b h1)

theorem Listed_ref_base_unref (size : Nat) (s : State) (tfile key : Nat)
    (ref_type : ttm_ref_type) (b : Nat) (h : Listed s b) :
    Listed (ttm_ref_object_base_unref size s tfile key ref_type).2 b := by
  cases hfind : (s.files tfile).ref_hash ref_type key with
  | none => rw [ttm_ref_object_base_unref_absent size s tfile key ref_type hfind]; exact h
  | some ref =>
    cases hr : s.refs ref with
    | none =>
      have heq : (ttm_ref_object_base_unref size s tfile key ref_type).2 = s := by
        simp only [ttm_ref_object_base_unref, drm_ht_find_item, lock_file_files_ref_hash,
          hfind, lock_file_refs, hr]
        exact unlock_lock_file s tfile
      rw [heq]; exact h
    | some r =>
      by_cases hc : r.kref = 1
      · rw [ttm_ref_object_base_unref_last size s tfile key ref_type ref r hfind hr hc]
        have h1 : Listed (set_ref (lock_file s tfile) ref (some { r with kref := 0 })) b :=
          Listed_of_same (by simp) (by simp) h
        exact Listed_of_same (by simp) (by simp) (Listed_release size _ ref b h1)
      · rw [ttm_ref_object_base_unref_keep size s tfile key ref_type ref r hfind hr hc]
        exact Listed_of_same (by simp) (by simp) h

theorem Listed_file_release_loop (size tfile b : Nat) :
    ∀ (fuel : Nat) (s s' : State), Listed s b →
      ttm_object_file_release_loop size fuel s tfile = some s' → Listed s' b := by
  intro fuel
  induction fuel with
  | zero => intro s s' _ h; simp [ttm_object_file_release_loop] at h
  | succ fuel ih =>
    intro s s' hp h
    simp only [ttm_object_file_release_loop] at h
    split at h
    · cases h; exact hp
    · exact ih _ _ (Listed_release size s _ b hp) h

theorem Listed_file_release (size fuel : Nat) (s s' : State) (tfile b : Nat)
    (hp : Listed s b) (h : ttm_object_file_release size fuel s tfile = some s') :
    Listed s' b := by
  simp only [ttm_object_file_release] at h
  split at h
  · cases h
  · rename_i s1 hloop
    cases h
    have h1 : Listed (lock_file s tfile) b := Listed_of_same (by simp) (by simp) hp
    exact Listed_of_same (by simp) (by simp)
      (Listed_file_release_loop size tfile b fuel _ _ h1 hloop)

theorem Listed_file_init (s : State) (kmalloc_ret : Option Nat)
    (ht_create_ret : ttm_ref_type → Int) (b : Nat) (hp : Listed s b) :
    Listed (ttm_object_file_init s kmalloc_ret ht_create_ret).2 b :=
  Listed_of_same (by rw [ttm_object_file_init_tdev]) (by rw [ttm_object_file_init_bases]) hp

/-- A `ttm_base_object_init` of another object keeps the property. -/
theorem Listed_base_init_other (size fuel : Nat) (s s' : State) (tfile base b : Nat)
    (shareable : Bool) (object_type : Nat) (rr ror : Bool) (probe : Option Nat)
    (alloc_ret : Int) (kmalloc_ret : Option Nat) (ret : Int)
    (h : ttm_base_object_init size fuel s tfile base shareable object_type rr ror probe
      alloc_ret kmalloc_ret = some (ret, s')) (hne : b ≠ base) (hp : Listed s b) :
    Listed s' b := by
  cases probe with
  | none =>
    simp [ttm_base_object_init, drm_ht_just_insert_please] at h
    obtain ⟨-, rfl⟩ := h
    exact Listed_of_same (by simp) (by simp [hne]) hp
  | some key =>
    cases hd : s.tdev.object_hash key with
    | some b0 =>
      simp [ttm_base_object_init, drm_ht_just_insert_please, drm_ht_insert_item, hd] at h
      obtain ⟨-, rfl⟩ := h
      exact Listed_of_same (by simp) (by simp [hne]) hp
    | none =>
      rw [ttm_base_object_init_inserted size fuel s tfile base shareable object_type rr ror
        alloc_ret kmalloc_ret key hd] at h
      have h0 : Listed (init_inserted s tfile base shareable object_type rr ror key) b := by
        intro hpos
        simp only [init_inserted_bases, if_neg hne] at hpos
        obtain ⟨k, hk⟩ := hp hpos
        refine ⟨k, ?_⟩
        rw [init_inserted_object_hash]
        have hkk : k ≠ key := fun e => by rw [e, hd] at hk; cases hk
        simp only [if_neg hkk]; exact hk
      split at h
      · cases h
      · rename_i ret1 e1 s1 hadd
        have h1 : Listed s1 b := Listed_add size fuel _ s1 tfile base b TTM_REF_USAGE none
          alloc_ret kmalloc_ret ret1 e1 hadd (fun e => absurd e hne) h0
        split at h
        · cases h
          intro hpos
          have hpos1 : 1 ≤ (s1.bases b).refcount := by simpa using hpos
          obtain ⟨k, hk⟩ := h1 hpos1
          refine ⟨k, ?_⟩
          have hnk : ¬ s1.tdev.object_hash k = some base := by
            rw [hk]; intro e; exact hne (Option.some.inj e)
          simp only [unlock_object_object_hash, set_object_hash_object_hash,
            lock_object_object_hash, drm_ht_remove_item, if_neg hnk]
          exact hk
        · cases h
          exact Listed_unref s1 base b h1

/-- A `ttm_base_object_init` that returns 0 leaves its object in the directory unless
its count is 0. -/
theorem Listed_base_init_self (size fuel : Nat) (s s' : State) (tfile base : Nat)
    (shareable : Bool) (object_type : Nat) (rr ror : Bool) (probe : Option Nat)
    (alloc_ret : Int) (kmalloc_ret : Option Nat)
    (h : ttm_base_object_init size fuel s tfile base shareable object_type rr ror probe
      alloc_ret kmalloc_ret = some (0, s')) : Listed s' base := by
  cases probe with
  | none =>
    simp [ttm_base_object_init, drm_ht_just_insert_please, EINVAL] at h
  | some key =>
    cases hd : s.tdev.object_hash key with
    | some b0 =>
      simp [ttm_base_object_init, drm_ht_just_insert_please, drm_ht_insert_item, hd, EINVAL]
        at h
    | none =>
      rw [ttm_base_object_init_inserted size fuel s tfile base shareable object_type rr ror
        alloc_ret kmalloc_ret key hd] at h
      have hin : in_directory (init_inserted s tfile base shareable object_type rr ror key)
          base := ⟨key, by rw [init_inserted_object_hash]; simp⟩
      split at h
      · cases h
      · rename_i ret1 e1 s1 hadd
        have h1 : Listed s1 base := Listed_add size fuel _ s1 tfile base base TTM_REF_USAGE
          none alloc_ret kmalloc_ret ret1 e1 hadd (fun _ => hin) (Listed_of_present hin)
        split at h
        · rename_i hret
          simp only [Option.some.injEq, Prod.mk.injEq] at h
          exact absurd h.1 hret
        · cases h
          exact Listed_unref s1 base base h1

theorem Registered_Reachable {size base : Nat} {s : State} {g : Ghost}
    (h : Registered size base s g) : Reachable size s g := by
  induction h with
  | init s g fuel tfile shareable object_type rr ror probe alloc_ret kmalloc_ret s' hr htf
      habs hfree hinit =>
    exact Reachable.base_init s g fuel tfile base shareable object_type rr ror probe alloc_ret
      kmalloc_ret 0 s' hr htf habs hfree hinit
  | file_init s g tfile hc s' _ hnew heq ih =>
    exact Reachable.file_init s g tfile hc s' ih hnew heq
  | file_init_failed s g tfile hc s' _ hnew heq ih =>
    exact Reachable.file_init_failed s g tfile hc s' ih hnew heq
  | base_init s g fuel tfile other shareable object_type rr ror probe alloc_ret kmalloc_ret
      ret s' _ hne htf habs hfree hinit ih =>
    exact Reachable.base_init s g fuel tfile other shareable object_type rr ror probe
      alloc_ret kmalloc_ret ret s' ih htf habs hfree hinit
  | lookup s g tfile key b s' _ htf hl ih => exact Reachable.lookup s g tfile key b s' ih htf hl
  | lookup_null s g tfile key s' _ htf hl ih =>
    exact Reachable.lookup_null s g tfile key s' ih htf hl
  | base_unref s g b _ hb ih => exact Reachable.base_unref s g b ih hb
  | ref_add s g fuel tfile b ref_type existed alloc_ret kmalloc_ret ret e s' _ htf hlive
      hfree hadd ih =>
    exact Reachable.ref_add s g fuel tfile b ref_type existed alloc_ret kmalloc_ret ret e s'
      ih htf hlive hfree hadd
  | ref_base_unref s g tfile key ref_type _ htf ih =>
    exact Reachable.ref_base_unref s g tfile key ref_type ih htf
  | file_release s g fuel tfile s' _ htf hrel ih =>
    exact Reachable.file_release s g fuel tfile s' ih htf hrel

theorem Registered_Listed {size base : Nat} {s : State} {g : Ghost}
    (h : Registered size base s g) : Listed s base := by
  induction h with
  | init s g fuel tfile shareable object_type rr ror probe alloc_ret kmalloc_ret s' hr htf
      habs hfree hinit =>
    exact Listed_base_init_self size fuel s s' tfile base shareable object_type rr ror probe
      alloc_ret kmalloc_ret hinit
  | file_init s g tfile hc s' _ hnew heq ih =>
    have h2 : s' = (ttm_object_file_init s (some tfile) hc).2 := by rw [heq]
    rw [h2]
    exact Listed_file_init s _ hc base ih
  | file_init_failed s g tfile hc s' _ hnew heq ih =>
    have h2 : s' = (ttm_object_file_init s (some tfile) hc).2 := by rw [heq]
    rw [h2]
    exact Listed_file_init s _ hc base ih
  | base_init s g fuel tfile other shareable object_type rr ror probe alloc_ret kmalloc_ret
      ret s' _ hne htf habs hfree hinit ih =>
    exact Listed_base_init_other size fuel s s' tfile other base shareable object_type rr ror
      probe alloc_ret kmalloc_ret ret hinit (fun e => hne e.symm) ih
  | lookup s g tfile key b s' _ htf hl ih =>
    have h2 : s' = (ttm_base_object_lookup s tfile key).2 := by rw [hl]
    rw [h2]
    exact Listed_lookup s tfile key base ih
  | lookup_null s g tfile key s' _ htf hl ih =>
    have h2 : s' = (ttm_base_object_lookup s tfile key).2 := by rw [hl]
    rw [h2]
    exact Listed_lookup s tfile key base ih
  | base_unref s g b _ hb ih => exact Listed_unref s b base ih
  | ref_add s g fuel tfile b ref_type existed alloc_ret kmalloc_ret ret e s' _ htf hlive
      hfree hadd ih =>
    exact Listed_add size fuel s s' tfile b base ref_type existed alloc_ret kmalloc_ret ret e
      hadd (fun e => ⟨_, by rw [e]; exact hlive⟩) ih
  | ref_base_unref s g tfile key ref_type _ htf ih =>
    exact Listed_ref_base_unref size s tfile key ref_type base ih
  | file_release s g fuel tfile s' _ htf hrel ih =>
    exact Listed_file_release size fuel s s' tfile base ih hrel

theorem Linked_of_Inv {s : State} {g : Ghost} (h : Inv s g) (tf : Nat)
    (htf : tf ∈ g.sessions) : Linked s tf := by
  refine ⟨?_, ?_, h.list_nodup tf htf, ?_⟩
  · intro p
    constructor
    · intro hp
      obtain ⟨key, t, b, hv, hd, hh⟩ := h.listed tf htf p hp
      obtain ⟨r, hr, hk, ht, hobj, -⟩ := rec_view_some _ _ _ _ _ hv
      refine ⟨r, b, hr, hobj, ?_⟩
      rw [h.dir_key key b hd, ht]; exact hh
    · rintro ⟨r, b, -, -, hh⟩
      exact (h.hashed tf htf _ _ p hh).1
  · intro t key p hh
    obtain ⟨hmem, o, tf', hv⟩ := h.hashed tf htf t key p hh
    obtain ⟨r, hr, hk, ht, -, -⟩ := rec_view_some _ _ _ _ _ hv
    exact ⟨hmem, r, hr, ht, hk⟩
  · intro p hp q hq rp rq hrp hrq hkey htype
    obtain ⟨kp, tp, bp, hvp, -, hhp⟩ := h.listed tf htf p hp
    obtain ⟨kq, tq, bq, hvq, -, hhq⟩ := h.listed tf htf q hq
    obtain ⟨r1, hr1, hk1, ht1, -, -⟩ := rec_view_some _ _ _ _ _ hvp
    obtain ⟨r2, hr2, hk2, ht2, -, -⟩ := rec_view_some _ _ _ _ _ hvq
    rw [hrp] at hr1
    rw [hrq] at hr2
    cases hr1
    cases hr2
    rw [← hk1, ← ht1] at hhp
    rw [← hk2, ← ht2, ← hkey, ← htype, hhp] at hhq
    exact Option.some.inj hhq

theorem drain_step_nil (size : Nat) (s : State) (tfile : Nat)
    (h : (s.files tfile).ref_list = []) : drain_step size s tfile = s := by
  simp only [drain_step, h]

theorem drain_nil (size tfile : Nat) :
    ∀ (n : Nat) (s : State), (s.files tfile).ref_list = [] → drain size n s tfile = s := by
  intro n
  induction n with
  | zero => intro s _; rfl
  | succ n ih =>
    intro s h
    rw [drain, drain_step_nil size s tfile h]
    exact ih s h

/-- The drain loop of `ttm_object_file_release` passes through the states `drain`: after
`n` iterations it goes on from `drain size n s tfile`. -/
theorem ttm_object_file_release_loop_drain (size tfile fuel : Nat) :
    ∀ (n : Nat) (s : State),
      ttm_object_file_release_loop size (n + (fuel + 1)) s tfile
        = ttm_object_file_release_loop size (fuel + 1) (drain size n s tfile) tfile := by
  intro n
  induction n with
  | zero => intro s; simp [drain]
  | succ n ih =>
    intro s
    have e : n + 1 + (fuel + 1) = (n + (fuel + 1)) + 1 := by omega
    rw [e]
    cases hl : (s.files tfile).ref_list with
    | nil =>
      rw [drain_nil size tfile (n + 1) s hl]
      simp only [ttm_object_file_release_loop, hl]
    | cons ref rest =>
      have hstep : drain_step size s tfile = ttm_ref_object_release size s ref := by
        simp only [drain_step, hl]
      rw [drain, hstep, ← ih]
      simp only [ttm_object_file_release_loop, hl]

theorem Inv_drain {g : Ghost} (size tfile : Nat) (htf : tfile ∈ g.sessions) :
    ∀ (n : Nat) (s : State), Inv s g → Inv (drain size n s tfile) g := by
  intro n
  induction n with
  | zero => intro s h; exact h
  | succ n ih =>
    intro s h
    rw [drain]
    apply ih
    cases hl : (s.files tfile).ref_list with
    | nil => rw [drain_step_nil size s tfile hl]; exact h
    | cons ref rest =>
      have hstep : drain_step size s tfile = ttm_ref_object_release size s ref := by
        simp only [drain_step, hl]
      rw [hstep]
      exact Inv_release size tfile ref h htf (by rw [hl]; simp)

/-- C22: in every reachable state, for every open session, a reference record is on the
session's `ref_list` if and only if it is in `ref_hash[its reference type]` under its
base object's key; every table entry is for a listed record of that type and key; and
no two records on the list share the same key and type.  `ttm_ref_object_add`,
`ttm_ref_object_base_unref` (by any open session) and every iteration of the drain loop
of `ttm_object_file_release` (of any open session) preserve this. -/
theorem C22_list_matches_tables (size : Nat) (s : State) (g : Ghost)
    (h : Reachable size s g) (tf : Nat) (htf : tf ∈ g.sessions) :
    Linked s tf ∧
    (∀ fuel tfile base ref_type existed alloc_ret kmalloc_ret ret e s',
      tfile ∈ g.sessions → s.tdev.object_hash (s.bases base).hash_key = some base →
      (∀ ref, kmalloc_ret = some ref → s.refs ref = none) →
      ttm_ref_object_add size fuel s tfile base ref_type existed alloc_ret kmalloc_ret
        = some (ret, e, s') → Linked s' tf) ∧
    (∀ tfile key ref_type, tfile ∈ g.sessions →
      Linked (ttm_ref_object_base_unref size s tfile key ref_type).2 tf) ∧
    (∀ tfile n, tfile ∈ g.sessions →
      Linked (drain size n (lock_file s tfile) tfile) tf) := by
  have hinv := Reachable_Inv h
  refine ⟨Linked_of_Inv hinv tf htf, ?_, ?_, ?_⟩
  · intro fuel tfile base ref_type existed alloc_ret kmalloc_ret ret e s' htfile hlive hfree
      hadd
    exact Linked_of_Inv (Inv_ref_add size fuel tfile base ref_type existed alloc_ret
      kmalloc_ret ret e hinv htfile hlive hfree hadd) tf htf
  · intro tfile key ref_type htfile
    exact Linked_of_Inv (Inv_ref_base_unref size tfile key ref_type hinv htfile) tf htf
  · intro tfile n htfile
    exact Linked_of_Inv (Inv_drain size tfile htfile n _ (Inv_lock_file tfile hinv)) tf htf

/-! ## Live records have a positive internal count -/

theorem Alive_of_sub {s s' : State} (h : ∀ p r, s'.refs p = some r → s.refs p = some r)
    (ha : Alive s) : Alive s' :=
  fun p r hr => ha p r (h p r hr)

theorem Alive_of_same {s s' : State} (h : s'.refs = s.refs) (ha : Alive s) : Alive s' :=
  Alive_of_sub (fun p r hr => by rw [← h]; exact hr) ha

theorem Alive_set_ref (s : State) (ref : Nat) (r : ttm_ref_object) (hk : 1 ≤ r.kref)
    (ha : Alive s) : Alive (set_ref s ref (some r)) := by
  intro p r' hr'
  by_cases hp : p = ref
  · subst hp
    simp only [set_ref_refs, if_pos] at hr'
    cases hr'
    exact hk
  · simp only [set_ref_refs, if_neg hp] at hr'
    exact ha p r' hr'

/-- `ttm_ref_object_release` frees the record and leaves the other records alone. -/
theorem ttm_ref_object_release_refs_sub (size : Nat) (s : State) (ref p : Nat)
    (r' : ttm_ref_object) (h : (ttm_ref_object_release size s ref).refs p = some r') :
    p ≠ ref ∧ s.refs p = some r' := by
  cases hr : s.refs ref with
  | none =>
    have e : ttm_ref_object_release size s ref = s := by simp [ttm_ref_object_release, hr]
    rw [e] at h
    refine ⟨fun hp => ?_, h⟩
    rw [hp, hr] at h
    cases h
  | some r =>
    have hrefs : (ttm_ref_object_release size s ref).refs
        = fun q => if q = ref then none else s.refs q := by
      cases hobj : r.obj with
      | none =>
        simp only [ttm_ref_object_release, hr, hobj]
        funext q
        by_cases hq : q = ref <;> simp [hq]
      | some base => exact ttm_ref_object_release_refs size s ref r base hr hobj
    rw [hrefs] at h
    by_cases hp : p = ref
    · simp [hp] at h
    · simp only [if_neg hp] at h
      exact ⟨hp, h⟩

theorem Alive_release (size : Nat) (s : State) (ref : Nat)
    (ha : ∀ p r, p ≠ ref → s.refs p = some r → 1 ≤ r.kref) :
    Alive (ttm_ref_object_release size s ref) := by
  intro p r hr
  obtain ⟨hp, h⟩ := ttm_ref_object_release_refs_sub size s ref p r hr
  exact ha p r hp h

theorem Alive_add (size fuel : Nat) (s s' : State) (tfile base : Nat)
    (ref_type : ttm_ref_type) (existed : Option Bool) (alloc_ret : Int)
    (kmalloc_ret : Option Nat) (ret : Int) (e : Option Bool)
    (hadd : ttm_ref_object_add size fuel s tfile base ref_type existed alloc_ret kmalloc_ret
      = some (ret, e, s')) (ha : Alive s) : Alive s' := by
  cases fuel with
  | zero => simp [ttm_ref_object_add] at hadd
  | succ fuel =>
    cases hfind : (s.files tfile).ref_hash ref_type (s.bases base).hash_key with
    | some ref =>
      cases hr : s.refs ref with
      | none =>
        rw [ttm_ref_object_add_found_freed size fuel s tfile base ref_type existed alloc_ret
          kmalloc_ret ref hfind hr] at hadd
        cases hadd; exact ha
      | some r =>
        rw [ttm_ref_object_add_found size fuel s tfile base ref_type existed alloc_ret
          kmalloc_ret ref r hfind hr] at hadd
        cases hadd
        have := ha ref r hr
        exact Alive_set_ref s ref _ (by show 1 ≤ r.kref + 1; omega) ha
    | none =>
      by_cases h0 : alloc_ret = 0
      · subst h0
        cases hk : kmalloc_ret with
        | none =>
          subst hk
          rw [ttm_ref_object_add_nomem size fuel s tfile base ref_type existed hfind] at hadd
          cases hadd; exact ha
        | some ref =>
          rw [ttm_ref_object_add_new size fuel s tfile base ref_type existed kmalloc_ret ref
            hfind hk] at hadd
          cases hadd
          intro p r hr
          rw [link_record_refs] at hr
          by_cases hp : p = ref
          · simp only [if_pos hp, Option.some.injEq] at hr
            rw [← hr]
            simp [new_record]
          · simp only [if_neg hp] at hr
            exact ha p r hr
      · rw [ttm_ref_object_add_denied size fuel s tfile base ref_type existed alloc_ret
          kmalloc_ret hfind h0] at hadd
        cases hadd; exact ha

theorem Alive_ref_base_unref (size : Nat) (s : State) (tfile key : Nat)
    (ref_type : ttm_ref_type) (ha : Alive s) :
    Alive (ttm_ref_object_base_unref size s tfile key ref_type).2 := by
  cases hfind : (s.files tfile).ref_hash ref_type key with
  | none => rw [ttm_ref_object_base_unref_absent size s tfile key ref_type hfind]; exact ha
  | some ref =>
    cases hr : s.refs ref with
    | none =>
      have heq : (ttm_ref_object_base_unref size s tfile key ref_type).2 = s := by
        simp only [ttm_ref_object_base_unref, drm_ht_find_item, lock_file_files_ref_hash,
          hfind, lock_file_refs, hr]
        exact unlock_lock_file s tfile
      rw [heq]; exact ha
    | some r =>
      by_cases hc : r.kref = 1
      · rw [ttm_ref_object_base_unref_last size s tfile key ref_type ref r hfind hr hc]
        have h1 : Alive (ttm_ref_object_release size
            (set_ref (lock_file s tfile) ref (some { r with kref := 0 })) ref) := by
          apply Alive_release
          intro p r' hp hr'
          simp only [set_ref_refs, if_neg hp, lock_file_refs] at hr'
          exact ha p r' hr'
        exact Alive_of_same (by simp) h1
      · rw [ttm_ref_object_base_unref_keep size s tfile key ref_type ref r hfind hr hc]
        have := ha ref r hr
        exact Alive_set_ref s ref _ (by show 1 ≤ r.kref - 1; omega) ha

theorem Alive_file_release_loop (size tfile : Nat) :
    ∀ (fuel : Nat) (s s' : State), Alive s →
      ttm_object_file_release_loop size fuel s tfile = some s' → Alive s' := by
  intro fuel
  induction fuel with
  | zero => intro s s' _ h; simp [ttm_object_file_release_loop] at h
  | succ fuel ih =>
    intro s s' ha h
    simp only [ttm_object_file_release_loop] at h
    split at h
    · cases h; exact ha
    · exact ih _ _ (Alive_release size s _ (fun p r _ hr => ha p r hr)) h

theorem Alive_file_release (size fuel : Nat) (s s' : State) (tfile : Nat)
    (ha : Alive s) (h : ttm_object_file_release size fuel s tfile = some s') :
    Alive s' := by
  simp only [ttm_object_file_release] at h
  split at h
  · cases h
  · rename_i s1 hloop
    cases h
    have h1 : Alive (lock_file s tfile) := Alive_of_same (by simp) ha
    exact Alive_of_same (by simp) (Alive_file_release_loop size tfile fuel _ _ h1 hloop)

theorem Alive_lookup (s : State) (tfile key : Nat) (ha : Alive s) :
    Alive (ttm_base_object_lookup s tfile key).2 := by
  rcases ttm_base_object_lookup_cases s tfile key with h | ⟨b, _, h⟩
  · rw [h]; exact ha
  · rw [h]; exact Alive_of_same (by simp) ha

theorem Alive_base_init (size fuel : Nat) (s s' : State) (tfile base : Nat)
    (shareable : Bool) (object_type : Nat) (rr ror : Bool) (probe : Option Nat)
    (alloc_ret : Int) (kmalloc_ret : Option Nat) (ret : Int)
    (h : ttm_base_object_init size fuel s tfile base shareable object_type rr ror probe
      alloc_ret kmalloc_ret = some (ret, s')) (ha : Alive s) : Alive s' := by
  cases probe with
  | none =>
    simp [ttm_base_object_init, drm_ht_just_insert_please] at h
    obtain ⟨-, rfl⟩ := h
    exact Alive_of_same (by simp) ha
  | some key =>
    cases hd : s.tdev.object_hash key with
    | some b0 =>
      simp [ttm_base_object_init, drm_ht_just_insert_please, drm_ht_insert_item, hd] at h
      obtain ⟨-, rfl⟩ := h
      exact Alive_of_same (by simp) ha
    | none =>
      rw [ttm_base_object_init_inserted size fuel s tfile base shareable object_type rr ror
        alloc_ret kmalloc_ret key hd] at h
      split at h
      · cases h
      · rename_i ret1 e1 s1 hadd
        have h1 : Alive s1 := Alive_add size fuel _ s1 tfile base TTM_REF_USAGE none
          alloc_ret kmalloc_ret ret1 e1 hadd (Alive_of_same (by simp) ha)
        split at h
        · cases h
          exact Alive_of_same (by simp) h1
        · cases h
          exact Alive_of_same (ttm_base_object_unref_refs s1 base) h1

theorem Reachable_Alive {size : Nat} {s : State} {g : Ghost} (h : Reachable size s g) :
    Alive s := by
  induction h with
  | device_init s0 h0 _ =>
    intro p r hr
    have : s0.refs p = some r := hr
    rw [h0 p] at this
    cases this
  | file_init s g tfile hc s' _ hnew heq ih =>
    have h2 : s' = (ttm_object_file_init s (some tfile) hc).2 := by rw [heq]
    rw [h2]
    exact Alive_of_same (ttm_object_file_init_refs s _ hc) ih
  | file_init_failed s g tfile hc s' _ hnew heq ih =>
    have h2 : s' = (ttm_object_file_init s (some tfile) hc).2 := by rw [heq]
    rw [h2]
    exact Alive_of_same (ttm_object_file_init_refs s _ hc) ih
  | base_init s g fuel tfile base shareable object_type rr ror probe alloc_ret kmalloc_ret ret
      s' _ htf habs hfree hinit ih =>
    exact Alive_base_init size fuel s s' tfile base shareable object_type rr ror probe
      alloc_ret kmalloc_ret ret hinit ih
  | lookup s g tfile key base s' _ _ hl ih =>
    have h2 : s' = (ttm_base_object_lookup s tfile key).2 := by rw [hl]
    rw [h2]
    exact Alive_lookup s tfile key ih
  | lookup_null s g tfile key s' _ _ hl ih =>
    have h2 : s' = (ttm_base_object_lookup s tfile key).2 := by rw [hl]
    rw [h2]
    exact Alive_lookup s tfile key ih
  | base_unref s g base _ hb ih => exact Alive_of_same (ttm_base_object_unref_refs s base) ih
  | ref_add s g fuel tfile base ref_type existed alloc_ret kmalloc_ret ret e s' _ htf hlive
      hfree hadd ih =>
    exact Alive_add size fuel s s' tfile base ref_type existed alloc_ret kmalloc_ret ret e
      hadd ih
  | ref_base_unref s g tfile key ref_type _ htf ih =>
    exact Alive_ref_base_unref size s tfile key ref_type ih
  | file_release s g fuel tfile s' _ htf hrel ih =>
    exact Alive_file_release size fuel s s' tfile ih hrel

/-- A `ttm_ref_object_add` that finds no record and returns 0 has linked a new record:
the charge was granted and `kmalloc` returned memory. -/
theorem ttm_ref_object_add_zero_new (size fuel : Nat) (s s1 : State) (tfile base : Nat)
    (ref_type : ttm_ref_type) (existed : Option Bool) (alloc_ret : Int)
    (kmalloc_ret : Option Nat) (e : Option Bool)
    (hnone : (s.files tfile).ref_hash ref_type (s.bases base).hash_key = none)
    (hadd : ttm_ref_object_add size fuel s tfile base ref_type existed alloc_ret kmalloc_ret
      = some (0, e, s1)) :
    ∃ ref, kmalloc_ret = some ref ∧ s1 = link_record size s tfile base ref_type ref := by
  cases fuel with
  | zero => simp [ttm_ref_object_add] at hadd
  | succ fuel =>
    by_cases h0 : alloc_ret = 0
    · subst h0
      cases hk : kmalloc_ret with
      | none =>
        subst hk
        rw [ttm_ref_object_add_nomem size fuel s tfile base ref_type existed hnone] at hadd
        simp [ENOMEM] at hadd
      | some ref =>
        rw [ttm_ref_object_add_new size fuel s tfile base ref_type existed kmalloc_ret ref
          hnone hk] at hadd
        simp only [Option.some.injEq, Prod.mk.injEq, true_and] at hadd
        exact ⟨ref, rfl, hadd.2.symm⟩
    · rw [ttm_ref_object_add_denied size fuel s tfile base ref_type existed alloc_ret
        kmalloc_ret hnone h0] at hadd
      simp only [Option.some.injEq, Prod.mk.injEq] at hadd
      exact absurd hadd.1 h0

/-- Releasing the record that `ttm_ref_object_add` has just linked, when the tables of
the session do not point at its memory, its memory is not on the list and the object's
count is not zero, undoes the acquisition. -/
theorem link_record_undone (size : Nat) (s : State) (tfile base : Nat)
    (ref_type : ttm_ref_type) (ref : Nat)
    (hcount : 1 ≤ (s.bases base).refcount)
    (hnone : (s.files tfile).ref_hash ref_type (s.bases base).hash_key = none)
    (hfree : s.refs ref = none)
    (htab : ∀ t k, (s.files tfile).ref_hash t k ≠ some ref)
    (hlist : ref ∉ (s.files tfile).ref_list) :
    (ttm_ref_object_base_unref size (link_record size s tfile base ref_type ref) tfile
      (s.bases base).hash_key ref_type).1 = 0 ∧
    ((ttm_ref_object_base_unref size (link_record size s tfile base ref_type ref) tfile
      (s.bases base).hash_key ref_type).2.files tfile).ref_hash = (s.files tfile).ref_hash ∧
    ((ttm_ref_object_base_unref size (link_record size s tfile base ref_type ref) tfile
      (s.bases base).hash_key ref_type).2.files tfile).ref_list = (s.files tfile).ref_list ∧
    ((ttm_ref_object_base_unref size (link_record size s tfile base ref_type ref) tfile
      (s.bases base).hash_key ref_type).2.bases base).refcount = (s.bases base).refcount ∧
    (ttm_ref_object_base_unref size (link_record size s tfile base ref_type ref) tfile
      (s.bases base).hash_key ref_type).2.tdev.object_hash = s.tdev.object_hash ∧
    (ttm_ref_object_base_unref size (link_record size s tfile base ref_type ref) tfile
      (s.bases base).hash_key ref_type).2.mem_glob = s.mem_glob ∧
    (ttm_ref_object_base_unref size (link_record size s tfile base ref_type ref) tfile
      (s.bases base).hash_key ref_type).2.refs = s.refs := by
  have hfind : ((link_record size s tfile base ref_type ref).files tfile).ref_hash ref_type
      (s.bases base).hash_key = some ref := by simp
  have hr : (link_record size s tfile base ref_type ref).refs ref
      = some (new_record s tfile base ref_type) := by simp
  have hc : (new_record s tfile base ref_type).kref = 1 := rfl
  rw [ttm_ref_object_base_unref_last size _ tfile _ ref_type ref _ hfind hr hc]
  have hr2 : (set_ref (lock_file (link_record size s tfile base ref_type ref) tfile) ref
      (some { new_record s tfile base ref_type with kref := 0 })).refs ref
      = some { new_record s tfile base ref_type with kref := 0 } := by simp
  have hobj : ({ new_record s tfile base ref_type with kref := 0 } : ttm_ref_object).obj
      = some base := rfl
  refine ⟨rfl, ?_, ?_, ?_, ?_, ?_, ?_⟩
  · funext t k
    rw [unlock_file_files_ref_hash, ttm_ref_object_release_ref_hash size _ ref _ base hr2 hobj]
    simp only [set_ref_files, lock_file_files_ref_hash, link_record_ref_hash, new_record,
      true_and]
    by_cases htk : t = ref_type ∧ k = (s.bases base).hash_key
    · obtain ⟨rfl, rfl⟩ := htk
      simp [hnone]
    · rw [if_neg htk, if_neg]
      rintro ⟨-, h2⟩
      exact htab t k h2
  · rw [unlock_file_files_ref_list, ttm_ref_object_release_ref_list size _ ref _ base hr2 hobj]
    simp only [set_ref_files, lock_file_files_ref_list, link_record_ref_list, new_record,
      if_true]
    rw [List.erase_append_right _ hlist]
    simp
  · rw [unlock_file_bases, ttm_ref_object_release_refcount size _ ref _ base hr2 hobj]
    simp
  · rw [unlock_file_tdev, ttm_ref_object_release_object_hash size _ ref _ base hr2 hobj]
    have hne : ¬ ((set_ref (lock_file (link_record size s tfile base ref_type ref) tfile) ref
        (some { new_record s tfile base ref_type with kref := 0 })).bases base).refcount - 1
          = 0 := by
      simp only [set_ref_bases, lock_file_bases, link_record_refcount, if_true]
      omega
    rw [if_neg hne]
    simp
  · rw [unlock_file_mem_glob, ttm_ref_object_release_mem_glob size _ ref _ base hr2 hobj]
    simp
  · rw [unlock_file_refs, ttm_ref_object_release_refs size _ ref _ base hr2 hobj]
    funext p
    by_cases hp : p = ref
    · simp [hp, hfree]
    · simp [hp]

/-- C26: round trip.  In a reachable state, for an open session `tfile`, a base object
`base` whose reference count is at least 1 and a reference type for which the session
holds no record under the object's key, a `ttm_ref_object_add` that returns 0 followed
by `ttm_ref_object_base_unref` on the object's key and that type returns 0 and restores
the session's tables, the session's record list (contents and order), the object's
reference count, the directory and the total charge to their values before the
acquisition; the record's memory is free again. -/
theorem C26_acquire_release_round_trip (size fuel : Nat) (s : State) (g : Ghost)
    (h : Reachable size s g) (tfile base : Nat) (ref_type : ttm_ref_type)
    (existed : Option Bool) (alloc_ret : Int) (kmalloc_ret : Option Nat) (e : Option Bool)
    (s1 : State) (htf : tfile ∈ g.sessions)
    (hcount : 1 ≤ (s.bases base).refcount)
    (hnone : (s.files tfile).ref_hash ref_type (s.bases base).hash_key = none)
    (hfree : ∀ ref, kmalloc_ret = some ref → s.refs ref = none)
    (hadd : ttm_ref_object_add size fuel s tfile base ref_type existed alloc_ret kmalloc_ret
      = some (0, e, s1)) :
    (s1.bases base).hash_key = (s.bases base).hash_key ∧
    (ttm_ref_object_base_unref size s1 tfile (s.bases base).hash_key ref_type).1 = 0 ∧
    ((ttm_ref_object_base_unref size s1 tfile (s.bases base).hash_key ref_type).2.files
      tfile).ref_hash = (s.files tfile).ref_hash ∧
    ((ttm_ref_object_base_unref size s1 tfile (s.bases base).hash_key ref_type).2.files
      tfile).ref_list = (s.files tfile).ref_list ∧
    ((ttm_ref_object_base_unref size s1 tfile (s.bases base).hash_key ref_type).2.bases
      base).refcount = (s.bases base).refcount ∧
    (ttm_ref_object_base_unref size s1 tfile (s.bases base).hash_key ref_type).2.tdev.object_hash
      = s.tdev.object_hash ∧
    (ttm_ref_object_base_unref size s1 tfile (s.bases base).hash_key ref_type).2.mem_glob
      = s.mem_glob ∧
    (ttm_ref_object_base_unref size s1 tfile (s.bases base).hash_key ref_type).2.refs
      = s.refs := by
  obtain ⟨ref, hk, rfl⟩ := ttm_ref_object_add_zero_new size fuel s s1 tfile base ref_type
    existed alloc_ret kmalloc_ret e hnone hadd
  have hinv := Reachable_Inv h
  have hf := hfree ref hk
  have htab : ∀ t k, (s.files tfile).ref_hash t k ≠ some ref := by
    intro t k hh
    obtain ⟨-, o, tf', hv⟩ := hinv.hashed tfile htf t k ref hh
    rw [hf] at hv
    simp [rec_view] at hv
  exact ⟨by simp, link_record_undone size s tfile base ref_type ref hcount hnone hf htab
    (reachable_free_not_listed h tfile htf ref hf)⟩

/-! ## The session reference of a base object -/

theorem SessionKept_refl (s : State) (b : Nat) : SessionKept s s b :=
  ⟨rfl, fun _ => rfl⟩

theorem SessionKept_trans {s s1 s2 : State} {b : Nat} (h1 : SessionKept s s1 b)
    (h2 : SessionKept s1 s2 b) : SessionKept s s2 b :=
  ⟨h2.hook.trans h1.hook,
   fun h => (h2.tfile (h1.hook.trans h)).trans (h1.tfile h)⟩

theorem SessionKept_of_same {s s' : State} {b : Nat} (h : s'.bases b = s.bases b) :
    SessionKept s s' b :=
  ⟨by rw [h], fun _ => by rw [h]⟩

theorem SessionKept_unref (s : State) (x b : Nat) :
    SessionKept s (ttm_base_object_unref s x) b := by
  refine ⟨ttm_base_object_unref_refcount_release s x b, fun h => ?_⟩
  rw [ttm_base_object_unref_tfile, if_neg]
  rintro ⟨e, -, hr⟩
  rw [← e, h] at hr
  cases hr

theorem SessionKept_lookup (s : State) (tfile key b : Nat) :
    SessionKept s (ttm_base_object_lookup s tfile key).2 b := by
  rcases ttm_base_object_lookup_cases s tfile key with h | ⟨b0, _, h⟩
  · rw [h]; exact SessionKept_refl s b
  · rw [h]
    by_cases hb : b = b0
    · subst hb; exact ⟨by simp, fun _ => by simp⟩
    · exact SessionKept_of_same (by simp [hb])

theorem SessionKept_add (size fuel : Nat) (s s' : State) (tfile base b : Nat)
    (ref_type : ttm_ref_type) (existed : Option Bool) (alloc_ret : Int)
    (kmalloc_ret : Option Nat) (ret : Int) (e : Option Bool)
    (hadd : ttm_ref_object_add size fuel s tfile base ref_type existed alloc_ret kmalloc_ret
      = some (ret, e, s')) : SessionKept s s' b := by
  cases fuel with
  | zero => simp [ttm_ref_object_add] at hadd
  | succ fuel =>
    cases hfind : (s.files tfile).ref_hash ref_type (s.bases base).hash_key with
    | some ref =>
      obtain ⟨s1, h1, -, hb, -⟩ := ttm_ref_object_add_hit size fuel s tfile base
        ref_type existed alloc_ret kmalloc_ret ref hfind
      rw [h1] at hadd
      cases hadd
      exact SessionKept_of_same (by rw [hb])
    | none =>
      by_cases ha : alloc_ret = 0
      · subst ha
        cases hk : kmalloc_ret with
        | none =>
          subst hk
          rw [ttm_ref_object_add_nomem size fuel s tfile base ref_type existed hfind] at hadd
          cases hadd; exact SessionKept_refl s b
        | some ref =>
          rw [ttm_ref_object_add_new size fuel s tfile base ref_type existed kmalloc_ret ref
            hfind hk] at hadd
          cases hadd
          exact ⟨by simp, fun _ => by simp⟩
      · rw [ttm_ref_object_add_denied size fuel s tfile base ref_type existed alloc_ret
          kmalloc_ret hfind ha] at hadd
        cases hadd; exact SessionKept_refl s b

theorem SessionKept_release (size : Nat) (s : State) (ref b : Nat) :
    SessionKept s (ttm_ref_object_release size s ref) b := by
  cases hr : s.refs ref with
  | none =>
    have : ttm_ref_object_release size s ref = s := by simp [ttm_ref_object_release, hr]
    rw [this]; exact SessionKept_refl s b
  | some r =>
    cases hobj : r.obj with
    | none =>
      exact SessionKept_of_same (by simp [ttm_ref_object_release, hr, hobj])
    | some base =>
      rw [ttm_ref_object_release_eq size s ref r base hr hobj]
      have h1 : SessionKept s (release_unlinked s ref r base) b :=
        SessionKept_of_same (by rw [release_unlinked_bases])
      have h2 := SessionKept_unref (release_unlinked s ref r base) base b
      exact SessionKept_trans (SessionKept_trans h1 h2) (SessionKept_of_same (by simp))

theorem SessionKept_ref_base_unref (size : Nat) (s : State) (tfile key : Nat)
    (ref_type : ttm_ref_type) (b : Nat) :
    SessionKept s (ttm_ref_object_base_unref size s tfile key ref_type).2 b := by
  cases hfind : (s.files tfile).ref_hash ref_type key with
  | none =>
    rw [ttm_ref_object_base_unref_absent size s tfile key ref_type hfind]
    exact SessionKept_refl s b
  | some ref =>
    cases hr : s.refs ref with
    | none =>
      have heq : (ttm_ref_object_base_unref size s tfile key ref_type).2 = s := by
        simp only [ttm_ref_object_base_unref, drm_ht_find_item, lock_file_files_ref_hash,
          hfind, lock_file_refs, hr]
        exact unlock_lock_file s tfile
      rw [heq]; exact SessionKept_refl s b
    | some r =>
      by_cases hc : r.kref = 1
      · rw [ttm_ref_object_base_unref_last size s tfile key ref_type ref r hfind hr hc]
        have h1 : SessionKept s
            (set_ref (lock_file s tfile) ref (some { r with kref := 0 })) b :=
          SessionKept_of_same (by simp)
        exact SessionKept_trans (SessionKept_trans h1 (SessionKept_release size _ ref b))
          (SessionKept_of_same (by simp))
      · rw [ttm_ref_object_base_unref_keep size s tfile key ref_type ref r hfind hr hc]
        exact SessionKept_of_same (by simp)

theorem SessionKept_file_release_loop (size tfile b : Nat) :
    ∀ (fuel : Nat) (s s' : State),
      ttm_object_file_release_loop size fuel s tfile = some s' → SessionKept s s' b := by
  intro fuel
  induction fuel with
  | zero => intro s s' h; simp [ttm_object_file_release_loop] at h
  | succ fuel ih =>
    intro s s' h
    simp only [ttm_object_file_release_loop] at h
    split at h
    · cases h; exact SessionKept_refl s b
    · exact SessionKept_trans (SessionKept_release size s _ b) (ih _ _ h)

theorem SessionKept_file_release (size fuel : Nat) (s s' : State) (tfile b : Nat)
    (h : ttm_object_file_release size fuel s tfile = some s') : SessionKept s s' b := by
  simp only [ttm_object_file_release] at h
  split at h
  · cases h
  · rename_i s1 hloop
    cases h
    have h1 : SessionKept s (lock_file s tfile) b := SessionKept_of_same (by simp)
    exact SessionKept_trans
      (SessionKept_trans h1 (SessionKept_file_release_loop size tfile b fuel _ _ hloop))
      (SessionKept_of_same (by simp))

theorem SessionKept_file_init (s : State) (kmalloc_ret : Option Nat)
    (ht_create_ret : ttm_ref_type → Int) (b : Nat) :
    SessionKept s (ttm_object_file_init s kmalloc_ret ht_create_ret).2 b :=
  SessionKept_of_same (by rw [ttm_object_file_init_bases])

theorem SessionKept_base_init_other (size fuel : Nat) (s s' : State) (tfile base b : Nat)
    (shareable : Bool) (object_type : Nat) (rr ror : Bool) (probe : Option Nat)
    (alloc_ret : Int) (kmalloc_ret : Option Nat) (ret : Int)
    (h : ttm_base_object_init size fuel s tfile base shareable object_type rr ror probe
      alloc_ret kmalloc_ret = some (ret, s')) (hne : b ≠ base) : SessionKept s s' b := by
  cases probe with
  | none =>
    simp [ttm_base_object_init, drm_ht_just_insert_please] at h
    obtain ⟨-, rfl⟩ := h
    exact SessionKept_of_same (by simp [hne])
  | some key =>
    cases hd : s.tdev.object_hash key with
    | some b0 =>
      simp [ttm_base_object_init, drm_ht_just_insert_please, drm_ht_insert_item, hd] at h
      obtain ⟨-, rfl⟩ := h
      exact SessionKept_of_same (by simp [hne])
    | none =>
      rw [ttm_base_object_init_inserted size fuel s tfile base shareable object_type rr ror
        alloc_ret kmalloc_ret key hd] at h
      have h0 : SessionKept s (init_inserted s tfile base shareable object_type rr ror key)
          b := SessionKept_of_same (by simp [hne])
      split at h
      · cases h
      · rename_i ret1 e1 s1 hadd
        have h1 := SessionKept_trans h0 (SessionKept_add size fuel _ s1 tfile base b
          TTM_REF_USAGE none alloc_ret kmalloc_ret ret1 e1 hadd)
        split at h
        · cases h
          exact SessionKept_trans h1 (SessionKept_of_same (by simp))
        · cases h
          exact SessionKept_trans h1 (SessionKept_unref s1 base b)

theorem SessionKept_exec (size fuel : Nat) (s s' : State) (op : Op) (b : Nat)
    (hop : is_init_of b op = false) (h : exec size fuel s op = some s') :
    SessionKept s s' b := by
  cases op with
  | file_init kmalloc_ret ht_create_ret =>
    simp only [exec, Option.some.injEq] at h
    subst h
    exact SessionKept_file_init s kmalloc_ret ht_create_ret b
  | base_init tfile base shareable object_type rr ror probe alloc_ret kmalloc_ret =>
    simp only [exec, Option.map_eq_some'] at h
    obtain ⟨⟨ret, s1⟩, h1, rfl⟩ := h
    have hne : b ≠ base := by
      intro e
      simp [is_init_of, e] at hop
    exact SessionKept_base_init_other size fuel s s1 tfile base b shareable object_type rr ror
      probe alloc_ret kmalloc_ret ret h1 hne
  | lookup tfile key =>
    simp only [exec, Option.some.injEq] at h
    subst h
    exact SessionKept_lookup s tfile key b
  | base_unref base =>
    simp only [exec, Option.some.injEq] at h
    subst h
    exact SessionKept_unref s base b
  | ref_add tfile base ref_type existed alloc_ret kmalloc_ret =>
    simp only [exec, Option.map_eq_some'] at h
    obtain ⟨⟨ret, e, s1⟩, h1, rfl⟩ := h
    exact SessionKept_add size fuel s s1 tfile base b ref_type existed alloc_ret kmalloc_ret
      ret e h1
  | ref_base_unref tfile key ref_type =>
    simp only [exec, Option.some.injEq] at h
    subst h
    exact SessionKept_ref_base_unref size s tfile key ref_type b
  | file_release tfile =>
    exact SessionKept_file_release size fuel s s' tfile b h

theorem SessionKept_run (size fuel b : Nat) :
    ∀ (ops : List Op) (s s' : State), (∀ op ∈ ops, is_init_of b op = false) →
      run size fuel s ops = some s' → SessionKept s s' b := by
  intro ops
  induction ops with
  | nil =>
    intro s s' _ h
    simp only [run, Option.some.injEq] at h
    subst h
    exact SessionKept_refl s b
  | cons op ops ih =>
    intro s s' hops h
    simp only [run] at h
    split at h
    · rename_i s1 h1
      exact SessionKept_trans
        (SessionKept_exec size fuel s s1 op b (hops op (List.mem_cons_self _ _)) h1)
        (ih s1 s' (fun o ho => hops o (List.mem_cons_of_mem _ ho)) h)
    · cases h

/-- `ttm_ref_object_add` does not touch the sessions' own counts. -/
theorem ttm_ref_object_add_files_refcount (size fuel : Nat) (s s' : State)
    (tfile base : Nat) (ref_type : ttm_ref_type) (existed : Option Bool) (alloc_ret : Int)
    (kmalloc_ret : Option Nat) (ret : Int) (e : Option Bool)
    (hadd : ttm_ref_object_add size fuel s tfile base ref_type existed alloc_ret kmalloc_ret
      = some (ret, e, s')) (p : Nat) : (s'.files p).refcount = (s.files p).refcount := by
  cases fuel with
  | zero => simp [ttm_ref_object_add] at hadd
  | succ fuel =>
    cases hfind : (s.files tfile).ref_hash ref_type (s.bases base).hash_key with
    | some ref =>
      obtain ⟨s1, h1, hf, -⟩ := ttm_ref_object_add_hit size fuel s tfile base
        ref_type existed alloc_ret kmalloc_ret ref hfind
      rw [h1] at hadd
      cases hadd
      rw [hf]
    | none =>
      by_cases ha : alloc_ret = 0
      · subst ha
        cases hk : kmalloc_ret with
        | none =>
          subst hk
          rw [ttm_ref_object_add_nomem size fuel s tfile base ref_type existed hfind] at hadd
          cases hadd; rfl
        | some ref =>
          rw [ttm_ref_object_add_new size fuel s tfile base ref_type existed kmalloc_ret ref
            hfind hk] at hadd
          cases hadd
          simp
      · rw [ttm_ref_object_add_denied size fuel s tfile base ref_type existed alloc_ret
          kmalloc_ret hfind ha] at hadd
        cases hadd; rfl

/-- The session's own count after `ttm_base_object_init`: one more for the calling
session, on every path, when a call that returns 0 was made with no record of the
session under a key that is absent from the directory. -/
theorem ttm_base_object_init_files_refcount (size fuel : Nat) (s s' : State)
    (tfile base : Nat) (shareable : Bool) (object_type : Nat) (rr ror : Bool)
    (probe : Option Nat) (alloc_ret : Int) (kmalloc_ret : Option Nat) (ret : Int)
    (h : ttm_base_object_init size fuel s tfile base shareable object_type rr ror probe
      alloc_ret kmalloc_ret = some (ret, s'))
    (hwf : ret = 0 → ∀ key, s.tdev.object_hash key = none →
      (s.files tfile).ref_hash TTM_REF_USAGE key = none) :
    (∀ p, (s'.files p).refcount
      = if p = tfile then (s.files tfile).refcount + 1 else (s.files p).refcount) ∧
    (s'.bases base).tfile = some tfile := by
  cases probe with
  | none =>
    simp [ttm_base_object_init, drm_ht_just_insert_please] at h
    obtain ⟨-, rfl⟩ := h
    exact ⟨fun p => by simp, by simp⟩
  | some key =>
    cases hd : s.tdev.object_hash key with
    | some b0 =>
      simp [ttm_base_object_init, drm_ht_just_insert_please, drm_ht_insert_item, hd] at h
      obtain ⟨-, rfl⟩ := h
      exact ⟨fun p => by simp, by simp⟩
    | none =>
      rw [ttm_base_object_init_inserted size fuel s tfile base shareable object_type rr ror
        alloc_ret kmalloc_ret key hd] at h
      split at h
      · cases h
      · rename_i ret1 e1 s1 hadd
        have hcnt := ttm_ref_object_add_files_refcount size fuel _ s1 tfile base
          TTM_REF_USAGE none alloc_ret kmalloc_ret ret1 e1 hadd
        have hkept := SessionKept_add size fuel _ s1 tfile base base TTM_REF_USAGE none
          alloc_ret kmalloc_ret ret1 e1 hadd
        have htf1 : (s1.bases base).tfile = some tfile := by
          cases hrr : rr with
          | false =>
            rw [hkept.tfile (by simp [hrr])]
            simp
          | true =>
            -- the acquisition does not clear the pointer whatever the hook
            cases fuel with
            | zero => simp [ttm_ref_object_add] at hadd
            | succ fuel =>
              cases hfind : ((init_inserted s tfile base shareable object_type rr ror
                  key).files tfile).ref_hash TTM_REF_USAGE
                  ((init_inserted s tfile base shareable object_type rr ror key).bases
                    base).hash_key with
              | some ref =>
                obtain ⟨s2, h2, -, hb, -⟩ := ttm_ref_object_add_hit size fuel _ tfile base
                  TTM_REF_USAGE none alloc_ret kmalloc_ret ref hfind
                rw [h2] at hadd
                cases hadd
                rw [hb]; simp
              | none =>
                by_cases ha : alloc_ret = 0
                · subst ha
                  cases hk : kmalloc_ret with
                  | none =>
                    subst hk
                    rw [ttm_ref_object_add_nomem size fuel _ tfile base TTM_REF_USAGE none
                      hfind] at hadd
                    cases hadd; simp
                  | some ref =>
                    rw [ttm_ref_object_add_new size fuel _ tfile base TTM_REF_USAGE none
                      kmalloc_ret ref hfind hk] at hadd
                    cases hadd
                    simp
                · rw [ttm_ref_object_add_denied size fuel _ tfile base TTM_REF_USAGE none
                    alloc_ret kmalloc_ret hfind ha] at hadd
                  cases hadd; simp
        split at h
        · cases h
          refine ⟨fun p => ?_, by simpa using htf1⟩
          simp only [unlock_object_files, set_object_hash_files, lock_object_files]
          rw [hcnt, init_inserted_files_refcount]
        · rename_i hret
          simp only [ne_eq, Decidable.not_not] at hret
          simp only [Option.some.injEq, Prod.mk.injEq] at h
          obtain ⟨hr0, rfl⟩ := h
          have hnone : ((init_inserted s tfile base shareable object_type rr ror key).files
              tfile).ref_hash TTM_REF_USAGE
              ((init_inserted s tfile base shareable object_type rr ror key).bases
                base).hash_key = none := by
            simp only [init_inserted_files_ref_hash, init_inserted_bases, if_true]
            exact hwf hr0.symm key hd
          subst hret
          obtain ⟨ref, hk, rfl⟩ := ttm_ref_object_add_zero_new size fuel _ s1 tfile base
            TTM_REF_USAGE none alloc_ret kmalloc_ret e1 hnone hadd
          have hne : ¬ ((link_record size (init_inserted s tfile base shareable object_type
              rr ror key) tfile base TTM_REF_USAGE ref).bases base).refcount - 1 = 0 := by
            simp
          refine ⟨fun p => ?_, ?_⟩
          · rw [ttm_base_object_unref_files_refcount, if_neg (fun hh => hne hh.2.1)]
            simp
          · rw [ttm_base_object_unref_tfile, if_neg (fun hh => hne hh.2.1)]
            simp

/-- The effect of `ttm_release_base` on the sessions' own counts. -/
theorem ttm_release_base_files_refcount (s : State) (base p : Nat) :
    ((ttm_release_base s base).files p).refcount =
      if (s.bases base).refcount = 0 ∧ (s.bases base).refcount_release = true ∧
          (s.bases base).tfile = some p
      then (s.files p).refcount - 1 else (s.files p).refcount := by
  simp only [ttm_release_base]
  cases h : (s.bases base).tfile <;>
    by_cases hc : (s.bases base).refcount = 0 <;>
    by_cases hr : (s.bases base).refcount_release = true <;> simp [h, hc, hr]
  by_cases hp : p = ‹Nat›
  · subst hp; simp [kref_put]
  · have hp' : ¬ ‹Nat› = p := fun e => hp e.symm
    simp [hp, hp']

/-- C27: `ttm_base_object_init` takes one reference on the calling session's own count
(`ttm_object_file.refcount`) on every path: called in a reachable state by an open
session on an object that is not in the directory, whatever it returns the session's
count is one higher than before, the other sessions' counts are unchanged and
`base->tfile` points at the session.  A call that fails leaves the count one higher in
any state.  The reference is given back by `ttm_release_base`, and only when the
object's count is 0 and `refcount_release` is non-NULL: `ttm_base_object_unref` lowers a
session's count exactly when it drops the object's count to 0, the hook is non-NULL
and `base->tfile` is that session.  An object with a NULL `refcount_release` never
gives the reference back: `ttm_base_object_unref` changes no session's count and keeps
`base->tfile`, and so does every sequence of calls that does not register the object
again. -/
theorem C27_session_reference (size : Nat) :
    (∀ s g fuel tfile base shareable object_type rr ror probe alloc_ret kmalloc_ret ret s',
      Reachable size s g → tfile ∈ g.sessions →
      (∀ k, s.tdev.object_hash k ≠ some base) →
      ttm_base_object_init size fuel s tfile base shareable object_type rr ror probe
        alloc_ret kmalloc_ret = some (ret, s') →
      (s'.files tfile).refcount = (s.files tfile).refcount + 1 ∧
      (∀ p, p ≠ tfile → (s'.files p).refcount = (s.files p).refcount) ∧
      (s'.bases base).tfile = some tfile) ∧
    (∀ s fuel tfile base shareable object_type rr ror probe alloc_ret kmalloc_ret ret s',
      ttm_base_object_init size fuel s tfile base shareable object_type rr ror probe
        alloc_ret kmalloc_ret = some (ret, s') → ret ≠ 0 →
      (s'.files tfile).refcount = (s.files tfile).refcount + 1) ∧
    (∀ s base p, ((ttm_release_base s base).files p).refcount =
      if (s.bases base).refcount = 0 ∧ (s.bases base).refcount_release = true ∧
          (s.bases base).tfile = some p
      then (s.files p).refcount - 1 else (s.files p).refcount) ∧
    (∀ s base p, ((ttm_base_object_unref s base).files p).refcount =
      if (s.bases base).tfile = some p ∧ (s.bases base).refcount - 1 = 0 ∧
          (s.bases base).refcount_release = true
      then (s.files p).refcount - 1 else (s.files p).refcount) ∧
    (∀ s base, (s.bases base).refcount_release = false →
      (∀ p, ((ttm_base_object_unref s base).files p).refcount = (s.files p).refcount) ∧
      ((ttm_base_object_unref s base).bases base).tfile = (s.bases base).tfile) ∧
    (∀ fuel base ops s s', (∀ op ∈ ops, is_init_of base op = false) →
      run size fuel s ops = some s' → (s.bases base).refcount_release = false →
      (s'.bases base).refcount_release = false ∧
      (s'.bases base).tfile = (s.bases base).tfile) := by
  refine ⟨?_, ?_, ttm_release_base_files_refcount, ttm_base_object_unref_files_refcount,
    ?_, ?_⟩
  · intro s g fuel tfile base shareable object_type rr ror probe alloc_ret kmalloc_ret ret s'
      hreach htf _ hinit
    have hinv := Reachable_Inv hreach
    obtain ⟨h1, h2⟩ := ttm_base_object_init_files_refcount size fuel s s' tfile base
      shareable object_type rr ror probe alloc_ret kmalloc_ret ret hinit
      (fun _ key hk => no_record_of_absent_key tfile key TTM_REF_USAGE hinv htf hk)
    exact ⟨by rw [h1, if_pos rfl], fun p hp => by rw [h1, if_neg hp], h2⟩
  · intro s fuel tfile base shareable object_type rr ror probe alloc_ret kmalloc_ret ret s'
      hinit hret
    obtain ⟨h1, -⟩ := ttm_base_object_init_files_refcount size fuel s s' tfile base
      shareable object_type rr ror probe alloc_ret kmalloc_ret ret hinit
      (fun h0 => absurd h0 hret)
    rw [h1, if_pos rfl]
  · intro s base hrr
    refine ⟨fun p => ?_, ?_⟩
    · rw [ttm_base_object_unref_files_refcount, if_neg]
      rintro ⟨-, -, h⟩
      rw [hrr] at h
      cases h
    · exact (SessionKept_unref s base base).tfile hrr
  · intro fuel base ops s s' hops hrun hrr
    have hk := SessionKept_run size fuel base ops s s' hops hrun
    exact ⟨hk.hook.trans hrr, hk.tfile hrr⟩
/-! ## The claims exercised on concrete states -/

/-- C1 (witness): session 10 registers the object at address 100 under the free key 5
on the reachable state `three_sessions`; the charge is granted and `kmalloc` returns
address 200.  The call returns 0, key 5 maps to the object, its count is 1, and
session 10 holds one usage record of internal count 1, at address 200, on its list. -/
theorem C1_witness :
    ∃ s', ttm_base_object_init 64 1 three_sessions 10 100 true 0 true true (some 5) 0
        (some 200) = some (0, s') ∧
      s'.tdev.object_hash 5 = some 100 ∧ (s'.bases 100).hash_key = 5 ∧
      (s'.bases 100).refcount = 1 ∧
      (s'.files 10).ref_hash TTM_REF_USAGE 5 = some 200 ∧
      s'.refs 200 = some { hash_key := 5, kref := 1, ref_type := TTM_REF_USAGE,
                           obj := some 100, tfile := 10 } ∧
      200 ∈ (s'.files 10).ref_list ∧
      record_count s' 10 5 TTM_REF_USAGE = 1 := by
  obtain ⟨ret, s', h, hiff, hpost⟩ := C1_ttm_base_object_init 64 0 three_sessions 10 100
    true 0 true true (some 5) 0 (some 200)
    (fun key hk => reachable_absent_key_no_record reachable_three_sessions 10 (by simp)
      TTM_REF_USAGE key hk)
    (fun ref h => reachable_free_not_listed reachable_three_sessions 10 (by simp) ref
      (by cases h; rfl))
  have h0 : ret = 0 := hiff.2 ⟨⟨5, rfl, by decide⟩, rfl, 200, rfl⟩
  subst h0
  obtain ⟨key, ref, hp, hk, h1, h2, h3, h4, h5, h6, h7⟩ := hpost rfl
  cases hp
  cases hk
  exact ⟨s', h, h1, h2, h3, h4, h5, h6, h7⟩

/-- C4 (witness): session 11 looks up key 5 of `registered`. -/
theorem C4_witness :
    (ttm_base_object_lookup registered 11 5).1 = some 100 ∧
    ((ttm_base_object_lookup registered 11 5).2.bases 100).refcount
      = (registered.bases 100).refcount + 1 :=
  ⟨by decide, ((C4_ttm_base_object_lookup registered 11 5 100).2 (by decide)).1⟩

/-- C5 (witness): session 11 looks up the non-shareable object of `registered_private`,
owned by session 10. -/
theorem C5_witness :
    registered_private.tdev.object_hash 6 = some 101 ∧
    ttm_base_object_lookup registered_private 11 6 = (none, registered_private) :=
  ⟨by decide, (C5_lookup_non_shareable registered_private 10 11 6 101 (by decide) (by decide)
    (by decide) (by decide)).1⟩

/-- C6 (witness): session 10 releases the usage record of `registered`, whose internal
count is 1. -/
theorem C6_witness :
    (registered.files 10).ref_hash TTM_REF_USAGE 5 = some 200 ∧
    (ttm_ref_object_base_unref 64 registered 10 5 TTM_REF_USAGE).1 = 0 ∧
    ((ttm_ref_object_base_unref 64 registered 10 5 TTM_REF_USAGE).2.bases 100).refcount
      = (registered.bases 100).refcount - 1 :=
  have h := C6_ttm_ref_object_base_unref 64 registered 10 5 TTM_REF_USAGE 200
    { hash_key := 5, kref := 1, ref_type := TTM_REF_USAGE, obj := some 100, tfile := 10 } 100
    (by decide) (by decide) rfl rfl rfl
  ⟨by decide, h.1, (h.2.2 rfl).2.2.2.2.1⟩

/-- C7 (witness): the object of `shared_by_three`, registered by session 10 and acquired
once by session 11 and once by session 12, has count 3; closing session 11 gives 2 and
closing session 12 gives 1; and the close of session 11 returns with an empty list. -/
theorem C7_witness :
    (shared_by_three.bases 100).refcount = 3 ∧
    (closed_first.bases 100).refcount = 2 ∧
    (closed_second.bases 100).refcount = 1 ∧
    ∃ s', ttm_object_file_release 64 2 shared_by_three 11 = some s' ∧
      (s'.files 11).ref_list = [] :=
  ⟨by decide, by decide, by decide,
   let ⟨s', h, hl, _⟩ := C7_ttm_object_file_release 64 shared_by_three 11 0
     (by rw [show (shared_by_three.files 11).ref_list = [201] from by decide]; simp)
     (fun p hp => by
       have : p = 201 := by
         simpa using (show p ∈ [201] from
           (show (shared_by_three.files 11).ref_list = [201] from by decide) ▸ hp)
       subst this
       exact ⟨_, 100, rfl, rfl, rfl⟩)
   ⟨s', h, hl⟩⟩

/-- C10 (witness): on `registered`, session 11 holds no `TTM_REF_SYNCCPU_READ` record
for the object at address 100 (key 5).  Its first acquisition, with the charge granted
and `kmalloc` returning address 201, returns 0 and reports `existed = false`; its
second acquisition right after returns 0 and reports `existed = true`, and the session
has exactly one record for the key and type. -/
theorem C10_witness :
    (registered.files 11).ref_hash TTM_REF_SYNCCPU_READ (registered.bases 100).hash_key
      = none ∧
    ∃ s' s'', ttm_ref_object_add 64 1 registered 11 100 TTM_REF_SYNCCPU_READ (some true) 0
        (some 201) = some (0, some false, s') ∧
      ttm_ref_object_add 64 1 s' 11 100 TTM_REF_SYNCCPU_READ (some false) 0 (some 202)
        = some (0, some true, s'') ∧
      record_count s'' 11 (registered.bases 100).hash_key TTM_REF_SYNCCPU_READ = 1 := by
  have hmiss : (registered.files 11).ref_hash TTM_REF_SYNCCPU_READ
      (registered.bases 100).hash_key = none := by decide
  obtain ⟨ret, e, s', h, hiff, hex, hsecond⟩ := C10_ttm_ref_object_add_existed 64 0
    registered 11 100 TTM_REF_SYNCCPU_READ true 0 (some 201)
  have h0 : ret = 0 := hiff.2 (Or.inr ⟨rfl, 201, rfl⟩)
  subst h0
  obtain ⟨b, he, hb⟩ := hex rfl
  have hbf : b = false := by
    cases b with
    | false => rfl
    | true =>
      have := hb.1 rfl
      rw [hmiss] at this
      cases this
  subst hbf
  subst he
  obtain ⟨s'', h2, hcount⟩ := hsecond rfl (by decide) (by decide) false 0 (some 202)
  exact ⟨hmiss, s', s'', h, h2, hcount⟩

/-- C11 (witness): in `shared_by_three` session 11 holds a `TTM_REF_SYNCCPU_READ` record
under key 5 and no usage record; releasing type usage fails and changes nothing, while
session 10, which holds the usage record, gets 0. -/
theorem C11_witness :
    (shared_by_three.files 11).ref_hash TTM_REF_SYNCCPU_READ 5 = some 201 ∧
    (shared_by_three.files 10).ref_hash TTM_REF_USAGE 5 = some 200 ∧
    ttm_ref_object_base_unref 64 shared_by_three 11 5 TTM_REF_USAGE
      = (-EINVAL, shared_by_three) ∧
    (ttm_ref_object_base_unref 64 shared_by_three 10 5 TTM_REF_USAGE).1 = 0 :=
  ⟨by decide, by decide,
   (C11_ttm_ref_object_base_unref_not_found 64 shared_by_three 11 5 TTM_REF_USAGE).1
     (by decide),
   (C11_ttm_ref_object_base_unref_not_found 64 shared_by_three 10 5 TTM_REF_USAGE).2 200
     (by decide)⟩

/-- C12 (witness): on `registered`, session 11 has no record for the object and the
accounting service answers `-12`; session 10 holds the usage record. -/
theorem C12_witness :
    ttm_ref_object_add 64 1 registered 11 100 TTM_REF_SYNCCPU_READ none (-12) (some 201)
      = some (-12, none, registered) ∧
    ∃ s', s'.mem_glob = registered.mem_glob ∧
      ∀ (alloc_ret : Int) (kmalloc_ret : Option Nat),
        ttm_ref_object_add 64 1 registered 10 100 TTM_REF_USAGE none alloc_ret kmalloc_ret
          = some (0, none, s') :=
  ⟨(C12_ttm_ref_object_add_denied 64 0 registered 11 100 TTM_REF_SYNCCPU_READ none).1
     (-12) (some 201) (by decide) (by decide),
   (C12_ttm_ref_object_add_denied 64 0 registered 10 100 TTM_REF_USAGE none).2 200
     (by decide)⟩

/-- C13 (witness): on `three_sessions`, whose directory is empty, session 10 registers the
object at address 100 and the accounting service denies the charge with `-12`. -/
theorem C13_witness :
    ∃ ret s', ttm_base_object_init 64 1 three_sessions 10 100 true 0 true true (some 5) (-12)
        (some 200) = some (ret, s') ∧ ret = -12 ∧ s'.tdev.object_hash 5 = none ∧
        s'.mem_glob = three_sessions.mem_glob :=
  let ⟨ret, s', h, hfail, _, hden⟩ := C13_ttm_base_object_init_failure 64 0 three_sessions 10
    100 true 0 true true (some 5) (-12) (some 200) (fun k h => by cases h)
  have hret : ret = -12 := hden 5 rfl (by decide) (by decide) (by decide)
  have hf := hfail (by rw [hret]; decide)
  ⟨ret, s', h, hret, by rw [hf.2.1]; decide, hf.2.2.2.2.2⟩

/-- C14 (witness): the `TTM_REF_SYNCCPU_READ` record of session 11 in `shared_by_three`,
at address 201, for the object at address 100, which has a `ref_obj_release` hook:
closing session 11 invokes the hook once. -/
theorem C14_witness :
    shared_by_three.refs 201 =
      some ⟨5, 1, TTM_REF_SYNCCPU_READ, some 100, 11⟩ ∧
    ((ttm_ref_object_release 64 shared_by_three 201).bases 100).refcount
      = (shared_by_three.bases 100).refcount - 1 ∧
    ∃ s' new, ttm_object_file_release 64 2 shared_by_three 11 = some s' ∧
      s'.calls = shared_by_three.calls ++ new ∧
      (new.filter is_ref_obj_release).length = 1 :=
  have h := C14_ref_obj_release_hook 64 shared_by_three 201
    { hash_key := 5, kref := 1, ref_type := TTM_REF_SYNCCPU_READ, obj := some 100,
      tfile := 11 } 100 (by decide) rfl
  ⟨by decide, h.2.2.1,
   let ⟨s', new, hrun, hcalls, hcnt⟩ := h.2.2.2.2.2 11 0
     (by rw [show (shared_by_three.files 11).ref_list = [201] from by decide]; simp)
     (fun p hp => by
       have : p = 201 := by
         simpa using (show p ∈ [201] from
           (show (shared_by_three.files 11).ref_list = [201] from by decide) ▸ hp)
       subst this
       exact ⟨_, 100, rfl, rfl, rfl⟩)
   ⟨s', new, hrun, hcalls, hcnt.trans (by decide)⟩⟩

/-- C16 (witness): the state `registered`, in which session 10 has registered the object
at address 100 under key 5 with the usage record at address 200. -/
theorem C16_witness :
    registered.tdev.object_hash 5 = some 100 ∧
    (registered.bases 100).refcount = 1 ∧
    (∃ s1 s2,
      ttm_ref_object_add 64 1 registered 10 100 TTM_REF_USAGE none 0 none
        = some (0, none, s1) ∧
      ttm_ref_object_add 64 1 s1 10 100 TTM_REF_USAGE none 0 none = some (0, none, s2) ∧
      s2.refs 200 = some ⟨5, 3, TTM_REF_USAGE, some 100, 10⟩) ∧
    (ttm_ref_object_base_unref 64 registered 10 5 TTM_REF_USAGE).2.tdev.object_hash 5
      = none :=
  let ⟨s1, s2, h1, h2, h3, _, _, _, _, h8, _⟩ := C16_usage_acquired_twice 64 0 registered 10
    100 5 200 (by decide) (by decide) (by decide) (by decide) (by decide)
  ⟨by decide, by decide, ⟨s1, s2, h1 0 none, h2 0 none, h3⟩, h8⟩

/-- C17 (witness): closing session 11 of `shared_by_three`, whose one record is for an
object with a `ref_obj_release` hook; and dropping a reference on the object. -/
theorem C17_witness :
    (∃ new, (ttm_base_object_unref shared_by_three 100).calls
        = shared_by_three.calls ++ new ∧
      (∀ e ∈ new, same_locks e.2 shared_by_three.toMem) ∧
      same_locks (ttm_base_object_unref shared_by_three 100).toMem shared_by_three.toMem) ∧
    ∃ s' new, ttm_object_file_release 64 2 shared_by_three 11 = some s' ∧
      s'.calls = shared_by_three.calls ++ new ∧
      (∀ e ∈ new, same_locks e.2 shared_by_three.toMem) ∧
      same_locks s'.toMem shared_by_three.toMem :=
  have h := C17_hooks_run_unlocked 64 shared_by_three
  ⟨h.1 100,
   h.2.2 11 0
     (by rw [show (shared_by_three.files 11).ref_list = [201] from by decide]; simp)
     (fun p hp => by
       have : p = 201 := by
         simpa using (show p ∈ [201] from
           (show (shared_by_three.files 11).ref_list = [201] from by decide) ▸ hp)
       subst this
       exact ⟨_, 100, rfl, rfl, rfl⟩)⟩

/-- C15 (witness): the reachable state `shared_by_three` has three records, one on the
list of each session, and 3 times 64 charged. -/
theorem C15_witness :
    live_records shared_by_three [12, 11, 10] = 3 ∧
    shared_by_three.mem_glob = 64 * 3 :=
  ⟨by decide,
   ((C15_charge_matches_records 64 shared_by_three _ reachable_shared_by_three).1).trans
     (by decide)⟩

theorem registered_is_registered :
    Registered 64 100 registered { sessions := [12, 11, 10], handles := fun _ => 0 } :=
  Registered.init three_sessions _ 1 10 true 0 true true (some 5) 0 (some 200)
    registered reachable_three_sessions (by simp) (fun k h => by cases h)
    (fun ref _ => rfl) rfl

/-- C22 (witness): in the reachable state `shared_by_three` the list of session 11 holds
the record at address 201, and that record is in the session's table of type
`TTM_REF_SYNCCPU_READ` under key 5, the key of its object. -/
theorem C22_witness :
    (shared_by_three.files 11).ref_list = [201] ∧
    (shared_by_three.files 11).ref_hash TTM_REF_SYNCCPU_READ 5 = some 201 ∧
    Linked shared_by_three 11 :=
  ⟨by decide, by decide,
   (C22_list_matches_tables 64 shared_by_three _ reachable_shared_by_three 11
     (by simp)).1⟩

/-- C26 (witness): in the reachable state `registered` session 11 holds no
`TTM_REF_SYNCCPU_READ` record for the object at address 100, whose key is 5 and whose
count is 1.  Acquiring one (the record is allocated at address 201) and releasing it
returns 0 both times and restores tables, list, count, directory and charge. -/
theorem C26_witness :
    (registered.bases 100).hash_key = 5 ∧
    (registered.bases 100).refcount = 1 ∧
    ttm_ref_object_add 64 1 registered 11 100 TTM_REF_SYNCCPU_READ none 0 (some 201)
      = some (0, none, link_record 64 registered 11 100 TTM_REF_SYNCCPU_READ 201) ∧
    (ttm_ref_object_base_unref 64 (link_record 64 registered 11 100 TTM_REF_SYNCCPU_READ 201)
      11 (registered.bases 100).hash_key TTM_REF_SYNCCPU_READ).1 = 0 ∧
    ((ttm_ref_object_base_unref 64 (link_record 64 registered 11 100 TTM_REF_SYNCCPU_READ
      201) 11 (registered.bases 100).hash_key TTM_REF_SYNCCPU_READ).2.bases 100).refcount
      = (registered.bases 100).refcount ∧
    (ttm_ref_object_base_unref 64 (link_record 64 registered 11 100 TTM_REF_SYNCCPU_READ 201)
      11 (registered.bases 100).hash_key TTM_REF_SYNCCPU_READ).2.mem_glob
      = registered.mem_glob :=
  have hadd : ttm_ref_object_add 64 1 registered 11 100 TTM_REF_SYNCCPU_READ none 0 (some 201)
      = some (0, none, link_record 64 registered 11 100 TTM_REF_SYNCCPU_READ 201) :=
    ttm_ref_object_add_new 64 0 registered 11 100 TTM_REF_SYNCCPU_READ none (some 201) 201
      (by decide) rfl
  have h := C26_acquire_release_round_trip 64 1 registered _ reachable_registered 11 100
    TTM_REF_SYNCCPU_READ none 0 (some 201) none _ (by simp) (by decide) (by decide)
    (fun ref hk => by cases hk; rfl) hadd
  ⟨by decide, by decide, hadd, h.2.1, h.2.2.2.2.1, h.2.2.2.2.2.2.1⟩

/-- C27 (witness): the failed registration `registration_failed` of session 10 leaves
the session's own count at 2, one more than the 1 it had in `three_sessions`; and the
object of `registered_no_hook`, which has no `refcount_release` hook, still points at
session 10 with the session's count unchanged once its own count has dropped to 0. -/
theorem C27_witness :
    (three_sessions.files 10).refcount = 1 ∧
    (registration_failed.files 10).refcount = (three_sessions.files 10).refcount + 1 ∧
    (dropped_no_hook.bases 100).refcount = 0 ∧
    (dropped_no_hook.files 10).refcount = (last_handle_no_hook.files 10).refcount ∧
    (dropped_no_hook.bases 100).tfile = some 10 :=
  have h := C27_session_reference 64
  have hf := h.2.1 three_sessions 1 10 100 true 0 true true (some 5) (-12) none (-12)
    registration_failed rfl (by decide)
  have hn := h.2.2.2.2.1 last_handle_no_hook 100 (by decide)
  ⟨by decide, hf, by decide, hn.1 10, hn.2.trans (by decide)⟩
end TTM

namespace DrmBufs

/-- C19 (witness): on `dev_mapped`, whose `buf_use` is 1, a privileged request for 16
buffers of 4096 bytes is refused with `-EBUSY` by each of the three entry points. -/
theorem C19_witness :
    dev_mapped.buf_use ≠ 0 ∧ valid env0 request0 ∧
    drm_legacy_addbufs_agp env0 alloc0.drm_do_addbufs_agp dev_mapped request0
      = some (-EBUSY, dev_mapped) ∧
    drm_legacy_addbufs_sg env0 alloc0.drm_do_addbufs_sg true dev_mapped request0
      = some (-EBUSY, dev_mapped) ∧
    drm_legacy_addbufs_pci env0 alloc0.drm_do_addbufs_pci true dev_mapped request0
      = some (-EBUSY, dev_mapped) :=
  have hclog : Nat.clog 2 (4096 : Int).toNat = 12 := by
    show Nat.clog 2 4096 = 12
    rw [show (4096 : Nat) = 2 ^ 12 from by norm_num]
    exact Nat.clog_pow 2 12 (by norm_num)
  have hv : valid env0 request0 :=
    ⟨by decide, by decide,
     by show (5 : Int) ≤ ((Nat.clog 2 (4096 : Int).toNat : Nat) : Int); rw [hclog]; norm_num,
     by show ((Nat.clog 2 (4096 : Int).toNat : Nat) : Int) ≤ 22; rw [hclog]; norm_num⟩
  have hb : dev_mapped.buf_use ≠ 0 := by decide
  ⟨hb, hv, (C19_addbufs_refused_after_use env0 alloc0 dev_mapped).2.2.2.1 hb request0 hv⟩

/-- C28 (witness): a request for 5 buffers of 1024 bytes (order 10) on the device `dev0`,
with pages of 4096 bytes: two segments of one page are allocated, the first receives 4
buffers and the second 1; 2 page-list slots are written, out of the 5 reserved. -/
theorem C28_witness :
    (drm_do_addbufs_pci env1 pci_env0 pci_answers0 6 pci_arrays0 dev0 request_small).map
      (fun r => (r.1, r.2.1.dma.map fun d =>
        [(d.bufs 10).buf_count, (d.bufs 10).seg_count, d.page_count]))
      = some (0, some [5, 2, 2]) ∧
    shl 1 (env1.order_base_2 request_small.size)
      ≤ shl pci_env0.PAGE_SIZE (pci_page_order pci_env0 (env1.order_base_2 request_small.size)) ∧
    ∃ st, pci_loop env1 pci_env0 pci_answers0 6 pci_arrays0 dev0
        { bufs := fun _ => { buf_count := 0, buf_size := 0, low_mark := 0, high_mark := 0,
                             seg_count := 0 }
          buf_count := 0, seg_count := 0, page_count := 0, byte_count := 0
          use_agp := false, use_sg := false } request_small = some (false, st) ∧
      st.buf_count = request_small.count ∧ 0 ≤ st.seg_count ∧
      st.seg_count ≤ request_small.count ∧
      st.page_count = st.seg_count
        * 2 ^ (pci_page_order pci_env0 (env1.order_base_2 request_small.size)).toNat ∧
      shl st.seg_count (pci_page_order pci_env0 (env1.order_base_2 request_small.size))
        = st.page_count ∧
      st.page_count ≤ request_small.count
        * 2 ^ (pci_page_order pci_env0 (env1.order_base_2 request_small.size)).toNat ∧
      (∀ k, k < st.seg_count.toNat → ∃ j h, j < st.buf_count.toNat ∧
        st.seglist k = some h ∧ (st.buflist j).address = h.vaddr) ∧
      ∃ r dma', drm_do_addbufs_pci env1 pci_env0 pci_answers0 6 pci_arrays0 dev0 request_small
          = some r ∧ r.1 = 0 ∧
        r.2.1.dma = some dma' ∧
        (dma'.bufs (env1.order_base_2 request_small.size).toNat).buf_count
          = request_small.count ∧
        (dma'.bufs (env1.order_base_2 request_small.size).toNat).seg_count = st.seg_count ∧
        dma'.page_count = int32 (0 + st.page_count) ∧
        r.2.2.1.count = request_small.count ∧
        r.2.2.2.entry_seglist = st.seglist ∧ r.2.2.2.entry_buflist = st.buflist ∧
        r.2.2.2.dma_pagelist = st.temp_pagelist :=
  ⟨by decide,
   C28_drm_do_addbufs_pci_segments env1 pci_env0 pci_answers0 6 pci_arrays0 dev0 _
     request_small
     ⟨⟨by decide, by decide⟩, by decide, by decide, by decide, by decide⟩ rfl
     ⟨by decide, by decide⟩ ⟨by decide, by decide⟩ ⟨by decide, by decide⟩
     ⟨rfl, rfl, rfl, fun k => (by simp [pci_answers0]), fun j => (by simp [pci_answers0]),
      rfl⟩
     (by decide)⟩

end DrmBufs

namespace AtomI2c

end AtomI2c
